import Mathlib

/-!
# User-level threads library: the scheduler

A shallow embedding of `Scheduler.cpp`, `Thread.cpp` and the dispatching part of
`uthreads.cpp`, followed by theorems about it.

Modelling conventions.

* C++ `int` values are `Int`; the counters are assumed to stay below `INT_MAX`
  (signed overflow has no defined result in C++).
* `std::vector<int>` is `List Int`; a `vecIter` is an index (`Option Nat`, `none`
  for a singular iterator), which is what a vector iterator is after compilation.
* `std::map<int, Thread*>` is a key-sorted association list.
* Code that has no defined result (out-of-bounds array access, dereferencing a
  null pointer, erasing through a singular iterator, `front()` of an empty vector,
  `siglongjmp` through a buffer that was never filled) yields `Outcome.undefined`;
  `exit` yields `Outcome.exited`; an exception nobody catches yields
  `Outcome.uncaught`.  Allocation is assumed to succeed.
* The text written to `cerr` by `ErrorHandler::libError` is not part of the state.
-/

namespace UThreads

/-! ## Outcomes of running a piece of code -/

/-- Result of running code that may return, end the process, or go wrong. -/
inductive Outcome (α : Type) where
  | ret (a : α)
  | exited (status : Int)
  | undefined
  | uncaught
  deriving DecidableEq, Repr

/-- Sequencing: the continuation runs only after a normal return. -/
def Outcome.bind {α β : Type} : Outcome α → (α → Outcome β) → Outcome β
  | .ret a, k => k a
  | .exited c, _ => .exited c
  | .undefined, _ => .undefined
  | .uncaught, _ => .uncaught

instance : Monad Outcome where
  pure := Outcome.ret
  bind := Outcome.bind

/-! ## Constants (`ErrorHandler.h`, `Scheduler.h`, `Thread.h`) -/

abbrev SUCCESS : Int := 0
abbrev FAILURE : Int := -1
abbrev EXIT_STATUS : Int := 1
abbrev MAIN_THREAD_ID : Int := 0
abbrev EMPTY_CELL : Int := -1
abbrev NO_ACTIVE_THREAD : Int := -1
abbrev QUANTUMS_NOT_SET : Int := -1

/-! ## `Thread` -/

/-- All possible states the thread can be (`enum state`). -/
inductive state where
  | READY | RUNNING | BLOCKED | SLEEPING
  deriving DecidableEq, Repr

/-- What a thread's `sigjmp_buf` holds: nothing yet (`unset`, the main thread
before it is first switched away from), the entry point written by the
constructor (`entry`), or a context saved by `sigsetjmp` in `_switchThreads`
(`saved`). -/
inductive Env where
  | unset | entry | saved
  deriving DecidableEq, Repr

/-- A `void (*)(void)`: `none` is `nullptr`, `some a` a function at address `a`. -/
abbrev FunctionPointer := Option Nat

/-- The fields of `class Thread`; `_stack` records the size of the owned buffer. -/
structure Thread where
  _ID : Int
  _state : state
  _function : FunctionPointer
  _quantums : Int
  _quantumsToSleep : Int
  _quantumsLeftToSleep : Int
  _stack : Option Int
  _env : Env
  deriving DecidableEq, Repr

/-- Embedding of `Thread::Thread(ID, stackSize, f)`. -/
def Thread.ctor (ID stackSize : Int) (f : FunctionPointer) : Thread :=
  { _ID := ID
    _state := state.READY
    _function := f
    _quantums := 0
    _quantumsToSleep := QUANTUMS_NOT_SET
    _quantumsLeftToSleep := QUANTUMS_NOT_SET
    _stack := if f.isSome then some stackSize else none
    _env := if f.isSome then Env.entry else Env.unset }

def Thread.setState (t : Thread) (newState : state) : Thread :=
  { t with _state := newState }

def Thread.getState (t : Thread) : state := t._state

def Thread.getQuantums (t : Thread) : Int := t._quantums

def Thread.incrementQuantum (t : Thread) : Thread :=
  { t with _quantums := t._quantums + 1 }

def Thread.decrementQuantumsToSleep (t : Thread) : Thread :=
  { t with _quantumsLeftToSleep := t._quantumsLeftToSleep - 1 }

def Thread.setQuantumsToSleep (t : Thread) (newQuantums : Int) : Thread :=
  { t with _quantumsToSleep := newQuantums }

def Thread.setQuantumsLeftToSleep (t : Thread) (newQuantums : Int) : Thread :=
  { t with _quantumsLeftToSleep := newQuantums }

def Thread.getQuantumsLeftToSleep (t : Thread) : Int := t._quantumsLeftToSleep

/-- The effect of `sigsetjmp` on the thread's buffer. -/
def Thread.saveEnv (t : Thread) : Thread :=
  { t with _env := Env.saved }

/-! ## The thread table (`std::map<int, Thread*>`) -/

abbrev Table := List (Int × Thread)

/-- Embedding of `map::find`. -/
def Table.find : Table → Int → Option Thread
  | [], _ => none
  | (k, t) :: rest, ID => if k = ID then some t else Table.find rest ID

/-- Embedding of `map::insert`: keeps the keys sorted and does nothing if the key is present. -/
def Table.insert : Table → Int → Thread → Table
  | [], ID, t => [(ID, t)]
  | (k, t') :: rest, ID, t =>
    if ID < k then (ID, t) :: (k, t') :: rest
    else if ID = k then (k, t') :: rest
    else (k, t') :: Table.insert rest ID t

/-- Embedding of `map::erase(key)`. -/
def Table.erase (m : Table) (ID : Int) : Table :=
  m.filter (fun p => p.1 ≠ ID)

/-- Apply a member function to the `Thread` stored under `ID`. -/
def Table.update (m : Table) (ID : Int) (g : Thread → Thread) : Table :=
  m.map (fun p => if p.1 = ID then (p.1, g p.2) else p)

/-! ## `Scheduler` -/

/-- All possible scenarios that may occur during a round-robin cycle. -/
inductive scenario where
  | ROUTINE | TOBLOCK | TOSLEEP | TOSELFREMOVE
  deriving DecidableEq, Repr

/-- A `vec *` pointing at one of the scheduler's three vectors. -/
inductive VecRef where
  | readyThreads | sleepThreads | blockThreads
  deriving DecidableEq, Repr

/-- The fields of `class Scheduler`. `_toDelete` holds the pointed-to `Thread`. -/
structure Scheduler where
  _maxThreads : Int
  _stackSize : Int
  _idManagar : List Int
  _currentScenario : scenario
  _threads : Table
  _readyThreads : List Int
  _sleepThreads : List Int
  _blockThreads : List Int
  _runningThread : Int
  _totalQuantumCounter : Int
  _toDelete : Option Thread
  deriving DecidableEq, Repr

def Scheduler.vec (s : Scheduler) : VecRef → List Int
  | .readyThreads => s._readyThreads
  | .sleepThreads => s._sleepThreads
  | .blockThreads => s._blockThreads

def Scheduler.setVec (s : Scheduler) : VecRef → List Int → Scheduler
  | .readyThreads, l => { s with _readyThreads := l }
  | .sleepThreads, l => { s with _sleepThreads := l }
  | .blockThreads, l => { s with _blockThreads := l }

/-- Reading `a[i]` of a C array of `a.length` cells. -/
def cellRead (a : List Int) (i : Int) : Outcome Int :=
  if 0 ≤ i ∧ i < a.length then .ret (a.getD i.toNat 0) else .undefined

/-- Writing `a[i] = v`. -/
def cellWrite (a : List Int) (i : Int) (v : Int) : Outcome (List Int) :=
  if 0 ≤ i ∧ i < a.length then .ret (a.set i.toNat v) else .undefined

/-- The value of `_threads[ID]->...`: `operator[]` yields a null pointer for an absent key. -/
def Scheduler.deref (s : Scheduler) (ID : Int) : Outcome Thread :=
  match s._threads.find ID with
  | some t => .ret t
  | none => .undefined

/-- The statement `_threads[ID]->g(...)` for a mutating member function `g`. -/
def Scheduler.modify (s : Scheduler) (ID : Int) (g : Thread → Thread) : Outcome Scheduler :=
  match s._threads.find ID with
  | some _ => .ret { s with _threads := s._threads.update ID g }
  | none => .undefined

/-- Embedding of `vector::erase(iter)`. -/
def vecErase (v : List Int) : Option Nat → Outcome (List Int)
  | some i => if i < v.length then .ret (v.eraseIdx i) else .undefined
  | none => .undefined

/-- The loop of `_getNewID`, `n` iterations left, at index `i`. -/
def _getNewID.loop (a : List Int) : Nat → Int → Outcome (Int × List Int)
  | 0, _ => .ret (0, a)
  | n + 1, i => do
    let c ← cellRead a i
    if c = EMPTY_CELL then do
      let a' ← cellWrite a i i
      pure (i, a')
    else _getNewID.loop a n (i + 1)

/-- Embedding of `Scheduler::_getNewID`. -/
def _getNewID (s : Scheduler) : Outcome (Int × Scheduler) := do
  let (last_occupied, a) ← _getNewID.loop s._idManagar s._maxThreads.toNat 0
  pure (last_occupied, { s with _idManagar := a })

/-- Embedding of `Scheduler::_deleteID`. -/
def _deleteID (s : Scheduler) (ID : Int) : Outcome Scheduler := do
  let a ← cellWrite s._idManagar ID EMPTY_CELL
  pure { s with _idManagar := a }

/-- Embedding of `Scheduler::_badIDChecker`: either message is followed by `FAILURE`. -/
def _badIDChecker (s : Scheduler) (ID : Int) : Outcome Int := do
  let c ← cellRead s._idManagar ID
  if c = EMPTY_CELL then pure FAILURE else pure FAILURE

/-- Embedding of `Scheduler::_accessDBtoInsertAndDelete`. -/
def _accessDBtoInsertAndDelete (s : Scheduler) (pushTO deletFrom : VecRef) (ID : Int)
    (iter : Option Nat) : Outcome (Int × Scheduler) := do
  let s1 := s.setVec pushTO (s.vec pushTO ++ [ID])
  let l ← vecErase (s1.vec deletFrom) iter
  pure (SUCCESS, s1.setVec deletFrom l)

/-- Embedding of `Scheduler::_getVectorOfThread`; `none` is `nullptr`. -/
def _getVectorOfThread (s : Scheduler) (ID : Int) : Outcome (Option VecRef) := do
  let c ← cellRead s._idManagar ID
  if c = EMPTY_CELL ∨ (ID < MAIN_THREAD_ID ∨ ID > s._maxThreads) ∨ ID = MAIN_THREAD_ID then
    pure none
  else do
    let t ← s.deref ID
    match t.getState with
    | .READY => pure (some .readyThreads)
    | .BLOCKED => pure (some .blockThreads)
    | .SLEEPING => pure (some .sleepThreads)
    | .RUNNING => pure none

/-- The loop of `_getIterOfThread`: `retIter` is overwritten at every match. -/
def _getIterOfThread.loop (ID : Int) : List Int → Nat → Option Nat → Option Nat
  | [], _, retIter => retIter
  | x :: rest, it, retIter =>
    _getIterOfThread.loop ID rest (it + 1) (if x = ID then some it else retIter)

/-- Embedding of `Scheduler::_getIterOfThread`; a null `vecOfThread` cannot be iterated. -/
def _getIterOfThread (s : Scheduler) (ID : Int) : Option VecRef → Outcome (Option Nat)
  | some v => .ret (_getIterOfThread.loop ID (s.vec v) 0 none)
  | none => .undefined

def getTotalQuantumCounter (s : Scheduler) (_dummy : Int) : Int :=
  s._totalQuantumCounter + 0

/-- Embedding of `Scheduler::_switchThreads`, up to the moment control is in `jumpTo`: if that
thread resumes from its own earlier `sigsetjmp` it frees `_toDelete` on the way out. -/
def _switchThreads (s : Scheduler) (saveTo jumpTo : Int) : Outcome Scheduler := do
  let s1 ← s.modify jumpTo Thread.incrementQuantum
  let s2 := { s1 with _totalQuantumCounter := s1._totalQuantumCounter + 1 }
  let s3 ← if saveTo = NO_ACTIVE_THREAD then pure s2 else s2.modify saveTo Thread.saveEnv
  let t ← s3.deref jumpTo
  match t._env with
  | .saved => pure { s3 with _toDelete := none }
  | .entry => pure s3
  | .unset => .undefined

/-- Embedding of `Scheduler::addThread`. -/
def addThread (s : Scheduler) (f : FunctionPointer) : Outcome (Int × Scheduler) :=
  if (s._threads.length : Int) = s._maxThreads then pure (FAILURE, s)
  else do
    let (aveliableID, s1) ← _getNewID s
    let s2 := { s1 with
      _threads := s1._threads.insert aveliableID (Thread.ctor aveliableID s1._stackSize f) }
    let s3 := if f ≠ none then { s2 with _readyThreads := s2._readyThreads ++ [aveliableID] }
              else s2
    pure (aveliableID, s3)

/-- Embedding of `Scheduler::Scheduler`; `_runningThread` has no value until `addThread`
returns. With `maxThreads ≤ 0` the size of `new(nothrow) int[_maxThreads]{EMPTY_CELL}`
is negative or smaller than the number of initialisers: the expression throws
`std::bad_array_new_length` (as g++ compiles it, the `nothrow` form as well) before the
body of the constructor runs, and nothing catches it. -/
def Scheduler.ctor (maxThreads stackSize : Int) : Outcome Scheduler :=
  if maxThreads ≤ 0 then .uncaught
  else do
    let s0 : Scheduler :=
      { _maxThreads := maxThreads
        _stackSize := stackSize
        _idManagar := List.replicate maxThreads.toNat EMPTY_CELL
        _currentScenario := scenario.ROUTINE
        _threads := []
        _readyThreads := []
        _sleepThreads := []
        _blockThreads := []
        _runningThread := 0
        _totalQuantumCounter := 1
        _toDelete := none }
    let (r, s1) ← addThread s0 none
    let s2 := { s1 with _runningThread := r }
    s2.modify MAIN_THREAD_ID Thread.incrementQuantum

/-- Embedding of `Scheduler::_removeThreadHelper`. In `*stateVec->erase(idPosition);` the
iterator that `erase` returns is dereferenced and the value discarded; no memory is
read, so the statement is modelled as the `erase` alone. With an absent `ID`,
`_threads[ID]` yields a null pointer, which `_toDelete` then holds. -/
def _removeThreadHelper (s : Scheduler) (ID : Int) (stateVec : Option VecRef) :
    Outcome Scheduler := do
  let s1 ←
    if ID = s._runningThread then pure { s with _runningThread := NO_ACTIVE_THREAD }
    else do
      let idPosition ← _getIterOfThread s ID stateVec
      match stateVec with
      | some v => do
        let l ← vecErase (s.vec v) idPosition
        pure (s.setVec v l)
      | none => .undefined
  let s2 := { s1 with _toDelete := s1._threads.find ID }
  let s3 := { s2 with _threads := s2._threads.erase ID }
  _deleteID s3 ID

/-- Embedding of `Thread::~Thread`: `delete [] _stack; delete [] _env;`. The constructor
sets `_stack` only for a thread with a function, so for a thread built without one (the
main thread) `delete []` is applied to a pointer that was never initialised. -/
def Thread.dtor (t : Thread) : Outcome Unit :=
  match t._stack with
  | some _ => pure ()
  | none => .undefined

/-- Embedding of `Scheduler::_killProcess` on its first call (`numOfKills` is 0): every
record of `_threads` is deleted, then `_toDelete` if it is not null, then the id
table. -/
def _killProcess (s : Scheduler) : Outcome Unit := do
  s._threads.forM (fun p => Thread.dtor p.2)
  match s._toDelete with
  | some t => Thread.dtor t
  | none => pure ()

/-- Embedding of `Scheduler::removeThread`. For the main thread `_killProcess` runs
before `exit(SUCCESS)`. -/
def removeThread (s : Scheduler) (ID : Int) : Outcome (Int × Scheduler) :=
  if ID = MAIN_THREAD_ID then do
    _killProcess s
    .exited SUCCESS
  else do
    let dastOfID ← _getVectorOfThread s ID
    match dastOfID with
    | none =>
      if ID = s._runningThread then do
        let s1 ← _removeThreadHelper s ID dastOfID
        pure (SUCCESS, { s1 with _currentScenario := scenario.TOSELFREMOVE })
      else do
        let r ← _badIDChecker s ID
        pure (r, s)
    | some _ => do
      let s1 ← _removeThreadHelper s ID dastOfID
      pure (SUCCESS, s1)

/-- Embedding of `map::at`: throws `std::out_of_range`, which nothing catches. -/
def Scheduler.threadAt (s : Scheduler) (ID : Int) : Outcome Thread :=
  match s._threads.find ID with
  | some t => .ret t
  | none => .uncaught

/-- Embedding of `Scheduler::blockThread`. -/
def blockThread (s : Scheduler) (ID : Int) : Outcome (Int × Scheduler) :=
  if ID = MAIN_THREAD_ID then pure (FAILURE, s)
  else if ID ≠ s._runningThread then do
    let vecOfThread ← _getVectorOfThread s ID
    match vecOfThread with
    | none => do
      let r ← _badIDChecker s ID
      pure (r, s)
    | some v => do
      let t ← s.threadAt ID
      let threadState := t.getState
      if threadState = state.BLOCKED ∨ threadState = state.SLEEPING then pure (SUCCESS, s)
      else do
        let s1 ← s.modify ID (fun t => t.setState state.BLOCKED)
        let iter ← _getIterOfThread s1 ID vecOfThread
        _accessDBtoInsertAndDelete s1 .blockThreads v ID iter
  else do
    let s1 ← s.modify ID (fun t => t.setState state.BLOCKED)
    pure (SUCCESS, { s1 with _currentScenario := scenario.TOBLOCK })

/-- Embedding of `Scheduler::resumeThread`. -/
def resumeThread (s : Scheduler) (ID : Int) : Outcome (Int × Scheduler) := do
  let vecOfThread ← _getVectorOfThread s ID
  if ID ≠ s._runningThread ∧ vecOfThread = none then do
    let r ← _badIDChecker s ID
    pure (r, s)
  else do
    let t ← s.threadAt ID
    let threadState := t.getState
    if threadState = state.RUNNING ∨ threadState = state.SLEEPING ∨ threadState = state.READY then
      pure (SUCCESS, s)
    else do
      let s1 ← s.modify ID (fun t => t.setState state.READY)
      let iter ← _getIterOfThread s1 ID vecOfThread
      match vecOfThread with
      | some v => do
        let (_, s2) ← _accessDBtoInsertAndDelete s1 .readyThreads v ID iter
        pure (SUCCESS, s2)
      | none => .undefined

/-- Embedding of `Scheduler::sleepThread`. -/
def sleepThread (s : Scheduler) (num_quantums : Int) : Outcome (Int × Scheduler) :=
  if s._runningThread = MAIN_THREAD_ID then pure (FAILURE, s)
  else if num_quantums < 0 then pure (FAILURE, s)
  else do
    let threadID := s._runningThread
    let s1 ← s.modify threadID (fun t => t.setState state.SLEEPING)
    let s2 ← s1.modify threadID (fun t => t.setQuantumsToSleep num_quantums)
    let s3 ← s2.modify threadID (fun t => t.setQuantumsLeftToSleep num_quantums)
    pure (SUCCESS, { s3 with _currentScenario := scenario.TOSLEEP })

/-- The body of the loop of `_manageSleepingThreads` with the iterator at index `it`.
Erasing at `it` shifts the later elements down while `it` keeps its position. -/
def _manageSleepingThreads.body (it : Nat) (s : Scheduler) : Outcome Scheduler := do
  let ID := s._sleepThreads.getD it 0
  let s1 ← s.modify ID Thread.decrementQuantumsToSleep
  let t ← s1.deref ID
  if t.getQuantumsLeftToSleep = 0 then do
    let s2 ← s1.modify ID (fun t => t.setState state.READY)
    let (_, s3) ← _accessDBtoInsertAndDelete s2 .readyThreads .sleepThreads ID (some it)
    pure s3
  else pure s1

/-- The loop of `_manageSleepingThreads`: test `it < end()`, run the body, `++it`.
The first argument bounds the number of iterations still possible. -/
def _manageSleepingThreads.loop : Nat → Nat → Scheduler → Outcome Scheduler
  | 0, _, s => pure s
  | n + 1, it, s =>
    if it < s._sleepThreads.length then do
      let s1 ← _manageSleepingThreads.body it s
      _manageSleepingThreads.loop n (it + 1) s1
    else pure s

/-- Embedding of `Scheduler::_manageSleepingThreads`. -/
def _manageSleepingThreads (s : Scheduler) : Outcome Scheduler :=
  _manageSleepingThreads.loop s._sleepThreads.length 0 s

/-- The `switch (_currentScenario)` statement of `manageThreads`. -/
def manageThreads.scenarioStep (s : Scheduler) (oldThread : Int) : Outcome Scheduler :=
  match s._currentScenario with
  | .TOSLEEP =>
    pure { s with _sleepThreads := s._sleepThreads ++ [oldThread],
                  _currentScenario := scenario.ROUTINE }
  | .TOBLOCK =>
    pure { s with _blockThreads := s._blockThreads ++ [oldThread],
                  _currentScenario := scenario.ROUTINE }
  | .TOSELFREMOVE => pure { s with _currentScenario := scenario.ROUTINE }
  | .ROUTINE =>
    Scheduler.modify { s with _readyThreads := s._readyThreads ++ [oldThread] } oldThread
      (fun t => t.setState state.READY)

/-- The end of `manageThreads`: the front of the ready vector becomes the running
thread and the context switch is made. -/
def manageThreads.dispatch (s : Scheduler) (oldThread : Int) : Outcome Scheduler :=
  match s._readyThreads with
  | [] => .undefined
  | newThread :: rest => do
    let s1 := { s with _runningThread := newThread, _readyThreads := rest }
    let s2 ← s1.modify newThread (fun t => t.setState state.RUNNING)
    _switchThreads s2 oldThread newThread

/-- Embedding of `Scheduler::manageThreads`. -/
def manageThreads (s : Scheduler) : Outcome Scheduler := do
  let oldThread := s._runningThread
  let s1 ← _manageSleepingThreads s
  let s2 ← manageThreads.scenarioStep s1 oldThread
  manageThreads.dispatch s2 oldThread

def getRunningThreadID (s : Scheduler) (_dummy : Int) : Int :=
  s._runningThread + 0

/-- Embedding of `Scheduler::getTimeToWakeUp`. -/
def getTimeToWakeUp (s : Scheduler) (ID : Int) : Outcome (Int × Scheduler) := do
  let vecOfThread ← _getVectorOfThread s ID
  if ID ≠ s._runningThread ∧ vecOfThread = none then do
    let r ← _badIDChecker s ID
    pure (r, s)
  else do
    let t ← s.deref ID
    if t.getState = state.SLEEPING then pure (t.getQuantumsLeftToSleep, s) else pure (0, s)

/-- Embedding of `Scheduler::getNumOfQuantums`. -/
def getNumOfQuantums (s : Scheduler) (ID : Int) : Outcome (Int × Scheduler) := do
  let vecOfThread ← _getVectorOfThread s ID
  if (ID ≠ s._runningThread ∧ vecOfThread = none) ∧ ID ≠ MAIN_THREAD_ID then do
    let r ← _badIDChecker s ID
    pure (r, s)
  else do
    let t ← s.deref ID
    pure (t.getQuantums, s)

def getScenario (s : Scheduler) : scenario := s._currentScenario

/-! ## The library entry points (`uthreads.cpp`) -/

/-- The scheduler member function reached by a library call. -/
inductive Call where
  | uthread_spawn (f : FunctionPointer)
  | uthread_terminate (tid : Int)
  | uthread_block (tid : Int)
  | uthread_resume (tid : Int)
  | uthread_sleep (num_quantums : Int)
  | uthread_get_time_until_wakeup (tid : Int)
  | uthread_get_tid
  | uthread_get_total_quantums
  | uthread_get_quantums (tid : Int)
  deriving DecidableEq, Repr

/-- The member function invoked on behalf of each entry point. -/
def Call.run (s : Scheduler) : Call → Outcome (Int × Scheduler)
  | .uthread_spawn f => addThread s f
  | .uthread_terminate tid => removeThread s tid
  | .uthread_block tid => blockThread s tid
  | .uthread_resume tid => resumeThread s tid
  | .uthread_sleep n => sleepThread s n
  | .uthread_get_time_until_wakeup tid => getTimeToWakeUp s tid
  | .uthread_get_tid => pure (getRunningThreadID s 666, s)
  | .uthread_get_total_quantums => pure (getTotalQuantumCounter s 666, s)
  | .uthread_get_quantums tid => getNumOfQuantums s tid

/-- Embedding of `invoke_member_function` with the timer signal masked: the member function runs,
and a scenario other than `ROUTINE` raises the signal whose handler is
`manageThreads`. -/
def invoke_member_function (s : Scheduler) (c : Call) : Outcome (Int × Scheduler) := do
  let (retVal, s1) ← c.run s
  if getScenario s1 ≠ scenario.ROUTINE then do
    let s2 ← manageThreads s1
    pure (retVal, s2)
  else pure (retVal, s1)

/-- A spawn request carries a real entry function; every other call is unconstrained. -/
def Call.wellFormed : Call → Prop
  | .uthread_spawn f => f ≠ none
  | _ => True

/-- States the library can be in between two calls: the constructed scheduler,
followed by any number of library calls and timer ticks. -/
inductive Reachable (maxThreads stackSize : Int) : Scheduler → Prop where
  | init {s : Scheduler} :
      Scheduler.ctor maxThreads stackSize = .ret s → Reachable maxThreads stackSize s
  | call {s s' : Scheduler} {c : Call} {r : Int} :
      Reachable maxThreads stackSize s → c.wellFormed →
      invoke_member_function s c = .ret (r, s') → Reachable maxThreads stackSize s'
  | tick {s s' : Scheduler} :
      Reachable maxThreads stackSize s → manageThreads s = .ret s' →
      Reachable maxThreads stackSize s'

/-! ## The structural invariant -/

/-- What holds of the scheduler's tables whenever a member function is entered or
left, whichever scenario is pending. -/
structure Inv (s : Scheduler) : Prop where
  max_pos : 0 < s._maxThreads
  ids_len : (s._idManagar.length : Int) = s._maxThreads
  keys_nodup : (s._threads.map Prod.fst).Nodup
  keys_range : ∀ k t, s._threads.find k = some t → 0 ≤ k ∧ k < s._maxThreads
  ids_live : ∀ k : Int, 0 ≤ k → k < s._maxThreads →
    (s._idManagar.getD k.toNat 0 = EMPTY_CELL ↔ s._threads.find k = none)
  main_live : ∃ t, s._threads.find MAIN_THREAD_ID = some t
  ready_nodup : s._readyThreads.Nodup
  block_nodup : s._blockThreads.Nodup
  sleep_nodup : s._sleepThreads.Nodup
  ready_state : ∀ k ∈ s._readyThreads, k ≠ s._runningThread ∧
    ∃ t, s._threads.find k = some t ∧ t._state = state.READY
  block_state : ∀ k ∈ s._blockThreads, k ≠ s._runningThread ∧ k ≠ MAIN_THREAD_ID ∧
    ∃ t, s._threads.find k = some t ∧ t._state = state.BLOCKED
  sleep_state : ∀ k ∈ s._sleepThreads, k ≠ s._runningThread ∧ k ≠ MAIN_THREAD_ID ∧
    ∃ t, s._threads.find k = some t ∧ t._state = state.SLEEPING
  others : ∀ k t, s._threads.find k = some t → k ≠ s._runningThread →
    (t._state = state.READY ∧ k ∈ s._readyThreads) ∨
    (t._state = state.BLOCKED ∧ k ∈ s._blockThreads) ∨
    (t._state = state.SLEEPING ∧ k ∈ s._sleepThreads)
  env_set : ∀ k t, s._threads.find k = some t → k ≠ s._runningThread → t._env ≠ Env.unset
  running : match s._currentScenario with
    | .ROUTINE => ∃ t, s._threads.find s._runningThread = some t ∧
        (t._state = state.RUNNING ∨ (s._runningThread = MAIN_THREAD_ID ∧ t._state = state.READY))
    | .TOBLOCK => s._runningThread ≠ MAIN_THREAD_ID ∧
        ∃ t, s._threads.find s._runningThread = some t ∧ t._state = state.BLOCKED
    | .TOSLEEP => s._runningThread ≠ MAIN_THREAD_ID ∧
        ∃ t, s._threads.find s._runningThread = some t ∧ t._state = state.SLEEPING
    | .TOSELFREMOVE => s._runningThread = NO_ACTIVE_THREAD

/-- What `_manageSleepingThreads` leaves alone: everything but the sleeping vector,
the tail of the ready vector and the threads that were sleeping. -/
structure SleepFrame (s s' : Scheduler) : Prop where
  maxThreads : s'._maxThreads = s._maxThreads
  stackSize : s'._stackSize = s._stackSize
  idManagar : s'._idManagar = s._idManagar
  currentScenario : s'._currentScenario = s._currentScenario
  blockThreads : s'._blockThreads = s._blockThreads
  runningThread : s'._runningThread = s._runningThread
  totalQuantumCounter : s'._totalQuantumCounter = s._totalQuantumCounter
  toDelete : s'._toDelete = s._toDelete
  readyThreads : ∃ woken, s'._readyThreads = s._readyThreads ++ woken
  sleepThreads : ∀ k ∈ s'._sleepThreads, k ∈ s._sleepThreads
  live : ∀ k, s'._threads.find k = none ↔ s._threads.find k = none
  others : ∀ k, k ∉ s._sleepThreads → s'._threads.find k = s._threads.find k

/-! ## Sample runs -/

/-- The value an outcome returned, `d` if it did not return. -/
def Outcome.getD {α : Type} (o : Outcome α) (d : α) : α :=
  match o with
  | .ret a => a
  | _ => d

/-- The scheduler as constructed for `maxThreads` threads (`maxThreads > 0`). -/
def constructed (maxThreads stackSize : Int) : Scheduler :=
  { _maxThreads := maxThreads
    _stackSize := stackSize
    _idManagar := (List.replicate maxThreads.toNat EMPTY_CELL).set 0 0
    _currentScenario := scenario.ROUTINE
    _threads := [(0, (Thread.ctor 0 stackSize none).incrementQuantum)]
    _readyThreads := []
    _sleepThreads := []
    _blockThreads := []
    _runningThread := 0
    _totalQuantumCounter := 1
    _toDelete := none }

/-- Whether an outcome is a normal return. -/
def Outcome.returns {α : Type} : Outcome α → Bool
  | .ret _ => true
  | _ => false

/-- The state a library call leaves behind (the state itself if the call does not return). -/
def after (s : Scheduler) (c : Call) : Scheduler :=
  ((invoke_member_function s c).getD (0, s)).2

/-- The state a timer tick leaves behind. -/
def afterTick (s : Scheduler) : Scheduler :=
  (manageThreads s).getD s

/-- With `MAX_THREAD_NUM = 100`: main, then `f1` and `f2` spawned. -/
def run100Spawned : Scheduler :=
  after (after (constructed 100 4096) (.uthread_spawn (some 1))) (.uthread_spawn (some 2))

/-- Then thread 1 terminated. -/
def run100Terminated : Scheduler :=
  after run100Spawned (.uthread_terminate 1)

/-- A table for two threads, full after one spawn. -/
def run2Full : Scheduler :=
  after (constructed 2 4096) (.uthread_spawn (some 1))

/-- A table for four threads: one thread spawned, main running. -/
def run4One : Scheduler :=
  after (constructed 4 4096) (.uthread_spawn (some 1))

/-- A second thread spawned: ready is `[1, 2]`. -/
def run4Two : Scheduler :=
  after run4One (.uthread_spawn (some 2))

/-- After a timer tick thread 1 runs and ready is `[2, 0]`. -/
def run4Ticked : Scheduler :=
  afterTick run4Two

/-- Thread 1 went to sleep for two quantums: thread 2 runs, ready is `[0]`. -/
def run4Asleep : Scheduler :=
  after run4Ticked (.uthread_sleep 2)

/-! ## What a member function can do, and executions -/

/-- The ways in which a member function reached through the library changes the state
of a scheduler `s` that has no scenario pending, by the call made. -/
inductive Effect (s : Scheduler) : Call → Scheduler → Prop where
  | same (c : Call) : Effect s c s
  | spawned (f : FunctionPointer) (j : Nat) (hf : s._threads.find j = none)
      (hj : (j : Int) < s._maxThreads) :
      Effect s (.uthread_spawn f)
        { s with
          _idManagar := s._idManagar.set j (j : Int)
          _threads := s._threads.insert j (Thread.ctor j s._stackSize f)
          _readyThreads := if f ≠ none then s._readyThreads ++ [(j : Int)]
                           else s._readyThreads }
  | removedOther (ID : Int) (t : Thread) (hf : s._threads.find ID = some t)
      (hne : ID ≠ MAIN_THREAD_ID) (hnr : ID ≠ s._runningThread) :
      Effect s (.uthread_terminate ID)
        { s with
          _readyThreads := s._readyThreads.filter (fun k => k ≠ ID)
          _sleepThreads := s._sleepThreads.filter (fun k => k ≠ ID)
          _blockThreads := s._blockThreads.filter (fun k => k ≠ ID)
          _toDelete := some t
          _threads := s._threads.erase ID
          _idManagar := s._idManagar.set ID.toNat EMPTY_CELL }
  | removedSelf (t : Thread) (hf : s._threads.find s._runningThread = some t)
      (hne : s._runningThread ≠ MAIN_THREAD_ID) :
      Effect s (.uthread_terminate s._runningThread)
        { s with
          _runningThread := NO_ACTIVE_THREAD
          _toDelete := some t
          _threads := s._threads.erase s._runningThread
          _idManagar := s._idManagar.set s._runningThread.toNat EMPTY_CELL
          _currentScenario := scenario.TOSELFREMOVE }
  | blockedReady (ID : Int) (t : Thread) (hf : s._threads.find ID = some t)
      (hst : t._state = state.READY) (hne : ID ≠ MAIN_THREAD_ID)
      (hnr : ID ≠ s._runningThread) :
      Effect s (.uthread_block ID)
        { s with
          _threads := s._threads.update ID (fun t => t.setState state.BLOCKED)
          _blockThreads := s._blockThreads ++ [ID]
          _readyThreads := s._readyThreads.filter (fun k => k ≠ ID) }
  | blockedSelf (t : Thread) (hf : s._threads.find s._runningThread = some t)
      (hne : s._runningThread ≠ MAIN_THREAD_ID) :
      Effect s (.uthread_block s._runningThread)
        { s with
          _threads := s._threads.update s._runningThread (fun t => t.setState state.BLOCKED)
          _currentScenario := scenario.TOBLOCK }
  | resumed (ID : Int) (t : Thread) (hf : s._threads.find ID = some t)
      (hst : t._state = state.BLOCKED) (hnr : ID ≠ s._runningThread) :
      Effect s (.uthread_resume ID)
        { s with
          _threads := s._threads.update ID (fun t => t.setState state.READY)
          _readyThreads := s._readyThreads ++ [ID]
          _blockThreads := s._blockThreads.filter (fun k => k ≠ ID) }
  | slept (num_quantums : Int) (t : Thread)
      (hf : s._threads.find s._runningThread = some t)
      (hne : s._runningThread ≠ MAIN_THREAD_ID) (hq : ¬ num_quantums < 0) :
      Effect s (.uthread_sleep num_quantums)
        { s with
          _threads := ((s._threads.update s._runningThread
              (fun t => t.setState state.SLEEPING)).update s._runningThread
              (fun t => t.setQuantumsToSleep num_quantums)).update s._runningThread
              (fun t => t.setQuantumsLeftToSleep num_quantums)
          _currentScenario := scenario.TOSLEEP }

/-- One event of an execution: a library call or the expiry of a quantum. -/
inductive Step where
  | call (c : Call)
  | tick
  deriving DecidableEq, Repr

/-- A step whose call, if it is one, is well formed. -/
def Step.wellFormed : Step → Prop
  | .call c => c.wellFormed
  | .tick => True

/-- Run one step: the state it leaves and the id of the thread it dispatched, if
`manageThreads` ran (always at a tick; after a call when a scenario is pending, as in
`invoke_member_function`). -/
def Step.exec (s : Scheduler) : Step → Outcome (Option Int × Scheduler)
  | .call c => do
    let (_, s1) ← c.run s
    if getScenario s1 ≠ scenario.ROUTINE then do
      let s2 ← manageThreads s1
      pure (some s2._runningThread, s2)
    else pure (none, s1)
  | .tick => do
    let s2 ← manageThreads s
    pure (some s2._runningThread, s2)

/-- Run the steps one after the other; the result lists, for every step, the thread it
dispatched (if any) and the state it left. -/
def execute (s : Scheduler) : List Step → Outcome (List (Option Int × Scheduler))
  | [] => pure []
  | st :: rest => do
    let p ← st.exec s
    let tr ← execute p.2 rest
    pure (p :: tr)

/-- Main runs and has blocked thread 1: ready is `[2]`, blocked is `[1]`. -/
def run4Blocked : Scheduler :=
  after run4Two (.uthread_block 1)

/-- One tick after thread 1 went to sleep for two quantums: main runs and thread 1
sleeps on. -/
def run4AsleepTick : Scheduler :=
  afterTick run4Asleep

/-- A second tick: thread 1 is back in the ready vector. -/
def run4Woken : Scheduler :=
  afterTick run4AsleepTick

/-- From the state with main running and ready `[1, 2]`: thread 1 is dispatched, blocks
itself, and is resumed by thread 2 two ticks later. -/
def unfairSteps : List Step :=
  [.tick, .call (.uthread_block 1), .tick, .tick, .call (.uthread_resume 1), .tick, .tick]

/-- The execution of `unfairSteps`. -/
def unfairRun : List (Option Int × Scheduler) :=
  (execute run4Two unfairSteps).getD []

/-- A second tick from the state with ready `[1, 2]`: thread 2 runs, ready is `[0, 1]`. -/
def run4Tick2 : Scheduler :=
  afterTick run4Ticked

/-- A third tick: main runs again, ready is `[1, 2]`. -/
def run4Tick3 : Scheduler :=
  afterTick run4Tick2

/-- Every record of the thread table carries the id it is stored under, and the record
in `_toDelete`, if any, is not the main thread's. -/
structure IdInv (s : Scheduler) : Prop where
  ids : ∀ k t, s._threads.find k = some t → t._ID = k
  slot : ∀ t, s._toDelete = some t → t._ID ≠ MAIN_THREAD_ID

/-- Then thread 2 terminated as well, with no dispatch in between. -/
def run100TerminatedBoth : Scheduler :=
  after run100Terminated (.uthread_terminate 2)

/-! ## Initialisation of the library (`uthreads.cpp`) -/

abbrev SECOND : Int := 1000000
abbrev BAD_USEC : Int := 0
abbrev SIG_FAILED : Int := -1

/-- What the system calls made by `uthread_init` return: `sigemptyset`, `sigaddset` and
`sigaction` give -1 on failure, `setitimer` gives a non-zero value on failure. -/
structure SysCalls where
  sigemptyset : Int
  sigaddset : Int
  sigaction : Int
  setitimer : Int
  deriving DecidableEq, Repr

/-- The fields of `struct itimerval` that `reset_timer` sets. -/
structure itimerval where
  it_value_sec : Int
  it_value_usec : Int
  it_interval_sec : Int
  it_interval_usec : Int
  deriving DecidableEq, Repr

/-- The globals of `uthreads.cpp` that `uthread_init` writes: `lib_quantum_usecs`,
`timer`, and whether `sa.sa_handler` is `timer_handler`. -/
structure Library where
  lib_quantum_usecs : Int
  timer : itimerval
  sa_handler : Bool
  deriving DecidableEq, Repr

/-- Embedding of `ErrorHandler::sysCallError`: the message is printed and the process
ends with `exit(EXIT_STATUS)`. -/
def ErrorHandler.sysCallError {α : Type} : Outcome α :=
  .exited EXIT_STATUS

/-- Embedding of `killProcessAfterMemoryAllocs`. Its first statement is `delete &sch`:
the operand is the address of the static pointer `sch`, which no `new` returned, so the
`delete` has no defined result; the call of `sysCallError` stands behind it. -/
def killProcessAfterMemoryAllocs {α : Type} : Outcome α :=
  .undefined

/-- Embedding of `reset_timer`; C division of `int`s truncates. -/
def reset_timer (sys : SysCalls) (lib : Library) : Outcome Library :=
  let lib1 := { lib with
    timer :=
      { it_value_sec := Int.tdiv lib.lib_quantum_usecs SECOND
        it_value_usec := Int.tmod lib.lib_quantum_usecs SECOND
        it_interval_sec := Int.tdiv lib.lib_quantum_usecs SECOND
        it_interval_usec := Int.tmod lib.lib_quantum_usecs SECOND } }
  if sys.setitimer ≠ 0 then killProcessAfterMemoryAllocs
  else pure lib1

/-- Embedding of `uthread_init`. After `sysCallError` nothing runs, so the first test
ends the process for a non-positive `quantum_usecs`. -/
def uthread_init (sys : SysCalls) (lib : Library) (quantum_usecs : Int) :
    Outcome (Int × Library) :=
  if quantum_usecs ≤ BAD_USEC then ErrorHandler.sysCallError
  else
    let lib1 := { lib with lib_quantum_usecs := quantum_usecs, sa_handler := true }
    if sys.sigemptyset = SIG_FAILED then ErrorHandler.sysCallError
    else if sys.sigaddset = SIG_FAILED then ErrorHandler.sysCallError
    else if sys.sigaction = SIG_FAILED then ErrorHandler.sysCallError
    else do
      let lib2 ← reset_timer sys lib1
      pure (SUCCESS, lib2)

/-- System calls that all succeed. -/
def sysOk : SysCalls :=
  { sigemptyset := 0, sigaddset := 0, sigaction := 0, setitimer := 0 }

/-- The globals as the program starts. -/
def libStart : Library :=
  { lib_quantum_usecs := 0
    timer := { it_value_sec := 0, it_value_usec := 0, it_interval_sec := 0,
               it_interval_usec := 0 }
    sa_handler := false }

/-- Thread 2 went to sleep for one quantum after thread 1 had slept one of its two:
main runs, the sleeping vector is `[1, 2]` and both have one quantum left. -/
def run4BothAsleep : Scheduler :=
  after run4Asleep (.uthread_sleep 1)

/-- The next tick: thread 1 is woken and dispatched, thread 2 is passed over. -/
def run4Skipped : Scheduler :=
  afterTick run4BothAsleep

/-- The state at the end of an execution that started in `s`. -/
def lastState (s : Scheduler) (tr : List (Option Int × Scheduler)) : Scheduler :=
  match tr.getLast? with
  | some p => p.2
  | none => s

/-- The sum of `getQuantums()` over the records of the thread table. -/
def sumOfQuantums (s : Scheduler) : Int :=
  (s._threads.map (fun p => p.2.getQuantums)).sum

/-- The value of `getQuantums()` of the record stored under id `i`, 0 if there is none. -/
def quantumsAt (m : Table) (i : Nat) : Int :=
  match m.find i with
  | some t => t.getQuantums
  | none => 0

/-- With 100 cells and threads 1 and 2 spawned: a tick dispatches thread 1, which then
terminates itself, so that thread 2 is dispatched. -/
def run100Dropped : Scheduler :=
  after (afterTick run100Spawned) (.uthread_terminate 1)

/-- Thread 2 called `sleepThread(0)` while thread 1 slept with two quantums left: main
runs, the sleeping vector is `[1, 2]`, thread 1 has one quantum left and thread 2 has 0. -/
def run4ZeroAsleep : Scheduler :=
  after run4Asleep (.uthread_sleep 0)

/-- The next tick: thread 1 is woken and dispatched, thread 2 is passed over. -/
def run4ZeroSkipped : Scheduler :=
  afterTick run4ZeroAsleep

/-! ## Basic facts about outcomes -/

section Basics

variable {α β : Type}

@[simp] theorem Outcome.ret_bind (a : α) (k : α → Outcome β) :
    (Outcome.ret a >>= k) = k a := rfl

@[simp] theorem Outcome.undefined_bind (k : α → Outcome β) :
    ((Outcome.undefined : Outcome α) >>= k) = Outcome.undefined := rfl

@[simp] theorem Outcome.uncaught_bind (k : α → Outcome β) :
    ((Outcome.uncaught : Outcome α) >>= k) = Outcome.uncaught := rfl

@[simp] theorem Outcome.exited_bind (c : Int) (k : α → Outcome β) :
    ((Outcome.exited c : Outcome α) >>= k) = Outcome.exited c := rfl

@[simp] theorem Outcome.pure_eq_ret (a : α) : (pure a : Outcome α) = Outcome.ret a := rfl

theorem Outcome.bind_eq_ret {x : Outcome α} {k : α → Outcome β} {b : β} :
    (x >>= k) = Outcome.ret b ↔ ∃ a, x = Outcome.ret a ∧ k a = Outcome.ret b := by
  cases x <;> simp

end Basics

/-! ## The thread table -/

@[simp] theorem Table.find_nil (k : Int) : Table.find [] k = none := rfl

@[simp] theorem Table.find_cons (a : Int) (t : Thread) (rest : Table) (k : Int) :
    Table.find ((a, t) :: rest) k = if a = k then some t else Table.find rest k := rfl

theorem Table.update_cons (a : Int) (t : Thread) (rest : Table) (ID : Int)
    (g : Thread → Thread) :
    Table.update ((a, t) :: rest) ID g =
      (if a = ID then (a, g t) else (a, t)) :: Table.update rest ID g := rfl

theorem Table.erase_cons (a : Int) (t : Thread) (rest : Table) (ID : Int) :
    Table.erase ((a, t) :: rest) ID =
      if a = ID then Table.erase rest ID else (a, t) :: Table.erase rest ID := by
  by_cases h : a = ID <;> simp [Table.erase, List.filter_cons, h]

theorem Table.find_update (m : Table) (ID k : Int) (g : Thread → Thread) :
    (m.update ID g).find k = if k = ID then (m.find k).map g else m.find k := by
  induction m with
  | nil => simp [Table.update]
  | cons p rest ih =>
    obtain ⟨a, t⟩ := p
    rw [Table.update_cons]
    by_cases h1 : a = ID
    · by_cases h2 : a = k
      · subst h1; subst h2; simp
      · subst h1
        have h3 : ¬ k = a := fun h => h2 h.symm
        simp [h2, h3, ih]
    · by_cases h2 : a = k
      · subst h2; simp [h1]
      · simp [h1, h2, ih]

theorem Table.find_erase (m : Table) (ID k : Int) :
    (m.erase ID).find k = if k = ID then none else m.find k := by
  induction m with
  | nil => simp [Table.erase]
  | cons p rest ih =>
    obtain ⟨a, t⟩ := p
    rw [Table.erase_cons]
    by_cases h1 : a = ID
    · subst h1
      by_cases h2 : k = a
      · subst h2; simp [ih]
      · simp [h2, Ne.symm h2, ih]
    · by_cases h2 : a = k
      · subst h2; simp [h1]
      · simp [h1, h2, ih]

theorem Table.find_insert (m : Table) (ID k : Int) (t : Thread) (h : m.find ID = none) :
    (m.insert ID t).find k = if k = ID then some t else m.find k := by
  induction m with
  | nil =>
    by_cases h2 : k = ID
    · simp [Table.insert, h2]
    · simp [Table.insert, h2, Ne.symm h2]
  | cons p rest ih =>
    obtain ⟨a, u⟩ := p
    have ha : a ≠ ID := by
      intro e; simp [e] at h
    have hr : Table.find rest ID = none := by
      simpa [ha] using h
    by_cases h1 : ID < a
    · by_cases h2 : k = ID
      · simp [Table.insert, h1, h2]
      · simp [Table.insert, h1, h2, Ne.symm h2]
    · by_cases h2 : a = k
      · subst h2
        simp [Table.insert, h1, Ne.symm ha, ha]
      · simp [Table.insert, h1, Ne.symm ha, h2, ih hr]

theorem Table.keys_update (m : Table) (ID : Int) (g : Thread → Thread) :
    (m.update ID g).map Prod.fst = m.map Prod.fst := by
  induction m with
  | nil => rfl
  | cons p rest ih =>
    obtain ⟨a, t⟩ := p
    rw [Table.update_cons]
    by_cases h : a = ID <;> simp [h, ih]

theorem Table.length_update (m : Table) (ID : Int) (g : Thread → Thread) :
    (m.update ID g).length = m.length := by
  simp [Table.update]

theorem Table.keys_erase (m : Table) (ID : Int) :
    (m.erase ID).map Prod.fst = (m.map Prod.fst).filter (fun k => k ≠ ID) := by
  induction m with
  | nil => rfl
  | cons p rest ih =>
    obtain ⟨a, t⟩ := p
    rw [Table.erase_cons]
    by_cases h : a = ID <;> simp [h, ih, List.filter_cons]

theorem Table.mem_keys_iff (m : Table) (k : Int) :
    k ∈ m.map Prod.fst ↔ m.find k ≠ none := by
  induction m with
  | nil => simp
  | cons p rest ih =>
    obtain ⟨a, t⟩ := p
    by_cases h : a = k
    · simp [h]
    · simp [h, ih, Ne.symm h]

theorem Table.keys_insert_perm (m : Table) (ID : Int) (t : Thread) (h : m.find ID = none) :
    ((m.insert ID t).map Prod.fst).Perm (ID :: m.map Prod.fst) := by
  induction m with
  | nil => simp [Table.insert]
  | cons p rest ih =>
    obtain ⟨a, u⟩ := p
    have ha : a ≠ ID := by
      intro e; simp [e] at h
    have hr : Table.find rest ID = none := by
      simpa [ha] using h
    simp only [Table.insert]
    by_cases h1 : ID < a
    · simp [h1]
    · simp only [h1, if_false, Ne.symm ha, List.map_cons]
      exact ((ih hr).cons a).trans (List.Perm.swap ID a _)

theorem Table.length_insert (m : Table) (ID : Int) (t : Thread) (h : m.find ID = none) :
    (m.insert ID t).length = m.length + 1 := by
  have := (Table.keys_insert_perm m ID t h).length_eq
  simpa using this

/-! ## The id table -/

theorem cellRead_of_lt (a : List Int) (i : Int) (h0 : 0 ≤ i) (h1 : i < a.length) :
    cellRead a i = Outcome.ret (a.getD i.toNat 0) := by
  simp [cellRead, h0, h1]

theorem cellWrite_of_lt (a : List Int) (i v : Int) (h0 : 0 ≤ i) (h1 : i < a.length) :
    cellWrite a i v = Outcome.ret (a.set i.toNat v) := by
  simp [cellWrite, h0, h1]

theorem cellRead_undefined (a : List Int) (i : Int) (h : ¬ (0 ≤ i ∧ i < a.length)) :
    cellRead a i = Outcome.undefined := by
  simp only [cellRead, h, if_false]

/-- The loop of `_getNewID` stops at the first empty cell. -/
theorem getNewID_loop_spec (a : List Int) (j : Nat) (hj : j < a.length)
    (hE : a.getD j 0 = EMPTY_CELL) (hmin : ∀ i < j, a.getD i 0 ≠ EMPTY_CELL) :
    ∀ (n i : Nat), i ≤ j → j < i + n →
      _getNewID.loop a n (i : Int) = Outcome.ret ((j : Int), a.set j (j : Int)) := by
  intro n
  induction n with
  | zero => intro i h1 h2; omega
  | succ n ih =>
    intro i h1 h2
    have hi : (i : Int) < a.length := by exact_mod_cast lt_of_le_of_lt h1 hj
    rw [_getNewID.loop, cellRead_of_lt a i (by positivity) hi]
    simp only [Outcome.ret_bind, Int.toNat_ofNat]
    by_cases hij : i = j
    · subst hij
      rw [if_pos hE, cellWrite_of_lt a i i (by positivity) hi]
      simp
    · have hlt : i < j := lt_of_le_of_ne h1 hij
      rw [if_neg (hmin i hlt)]
      have := ih (i + 1) hlt (by omega)
      simpa using this

/-! ## Iterators into the vectors -/

theorem getIter_loop_not_mem (ID : Int) :
    ∀ (v : List Int) (it : Nat) (r : Option Nat), ID ∉ v →
      _getIterOfThread.loop ID v it r = r := by
  intro v
  induction v with
  | nil => intro it r _; rfl
  | cons x rest ih =>
    intro it r h
    have hx : x ≠ ID := fun e => h (by simp [e])
    have hr : ID ∉ rest := fun e => h (List.mem_cons_of_mem _ e)
    simp [_getIterOfThread.loop, hx, ih _ _ hr]

theorem getIter_loop_mem (ID : Int) :
    ∀ (v : List Int) (it : Nat) (r : Option Nat), v.Nodup → ID ∈ v →
      _getIterOfThread.loop ID v it r = some (it + v.indexOf ID) := by
  intro v
  induction v with
  | nil => intro it r _ h; simp at h
  | cons x rest ih =>
    intro it r hn hm
    rw [List.nodup_cons] at hn
    by_cases hx : x = ID
    · subst hx
      simp [_getIterOfThread.loop, getIter_loop_not_mem x rest _ _ hn.1]
    · have hr : ID ∈ rest := by
        rcases List.mem_cons.mp hm with e | e
        · exact absurd e.symm hx
        · exact e
      rw [_getIterOfThread.loop, if_neg hx, ih _ _ hn.2 hr, List.indexOf_cons_ne _ hx]
      congr 1; omega

theorem erase_eq_filter_ne (v : List Int) (ID : Int) (hn : v.Nodup) :
    v.erase ID = v.filter (fun k => k ≠ ID) := by
  rw [List.Nodup.erase_eq_filter hn]
  congr 1
  funext k
  by_cases h : k = ID <;> simp [h]

theorem filter_ne_of_not_mem (v : List Int) (ID : Int) (h : ID ∉ v) :
    v.filter (fun k => k ≠ ID) = v := by
  rw [List.filter_eq_self]
  intro k hk
  have : k ≠ ID := fun e => h (e ▸ hk)
  simpa using this

/-- Erasing through the iterator found for `ID` removes `ID` and keeps the order. -/
theorem vecErase_getIter (v : List Int) (ID : Int) (hn : v.Nodup) (hm : ID ∈ v) :
    vecErase v (_getIterOfThread.loop ID v 0 none) =
      Outcome.ret (v.filter (fun k => k ≠ ID)) := by
  rw [getIter_loop_mem ID v 0 none hn hm, ← erase_eq_filter_ne v ID hn]
  have hlt : v.indexOf ID < v.length := List.indexOf_lt_length.mpr hm
  simp [vecErase, hlt]

theorem eraseIdx_eq_filter (v : List Int) (it : Nat) (hn : v.Nodup) (h : it < v.length) :
    v.eraseIdx it = v.filter (fun k => k ≠ v.getD it 0) := by
  rw [← erase_eq_filter_ne v _ hn, List.getD_eq_getElem v 0 h]
  exact (List.Nodup.erase_getElem hn it h).symm

/-! ## Consequences of the invariant for the helper functions -/

theorem Inv.cell_empty {s : Scheduler} (hI : Inv s) {ID : Int} (h0 : 0 ≤ ID)
    (h1 : ID < s._maxThreads) (hf : s._threads.find ID = none) :
    cellRead s._idManagar ID = Outcome.ret EMPTY_CELL := by
  rw [cellRead_of_lt _ _ h0 (by rw [hI.ids_len]; exact h1), (hI.ids_live ID h0 h1).mpr hf]

theorem Inv.cell_live {s : Scheduler} (hI : Inv s) {ID : Int} {t : Thread}
    (hf : s._threads.find ID = some t) :
    ∃ c, c ≠ EMPTY_CELL ∧ cellRead s._idManagar ID = Outcome.ret c := by
  obtain ⟨h0, h1⟩ := hI.keys_range ID t hf
  refine ⟨_, ?_, cellRead_of_lt _ _ h0 (by rw [hI.ids_len]; exact h1)⟩
  intro hc
  have := (hI.ids_live ID h0 h1).mp hc
  rw [hf] at this
  exact absurd this (by simp)

theorem getVectorOfThread_absent {s : Scheduler} (hI : Inv s) {ID : Int} (h0 : 0 ≤ ID)
    (h1 : ID < s._maxThreads) (hf : s._threads.find ID = none) :
    _getVectorOfThread s ID = Outcome.ret none := by
  simp [_getVectorOfThread, hI.cell_empty h0 h1 hf]

theorem getVectorOfThread_main {s : Scheduler} (hI : Inv s) :
    _getVectorOfThread s MAIN_THREAD_ID = Outcome.ret none := by
  obtain ⟨t, ht⟩ := hI.main_live
  obtain ⟨c, _, hc⟩ := hI.cell_live ht
  simp [_getVectorOfThread, hc]

theorem getVectorOfThread_out {s : Scheduler} (hI : Inv s) {ID : Int}
    (h : ¬ (0 ≤ ID ∧ ID < s._maxThreads)) :
    _getVectorOfThread s ID = Outcome.undefined := by
  rw [_getVectorOfThread, cellRead_undefined _ _ (by rw [hI.ids_len]; exact h)]
  rfl

theorem getVectorOfThread_live {s : Scheduler} (hI : Inv s) {ID : Int} {t : Thread}
    (hf : s._threads.find ID = some t) (hne : ID ≠ MAIN_THREAD_ID) :
    _getVectorOfThread s ID = Outcome.ret
      (match t._state with
       | .READY => some VecRef.readyThreads
       | .BLOCKED => some VecRef.blockThreads
       | .SLEEPING => some VecRef.sleepThreads
       | .RUNNING => none) := by
  obtain ⟨c, hc1, hc⟩ := hI.cell_live hf
  obtain ⟨h0, h1⟩ := hI.keys_range ID t hf
  have h2 : ¬ (ID < 0 ∨ ID > s._maxThreads) := by omega
  have hc1 : ¬ c = -1 := hc1
  have hne : ¬ ID = 0 := hne
  simp only [_getVectorOfThread, hc, Outcome.ret_bind, hc1, hne, h2, or_self, if_false,
    Scheduler.deref, hf, Thread.getState]
  cases t._state <;> rfl

theorem badIDChecker_of_range {s : Scheduler} (hI : Inv s) {ID : Int} (h0 : 0 ≤ ID)
    (h1 : ID < s._maxThreads) : _badIDChecker s ID = Outcome.ret FAILURE := by
  rw [_badIDChecker, cellRead_of_lt _ _ h0 (by rw [hI.ids_len]; exact h1)]
  simp

/-- A table that is not full has a free id. -/
theorem Inv.exists_free {s : Scheduler} (hI : Inv s)
    (h : (s._threads.length : Int) ≠ s._maxThreads) :
    ∃ j : Nat, (j : Int) < s._maxThreads ∧ s._threads.find j = none := by
  by_contra hall
  push_neg at hall
  apply h
  have hpos := hI.max_pos
  have hsub1 : (List.range s._maxThreads.toNat).map Int.ofNat ⊆ s._threads.map Prod.fst := by
    intro k hk
    obtain ⟨j, hj, rfl⟩ := List.mem_map.mp hk
    rw [Table.mem_keys_iff]
    apply hall
    have := List.mem_range.mp hj
    show (j : Int) < _
    omega
  have hsub2 : s._threads.map Prod.fst ⊆ (List.range s._maxThreads.toNat).map Int.ofNat := by
    intro k hk
    rw [Table.mem_keys_iff] at hk
    obtain ⟨t, ht⟩ := Option.ne_none_iff_exists'.mp hk
    obtain ⟨h0, h1⟩ := hI.keys_range k t ht
    refine List.mem_map.mpr ⟨k.toNat, List.mem_range.mpr (by omega), ?_⟩
    show (k.toNat : Int) = k
    omega
  have hnd : ((List.range s._maxThreads.toNat).map Int.ofNat).Nodup :=
    (List.nodup_range _).map Int.ofNat_injective
  have l1 := (hnd.subperm hsub1).length_le
  have l2 := (hI.keys_nodup.subperm hsub2).length_le
  simp only [List.length_map, List.length_range] at l1 l2
  omega

/-- The smallest free id of a table that is not full. -/
theorem Inv.exists_least_free {s : Scheduler} (hI : Inv s)
    (h : (s._threads.length : Int) ≠ s._maxThreads) :
    ∃ j : Nat, (j : Int) < s._maxThreads ∧ s._threads.find j = none ∧
      ∀ i : Nat, i < j → s._threads.find i ≠ none := by
  classical
  have hex := hI.exists_free h
  refine ⟨Nat.find hex, (Nat.find_spec hex).1, (Nat.find_spec hex).2, ?_⟩
  intro i hi hf
  have hlt : (i : Int) < s._maxThreads := by
    have := (Nat.find_spec hex).1
    omega
  exact Nat.find_min hex hi ⟨hlt, hf⟩

theorem addThread_full {s : Scheduler} (f : FunctionPointer)
    (h : (s._threads.length : Int) = s._maxThreads) :
    addThread s f = Outcome.ret (FAILURE, s) := by
  simp [addThread, h]

/-- With room in the table `addThread` takes the smallest free id `j`. -/
theorem addThread_free {s : Scheduler} (hI : Inv s) (f : FunctionPointer)
    (h : (s._threads.length : Int) ≠ s._maxThreads) :
    ∃ j : Nat, (j : Int) < s._maxThreads ∧ s._threads.find j = none ∧
      (∀ i : Nat, i < j → s._threads.find i ≠ none) ∧
      addThread s f = Outcome.ret ((j : Int),
        { s with
          _idManagar := s._idManagar.set j (j : Int)
          _threads := s._threads.insert j (Thread.ctor j s._stackSize f)
          _readyThreads := if f ≠ none then s._readyThreads ++ [(j : Int)]
                           else s._readyThreads }) := by
  obtain ⟨j, hj, hf, hmin⟩ := hI.exists_least_free h
  refine ⟨j, hj, hf, hmin, ?_⟩
  have hlen : j < s._idManagar.length := by
    have := hI.ids_len
    omega
  have hE : s._idManagar.getD j 0 = EMPTY_CELL := by
    have := (hI.ids_live j (by positivity) hj).mpr hf
    simpa using this
  have hne : ∀ i < j, s._idManagar.getD i 0 ≠ EMPTY_CELL := by
    intro i hi hc
    have hlt : (i : Int) < s._maxThreads := by omega
    have := (hI.ids_live i (by positivity) hlt).mp (by simpa using hc)
    exact hmin i hi this
  have hloop := getNewID_loop_spec s._idManagar j hlen hE hne s._maxThreads.toNat 0
    (Nat.zero_le _) (by omega)
  simp only [addThread, h, if_false, _getNewID]
  have h0 : ((0 : Nat) : Int) = 0 := rfl
  rw [h0] at hloop
  rw [hloop]
  by_cases hfn : f = none <;> simp [hfn]

theorem getD_set_int (a : List Int) (i j : Nat) (v : Int) (hi : i < a.length) :
    (a.set i v).getD j 0 = if j = i then v else a.getD j 0 := by
  by_cases h : j = i
  · subst h
    simp [List.getD_eq_getElem?_getD, hi]
  · simp [List.getD_eq_getElem?_getD, h, List.getElem?_set_ne (Ne.symm h)]

theorem Inv.live_ne_running_free {s : Scheduler} (hI : Inv s) {j : Int} (h0 : 0 ≤ j)
    (hf : s._threads.find j = none) : j ≠ s._runningThread := by
  intro e
  have hr := hI.running
  rw [← e] at hr
  cases hsc : s._currentScenario <;> rw [hsc] at hr <;> simp only [hf] at hr
  · obtain ⟨t, ht, _⟩ := hr; cases ht
  · obtain ⟨_, t, ht, _⟩ := hr; cases ht
  · obtain ⟨_, t, ht, _⟩ := hr; cases ht
  · dsimp only [NO_ACTIVE_THREAD] at hr; omega

theorem Inv.mem_ready_live {s : Scheduler} (hI : Inv s) {k : Int} (h : k ∈ s._readyThreads) :
    s._threads.find k ≠ none := by
  obtain ⟨_, t, ht, _⟩ := hI.ready_state k h
  simp [ht]

theorem Inv.mem_block_live {s : Scheduler} (hI : Inv s) {k : Int} (h : k ∈ s._blockThreads) :
    s._threads.find k ≠ none := by
  obtain ⟨_, _, t, ht, _⟩ := hI.block_state k h
  simp [ht]

theorem Inv.mem_sleep_live {s : Scheduler} (hI : Inv s) {k : Int} (h : k ∈ s._sleepThreads) :
    s._threads.find k ≠ none := by
  obtain ⟨_, _, t, ht, _⟩ := hI.sleep_state k h
  simp [ht]

/-- The invariant survives a successful spawn. -/
theorem Inv.addThread {s : Scheduler} (hI : Inv s) (f : FunctionPointer) (hfn : f ≠ none)
    (j : Nat) (hj : (j : Int) < s._maxThreads) (hf : s._threads.find j = none) :
    Inv { s with
          _idManagar := s._idManagar.set j (j : Int)
          _threads := s._threads.insert j (Thread.ctor j s._stackSize f)
          _readyThreads := s._readyThreads ++ [(j : Int)] } := by
  have hj0 : (0 : Int) ≤ j := by positivity
  have hjr := hI.live_ne_running_free hj0 hf
  have hlen : j < s._idManagar.length := by have := hI.ids_len; omega
  have hfind : ∀ k, (s._threads.insert j (Thread.ctor j s._stackSize f)).find k =
      if k = (j : Int) then some (Thread.ctor j s._stackSize f) else s._threads.find k :=
    fun k => Table.find_insert _ _ _ _ hf
  have hfind_ne : ∀ k, s._threads.find k ≠ none →
      (s._threads.insert j (Thread.ctor j s._stackSize f)).find k = s._threads.find k := by
    intro k hk
    rw [hfind, if_neg]
    intro e; rw [e] at hk; exact hk hf
  constructor
  · exact hI.max_pos
  · simpa using hI.ids_len
  · exact (Table.keys_insert_perm _ _ _ hf).nodup_iff.mpr
      (List.nodup_cons.mpr ⟨by rw [Table.mem_keys_iff]; simp [hf], hI.keys_nodup⟩)
  · intro k t hk
    simp only [hfind] at hk
    split at hk
    · subst_vars; exact ⟨hj0, hj⟩
    · exact hI.keys_range k t hk
  · intro k h0 h1
    dsimp only [EMPTY_CELL] at h0 h1 ⊢
    simp only [hfind, getD_set_int _ _ _ _ hlen]
    by_cases hk : k = (j : Int)
    · subst hk; simp
    · have : k.toNat ≠ j := by omega
      simp only [this, hk, if_false]
      exact hI.ids_live k h0 h1
  · obtain ⟨t, ht⟩ := hI.main_live
    simp only [hfind]
    split
    · exact ⟨_, rfl⟩
    · exact ⟨t, ht⟩
  · refine List.Nodup.append hI.ready_nodup (List.nodup_singleton _) ?_
    simp only [List.disjoint_singleton]
    intro hm; exact hI.mem_ready_live hm hf
  · exact hI.block_nodup
  · exact hI.sleep_nodup
  · intro k hk
    simp only [List.mem_append, List.mem_singleton] at hk
    rcases hk with hk | hk
    · obtain ⟨h1, t, ht, hst⟩ := hI.ready_state k hk
      exact ⟨h1, t, by rw [hfind_ne k (by simp [ht])]; exact ht, hst⟩
    · subst hk
      exact ⟨hjr, Thread.ctor j s._stackSize f, by simp [hfind], rfl⟩
  · intro k hk
    obtain ⟨h1, h2, t, ht, hst⟩ := hI.block_state k hk
    exact ⟨h1, h2, t, by rw [hfind_ne k (by simp [ht])]; exact ht, hst⟩
  · intro k hk
    obtain ⟨h1, h2, t, ht, hst⟩ := hI.sleep_state k hk
    exact ⟨h1, h2, t, by rw [hfind_ne k (by simp [ht])]; exact ht, hst⟩
  · intro k t hk hkr
    simp only [hfind] at hk
    split at hk
    · cases hk; subst_vars
      exact Or.inl ⟨rfl, by simp⟩
    · rcases hI.others k t hk hkr with h | h | h
      · exact Or.inl ⟨h.1, List.mem_append_left _ h.2⟩
      · exact Or.inr (Or.inl h)
      · exact Or.inr (Or.inr h)
  · intro k t hk hkr
    simp only [hfind] at hk
    split at hk
    · cases hk
      obtain ⟨a, rfl⟩ := Option.ne_none_iff_exists'.mp hfn
      simp [Thread.ctor]
    · exact hI.env_set k t hk hkr
  · have hr := hI.running
    have hrf : (s._threads.insert j (Thread.ctor j s._stackSize f)).find s._runningThread =
        s._threads.find s._runningThread := by
      rw [hfind, if_neg (Ne.symm hjr)]
    show match s._currentScenario with
      | .ROUTINE => _ | .TOBLOCK => _ | .TOSLEEP => _ | .TOSELFREMOVE => _
    simp only [hrf]
    exact hr

theorem Inv.mem_ready_iff {s : Scheduler} (hI : Inv s) {k : Int} {t : Thread}
    (hf : s._threads.find k = some t) (hnr : k ≠ s._runningThread) :
    k ∈ s._readyThreads ↔ t._state = state.READY := by
  constructor
  · intro h
    obtain ⟨_, u, hu, hst⟩ := hI.ready_state k h
    rw [hf] at hu; cases hu; exact hst
  · intro h
    rcases hI.others k t hf hnr with h1 | h1 | h1
    · exact h1.2
    · rw [h] at h1; exact absurd h1.1 (by decide)
    · rw [h] at h1; exact absurd h1.1 (by decide)

theorem Inv.mem_block_iff {s : Scheduler} (hI : Inv s) {k : Int} {t : Thread}
    (hf : s._threads.find k = some t) (hnr : k ≠ s._runningThread) :
    k ∈ s._blockThreads ↔ t._state = state.BLOCKED := by
  constructor
  · intro h
    obtain ⟨_, _, u, hu, hst⟩ := hI.block_state k h
    rw [hf] at hu; cases hu; exact hst
  · intro h
    rcases hI.others k t hf hnr with h1 | h1 | h1
    · rw [h] at h1; exact absurd h1.1 (by decide)
    · exact h1.2
    · rw [h] at h1; exact absurd h1.1 (by decide)

theorem Inv.mem_sleep_iff {s : Scheduler} (hI : Inv s) {k : Int} {t : Thread}
    (hf : s._threads.find k = some t) (hnr : k ≠ s._runningThread) :
    k ∈ s._sleepThreads ↔ t._state = state.SLEEPING := by
  constructor
  · intro h
    obtain ⟨_, _, u, hu, hst⟩ := hI.sleep_state k h
    rw [hf] at hu; cases hu; exact hst
  · intro h
    rcases hI.others k t hf hnr with h1 | h1 | h1
    · rw [h] at h1; exact absurd h1.1 (by decide)
    · rw [h] at h1; exact absurd h1.1 (by decide)
    · exact h1.2

theorem mem_filter_ne (v : List Int) (ID k : Int) :
    k ∈ v.filter (fun x => x ≠ ID) ↔ k ∈ v ∧ k ≠ ID := by
  simp [List.mem_filter]

/-- The invariant survives the removal of a thread that is not running. -/
theorem Inv.remove_other {s : Scheduler} (hI : Inv s) {ID : Int} {t : Thread}
    (hf : s._threads.find ID = some t) (hne : ID ≠ MAIN_THREAD_ID)
    (hnr : ID ≠ s._runningThread) :
    Inv { s with
          _readyThreads := s._readyThreads.filter (fun k => k ≠ ID)
          _sleepThreads := s._sleepThreads.filter (fun k => k ≠ ID)
          _blockThreads := s._blockThreads.filter (fun k => k ≠ ID)
          _toDelete := some t
          _threads := s._threads.erase ID
          _idManagar := s._idManagar.set ID.toNat EMPTY_CELL } := by
  obtain ⟨h0, h1⟩ := hI.keys_range ID t hf
  have hlen : ID.toNat < s._idManagar.length := by have := hI.ids_len; omega
  have hfind_ne : ∀ k, k ≠ ID → (s._threads.erase ID).find k = s._threads.find k := by
    intro k hk; rw [Table.find_erase, if_neg hk]
  constructor
  · exact hI.max_pos
  · simpa using hI.ids_len
  · dsimp only
    rw [Table.keys_erase]
    exact hI.keys_nodup.filter _
  · intro k u hk
    dsimp only at hk ⊢
    rw [Table.find_erase] at hk
    split at hk
    · cases hk
    · exact hI.keys_range k u hk
  · intro k k0 k1
    dsimp only [EMPTY_CELL] at k0 k1 ⊢
    rw [Table.find_erase, getD_set_int _ _ _ _ hlen]
    by_cases hk : k = ID
    · subst hk; simp
    · have : k.toNat ≠ ID.toNat := by omega
      simp only [this, hk, if_false]
      exact hI.ids_live k k0 k1
  · obtain ⟨u, hu⟩ := hI.main_live
    exact ⟨u, by dsimp only; rw [hfind_ne _ (Ne.symm hne)]; exact hu⟩
  · exact hI.ready_nodup.filter _
  · exact hI.block_nodup.filter _
  · exact hI.sleep_nodup.filter _
  · intro k hk
    dsimp only at hk ⊢
    rw [mem_filter_ne] at hk
    rw [hfind_ne k hk.2]
    exact hI.ready_state k hk.1
  · intro k hk
    dsimp only at hk ⊢
    rw [mem_filter_ne] at hk
    rw [hfind_ne k hk.2]
    exact hI.block_state k hk.1
  · intro k hk
    dsimp only at hk ⊢
    rw [mem_filter_ne] at hk
    rw [hfind_ne k hk.2]
    exact hI.sleep_state k hk.1
  · intro k u hk hkr
    dsimp only at hk hkr ⊢
    rw [Table.find_erase] at hk
    split at hk
    · cases hk
    · rename_i hkne
      simp only [mem_filter_ne]
      rcases hI.others k u hk hkr with h | h | h
      · exact Or.inl ⟨h.1, h.2, hkne⟩
      · exact Or.inr (Or.inl ⟨h.1, h.2, hkne⟩)
      · exact Or.inr (Or.inr ⟨h.1, h.2, hkne⟩)
  · intro k u hk hkr
    dsimp only at hk hkr ⊢
    rw [Table.find_erase] at hk
    split at hk
    · cases hk
    · exact hI.env_set k u hk hkr
  · have hr := hI.running
    show match s._currentScenario with
      | .ROUTINE => _ | .TOBLOCK => _ | .TOSLEEP => _ | .TOSELFREMOVE => _
    dsimp only
    rw [hfind_ne _ (Ne.symm hnr)]
    exact hr

/-- The invariant survives the running thread removing itself. -/
theorem Inv.remove_self {s : Scheduler} (hI : Inv s) {t : Thread}
    (hf : s._threads.find s._runningThread = some t)
    (hne : s._runningThread ≠ MAIN_THREAD_ID) :
    Inv { s with
          _runningThread := NO_ACTIVE_THREAD
          _toDelete := some t
          _threads := s._threads.erase s._runningThread
          _idManagar := s._idManagar.set s._runningThread.toNat EMPTY_CELL
          _currentScenario := scenario.TOSELFREMOVE } := by
  obtain ⟨h0, h1⟩ := hI.keys_range _ t hf
  have hlen : s._runningThread.toNat < s._idManagar.length := by
    have := hI.ids_len; omega
  have hfind_ne : ∀ k, k ≠ s._runningThread →
      (s._threads.erase s._runningThread).find k = s._threads.find k := by
    intro k hk; rw [Table.find_erase, if_neg hk]
  have hnone : ∀ k u, s._threads.find k = some u → k ≠ NO_ACTIVE_THREAD := by
    intro k u hk e
    have := (hI.keys_range k u hk).1
    dsimp only [NO_ACTIVE_THREAD] at e
    omega
  constructor
  · exact hI.max_pos
  · simpa using hI.ids_len
  · dsimp only
    rw [Table.keys_erase]
    exact hI.keys_nodup.filter _
  · intro k u hk
    dsimp only at hk ⊢
    rw [Table.find_erase] at hk
    split at hk
    · cases hk
    · exact hI.keys_range k u hk
  · intro k k0 k1
    dsimp only [EMPTY_CELL] at k0 k1 ⊢
    rw [Table.find_erase, getD_set_int _ _ _ _ hlen]
    by_cases hk : k = s._runningThread
    · subst hk; simp
    · have : k.toNat ≠ s._runningThread.toNat := by omega
      simp only [this, hk, if_false]
      exact hI.ids_live k k0 k1
  · obtain ⟨u, hu⟩ := hI.main_live
    exact ⟨u, by dsimp only; rw [hfind_ne _ (Ne.symm hne)]; exact hu⟩
  · exact hI.ready_nodup
  · exact hI.block_nodup
  · exact hI.sleep_nodup
  · intro k hk
    obtain ⟨k1, u, hu, hst⟩ := hI.ready_state k hk
    exact ⟨hnone k u hu, u, by dsimp only; rw [hfind_ne k k1]; exact hu, hst⟩
  · intro k hk
    obtain ⟨k1, k2, u, hu, hst⟩ := hI.block_state k hk
    exact ⟨hnone k u hu, k2, u, by dsimp only; rw [hfind_ne k k1]; exact hu, hst⟩
  · intro k hk
    obtain ⟨k1, k2, u, hu, hst⟩ := hI.sleep_state k hk
    exact ⟨hnone k u hu, k2, u, by dsimp only; rw [hfind_ne k k1]; exact hu, hst⟩
  · intro k u hk _
    dsimp only at hk ⊢
    rw [Table.find_erase] at hk
    split at hk
    · cases hk
    · rename_i hkne
      exact hI.others k u hk hkne
  · intro k u hk _
    dsimp only at hk ⊢
    rw [Table.find_erase] at hk
    split at hk
    · cases hk
    · rename_i hkne
      exact hI.env_set k u hk hkne
  · show NO_ACTIVE_THREAD = NO_ACTIVE_THREAD
    rfl

theorem Table.find_update_ne (m : Table) {ID k : Int} (g : Thread → Thread) (h : k ≠ ID) :
    (m.update ID g).find k = m.find k := by
  rw [Table.find_update, if_neg h]

theorem Table.find_update_self (m : Table) {ID : Int} {t : Thread} (g : Thread → Thread)
    (h : m.find ID = some t) : (m.update ID g).find ID = some (g t) := by
  rw [Table.find_update, if_pos rfl, h]; rfl

theorem Table.find_update_eq_none (m : Table) (ID k : Int) (g : Thread → Thread) :
    (m.update ID g).find k = none ↔ m.find k = none := by
  rw [Table.find_update]
  split <;> simp

theorem Table.find_update_some (m : Table) (ID k : Int) (g : Thread → Thread) (u : Thread)
    (h : (m.update ID g).find k = some u) :
    ∃ t, m.find k = some t ∧ u = if k = ID then g t else t := by
  rw [Table.find_update] at h
  split at h
  · rename_i e
    cases hm : m.find k with
    | none => rw [hm] at h; cases h
    | some t => rw [hm] at h; cases h; exact ⟨t, rfl, by rw [if_pos e]⟩
  · rename_i e
    exact ⟨u, h, by rw [if_neg e]⟩

/-- Changes to a thread that touch neither its state nor (except by saving it) its
context, and changes to the counters, keep the invariant. -/
theorem Inv.of_same_states {s : Scheduler} (hI : Inv s) (ID : Int) (g : Thread → Thread)
    (hst : ∀ t, (g t)._state = t._state)
    (henv : ∀ t, (g t)._env = t._env ∨ (g t)._env = Env.saved)
    (total : Int) (del : Option Thread) :
    Inv { s with
          _threads := s._threads.update ID g
          _totalQuantumCounter := total
          _toDelete := del } := by
  have key : ∀ k u, (s._threads.update ID g).find k = some u →
      ∃ t, s._threads.find k = some t ∧ u._state = t._state ∧
        (u._env = t._env ∨ u._env = Env.saved) := by
    intro k u hk
    obtain ⟨t, ht, hu⟩ := Table.find_update_some _ _ _ _ _ hk
    refine ⟨t, ht, ?_⟩
    split at hu
    · subst hu; exact ⟨hst t, henv t⟩
    · subst hu; exact ⟨rfl, Or.inl rfl⟩
  have key2 : ∀ k t, s._threads.find k = some t →
      ∃ u, (s._threads.update ID g).find k = some u ∧ u._state = t._state := by
    intro k t hk
    rw [Table.find_update]
    split
    · exact ⟨g t, by rw [hk]; rfl, hst t⟩
    · exact ⟨t, hk, rfl⟩
  constructor
  · exact hI.max_pos
  · exact hI.ids_len
  · dsimp only; rw [Table.keys_update]; exact hI.keys_nodup
  · intro k u hk
    obtain ⟨t, ht, _⟩ := key k u hk
    exact hI.keys_range k t ht
  · intro k k0 k1
    dsimp only
    rw [Table.find_update_eq_none]
    exact hI.ids_live k k0 k1
  · obtain ⟨t, ht⟩ := hI.main_live
    obtain ⟨u, hu, _⟩ := key2 _ t ht
    exact ⟨u, hu⟩
  · exact hI.ready_nodup
  · exact hI.block_nodup
  · exact hI.sleep_nodup
  · intro k hk
    obtain ⟨k1, t, ht, h⟩ := hI.ready_state k hk
    obtain ⟨u, hu, hus⟩ := key2 _ t ht
    exact ⟨k1, u, hu, hus.trans h⟩
  · intro k hk
    obtain ⟨k1, k2, t, ht, h⟩ := hI.block_state k hk
    obtain ⟨u, hu, hus⟩ := key2 _ t ht
    exact ⟨k1, k2, u, hu, hus.trans h⟩
  · intro k hk
    obtain ⟨k1, k2, t, ht, h⟩ := hI.sleep_state k hk
    obtain ⟨u, hu, hus⟩ := key2 _ t ht
    exact ⟨k1, k2, u, hu, hus.trans h⟩
  · intro k u hk hkr
    obtain ⟨t, ht, hus, _⟩ := key k u hk
    rw [hus]
    exact hI.others k t ht hkr
  · intro k u hk hkr
    obtain ⟨t, ht, _, he⟩ := key k u hk
    rcases he with he | he
    · rw [he]; exact hI.env_set k t ht hkr
    · rw [he]; decide
  · have hr := hI.running
    show match s._currentScenario with
      | .ROUTINE => _ | .TOBLOCK => _ | .TOSLEEP => _ | .TOSELFREMOVE => _
    dsimp only
    cases hsc : s._currentScenario <;> rw [hsc] at hr <;> dsimp only at hr ⊢
    · obtain ⟨t, ht, h⟩ := hr
      obtain ⟨u, hu, hus⟩ := key2 _ t ht
      exact ⟨u, hu, by rw [hus]; exact h⟩
    · obtain ⟨h0, t, ht, h⟩ := hr
      obtain ⟨u, hu, hus⟩ := key2 _ t ht
      exact ⟨h0, u, hu, by rw [hus]; exact h⟩
    · obtain ⟨h0, t, ht, h⟩ := hr
      obtain ⟨u, hu, hus⟩ := key2 _ t ht
      exact ⟨h0, u, hu, by rw [hus]; exact h⟩
    · exact hr

/-- The invariant survives moving a ready thread to the blocked vector. -/
theorem Inv.move_ready_block {s : Scheduler} (hI : Inv s) {ID : Int} {t : Thread}
    (hf : s._threads.find ID = some t) (hst : t._state = state.READY)
    (hne : ID ≠ MAIN_THREAD_ID) (hnr : ID ≠ s._runningThread) :
    Inv { s with
          _threads := s._threads.update ID (fun t => t.setState state.BLOCKED)
          _blockThreads := s._blockThreads ++ [ID]
          _readyThreads := s._readyThreads.filter (fun k => k ≠ ID) } := by
  have hnb : ID ∉ s._blockThreads := by
    rw [hI.mem_block_iff hf hnr, hst]; decide
  have hns : ID ∉ s._sleepThreads := by
    rw [hI.mem_sleep_iff hf hnr, hst]; decide
  have hself := Table.find_update_self s._threads (fun t => t.setState state.BLOCKED) hf
  constructor
  · exact hI.max_pos
  · exact hI.ids_len
  · dsimp only; rw [Table.keys_update]; exact hI.keys_nodup
  · intro k u hk
    dsimp only at hk
    obtain ⟨v, hv, _⟩ := Table.find_update_some _ _ _ _ _ hk
    exact hI.keys_range k v hv
  · intro k k0 k1
    dsimp only
    rw [Table.find_update_eq_none]
    exact hI.ids_live k k0 k1
  · obtain ⟨u, hu⟩ := hI.main_live
    exact ⟨u, by dsimp only; rw [Table.find_update_ne _ _ (Ne.symm hne)]; exact hu⟩
  · exact hI.ready_nodup.filter _
  · exact List.Nodup.append hI.block_nodup (List.nodup_singleton _)
      (by simpa [List.disjoint_singleton] using hnb)
  · exact hI.sleep_nodup
  · intro k hk
    dsimp only at hk ⊢
    rw [mem_filter_ne] at hk
    rw [Table.find_update_ne _ _ hk.2]
    exact hI.ready_state k hk.1
  · intro k hk
    dsimp only at hk ⊢
    rcases List.mem_append.mp hk with hk | hk
    · have hkne : k ≠ ID := fun e => hnb (e ▸ hk)
      rw [Table.find_update_ne _ _ hkne]
      exact hI.block_state k hk
    · rw [List.mem_singleton] at hk
      subst hk
      exact ⟨hnr, hne, _, hself, rfl⟩
  · intro k hk
    dsimp only at hk ⊢
    have hkne : k ≠ ID := fun e => hns (e ▸ hk)
    rw [Table.find_update_ne _ _ hkne]
    exact hI.sleep_state k hk
  · intro k u hk hkr
    dsimp only at hk hkr ⊢
    by_cases hkne : k = ID
    · subst hkne
      rw [hself] at hk; cases hk
      exact Or.inr (Or.inl ⟨rfl, List.mem_append_right _ (List.mem_singleton_self _)⟩)
    · rw [Table.find_update_ne _ _ hkne] at hk
      rcases hI.others k u hk hkr with h | h | h
      · exact Or.inl ⟨h.1, (mem_filter_ne _ _ _).mpr ⟨h.2, hkne⟩⟩
      · exact Or.inr (Or.inl ⟨h.1, List.mem_append_left _ h.2⟩)
      · exact Or.inr (Or.inr h)
  · intro k u hk hkr
    dsimp only at hk hkr ⊢
    by_cases hkne : k = ID
    · subst hkne
      rw [hself] at hk; cases hk
      exact hI.env_set k t hf hkr
    · rw [Table.find_update_ne _ _ hkne] at hk
      exact hI.env_set k u hk hkr
  · have hr := hI.running
    show match s._currentScenario with
      | .ROUTINE => _ | .TOBLOCK => _ | .TOSLEEP => _ | .TOSELFREMOVE => _
    dsimp only
    rw [Table.find_update_ne _ _ (Ne.symm hnr)]
    exact hr

/-- The invariant survives moving a thread from a waiting vector (blocked or sleeping,
according to its state) to the tail of the ready vector. -/
theorem Inv.move_to_ready {s : Scheduler} (hI : Inv s) {ID : Int} {t : Thread}
    (hf : s._threads.find ID = some t)
    (hst : t._state = state.BLOCKED ∨ t._state = state.SLEEPING)
    (hnr : ID ≠ s._runningThread) :
    Inv { s with
          _threads := s._threads.update ID (fun t => t.setState state.READY)
          _readyThreads := s._readyThreads ++ [ID]
          _blockThreads := s._blockThreads.filter (fun k => k ≠ ID)
          _sleepThreads := s._sleepThreads.filter (fun k => k ≠ ID) } := by
  have hnb : ID ∉ s._readyThreads := by
    rw [hI.mem_ready_iff hf hnr]
    rcases hst with h | h <;> rw [h] <;> decide
  have hself := Table.find_update_self s._threads (fun t => t.setState state.READY) hf
  constructor
  · exact hI.max_pos
  · exact hI.ids_len
  · dsimp only; rw [Table.keys_update]; exact hI.keys_nodup
  · intro k u hk
    dsimp only at hk
    obtain ⟨v, hv, _⟩ := Table.find_update_some _ _ _ _ _ hk
    exact hI.keys_range k v hv
  · intro k k0 k1
    dsimp only
    rw [Table.find_update_eq_none]
    exact hI.ids_live k k0 k1
  · obtain ⟨u, hu⟩ := hI.main_live
    obtain ⟨w, hw, _⟩ : ∃ w, (s._threads.update ID
        (fun t => t.setState state.READY)).find MAIN_THREAD_ID = some w ∧ True := by
      rw [Table.find_update]
      split
      · exact ⟨_, by rw [hu]; rfl, trivial⟩
      · exact ⟨u, hu, trivial⟩
    exact ⟨w, hw⟩
  · exact List.Nodup.append hI.ready_nodup (List.nodup_singleton _)
      (by simpa [List.disjoint_singleton] using hnb)
  · exact hI.block_nodup.filter _
  · exact hI.sleep_nodup.filter _
  · intro k hk
    dsimp only at hk ⊢
    rcases List.mem_append.mp hk with hk | hk
    · have hkne : k ≠ ID := fun e => hnb (e ▸ hk)
      rw [Table.find_update_ne _ _ hkne]
      exact hI.ready_state k hk
    · rw [List.mem_singleton] at hk
      subst hk
      exact ⟨hnr, _, hself, rfl⟩
  · intro k hk
    dsimp only at hk ⊢
    rw [mem_filter_ne] at hk
    rw [Table.find_update_ne _ _ hk.2]
    exact hI.block_state k hk.1
  · intro k hk
    dsimp only at hk ⊢
    rw [mem_filter_ne] at hk
    rw [Table.find_update_ne _ _ hk.2]
    exact hI.sleep_state k hk.1
  · intro k u hk hkr
    dsimp only at hk hkr ⊢
    by_cases hkne : k = ID
    · subst hkne
      rw [hself] at hk; cases hk
      exact Or.inl ⟨rfl, List.mem_append_right _ (List.mem_singleton_self _)⟩
    · rw [Table.find_update_ne _ _ hkne] at hk
      rcases hI.others k u hk hkr with h | h | h
      · exact Or.inl ⟨h.1, List.mem_append_left _ h.2⟩
      · exact Or.inr (Or.inl ⟨h.1, (mem_filter_ne _ _ _).mpr ⟨h.2, hkne⟩⟩)
      · exact Or.inr (Or.inr ⟨h.1, (mem_filter_ne _ _ _).mpr ⟨h.2, hkne⟩⟩)
  · intro k u hk hkr
    dsimp only at hk hkr ⊢
    by_cases hkne : k = ID
    · subst hkne
      rw [hself] at hk; cases hk
      exact hI.env_set k t hf hkr
    · rw [Table.find_update_ne _ _ hkne] at hk
      exact hI.env_set k u hk hkr
  · have hr := hI.running
    show match s._currentScenario with
      | .ROUTINE => _ | .TOBLOCK => _ | .TOSLEEP => _ | .TOSELFREMOVE => _
    dsimp only
    rw [Table.find_update_ne _ _ (Ne.symm hnr)]
    exact hr

/-- The invariant survives the running thread marking itself blocked or sleeping. -/
theorem Inv.mark_running {s : Scheduler} (hI : Inv s)
    (hR : s._currentScenario = scenario.ROUTINE) (hne : s._runningThread ≠ MAIN_THREAD_ID)
    (g : Thread → Thread) (sc : scenario)
    (hsc : (sc = scenario.TOBLOCK ∧ ∀ t, (g t)._state = state.BLOCKED) ∨
           (sc = scenario.TOSLEEP ∧ ∀ t, (g t)._state = state.SLEEPING)) :
    Inv { s with
          _threads := s._threads.update s._runningThread g
          _currentScenario := sc } := by
  have hr := hI.running
  rw [hR] at hr
  obtain ⟨t, hf, _⟩ := hr
  have hself := Table.find_update_self s._threads g hf
  constructor
  · exact hI.max_pos
  · exact hI.ids_len
  · dsimp only; rw [Table.keys_update]; exact hI.keys_nodup
  · intro k u hk
    dsimp only at hk
    obtain ⟨v, hv, _⟩ := Table.find_update_some _ _ _ _ _ hk
    exact hI.keys_range k v hv
  · intro k k0 k1
    dsimp only
    rw [Table.find_update_eq_none]
    exact hI.ids_live k k0 k1
  · obtain ⟨u, hu⟩ := hI.main_live
    exact ⟨u, by dsimp only; rw [Table.find_update_ne _ _ (Ne.symm hne)]; exact hu⟩
  · exact hI.ready_nodup
  · exact hI.block_nodup
  · exact hI.sleep_nodup
  · intro k hk
    obtain ⟨k1, h⟩ := hI.ready_state k hk
    exact ⟨k1, by dsimp only; rw [Table.find_update_ne _ _ k1]; exact h⟩
  · intro k hk
    obtain ⟨k1, k2, h⟩ := hI.block_state k hk
    exact ⟨k1, k2, by dsimp only; rw [Table.find_update_ne _ _ k1]; exact h⟩
  · intro k hk
    obtain ⟨k1, k2, h⟩ := hI.sleep_state k hk
    exact ⟨k1, k2, by dsimp only; rw [Table.find_update_ne _ _ k1]; exact h⟩
  · intro k u hk hkr
    dsimp only at hk hkr ⊢
    rw [Table.find_update_ne _ _ hkr] at hk
    exact hI.others k u hk hkr
  · intro k u hk hkr
    dsimp only at hk hkr ⊢
    rw [Table.find_update_ne _ _ hkr] at hk
    exact hI.env_set k u hk hkr
  · rcases hsc with ⟨rfl, h⟩ | ⟨rfl, h⟩
    · exact ⟨hne, g t, hself, h t⟩
    · exact ⟨hne, g t, hself, h t⟩

theorem SleepFrame.refl (s : Scheduler) : SleepFrame s s :=
  ⟨rfl, rfl, rfl, rfl, rfl, rfl, rfl, rfl, ⟨[], by simp⟩, fun _ h => h, fun _ => Iff.rfl,
    fun _ _ => rfl⟩

theorem SleepFrame.trans {s s1 s2 : Scheduler} (h1 : SleepFrame s s1) (h2 : SleepFrame s1 s2) :
    SleepFrame s s2 := by
  obtain ⟨w1, hw1⟩ := h1.readyThreads
  obtain ⟨w2, hw2⟩ := h2.readyThreads
  exact
    { maxThreads := h2.maxThreads.trans h1.maxThreads
      stackSize := h2.stackSize.trans h1.stackSize
      idManagar := h2.idManagar.trans h1.idManagar
      currentScenario := h2.currentScenario.trans h1.currentScenario
      blockThreads := h2.blockThreads.trans h1.blockThreads
      runningThread := h2.runningThread.trans h1.runningThread
      totalQuantumCounter := h2.totalQuantumCounter.trans h1.totalQuantumCounter
      toDelete := h2.toDelete.trans h1.toDelete
      readyThreads := ⟨w1 ++ w2, by rw [hw2, hw1, List.append_assoc]⟩
      sleepThreads := fun k hk => h1.sleepThreads k (h2.sleepThreads k hk)
      live := fun k => (h2.live k).trans (h1.live k)
      others := fun k hk =>
        (h2.others k (fun hm => hk (h1.sleepThreads k hm))).trans (h1.others k hk) }

/-- One iteration of the loop of `_manageSleepingThreads`: the thread at the iterator
is decremented and, on reaching zero, moved to the tail of the ready vector. -/
theorem manageSleeping_body_spec {s : Scheduler} (hI : Inv s) {it : Nat}
    (hit : it < s._sleepThreads.length) :
    ∃ t, s._threads.find (s._sleepThreads.getD it 0) = some t ∧
      _manageSleepingThreads.body it s = Outcome.ret
        (if t._quantumsLeftToSleep - 1 = 0 then
          { s with
            _threads := (s._threads.update (s._sleepThreads.getD it 0)
                Thread.decrementQuantumsToSleep).update (s._sleepThreads.getD it 0)
                (fun t => t.setState state.READY)
            _readyThreads := s._readyThreads ++ [s._sleepThreads.getD it 0]
            _sleepThreads := s._sleepThreads.eraseIdx it }
        else
          { s with
            _threads := s._threads.update (s._sleepThreads.getD it 0)
                Thread.decrementQuantumsToSleep }) := by
  have hmem : s._sleepThreads.getD it 0 ∈ s._sleepThreads := by
    rw [List.getD_eq_getElem _ _ hit]; exact List.getElem_mem _
  obtain ⟨_, _, t, hf, _⟩ := hI.sleep_state _ hmem
  refine ⟨t, hf, ?_⟩
  have h1 := Table.find_update_self s._threads Thread.decrementQuantumsToSleep hf
  simp only [_manageSleepingThreads.body, Scheduler.modify, hf, Outcome.ret_bind,
    Scheduler.deref, h1, Thread.getQuantumsLeftToSleep, Thread.decrementQuantumsToSleep]
  by_cases hz : t._quantumsLeftToSleep - 1 = 0
  · simp [hz, _accessDBtoInsertAndDelete, Scheduler.setVec, Scheduler.vec, vecErase, hit]
  · simp [hz]

theorem manageSleeping_body_inv {s : Scheduler} (hI : Inv s) {it : Nat}
    (hit : it < s._sleepThreads.length) :
    ∃ s1, _manageSleepingThreads.body it s = Outcome.ret s1 ∧ Inv s1 ∧ SleepFrame s s1 ∧
      s1._sleepThreads.length ≤ s._sleepThreads.length := by
  obtain ⟨t, hf, hb⟩ := manageSleeping_body_spec hI hit
  have hmem : s._sleepThreads.getD it 0 ∈ s._sleepThreads := by
    rw [List.getD_eq_getElem _ _ hit]; exact List.getElem_mem _
  obtain ⟨hnr, _, u, hu, hst⟩ := hI.sleep_state _ hmem
  rw [hf] at hu; cases hu
  have hI1 := hI.of_same_states (s._sleepThreads.getD it 0) Thread.decrementQuantumsToSleep
    (fun _ => rfl) (fun _ => Or.inl rfl) s._totalQuantumCounter s._toDelete
  have h1 := Table.find_update_self s._threads Thread.decrementQuantumsToSleep hf
  refine ⟨_, hb, ?_⟩
  by_cases hz : t._quantumsLeftToSleep - 1 = 0
  · rw [if_pos hz]
    refine ⟨?_, ?_, ?_⟩
    · have hI2 := hI1.move_to_ready h1 (Or.inr hst) hnr
      have hnb : s._sleepThreads.getD it 0 ∉ s._blockThreads := by
        rw [hI.mem_block_iff hf hnr, hst]; decide
      dsimp only at hI2
      rw [filter_ne_of_not_mem _ _ hnb, ← eraseIdx_eq_filter _ _ hI.sleep_nodup hit] at hI2
      exact hI2
    · refine ⟨rfl, rfl, rfl, rfl, rfl, rfl, rfl, rfl, ⟨_, rfl⟩, ?_, ?_, ?_⟩
      · intro k hk
        exact (List.eraseIdx_sublist _ _).subset hk
      · intro k
        dsimp only
        rw [Table.find_update_eq_none, Table.find_update_eq_none]
      · intro k hk
        have hkne : k ≠ s._sleepThreads.getD it 0 := fun e => hk (e ▸ hmem)
        dsimp only
        rw [Table.find_update_ne _ _ hkne, Table.find_update_ne _ _ hkne]
    · exact (List.eraseIdx_sublist _ _).length_le
  · rw [if_neg hz]
    refine ⟨hI1, ?_, le_refl _⟩
    refine ⟨rfl, rfl, rfl, rfl, rfl, rfl, rfl, rfl, ⟨[], by simp⟩, fun _ h => h, ?_, ?_⟩
    · intro k
      dsimp only
      rw [Table.find_update_eq_none]
    · intro k hk
      have hkne : k ≠ s._sleepThreads.getD it 0 := fun e => hk (e ▸ hmem)
      dsimp only
      rw [Table.find_update_ne _ _ hkne]

/-- The loop of `_manageSleepingThreads` returns and keeps the invariant. -/
theorem manageSleeping_loop_inv :
    ∀ (n it : Nat) (s : Scheduler), Inv s →
      ∃ s1, _manageSleepingThreads.loop n it s = Outcome.ret s1 ∧ Inv s1 ∧ SleepFrame s s1 := by
  intro n
  induction n with
  | zero => intro it s hI; exact ⟨s, rfl, hI, SleepFrame.refl s⟩
  | succ n ih =>
    intro it s hI
    rw [_manageSleepingThreads.loop]
    by_cases hit : it < s._sleepThreads.length
    · obtain ⟨s1, hb, hI1, hF1, _⟩ := manageSleeping_body_inv hI hit
      obtain ⟨s2, hl, hI2, hF2⟩ := ih (it + 1) s1 hI1
      refine ⟨s2, ?_, hI2, hF1.trans hF2⟩
      simp [hit, hb, hl]
    · exact ⟨s, by simp [hit], hI, SleepFrame.refl s⟩

/-- The iteration bound of the loop is never what stops it: with `it + n` at least the
length of the sleeping vector, more iterations change nothing. -/
theorem manageSleeping_loop_bound_enough :
    ∀ (n it m : Nat) (s : Scheduler), Inv s → s._sleepThreads.length ≤ it + n →
      _manageSleepingThreads.loop (n + m) it s = _manageSleepingThreads.loop n it s := by
  intro n
  induction n with
  | zero =>
    intro it m s _ hlen
    have hit : ¬ it < s._sleepThreads.length := by omega
    cases m with
    | zero => rfl
    | succ m => simp [_manageSleepingThreads.loop, hit]
  | succ n ih =>
    intro it m s hI hlen
    have e : n + 1 + m = (n + m) + 1 := by omega
    rw [e, _manageSleepingThreads.loop, _manageSleepingThreads.loop]
    by_cases hit : it < s._sleepThreads.length
    · obtain ⟨s1, hb, hI1, _, hle⟩ := manageSleeping_body_inv hI hit
      simp only [hit, if_true, hb, Outcome.ret_bind]
      exact ih (it + 1) m s1 hI1 (by omega)
    · simp [hit]

theorem manageSleeping_inv {s : Scheduler} (hI : Inv s) :
    ∃ s1, _manageSleepingThreads s = Outcome.ret s1 ∧ Inv s1 ∧ SleepFrame s s1 :=
  manageSleeping_loop_inv _ 0 s hI

theorem Inv.live_ne_none {s : Scheduler} (hI : Inv s) {k : Int} {t : Thread}
    (hf : s._threads.find k = some t) : k ≠ NO_ACTIVE_THREAD := by
  intro e
  have := (hI.keys_range k t hf).1
  dsimp only [NO_ACTIVE_THREAD] at e
  omega

/-- Step of `manageThreads` for scenario `ROUTINE`: the outgoing thread joins the tail
of the ready vector; afterwards no thread is marked as running. -/
theorem Inv.requeue_routine {s : Scheduler} (hI : Inv s)
    (hR : s._currentScenario = scenario.ROUTINE) (g : Thread → Thread)
    (hst : ∀ t, (g t)._state = state.READY) (henv : ∀ t, (g t)._env ≠ Env.unset) :
    Inv { s with
          _readyThreads := s._readyThreads ++ [s._runningThread]
          _threads := s._threads.update s._runningThread g
          _runningThread := NO_ACTIVE_THREAD
          _currentScenario := scenario.TOSELFREMOVE } := by
  have hr := hI.running
  rw [hR] at hr
  obtain ⟨t, hf, _⟩ := hr
  have hself := Table.find_update_self s._threads g hf
  have hnm : s._runningThread ∉ s._readyThreads := fun hm => (hI.ready_state _ hm).1 rfl
  constructor
  · exact hI.max_pos
  · exact hI.ids_len
  · dsimp only; rw [Table.keys_update]; exact hI.keys_nodup
  · intro k u hk
    dsimp only at hk
    obtain ⟨v, hv, _⟩ := Table.find_update_some _ _ _ _ _ hk
    exact hI.keys_range k v hv
  · intro k k0 k1
    dsimp only
    rw [Table.find_update_eq_none]
    exact hI.ids_live k k0 k1
  · obtain ⟨u, hu⟩ := hI.main_live
    have : (s._threads.update s._runningThread g).find MAIN_THREAD_ID ≠ none := by
      rw [Ne, Table.find_update_eq_none, hu]; simp
    exact Option.ne_none_iff_exists'.mp this
  · exact List.Nodup.append hI.ready_nodup (List.nodup_singleton _)
      (by simpa [List.disjoint_singleton] using hnm)
  · exact hI.block_nodup
  · exact hI.sleep_nodup
  · intro k hk
    dsimp only at hk ⊢
    rcases List.mem_append.mp hk with hk | hk
    · obtain ⟨k1, u, hu, h⟩ := hI.ready_state k hk
      exact ⟨hI.live_ne_none hu, u, by rw [Table.find_update_ne _ _ k1]; exact hu, h⟩
    · rw [List.mem_singleton] at hk
      subst hk
      exact ⟨hI.live_ne_none hf, g t, hself, hst t⟩
  · intro k hk
    obtain ⟨k1, k2, u, hu, h⟩ := hI.block_state k hk
    exact ⟨hI.live_ne_none hu, k2, u, by dsimp only; rw [Table.find_update_ne _ _ k1]; exact hu, h⟩
  · intro k hk
    obtain ⟨k1, k2, u, hu, h⟩ := hI.sleep_state k hk
    exact ⟨hI.live_ne_none hu, k2, u, by dsimp only; rw [Table.find_update_ne _ _ k1]; exact hu, h⟩
  · intro k u hk _
    dsimp only at hk ⊢
    by_cases hko : k = s._runningThread
    · subst hko
      rw [hself] at hk; cases hk
      exact Or.inl ⟨hst t, List.mem_append_right _ (List.mem_singleton_self _)⟩
    · rw [Table.find_update_ne _ _ hko] at hk
      rcases hI.others k u hk hko with h | h | h
      · exact Or.inl ⟨h.1, List.mem_append_left _ h.2⟩
      · exact Or.inr (Or.inl h)
      · exact Or.inr (Or.inr h)
  · intro k u hk _
    dsimp only at hk ⊢
    by_cases hko : k = s._runningThread
    · subst hko
      rw [hself] at hk; cases hk
      exact henv t
    · rw [Table.find_update_ne _ _ hko] at hk
      exact hI.env_set k u hk hko
  · show NO_ACTIVE_THREAD = NO_ACTIVE_THREAD
    rfl

/-- Step of `manageThreads` for scenario `TOBLOCK`. -/
theorem Inv.requeue_block {s : Scheduler} (hI : Inv s)
    (hR : s._currentScenario = scenario.TOBLOCK) (g : Thread → Thread)
    (hst : ∀ t, (g t)._state = t._state) (henv : ∀ t, (g t)._env ≠ Env.unset) :
    Inv { s with
          _blockThreads := s._blockThreads ++ [s._runningThread]
          _threads := s._threads.update s._runningThread g
          _runningThread := NO_ACTIVE_THREAD
          _currentScenario := scenario.TOSELFREMOVE } := by
  have hr := hI.running
  rw [hR] at hr
  obtain ⟨hne, t, hf, hts⟩ := hr
  have hself := Table.find_update_self s._threads g hf
  have hnm : s._runningThread ∉ s._blockThreads := fun hm => (hI.block_state _ hm).1 rfl
  constructor
  · exact hI.max_pos
  · exact hI.ids_len
  · dsimp only; rw [Table.keys_update]; exact hI.keys_nodup
  · intro k u hk
    dsimp only at hk
    obtain ⟨v, hv, _⟩ := Table.find_update_some _ _ _ _ _ hk
    exact hI.keys_range k v hv
  · intro k k0 k1
    dsimp only
    rw [Table.find_update_eq_none]
    exact hI.ids_live k k0 k1
  · obtain ⟨u, hu⟩ := hI.main_live
    have : (s._threads.update s._runningThread g).find MAIN_THREAD_ID ≠ none := by
      rw [Ne, Table.find_update_eq_none, hu]; simp
    exact Option.ne_none_iff_exists'.mp this
  · exact hI.ready_nodup
  · exact List.Nodup.append hI.block_nodup (List.nodup_singleton _)
      (by simpa [List.disjoint_singleton] using hnm)
  · exact hI.sleep_nodup
  · intro k hk
    obtain ⟨k1, u, hu, h⟩ := hI.ready_state k hk
    exact ⟨hI.live_ne_none hu, u, by dsimp only; rw [Table.find_update_ne _ _ k1]; exact hu, h⟩
  · intro k hk
    dsimp only at hk ⊢
    rcases List.mem_append.mp hk with hk | hk
    · obtain ⟨k1, k2, u, hu, h⟩ := hI.block_state k hk
      exact ⟨hI.live_ne_none hu, k2, u, by rw [Table.find_update_ne _ _ k1]; exact hu, h⟩
    · rw [List.mem_singleton] at hk
      subst hk
      exact ⟨hI.live_ne_none hf, hne, g t, hself, (hst t).trans hts⟩
  · intro k hk
    obtain ⟨k1, k2, u, hu, h⟩ := hI.sleep_state k hk
    exact ⟨hI.live_ne_none hu, k2, u, by dsimp only; rw [Table.find_update_ne _ _ k1]; exact hu, h⟩
  · intro k u hk _
    dsimp only at hk ⊢
    by_cases hko : k = s._runningThread
    · subst hko
      rw [hself] at hk; cases hk
      exact Or.inr (Or.inl ⟨(hst t).trans hts,
        List.mem_append_right _ (List.mem_singleton_self _)⟩)
    · rw [Table.find_update_ne _ _ hko] at hk
      rcases hI.others k u hk hko with h | h | h
      · exact Or.inl h
      · exact Or.inr (Or.inl ⟨h.1, List.mem_append_left _ h.2⟩)
      · exact Or.inr (Or.inr h)
  · intro k u hk _
    dsimp only at hk ⊢
    by_cases hko : k = s._runningThread
    · subst hko
      rw [hself] at hk; cases hk
      exact henv t
    · rw [Table.find_update_ne _ _ hko] at hk
      exact hI.env_set k u hk hko
  · show NO_ACTIVE_THREAD = NO_ACTIVE_THREAD
    rfl

/-- Step of `manageThreads` for scenario `TOSLEEP`. -/
theorem Inv.requeue_sleep {s : Scheduler} (hI : Inv s)
    (hR : s._currentScenario = scenario.TOSLEEP) (g : Thread → Thread)
    (hst : ∀ t, (g t)._state = t._state) (henv : ∀ t, (g t)._env ≠ Env.unset) :
    Inv { s with
          _sleepThreads := s._sleepThreads ++ [s._runningThread]
          _threads := s._threads.update s._runningThread g
          _runningThread := NO_ACTIVE_THREAD
          _currentScenario := scenario.TOSELFREMOVE } := by
  have hr := hI.running
  rw [hR] at hr
  obtain ⟨hne, t, hf, hts⟩ := hr
  have hself := Table.find_update_self s._threads g hf
  have hnm : s._runningThread ∉ s._sleepThreads := fun hm => (hI.sleep_state _ hm).1 rfl
  constructor
  · exact hI.max_pos
  · exact hI.ids_len
  · dsimp only; rw [Table.keys_update]; exact hI.keys_nodup
  · intro k u hk
    dsimp only at hk
    obtain ⟨v, hv, _⟩ := Table.find_update_some _ _ _ _ _ hk
    exact hI.keys_range k v hv
  · intro k k0 k1
    dsimp only
    rw [Table.find_update_eq_none]
    exact hI.ids_live k k0 k1
  · obtain ⟨u, hu⟩ := hI.main_live
    have : (s._threads.update s._runningThread g).find MAIN_THREAD_ID ≠ none := by
      rw [Ne, Table.find_update_eq_none, hu]; simp
    exact Option.ne_none_iff_exists'.mp this
  · exact hI.ready_nodup
  · exact hI.block_nodup
  · exact List.Nodup.append hI.sleep_nodup (List.nodup_singleton _)
      (by simpa [List.disjoint_singleton] using hnm)
  · intro k hk
    obtain ⟨k1, u, hu, h⟩ := hI.ready_state k hk
    exact ⟨hI.live_ne_none hu, u, by dsimp only; rw [Table.find_update_ne _ _ k1]; exact hu, h⟩
  · intro k hk
    obtain ⟨k1, k2, u, hu, h⟩ := hI.block_state k hk
    exact ⟨hI.live_ne_none hu, k2, u, by dsimp only; rw [Table.find_update_ne _ _ k1]; exact hu, h⟩
  · intro k hk
    dsimp only at hk ⊢
    rcases List.mem_append.mp hk with hk | hk
    · obtain ⟨k1, k2, u, hu, h⟩ := hI.sleep_state k hk
      exact ⟨hI.live_ne_none hu, k2, u, by rw [Table.find_update_ne _ _ k1]; exact hu, h⟩
    · rw [List.mem_singleton] at hk
      subst hk
      exact ⟨hI.live_ne_none hf, hne, g t, hself, (hst t).trans hts⟩
  · intro k u hk _
    dsimp only at hk ⊢
    by_cases hko : k = s._runningThread
    · subst hko
      rw [hself] at hk; cases hk
      exact Or.inr (Or.inr ⟨(hst t).trans hts,
        List.mem_append_right _ (List.mem_singleton_self _)⟩)
    · rw [Table.find_update_ne _ _ hko] at hk
      rcases hI.others k u hk hko with h | h | h
      · exact Or.inl h
      · exact Or.inr (Or.inl h)
      · exact Or.inr (Or.inr ⟨h.1, List.mem_append_left _ h.2⟩)
  · intro k u hk _
    dsimp only at hk ⊢
    by_cases hko : k = s._runningThread
    · subst hko
      rw [hself] at hk; cases hk
      exact henv t
    · rw [Table.find_update_ne _ _ hko] at hk
      exact hI.env_set k u hk hko
  · show NO_ACTIVE_THREAD = NO_ACTIVE_THREAD
    rfl

/-- Dispatch: with every live thread queued, the head of the ready vector becomes the
running thread. `X` is the thread table after the switch. -/
theorem Inv.dispatch {s : Scheduler} (hI : Inv s) (hrun : s._runningThread = NO_ACTIVE_THREAD)
    {newThread : Int} {rest : List Int} (hready : s._readyThreads = newThread :: rest)
    (X : Table) (hkeys : X.map Prod.fst = s._threads.map Prod.fst)
    (hnew : ∃ u, X.find newThread = some u ∧ u._state = state.RUNNING)
    (hoth : ∀ k, k ≠ newThread → X.find k = s._threads.find k)
    (total : Int) (del : Option Thread) :
    Inv { s with
          _threads := X
          _readyThreads := rest
          _runningThread := newThread
          _currentScenario := scenario.ROUTINE
          _totalQuantumCounter := total
          _toDelete := del } := by
  have hnd : (newThread :: rest).Nodup := hready ▸ hI.ready_nodup
  rw [List.nodup_cons] at hnd
  have hmem : newThread ∈ s._readyThreads := by rw [hready]; exact List.mem_cons_self _ _
  obtain ⟨_, tn, htn, htns⟩ := hI.ready_state _ hmem
  have hlive : ∀ k, X.find k = none ↔ s._threads.find k = none := by
    intro k
    have h1 := Table.mem_keys_iff X k
    have h2 := Table.mem_keys_iff s._threads k
    rw [hkeys] at h1
    constructor
    · intro h; by_contra hc; exact (h1.mp (h2.mpr hc)) h
    · intro h; by_contra hc; exact (h2.mp (h1.mpr hc)) h
  have hner : ∀ k u, s._threads.find k = some u → k ≠ s._runningThread := by
    intro k u hk; rw [hrun]; exact hI.live_ne_none hk
  constructor
  · exact hI.max_pos
  · exact hI.ids_len
  · dsimp only; rw [hkeys]; exact hI.keys_nodup
  · intro k u hk
    dsimp only at hk ⊢
    by_cases hkn : k = newThread
    · subst hkn; exact hI.keys_range k tn htn
    · rw [hoth k hkn] at hk; exact hI.keys_range k u hk
  · intro k k0 k1
    dsimp only
    rw [hlive]
    exact hI.ids_live k k0 k1
  · obtain ⟨u, hu⟩ := hI.main_live
    have : X.find MAIN_THREAD_ID ≠ none := by
      rw [Ne, hlive, hu]; simp
    exact Option.ne_none_iff_exists'.mp this
  · exact hnd.2
  · exact hI.block_nodup
  · exact hI.sleep_nodup
  · intro k hk
    dsimp only at hk ⊢
    have hkn : k ≠ newThread := fun e => hnd.1 (e ▸ hk)
    obtain ⟨_, h⟩ := hI.ready_state k (by rw [hready]; exact List.mem_cons_of_mem _ hk)
    exact ⟨hkn, by rw [hoth k hkn]; exact h⟩
  · intro k hk
    dsimp only at hk ⊢
    obtain ⟨k1, k2, u, hu, h⟩ := hI.block_state k hk
    have hkn : k ≠ newThread := by
      intro e; subst e; rw [htn] at hu; cases hu; rw [htns] at h; cases h
    exact ⟨hkn, k2, u, by rw [hoth k hkn]; exact hu, h⟩
  · intro k hk
    dsimp only at hk ⊢
    obtain ⟨k1, k2, u, hu, h⟩ := hI.sleep_state k hk
    have hkn : k ≠ newThread := by
      intro e; subst e; rw [htn] at hu; cases hu; rw [htns] at h; cases h
    exact ⟨hkn, k2, u, by rw [hoth k hkn]; exact hu, h⟩
  · intro k u hk hkn
    dsimp only at hk hkn ⊢
    rw [hoth k hkn] at hk
    rcases hI.others k u hk (hner k u hk) with h | h | h
    · refine Or.inl ⟨h.1, ?_⟩
      have := h.2
      rw [hready] at this
      rcases List.mem_cons.mp this with e | e
      · exact absurd e hkn
      · exact e
    · exact Or.inr (Or.inl h)
    · exact Or.inr (Or.inr h)
  · intro k u hk hkn
    dsimp only at hk hkn ⊢
    rw [hoth k hkn] at hk
    exact hI.env_set k u hk (hner k u hk)
  · obtain ⟨u, hu, hus⟩ := hnew
    exact ⟨u, hu, Or.inl hus⟩

/-- What `_switchThreads` and the lines before it do once the new running thread is known. -/
theorem dispatch_spec {s : Scheduler} (oldThread : Int) {newThread : Int} {rest : List Int}
    {tn : Thread} (hready : s._readyThreads = newThread :: rest)
    (htn : s._threads.find newThread = some tn)
    (hold : oldThread = NO_ACTIVE_THREAD ∨ s._threads.find oldThread ≠ none)
    (henv : oldThread ≠ newThread → tn._env ≠ Env.unset)
    (hnn : newThread ≠ NO_ACTIVE_THREAD) :
    manageThreads.dispatch s oldThread = Outcome.ret
      { s with
        _runningThread := newThread
        _readyThreads := rest
        _threads :=
          if oldThread = NO_ACTIVE_THREAD then
            (s._threads.update newThread (fun t => t.setState state.RUNNING)).update newThread
              Thread.incrementQuantum
          else
            ((s._threads.update newThread (fun t => t.setState state.RUNNING)).update newThread
              Thread.incrementQuantum).update oldThread Thread.saveEnv
        _totalQuantumCounter := s._totalQuantumCounter + 1
        _toDelete := if oldThread = newThread ∨ tn._env = Env.saved then none
                     else s._toDelete } := by
  have h1 := Table.find_update_self s._threads (fun t => t.setState state.RUNNING) htn
  have h2 := Table.find_update_self _ Thread.incrementQuantum h1
  simp only [manageThreads.dispatch, hready, Scheduler.modify, htn, Outcome.ret_bind,
    _switchThreads, h1]
  by_cases ho : oldThread = NO_ACTIVE_THREAD
  · have hne : oldThread ≠ newThread := fun e => hnn (e ▸ ho)
    have hne2 := henv hne
    simp only [ho, if_true, Outcome.pure_eq_ret, Outcome.ret_bind, Scheduler.deref, h2]
    have hne3 : ¬ (NO_ACTIVE_THREAD = newThread) := fun e => hnn e.symm
    cases he : tn._env with
    | unset => exact absurd he hne2
    | entry => simp [Thread.incrementQuantum, Thread.setState, he, hne3]
    | saved => simp [Thread.incrementQuantum, Thread.setState, he]
  · have hlive : s._threads.find oldThread ≠ none := by
      rcases hold with h | h
      · exact absurd h ho
      · exact h
    have hlive2 : ((s._threads.update newThread (fun t => t.setState state.RUNNING)).update
        newThread Thread.incrementQuantum).find oldThread ≠ none := by
      rw [Ne, Table.find_update_eq_none, Table.find_update_eq_none]; exact hlive
    obtain ⟨to2, hto2⟩ := Option.ne_none_iff_exists'.mp hlive2
    simp only [ho, if_false, hto2, Outcome.ret_bind, Scheduler.deref]
    by_cases hon : oldThread = newThread
    · subst hon
      rw [h2] at hto2; cases hto2
      rw [Table.find_update_self _ Thread.saveEnv h2]
      simp [Thread.saveEnv]
    · rw [Table.find_update_ne _ _ (Ne.symm hon), h2]
      have hne2 := henv hon
      cases he : tn._env with
      | unset => exact absurd he hne2
      | entry => simp [Thread.incrementQuantum, Thread.setState, he, hon]
      | saved => simp [Thread.incrementQuantum, Thread.setState, he]

theorem Inv.main_mem_ready {s : Scheduler} (hI : Inv s)
    (hne : s._runningThread ≠ MAIN_THREAD_ID) : MAIN_THREAD_ID ∈ s._readyThreads := by
  obtain ⟨t, ht⟩ := hI.main_live
  rcases hI.others _ t ht (Ne.symm hne) with h | h | h
  · exact h.2
  · exact absurd rfl (hI.block_state _ h.2).2.1
  · exact absurd rfl (hI.sleep_state _ h.2).2.1

/-- The call of `manageThreads` with nothing pending: the running thread goes to the tail of the
ready vector and the head of the vector is dispatched. -/
theorem manageThreads_routine {s : Scheduler} (hI : Inv s)
    (hR : s._currentScenario = scenario.ROUTINE) :
    ∃ s1 newThread rest tn,
      _manageSleepingThreads s = Outcome.ret s1 ∧ Inv s1 ∧ SleepFrame s s1 ∧
      s1._readyThreads ++ [s._runningThread] = newThread :: rest ∧
      s1._threads.find newThread = some tn ∧
      manageThreads s = Outcome.ret
        { s1 with
          _currentScenario := scenario.ROUTINE
          _runningThread := newThread
          _readyThreads := rest
          _threads := (((s1._threads.update s._runningThread
              (fun t => t.setState state.READY)).update newThread
              (fun t => t.setState state.RUNNING)).update newThread
              Thread.incrementQuantum).update s._runningThread Thread.saveEnv
          _totalQuantumCounter := s1._totalQuantumCounter + 1
          _toDelete := if s._runningThread = newThread ∨ tn._env = Env.saved then none
                       else s1._toDelete } ∧
      Inv
        { s1 with
          _currentScenario := scenario.ROUTINE
          _runningThread := newThread
          _readyThreads := rest
          _threads := (((s1._threads.update s._runningThread
              (fun t => t.setState state.READY)).update newThread
              (fun t => t.setState state.RUNNING)).update newThread
              Thread.incrementQuantum).update s._runningThread Thread.saveEnv
          _totalQuantumCounter := s1._totalQuantumCounter + 1
          _toDelete := if s._runningThread = newThread ∨ tn._env = Env.saved then none
                       else s1._toDelete } := by
  obtain ⟨s1, hs1, hI1, hF⟩ := manageSleeping_inv hI
  have hsc1 : s1._currentScenario = scenario.ROUTINE := hF.currentScenario.trans hR
  have hrun1 : s1._runningThread = s._runningThread := hF.runningThread
  have hr := hI1.running
  rw [hsc1] at hr
  obtain ⟨t, hf, _⟩ := hr
  rw [hrun1] at hf
  obtain ⟨newThread, rest, hq⟩ : ∃ n r, s1._readyThreads ++ [s._runningThread] = n :: r := by
    cases s1._readyThreads with
    | nil => exact ⟨_, _, rfl⟩
    | cons a l => exact ⟨a, l ++ [s._runningThread], rfl⟩
  have hmem : newThread ∈ s1._readyThreads ++ [s._runningThread] := by
    rw [hq]; exact List.mem_cons_self _ _
  obtain ⟨tn, htn⟩ : ∃ tn, s1._threads.find newThread = some tn := by
    rcases List.mem_append.mp hmem with h | h
    · obtain ⟨_, u, hu, _⟩ := hI1.ready_state _ h
      exact ⟨u, hu⟩
    · rw [List.mem_singleton] at h; subst h; exact ⟨t, hf⟩
  have hold : s._runningThread ≠ NO_ACTIVE_THREAD := hI1.live_ne_none hf
  have henv : s._runningThread ≠ newThread → tn._env ≠ Env.unset := by
    intro hne
    rcases List.mem_append.mp hmem with h | h
    · exact hI1.env_set _ tn htn (hrun1 ▸ (hI1.ready_state _ h).1)
    · rw [List.mem_singleton] at h; exact absurd h.symm hne
  -- the state after the `switch` statement
  have hstep : manageThreads.scenarioStep s1 s._runningThread = Outcome.ret
      { s1 with
        _readyThreads := s1._readyThreads ++ [s._runningThread]
        _threads := s1._threads.update s._runningThread (fun t => t.setState state.READY) } := by
    simp [manageThreads.scenarioStep, hsc1, Scheduler.modify, hf]
  obtain ⟨tn2, htn2, henv2⟩ : ∃ tn2, (s1._threads.update s._runningThread
      (fun t => t.setState state.READY)).find newThread = some tn2 ∧ tn2._env = tn._env := by
    rw [Table.find_update, htn]
    split
    · exact ⟨_, rfl, rfl⟩
    · exact ⟨_, rfl, rfl⟩
  have hdisp := dispatch_spec
    (s := { s1 with
        _readyThreads := s1._readyThreads ++ [s._runningThread]
        _threads := s1._threads.update s._runningThread (fun t => t.setState state.READY) })
    s._runningThread hq htn2
    (Or.inr (by rw [Ne, Table.find_update_eq_none, hf]; simp))
    (by rw [henv2]; exact henv) (hI1.live_ne_none htn)
  refine ⟨s1, newThread, rest, tn, hs1, hI1, hF, hq, htn, ?_, ?_⟩
  · simp only [manageThreads, hs1, Outcome.ret_bind, hstep, hdisp, hold, if_false, henv2]
    simp [hsc1]
  · have hJ := hI1.requeue_routine hsc1 (fun t => (t.setState state.READY).saveEnv)
      (fun _ => rfl) (fun _ => by simp [Thread.saveEnv])
    rw [hrun1] at hJ
    exact hJ.dispatch rfl hq _
      (by simp only [Table.keys_update])
      (by
        rw [Table.find_update, Table.find_update_self _ _
          (Table.find_update_self _ _ htn2)]
        split
        · exact ⟨_, rfl, rfl⟩
        · exact ⟨_, rfl, rfl⟩)
      (by
        intro k hk
        simp only [Table.find_update, hk, if_false]
        split
        · simp [Option.map_map, Function.comp_def]
        · rfl) _ _

/-- The call of `manageThreads` after the running thread blocked itself: it joins the blocked
vector and the head of the ready vector is dispatched. -/
theorem manageThreads_toblock {s : Scheduler} (hI : Inv s)
    (hR : s._currentScenario = scenario.TOBLOCK) :
    ∃ s1 newThread rest tn,
      _manageSleepingThreads s = Outcome.ret s1 ∧ Inv s1 ∧ SleepFrame s s1 ∧
      s1._readyThreads = newThread :: rest ∧
      s1._threads.find newThread = some tn ∧ newThread ≠ s._runningThread ∧
      manageThreads s = Outcome.ret
        { s1 with
          _currentScenario := scenario.ROUTINE
          _runningThread := newThread
          _readyThreads := rest
          _blockThreads := s1._blockThreads ++ [s._runningThread]
          _threads := ((s1._threads.update newThread
              (fun t => t.setState state.RUNNING)).update newThread
              Thread.incrementQuantum).update s._runningThread Thread.saveEnv
          _totalQuantumCounter := s1._totalQuantumCounter + 1
          _toDelete := if tn._env = Env.saved then none else s1._toDelete } ∧
      Inv
        { s1 with
          _currentScenario := scenario.ROUTINE
          _runningThread := newThread
          _readyThreads := rest
          _blockThreads := s1._blockThreads ++ [s._runningThread]
          _threads := ((s1._threads.update newThread
              (fun t => t.setState state.RUNNING)).update newThread
              Thread.incrementQuantum).update s._runningThread Thread.saveEnv
          _totalQuantumCounter := s1._totalQuantumCounter + 1
          _toDelete := if tn._env = Env.saved then none else s1._toDelete } := by
  obtain ⟨s1, hs1, hI1, hF⟩ := manageSleeping_inv hI
  have hsc1 : s1._currentScenario = scenario.TOBLOCK := hF.currentScenario.trans hR
  have hrun1 : s1._runningThread = s._runningThread := hF.runningThread
  have hr := hI1.running
  rw [hsc1] at hr
  obtain ⟨hne0, t, hf, _⟩ := hr
  have hmain := hI1.main_mem_ready hne0
  rw [hrun1] at hf
  obtain ⟨newThread, rest, hq⟩ : ∃ n r, s1._readyThreads = n :: r := by
    cases hl : s1._readyThreads with
    | nil => rw [hl] at hmain; simp at hmain
    | cons a l => exact ⟨a, l, rfl⟩
  have hmem : newThread ∈ s1._readyThreads := by
    rw [hq]; exact List.mem_cons_self _ _
  obtain ⟨hnr, tn, htn, _⟩ := hI1.ready_state _ hmem
  rw [hrun1] at hnr
  have hold : s._runningThread ≠ NO_ACTIVE_THREAD := hI1.live_ne_none hf
  have henv : tn._env ≠ Env.unset := hI1.env_set _ tn htn (hrun1 ▸ hnr)
  have hstep : manageThreads.scenarioStep s1 s._runningThread = Outcome.ret
      { s1 with
        _blockThreads := s1._blockThreads ++ [s._runningThread]
        _currentScenario := scenario.ROUTINE } := by
    simp [manageThreads.scenarioStep, hsc1]
  have hdisp := dispatch_spec
    (s := { s1 with
        _blockThreads := s1._blockThreads ++ [s._runningThread]
        _currentScenario := scenario.ROUTINE })
    s._runningThread hq htn (Or.inr (by rw [hf]; simp))
    (fun _ => henv) (hI1.live_ne_none htn)
  refine ⟨s1, newThread, rest, tn, hs1, hI1, hF, hq, htn, hnr, ?_, ?_⟩
  · simp only [manageThreads, hs1, Outcome.ret_bind, hstep, hdisp, hold, if_false]
    simp [Ne.symm hnr]
  · have hJ := hI1.requeue_block hsc1 Thread.saveEnv (fun _ => rfl)
      (fun _ => by simp [Thread.saveEnv])
    rw [hrun1] at hJ
    exact hJ.dispatch rfl hq _
      (by simp only [Table.keys_update])
      (by
        rw [Table.find_update_ne _ _ hnr, Table.find_update_self _ _
          (Table.find_update_self _ _ htn)]
        exact ⟨_, rfl, rfl⟩)
      (by
        intro k hk
        simp only [Table.find_update, hk, if_false]) _ _

/-- The call of `manageThreads` after the running thread put itself to sleep: it joins the
sleeping vector and the head of the ready vector is dispatched. -/
theorem manageThreads_tosleep {s : Scheduler} (hI : Inv s)
    (hR : s._currentScenario = scenario.TOSLEEP) :
    ∃ s1 newThread rest tn,
      _manageSleepingThreads s = Outcome.ret s1 ∧ Inv s1 ∧ SleepFrame s s1 ∧
      s1._readyThreads = newThread :: rest ∧
      s1._threads.find newThread = some tn ∧ newThread ≠ s._runningThread ∧
      manageThreads s = Outcome.ret
        { s1 with
          _currentScenario := scenario.ROUTINE
          _runningThread := newThread
          _readyThreads := rest
          _sleepThreads := s1._sleepThreads ++ [s._runningThread]
          _threads := ((s1._threads.update newThread
              (fun t => t.setState state.RUNNING)).update newThread
              Thread.incrementQuantum).update s._runningThread Thread.saveEnv
          _totalQuantumCounter := s1._totalQuantumCounter + 1
          _toDelete := if tn._env = Env.saved then none else s1._toDelete } ∧
      Inv
        { s1 with
          _currentScenario := scenario.ROUTINE
          _runningThread := newThread
          _readyThreads := rest
          _sleepThreads := s1._sleepThreads ++ [s._runningThread]
          _threads := ((s1._threads.update newThread
              (fun t => t.setState state.RUNNING)).update newThread
              Thread.incrementQuantum).update s._runningThread Thread.saveEnv
          _totalQuantumCounter := s1._totalQuantumCounter + 1
          _toDelete := if tn._env = Env.saved then none else s1._toDelete } := by
  obtain ⟨s1, hs1, hI1, hF⟩ := manageSleeping_inv hI
  have hsc1 : s1._currentScenario = scenario.TOSLEEP := hF.currentScenario.trans hR
  have hrun1 : s1._runningThread = s._runningThread := hF.runningThread
  have hr := hI1.running
  rw [hsc1] at hr
  obtain ⟨hne0, t, hf, _⟩ := hr
  have hmain := hI1.main_mem_ready hne0
  rw [hrun1] at hf
  obtain ⟨newThread, rest, hq⟩ : ∃ n r, s1._readyThreads = n :: r := by
    cases hl : s1._readyThreads with
    | nil => rw [hl] at hmain; simp at hmain
    | cons a l => exact ⟨a, l, rfl⟩
  have hmem : newThread ∈ s1._readyThreads := by
    rw [hq]; exact List.mem_cons_self _ _
  obtain ⟨hnr, tn, htn, _⟩ := hI1.ready_state _ hmem
  rw [hrun1] at hnr
  have hold : s._runningThread ≠ NO_ACTIVE_THREAD := hI1.live_ne_none hf
  have henv : tn._env ≠ Env.unset := hI1.env_set _ tn htn (hrun1 ▸ hnr)
  have hstep : manageThreads.scenarioStep s1 s._runningThread = Outcome.ret
      { s1 with
        _sleepThreads := s1._sleepThreads ++ [s._runningThread]
        _currentScenario := scenario.ROUTINE } := by
    simp [manageThreads.scenarioStep, hsc1]
  have hdisp := dispatch_spec
    (s := { s1 with
        _sleepThreads := s1._sleepThreads ++ [s._runningThread]
        _currentScenario := scenario.ROUTINE })
    s._runningThread hq htn (Or.inr (by rw [hf]; simp))
    (fun _ => henv) (hI1.live_ne_none htn)
  refine ⟨s1, newThread, rest, tn, hs1, hI1, hF, hq, htn, hnr, ?_, ?_⟩
  · simp only [manageThreads, hs1, Outcome.ret_bind, hstep, hdisp, hold, if_false]
    simp [Ne.symm hnr]
  · have hJ := hI1.requeue_sleep hsc1 Thread.saveEnv (fun _ => rfl)
      (fun _ => by simp [Thread.saveEnv])
    rw [hrun1] at hJ
    exact hJ.dispatch rfl hq _
      (by simp only [Table.keys_update])
      (by
        rw [Table.find_update_ne _ _ hnr, Table.find_update_self _ _
          (Table.find_update_self _ _ htn)]
        exact ⟨_, rfl, rfl⟩)
      (by
        intro k hk
        simp only [Table.find_update, hk, if_false]) _ _

/-- The call of `manageThreads` after the running thread removed itself: nothing is requeued and
the head of the ready vector is dispatched without saving a context. -/
theorem manageThreads_toselfremove {s : Scheduler} (hI : Inv s)
    (hR : s._currentScenario = scenario.TOSELFREMOVE) :
    ∃ s1 newThread rest tn,
      _manageSleepingThreads s = Outcome.ret s1 ∧ Inv s1 ∧ SleepFrame s s1 ∧
      s1._readyThreads = newThread :: rest ∧
      s1._threads.find newThread = some tn ∧
      manageThreads s = Outcome.ret
        { s1 with
          _currentScenario := scenario.ROUTINE
          _runningThread := newThread
          _readyThreads := rest
          _threads := (s1._threads.update newThread
              (fun t => t.setState state.RUNNING)).update newThread Thread.incrementQuantum
          _totalQuantumCounter := s1._totalQuantumCounter + 1
          _toDelete := if tn._env = Env.saved then none else s1._toDelete } ∧
      Inv
        { s1 with
          _currentScenario := scenario.ROUTINE
          _runningThread := newThread
          _readyThreads := rest
          _threads := (s1._threads.update newThread
              (fun t => t.setState state.RUNNING)).update newThread Thread.incrementQuantum
          _totalQuantumCounter := s1._totalQuantumCounter + 1
          _toDelete := if tn._env = Env.saved then none else s1._toDelete } := by
  obtain ⟨s1, hs1, hI1, hF⟩ := manageSleeping_inv hI
  have hsc1 : s1._currentScenario = scenario.TOSELFREMOVE := hF.currentScenario.trans hR
  have hrun1 : s1._runningThread = s._runningThread := hF.runningThread
  have hr := hI1.running
  rw [hsc1] at hr
  have hr : s1._runningThread = NO_ACTIVE_THREAD := hr
  have hne0 : s1._runningThread ≠ MAIN_THREAD_ID := by rw [hr]; decide
  have hmain := hI1.main_mem_ready hne0
  obtain ⟨newThread, rest, hq⟩ : ∃ n r, s1._readyThreads = n :: r := by
    cases hl : s1._readyThreads with
    | nil => rw [hl] at hmain; simp at hmain
    | cons a l => exact ⟨a, l, rfl⟩
  have hmem : newThread ∈ s1._readyThreads := by
    rw [hq]; exact List.mem_cons_self _ _
  obtain ⟨hnr, tn, htn, _⟩ := hI1.ready_state _ hmem
  have hold : s._runningThread = NO_ACTIVE_THREAD := hrun1 ▸ hr
  have henv : tn._env ≠ Env.unset := hI1.env_set _ tn htn hnr
  have hnn : newThread ≠ NO_ACTIVE_THREAD := hI1.live_ne_none htn
  have hstep : manageThreads.scenarioStep s1 s._runningThread = Outcome.ret
      { s1 with _currentScenario := scenario.ROUTINE } := by
    simp [manageThreads.scenarioStep, hsc1]
  have hdisp := dispatch_spec
    (s := { s1 with _currentScenario := scenario.ROUTINE })
    s._runningThread hq htn (Or.inl hold) (fun _ => henv) hnn
  refine ⟨s1, newThread, rest, tn, hs1, hI1, hF, hq, htn, ?_, ?_⟩
  · rw [hold] at hstep hdisp
    simp only [manageThreads, hs1, Outcome.ret_bind, hold, hstep, hdisp, if_true]
    simp [Ne.symm hnn]
  · exact hI1.dispatch hr hq _
      (by simp only [Table.keys_update])
      (by
        rw [Table.find_update_self _ _ (Table.find_update_self _ _ htn)]
        exact ⟨_, rfl, rfl⟩)
      (by
        intro k hk
        simp only [Table.find_update, hk, if_false]) _ _

/-- From any state satisfying the invariant `manageThreads` returns, in a state that
satisfies the invariant and has no scenario pending. -/
theorem manageThreads_inv {s : Scheduler} (hI : Inv s) :
    ∃ s2, manageThreads s = Outcome.ret s2 ∧ Inv s2 ∧
      s2._currentScenario = scenario.ROUTINE ∧ s2._maxThreads = s._maxThreads := by
  cases hsc : s._currentScenario with
  | ROUTINE =>
    obtain ⟨s1, n, r, tn, _, _, hF, _, _, h, hI2⟩ := manageThreads_routine hI hsc
    exact ⟨_, h, hI2, rfl, hF.maxThreads⟩
  | TOBLOCK =>
    obtain ⟨s1, n, r, tn, _, _, hF, _, _, _, h, hI2⟩ := manageThreads_toblock hI hsc
    exact ⟨_, h, hI2, rfl, hF.maxThreads⟩
  | TOSLEEP =>
    obtain ⟨s1, n, r, tn, _, _, hF, _, _, _, h, hI2⟩ := manageThreads_tosleep hI hsc
    exact ⟨_, h, hI2, rfl, hF.maxThreads⟩
  | TOSELFREMOVE =>
    obtain ⟨s1, n, r, tn, _, _, hF, _, _, h, hI2⟩ := manageThreads_toselfremove hI hsc
    exact ⟨_, h, hI2, rfl, hF.maxThreads⟩

theorem Inv.running_live {s : Scheduler} (hI : Inv s)
    (hR : s._currentScenario = scenario.ROUTINE) :
    ∃ t, s._threads.find s._runningThread = some t ∧
      (t._state = state.RUNNING ∨
        (s._runningThread = MAIN_THREAD_ID ∧ t._state = state.READY)) := by
  have hr := hI.running
  rw [hR] at hr
  exact hr

theorem Inv.absent_ne_running {s : Scheduler} (hI : Inv s)
    (hR : s._currentScenario = scenario.ROUTINE) {ID : Int}
    (hf : s._threads.find ID = none) : ID ≠ s._runningThread := by
  intro e
  obtain ⟨t, ht, _⟩ := hI.running_live hR
  rw [← e, hf] at ht
  cases ht

/-! ### `removeThread` -/

theorem removeThread_absent {s : Scheduler} (hI : Inv s)
    (hR : s._currentScenario = scenario.ROUTINE) {ID : Int} (h1 : 1 ≤ ID)
    (h2 : ID < s._maxThreads) (hf : s._threads.find ID = none) :
    removeThread s ID = Outcome.ret (FAILURE, s) := by
  have hne : ¬ ID = 0 := by omega
  have hnr := hI.absent_ne_running hR hf
  simp [removeThread, hne, getVectorOfThread_absent hI (by omega) h2 hf, hnr,
    badIDChecker_of_range hI (by omega : (0 : Int) ≤ ID) h2]

theorem removeThread_other {s : Scheduler} (hI : Inv s) {ID : Int} {t : Thread}
    (hf : s._threads.find ID = some t) (hne : ID ≠ MAIN_THREAD_ID)
    (hnr : ID ≠ s._runningThread) :
    removeThread s ID = Outcome.ret (SUCCESS,
      { s with
        _readyThreads := s._readyThreads.filter (fun k => k ≠ ID)
        _sleepThreads := s._sleepThreads.filter (fun k => k ≠ ID)
        _blockThreads := s._blockThreads.filter (fun k => k ≠ ID)
        _toDelete := some t
        _threads := s._threads.erase ID
        _idManagar := s._idManagar.set ID.toNat EMPTY_CELL }) := by
  obtain ⟨h0, h1⟩ := hI.keys_range ID t hf
  have hlen : ID < s._idManagar.length := by rw [hI.ids_len]; exact h1
  have hne0 : ¬ ID = 0 := hne
  have hw := cellWrite_of_lt s._idManagar ID EMPTY_CELL h0 hlen
  rcases hI.others ID t hf hnr with ⟨hst, hm⟩ | ⟨hst, hm⟩ | ⟨hst, hm⟩
  · have hb : ID ∉ s._blockThreads := by rw [hI.mem_block_iff hf hnr, hst]; decide
    have hs : ID ∉ s._sleepThreads := by rw [hI.mem_sleep_iff hf hnr, hst]; decide
    rw [filter_ne_of_not_mem _ _ hb, filter_ne_of_not_mem _ _ hs]
    simp [removeThread, hne0, getVectorOfThread_live hI hf hne, hst, _removeThreadHelper,
      hnr, _getIterOfThread, Scheduler.vec, Scheduler.setVec,
      vecErase_getIter _ _ hI.ready_nodup hm, _deleteID, hw, hf]
  · have hb : ID ∉ s._readyThreads := by rw [hI.mem_ready_iff hf hnr, hst]; decide
    have hs : ID ∉ s._sleepThreads := by rw [hI.mem_sleep_iff hf hnr, hst]; decide
    rw [filter_ne_of_not_mem _ _ hb, filter_ne_of_not_mem _ _ hs]
    simp [removeThread, hne0, getVectorOfThread_live hI hf hne, hst, _removeThreadHelper,
      hnr, _getIterOfThread, Scheduler.vec, Scheduler.setVec,
      vecErase_getIter _ _ hI.block_nodup hm, _deleteID, hw, hf]
  · have hb : ID ∉ s._readyThreads := by rw [hI.mem_ready_iff hf hnr, hst]; decide
    have hs : ID ∉ s._blockThreads := by rw [hI.mem_block_iff hf hnr, hst]; decide
    rw [filter_ne_of_not_mem _ _ hb, filter_ne_of_not_mem _ _ hs]
    simp [removeThread, hne0, getVectorOfThread_live hI hf hne, hst, _removeThreadHelper,
      hnr, _getIterOfThread, Scheduler.vec, Scheduler.setVec,
      vecErase_getIter _ _ hI.sleep_nodup hm, _deleteID, hw, hf]

theorem removeThread_self {s : Scheduler} (hI : Inv s)
    (hR : s._currentScenario = scenario.ROUTINE) {t : Thread}
    (hf : s._threads.find s._runningThread = some t)
    (hne : s._runningThread ≠ MAIN_THREAD_ID) :
    removeThread s s._runningThread = Outcome.ret (SUCCESS,
      { s with
        _runningThread := NO_ACTIVE_THREAD
        _toDelete := some t
        _threads := s._threads.erase s._runningThread
        _idManagar := s._idManagar.set s._runningThread.toNat EMPTY_CELL
        _currentScenario := scenario.TOSELFREMOVE }) := by
  obtain ⟨h0, h1⟩ := hI.keys_range _ t hf
  have hlen : s._runningThread < s._idManagar.length := by rw [hI.ids_len]; exact h1
  have hne0 : ¬ s._runningThread = 0 := hne
  have hw := cellWrite_of_lt s._idManagar _ EMPTY_CELL h0 hlen
  obtain ⟨u, hu, hst⟩ := hI.running_live hR
  rw [hf] at hu; cases hu
  have hst : t._state = state.RUNNING := by
    rcases hst with h | h
    · exact h
    · exact absurd h.1 hne
  simp [removeThread, hne0, getVectorOfThread_live hI hf hne, hst, _removeThreadHelper,
    _deleteID, hw, hf]

/-- `removeThread` of the main thread does not return. -/
theorem removeThread_main_ne_ret (s : Scheduler) (p : Int × Scheduler) :
    removeThread s MAIN_THREAD_ID ≠ Outcome.ret p := by
  intro h
  unfold removeThread at h
  rw [if_pos rfl] at h
  cases hk : _killProcess s <;> rw [hk] at h <;> cases h

/-- Whatever `removeThread` returns, the invariant holds afterwards. -/
theorem removeThread_inv {s : Scheduler} (hI : Inv s)
    (hR : s._currentScenario = scenario.ROUTINE) {ID r : Int} {s1 : Scheduler}
    (h : removeThread s ID = Outcome.ret (r, s1)) :
    Inv s1 ∧ s1._maxThreads = s._maxThreads := by
  by_cases hne : ID = MAIN_THREAD_ID
  · subst hne
    exact absurd h (removeThread_main_ne_ret s _)
  by_cases hrange : 0 ≤ ID ∧ ID < s._maxThreads
  · cases hf : s._threads.find ID with
    | none =>
      have h1 : 1 ≤ ID := by
        have : ID ≠ 0 := hne
        omega
      rw [removeThread_absent hI hR h1 hrange.2 hf] at h
      cases h
      exact ⟨hI, rfl⟩
    | some t =>
      by_cases hnr : ID = s._runningThread
      · subst hnr
        rw [removeThread_self hI hR hf hne] at h
        cases h
        exact ⟨hI.remove_self hf hne, rfl⟩
      · rw [removeThread_other hI hf hne hnr] at h
        cases h
        exact ⟨hI.remove_other hf hne hnr, rfl⟩
  · have hne0 : ¬ ID = 0 := hne
    simp [removeThread, hne0, getVectorOfThread_out hI hrange] at h

/-! ### `blockThread` -/

theorem blockThread_main (s : Scheduler) :
    blockThread s MAIN_THREAD_ID = Outcome.ret (FAILURE, s) := by
  simp [blockThread]

theorem blockThread_absent {s : Scheduler} (hI : Inv s)
    (hR : s._currentScenario = scenario.ROUTINE) {ID : Int} (h1 : 1 ≤ ID)
    (h2 : ID < s._maxThreads) (hf : s._threads.find ID = none) :
    blockThread s ID = Outcome.ret (FAILURE, s) := by
  have hne : ¬ ID = 0 := by omega
  have hnr := hI.absent_ne_running hR hf
  simp [blockThread, hne, getVectorOfThread_absent hI (by omega) h2 hf, hnr,
    badIDChecker_of_range hI (by omega : (0 : Int) ≤ ID) h2]

theorem blockThread_ready {s : Scheduler} (hI : Inv s) {ID : Int} {t : Thread}
    (hf : s._threads.find ID = some t) (hst : t._state = state.READY)
    (hne : ID ≠ MAIN_THREAD_ID) (hnr : ID ≠ s._runningThread) :
    blockThread s ID = Outcome.ret (SUCCESS,
      { s with
        _threads := s._threads.update ID (fun t => t.setState state.BLOCKED)
        _blockThreads := s._blockThreads ++ [ID]
        _readyThreads := s._readyThreads.filter (fun k => k ≠ ID) }) := by
  have hne0 : ¬ ID = 0 := hne
  have hm : ID ∈ s._readyThreads := (hI.mem_ready_iff hf hnr).mpr hst
  simp [blockThread, hne0, hnr, getVectorOfThread_live hI hf hne, hst, Scheduler.threadAt, hf,
    Thread.getState, Scheduler.modify, _getIterOfThread, Scheduler.vec,
    _accessDBtoInsertAndDelete, Scheduler.setVec, vecErase_getIter _ _ hI.ready_nodup hm]

theorem blockThread_waiting {s : Scheduler} (hI : Inv s) {ID : Int} {t : Thread}
    (hf : s._threads.find ID = some t)
    (hst : t._state = state.BLOCKED ∨ t._state = state.SLEEPING)
    (hne : ID ≠ MAIN_THREAD_ID) (hnr : ID ≠ s._runningThread) :
    blockThread s ID = Outcome.ret (SUCCESS, s) := by
  have hne0 : ¬ ID = 0 := hne
  rcases hst with hst | hst <;>
  simp [blockThread, hne0, hnr, getVectorOfThread_live hI hf hne, hst, Scheduler.threadAt, hf,
    Thread.getState]

theorem blockThread_self {s : Scheduler} {t : Thread}
    (hf : s._threads.find s._runningThread = some t)
    (hne : s._runningThread ≠ MAIN_THREAD_ID) :
    blockThread s s._runningThread = Outcome.ret (SUCCESS,
      { s with
        _threads := s._threads.update s._runningThread (fun t => t.setState state.BLOCKED)
        _currentScenario := scenario.TOBLOCK }) := by
  have hne0 : ¬ s._runningThread = 0 := hne
  simp [blockThread, hne0, Scheduler.modify, hf]

theorem blockThread_inv {s : Scheduler} (hI : Inv s)
    (hR : s._currentScenario = scenario.ROUTINE) {ID r : Int} {s1 : Scheduler}
    (h : blockThread s ID = Outcome.ret (r, s1)) :
    Inv s1 ∧ s1._maxThreads = s._maxThreads := by
  by_cases hne : ID = MAIN_THREAD_ID
  · subst hne
    rw [blockThread_main] at h; cases h; exact ⟨hI, rfl⟩
  by_cases hnr : ID = s._runningThread
  · subst hnr
    obtain ⟨t, hf, _⟩ := hI.running_live hR
    rw [blockThread_self hf hne] at h
    cases h
    exact ⟨hI.mark_running hR hne _ _ (Or.inl ⟨rfl, fun _ => rfl⟩), rfl⟩
  by_cases hrange : 0 ≤ ID ∧ ID < s._maxThreads
  · cases hf : s._threads.find ID with
    | none =>
      have h1 : 1 ≤ ID := by
        have : ID ≠ 0 := hne
        omega
      rw [blockThread_absent hI hR h1 hrange.2 hf] at h
      cases h
      exact ⟨hI, rfl⟩
    | some t =>
      rcases hI.others ID t hf hnr with ⟨hst, _⟩ | ⟨hst, _⟩ | ⟨hst, _⟩
      · rw [blockThread_ready hI hf hst hne hnr] at h
        cases h
        exact ⟨hI.move_ready_block hf hst hne hnr, rfl⟩
      · rw [blockThread_waiting hI hf (Or.inl hst) hne hnr] at h
        cases h
        exact ⟨hI, rfl⟩
      · rw [blockThread_waiting hI hf (Or.inr hst) hne hnr] at h
        cases h
        exact ⟨hI, rfl⟩
  · have hne0 : ¬ ID = 0 := hne
    simp [blockThread, hne0, hnr, getVectorOfThread_out hI hrange] at h

/-! ### `resumeThread` -/

theorem resumeThread_absent {s : Scheduler} (hI : Inv s)
    (hR : s._currentScenario = scenario.ROUTINE) {ID : Int} (h1 : 0 ≤ ID)
    (h2 : ID < s._maxThreads) (hf : s._threads.find ID = none) :
    resumeThread s ID = Outcome.ret (FAILURE, s) := by
  have hnr := hI.absent_ne_running hR hf
  simp [resumeThread, getVectorOfThread_absent hI h1 h2 hf, hnr,
    badIDChecker_of_range hI h1 h2]

theorem resumeThread_blocked {s : Scheduler} (hI : Inv s) {ID : Int} {t : Thread}
    (hf : s._threads.find ID = some t) (hst : t._state = state.BLOCKED)
    (hnr : ID ≠ s._runningThread) :
    resumeThread s ID = Outcome.ret (SUCCESS,
      { s with
        _threads := s._threads.update ID (fun t => t.setState state.READY)
        _readyThreads := s._readyThreads ++ [ID]
        _blockThreads := s._blockThreads.filter (fun k => k ≠ ID) }) := by
  have hm : ID ∈ s._blockThreads := (hI.mem_block_iff hf hnr).mpr hst
  have hne : ID ≠ MAIN_THREAD_ID := (hI.block_state ID hm).2.1
  simp [resumeThread, hnr, getVectorOfThread_live hI hf hne, hst, Scheduler.threadAt, hf,
    Thread.getState, Scheduler.modify, _getIterOfThread, Scheduler.vec,
    _accessDBtoInsertAndDelete, Scheduler.setVec, vecErase_getIter _ _ hI.block_nodup hm]

theorem resumeThread_inv {s : Scheduler} (hI : Inv s)
    (hR : s._currentScenario = scenario.ROUTINE) {ID r : Int} {s1 : Scheduler}
    (h : resumeThread s ID = Outcome.ret (r, s1)) :
    Inv s1 ∧ s1._maxThreads = s._maxThreads := by
  by_cases hrange : 0 ≤ ID ∧ ID < s._maxThreads
  · cases hf : s._threads.find ID with
    | none =>
      rw [resumeThread_absent hI hR hrange.1 hrange.2 hf] at h
      cases h
      exact ⟨hI, rfl⟩
    | some t =>
      by_cases hb : t._state = state.BLOCKED ∧ ID ≠ s._runningThread
      · rw [resumeThread_blocked hI hf hb.1 hb.2] at h
        cases h
        have hnr := hb.2
        have := hI.move_to_ready hf (Or.inl hb.1) hnr
        have hns : ID ∉ s._sleepThreads := by
          rw [hI.mem_sleep_iff hf hnr, hb.1]; decide
        rw [filter_ne_of_not_mem _ _ hns] at this
        exact ⟨this, rfl⟩
      · -- every other path returns before the state is touched
        have hs1 : s1 = s := by
          simp only [resumeThread, Outcome.bind_eq_ret] at h
          obtain ⟨v, _, h⟩ := h
          split at h
          · simp only [Outcome.bind_eq_ret] at h
            obtain ⟨_, _, h⟩ := h
            cases h; rfl
          · simp only [Scheduler.threadAt, hf, Outcome.ret_bind, Thread.getState] at h
            split at h
            · cases h; rfl
            · rename_i hv hc
              exfalso
              have hstb : t._state = state.BLOCKED := by
                cases hst : t._state <;> simp [hst] at hc ⊢
              have hnr : ID ≠ s._runningThread := by
                intro e
                obtain ⟨u, hu, hus⟩ := hI.running_live hR
                rw [← e, hf] at hu; cases hu
                rw [hstb] at hus
                rcases hus with hus | hus
                · cases hus
                · cases hus.2
              exact hb ⟨hstb, hnr⟩
        subst hs1
        exact ⟨hI, rfl⟩
  · simp [resumeThread, getVectorOfThread_out hI hrange] at h

/-! ### `sleepThread` -/

theorem sleepThread_rejected (s : Scheduler) (num_quantums : Int)
    (h : s._runningThread = MAIN_THREAD_ID ∨ num_quantums < 0) :
    sleepThread s num_quantums = Outcome.ret (FAILURE, s) := by
  by_cases h1 : s._runningThread = MAIN_THREAD_ID
  · simp [sleepThread, h1]
  · rcases h with h | h
    · exact absurd h h1
    · simp [sleepThread, h1, h]

theorem sleepThread_accepted {s : Scheduler} {t : Thread} {num_quantums : Int}
    (hf : s._threads.find s._runningThread = some t)
    (hne : s._runningThread ≠ MAIN_THREAD_ID) (hq : ¬ num_quantums < 0) :
    sleepThread s num_quantums = Outcome.ret (SUCCESS,
      { s with
        _threads := ((s._threads.update s._runningThread
            (fun t => t.setState state.SLEEPING)).update s._runningThread
            (fun t => t.setQuantumsToSleep num_quantums)).update s._runningThread
            (fun t => t.setQuantumsLeftToSleep num_quantums)
        _currentScenario := scenario.TOSLEEP }) := by
  have hne0 : ¬ s._runningThread = 0 := hne
  have h1 := Table.find_update_self s._threads (fun t => t.setState state.SLEEPING) hf
  have h2 := Table.find_update_self _ (fun t => t.setQuantumsToSleep num_quantums) h1
  simp [sleepThread, hne0, hq, Scheduler.modify, hf, h1, h2]

theorem sleepThread_inv {s : Scheduler} (hI : Inv s)
    (hR : s._currentScenario = scenario.ROUTINE) {n r : Int} {s1 : Scheduler}
    (h : sleepThread s n = Outcome.ret (r, s1)) :
    Inv s1 ∧ s1._maxThreads = s._maxThreads := by
  by_cases hrej : s._runningThread = MAIN_THREAD_ID ∨ n < 0
  · rw [sleepThread_rejected s n hrej] at h
    cases h; exact ⟨hI, rfl⟩
  · push_neg at hrej
    obtain ⟨t, hf, _⟩ := hI.running_live hR
    rw [sleepThread_accepted hf hrej.1 (not_lt.mpr hrej.2)] at h
    cases h
    have h1 := hI.mark_running hR hrej.1 (fun t => t.setState state.SLEEPING)
      scenario.TOSLEEP (Or.inr ⟨rfl, fun _ => rfl⟩)
    have h2 := h1.of_same_states s._runningThread (fun t => t.setQuantumsToSleep n)
      (fun _ => rfl) (fun _ => Or.inl rfl) s._totalQuantumCounter s._toDelete
    have h3 := h2.of_same_states s._runningThread (fun t => t.setQuantumsLeftToSleep n)
      (fun _ => rfl) (fun _ => Or.inl rfl) s._totalQuantumCounter s._toDelete
    exact ⟨h3, rfl⟩

/-! ### The queries -/

theorem getTimeToWakeUp_state {s : Scheduler} {ID r : Int} {s1 : Scheduler}
    (h : getTimeToWakeUp s ID = Outcome.ret (r, s1)) : s1 = s := by
  simp only [getTimeToWakeUp, Outcome.bind_eq_ret] at h
  obtain ⟨v, _, h⟩ := h
  split at h
  · simp only [Outcome.bind_eq_ret] at h
    obtain ⟨_, _, h⟩ := h
    cases h; rfl
  · simp only [Outcome.bind_eq_ret] at h
    obtain ⟨_, _, h⟩ := h
    split at h <;> (cases h; rfl)

theorem getNumOfQuantums_state {s : Scheduler} {ID r : Int} {s1 : Scheduler}
    (h : getNumOfQuantums s ID = Outcome.ret (r, s1)) : s1 = s := by
  simp only [getNumOfQuantums, Outcome.bind_eq_ret] at h
  obtain ⟨v, _, h⟩ := h
  split at h
  · simp only [Outcome.bind_eq_ret] at h
    obtain ⟨_, _, h⟩ := h
    cases h; rfl
  · simp only [Outcome.bind_eq_ret] at h
    obtain ⟨_, _, h⟩ := h
    cases h; rfl

theorem getTimeToWakeUp_absent {s : Scheduler} (hI : Inv s)
    (hR : s._currentScenario = scenario.ROUTINE) {ID : Int} (h1 : 0 ≤ ID)
    (h2 : ID < s._maxThreads) (hf : s._threads.find ID = none) :
    getTimeToWakeUp s ID = Outcome.ret (FAILURE, s) := by
  have hnr := hI.absent_ne_running hR hf
  simp [getTimeToWakeUp, getVectorOfThread_absent hI h1 h2 hf, hnr,
    badIDChecker_of_range hI h1 h2]

theorem getNumOfQuantums_absent {s : Scheduler} (hI : Inv s)
    (hR : s._currentScenario = scenario.ROUTINE) {ID : Int} (h1 : 1 ≤ ID)
    (h2 : ID < s._maxThreads) (hf : s._threads.find ID = none) :
    getNumOfQuantums s ID = Outcome.ret (FAILURE, s) := by
  have hnr := hI.absent_ne_running hR hf
  have hne : ¬ ID = 0 := by omega
  simp [getNumOfQuantums, getVectorOfThread_absent hI (by omega) h2 hf, hnr, hne,
    badIDChecker_of_range hI (by omega : (0 : Int) ≤ ID) h2]

/-! ### The constructor -/

theorem getD_replicate (n i : Nat) (v : Int) (h : i < n) :
    (List.replicate n v).getD i 0 = v := by
  rw [List.getD_eq_getElem _ _ (by simpa using h)]
  simp

theorem ctor_spec (maxThreads stackSize : Int) (h : 0 < maxThreads) :
    Scheduler.ctor maxThreads stackSize = Outcome.ret
      { _maxThreads := maxThreads
        _stackSize := stackSize
        _idManagar := (List.replicate maxThreads.toNat EMPTY_CELL).set 0 0
        _currentScenario := scenario.ROUTINE
        _threads := [(0, (Thread.ctor 0 stackSize none).incrementQuantum)]
        _readyThreads := []
        _sleepThreads := []
        _blockThreads := []
        _runningThread := 0
        _totalQuantumCounter := 1
        _toDelete := none } := by
  have h1 : ¬ maxThreads ≤ 0 := by omega
  have h2 : ¬ (0 : Int) = maxThreads := by omega
  have hloop := getNewID_loop_spec (List.replicate maxThreads.toNat EMPTY_CELL) 0
    (by simp; omega) (getD_replicate _ _ _ (by omega)) (by intro i hi; omega)
    maxThreads.toNat 0 (le_refl _) (by omega)
  have h0 : ((0 : Nat) : Int) = 0 := rfl
  rw [h0] at hloop
  simp [Scheduler.ctor, h1, addThread, h2, _getNewID, hloop, Table.insert, Scheduler.modify,
    Table.update]

theorem ctor_pos {maxThreads stackSize : Int} {s : Scheduler}
    (h : Scheduler.ctor maxThreads stackSize = Outcome.ret s) : 0 < maxThreads := by
  by_contra hc
  have h1 : maxThreads ≤ 0 := by omega
  simp [Scheduler.ctor, h1] at h

theorem ctor_inv {maxThreads stackSize : Int} {s : Scheduler}
    (h : Scheduler.ctor maxThreads stackSize = Outcome.ret s) :
    Inv s ∧ s._currentScenario = scenario.ROUTINE ∧ s._maxThreads = maxThreads := by
  have hpos := ctor_pos h
  rw [ctor_spec maxThreads stackSize hpos] at h
  cases h
  refine ⟨?_, rfl, rfl⟩
  have hlen : 0 < (List.replicate maxThreads.toNat EMPTY_CELL).length := by simp; omega
  constructor
  · exact hpos
  · simp; omega
  · simp
  · intro k t hk
    simp only [Table.find_cons, Table.find_nil] at hk
    split at hk
    · subst_vars; exact ⟨le_refl _, hpos⟩
    · cases hk
  · intro k k0 k1
    dsimp only [EMPTY_CELL] at k0 k1 ⊢
    simp only [Table.find_cons, Table.find_nil, getD_set_int _ _ _ _ hlen]
    by_cases hk : k = 0
    · subst hk; simp
    · have : k.toNat ≠ 0 := by omega
      have hlt : k.toNat < maxThreads.toNat := by omega
      rw [if_neg this, if_neg (Ne.symm hk), getD_replicate _ _ _ hlt]
      simp
  · exact ⟨_, rfl⟩
  · exact List.nodup_nil
  · exact List.nodup_nil
  · exact List.nodup_nil
  · intro k hk; simp at hk
  · intro k hk; simp at hk
  · intro k hk; simp at hk
  · intro k t hk hkr
    simp only [Table.find_cons, Table.find_nil] at hk
    split at hk
    · subst_vars; exact absurd rfl hkr
    · cases hk
  · intro k t hk hkr
    simp only [Table.find_cons, Table.find_nil] at hk
    split at hk
    · subst_vars; exact absurd rfl hkr
    · cases hk
  · exact ⟨_, rfl, Or.inr ⟨rfl, rfl⟩⟩

/-! ### Library calls -/

theorem addThread_inv {s : Scheduler} (hI : Inv s) {f : FunctionPointer} (hfn : f ≠ none)
    {r : Int} {s1 : Scheduler} (h : addThread s f = Outcome.ret (r, s1)) :
    Inv s1 ∧ s1._maxThreads = s._maxThreads ∧
      s1._currentScenario = s._currentScenario := by
  by_cases hfull : (s._threads.length : Int) = s._maxThreads
  · rw [addThread_full f hfull] at h
    cases h; exact ⟨hI, rfl, rfl⟩
  · obtain ⟨j, hj, hf, _, hadd⟩ := addThread_free hI f hfull
    rw [hadd] at h
    cases h
    rw [if_pos hfn]
    exact ⟨hI.addThread f hfn j hj hf, rfl, rfl⟩

/-- Whatever a member function called through the library returns, the invariant
holds afterwards. -/
theorem Call.run_inv {s : Scheduler} (hI : Inv s)
    (hR : s._currentScenario = scenario.ROUTINE) {c : Call} (hc : c.wellFormed)
    {r : Int} {s1 : Scheduler} (h : c.run s = Outcome.ret (r, s1)) :
    Inv s1 ∧ s1._maxThreads = s._maxThreads := by
  cases c with
  | uthread_spawn f =>
    obtain ⟨h1, h2, _⟩ := addThread_inv hI hc h
    exact ⟨h1, h2⟩
  | uthread_terminate tid => exact removeThread_inv hI hR h
  | uthread_block tid => exact blockThread_inv hI hR h
  | uthread_resume tid => exact resumeThread_inv hI hR h
  | uthread_sleep n => exact sleepThread_inv hI hR h
  | uthread_get_time_until_wakeup tid =>
    rw [getTimeToWakeUp_state h]; exact ⟨hI, rfl⟩
  | uthread_get_tid =>
    simp only [Call.run, Outcome.pure_eq_ret, Outcome.ret.injEq, Prod.mk.injEq] at h
    rw [← h.2]; exact ⟨hI, rfl⟩
  | uthread_get_total_quantums =>
    simp only [Call.run, Outcome.pure_eq_ret, Outcome.ret.injEq, Prod.mk.injEq] at h
    rw [← h.2]; exact ⟨hI, rfl⟩
  | uthread_get_quantums tid =>
    rw [getNumOfQuantums_state h]; exact ⟨hI, rfl⟩

theorem invoke_member_function_inv {s : Scheduler} (hI : Inv s)
    (hR : s._currentScenario = scenario.ROUTINE) {c : Call} (hc : c.wellFormed)
    {r : Int} {s2 : Scheduler} (h : invoke_member_function s c = Outcome.ret (r, s2)) :
    Inv s2 ∧ s2._currentScenario = scenario.ROUTINE ∧ s2._maxThreads = s._maxThreads := by
  simp only [invoke_member_function, Outcome.bind_eq_ret] at h
  obtain ⟨⟨r1, s1⟩, hrun, h⟩ := h
  obtain ⟨hI1, hm1⟩ := Call.run_inv hI hR hc hrun
  dsimp only at h
  split at h
  · obtain ⟨s3, hm, hI3, hR3, hmax⟩ := manageThreads_inv hI1
    rw [hm] at h
    cases h
    exact ⟨hI3, hR3, hmax.trans hm1⟩
  · rename_i hsc
    cases h
    exact ⟨hI1, by simpa [getScenario] using hsc, hm1⟩

/-- Every reachable state satisfies the invariant and has no scenario pending. -/
theorem Reachable.inv {maxThreads stackSize : Int} {s : Scheduler}
    (h : Reachable maxThreads stackSize s) :
    Inv s ∧ s._currentScenario = scenario.ROUTINE ∧ s._maxThreads = maxThreads := by
  induction h with
  | init h => exact ctor_inv h
  | call _ hc hstep ih =>
    obtain ⟨hI, hR, hm⟩ := ih
    obtain ⟨h1, h2, h3⟩ := invoke_member_function_inv hI hR hc hstep
    exact ⟨h1, h2, h3.trans hm⟩
  | tick _ hstep ih =>
    obtain ⟨hI, hR, hm⟩ := ih
    obtain ⟨s3, hm3, hI3, hR3, hmax⟩ := manageThreads_inv hI
    rw [hm3] at hstep
    cases hstep
    exact ⟨hI3, hR3, hmax.trans hm⟩

/-! ## Reachability of the sample runs -/

theorem Outcome.eq_ret_getD {α : Type} {o : Outcome α} (h : o.returns = true) (d : α) :
    o = Outcome.ret (o.getD d) := by
  cases o <;> simp [Outcome.returns, Outcome.getD] at h ⊢

theorem constructed_reachable (maxThreads stackSize : Int) (h : 0 < maxThreads) :
    Reachable maxThreads stackSize (constructed maxThreads stackSize) :=
  Reachable.init (ctor_spec maxThreads stackSize h)

theorem after_reachable {maxThreads stackSize : Int} {s : Scheduler}
    (h : Reachable maxThreads stackSize s) (c : Call) (hc : c.wellFormed)
    (hr : (invoke_member_function s c).returns = true) :
    Reachable maxThreads stackSize (after s c) :=
  Reachable.call h hc (Outcome.eq_ret_getD hr (0, s))

theorem afterTick_reachable {maxThreads stackSize : Int} {s : Scheduler}
    (h : Reachable maxThreads stackSize s) (hr : (manageThreads s).returns = true) :
    Reachable maxThreads stackSize (afterTick s) :=
  Reachable.tick h (Outcome.eq_ret_getD hr s)

theorem spawn_wellFormed (a : Nat) : (Call.uthread_spawn (some a)).wellFormed := by
  simp [Call.wellFormed]

set_option maxRecDepth 100000 in
theorem run100Spawned_reachable : Reachable 100 4096 run100Spawned :=
  after_reachable (after_reachable (constructed_reachable 100 4096 (by decide)) _
    (spawn_wellFormed 1) (by decide)) _ (spawn_wellFormed 2) (by decide)

set_option maxRecDepth 100000 in
theorem run100Terminated_reachable : Reachable 100 4096 run100Terminated :=
  after_reachable run100Spawned_reachable _ trivial (by decide)

theorem run2Full_reachable : Reachable 2 4096 run2Full :=
  after_reachable (constructed_reachable 2 4096 (by decide)) _ (spawn_wellFormed 1) (by decide)

theorem run4One_reachable : Reachable 4 4096 run4One :=
  after_reachable (constructed_reachable 4 4096 (by decide)) _ (spawn_wellFormed 1) (by decide)

theorem run4Two_reachable : Reachable 4 4096 run4Two :=
  after_reachable run4One_reachable _ (spawn_wellFormed 2) (by decide)

theorem run4Ticked_reachable : Reachable 4 4096 run4Ticked :=
  afterTick_reachable run4Two_reachable (by decide)

theorem run4Asleep_reachable : Reachable 4 4096 run4Asleep :=
  after_reachable run4Ticked_reachable _ trivial (by decide)

/-! ## The claims -/

/-- C1: in every reachable state `addThread` returns, and when it succeeds (its result
is not `FAILURE`) the id it returns is the smallest integer of `[0, maxThreads)` that
is not the id of a live thread. In particular, with `MAX_THREAD_NUM = 100`, two spawns
return 1 and 2 and after `terminate(1)` the next spawn returns 1. -/
theorem C1_addThread_smallest_free_id {maxThreads stackSize : Int} {s : Scheduler}
    (h : Reachable maxThreads stackSize s) (f : FunctionPointer) :
    (∃ r s1, addThread s f = Outcome.ret (r, s1) ∧
      (r ≠ FAILURE →
        0 ≤ r ∧ r < maxThreads ∧ s._threads.find r = none ∧
        ∀ i : Int, 0 ≤ i → i < r → s._threads.find i ≠ none)) ∧
    invoke_member_function (constructed 100 4096) (.uthread_spawn (some 1)) =
      Outcome.ret (1, after (constructed 100 4096) (.uthread_spawn (some 1))) ∧
    invoke_member_function (after (constructed 100 4096) (.uthread_spawn (some 1)))
      (.uthread_spawn (some 2)) = Outcome.ret (2, run100Spawned) ∧
    invoke_member_function run100Spawned (.uthread_terminate 1) =
      Outcome.ret (SUCCESS, run100Terminated) ∧
    invoke_member_function run100Terminated (.uthread_spawn (some 3)) =
      Outcome.ret (1, after run100Terminated (.uthread_spawn (some 3))) := by
  obtain ⟨hI, _, hmax⟩ := h.inv
  refine ⟨?_, by decide, by decide, by decide, by decide⟩
  by_cases hfull : (s._threads.length : Int) = s._maxThreads
  · exact ⟨FAILURE, s, addThread_full f hfull, fun hne => absurd rfl hne⟩
  · obtain ⟨j, hj, hf, hmin, hadd⟩ := addThread_free hI f hfull
    refine ⟨j, _, hadd, fun _ => ⟨by positivity, hmax ▸ hj, hf, ?_⟩⟩
    intro i h0 h1
    have := hmin i.toNat (by omega)
    rwa [Int.toNat_of_nonneg h0] at this

/-- C1 at the state reached by spawn, spawn, `terminate(1)`. -/
theorem C1_addThread_smallest_free_id_witness :
    Reachable 100 4096 run100Terminated ∧
    ∃ r s1, addThread run100Terminated (some 3) = Outcome.ret (r, s1) ∧
      (r ≠ FAILURE →
        0 ≤ r ∧ r < 100 ∧ run100Terminated._threads.find r = none ∧
        ∀ i : Int, 0 ≤ i → i < r → run100Terminated._threads.find i ≠ none) :=
  ⟨run100Terminated_reachable,
    (C1_addThread_smallest_free_id run100Terminated_reachable (some 3)).1⟩

theorem Inv.length_erase_main {s : Scheduler} (hI : Inv s) :
    (s._threads.erase MAIN_THREAD_ID).length + 1 = s._threads.length := by
  have h1 : (s._threads.erase MAIN_THREAD_ID).length =
      ((s._threads.map Prod.fst).erase MAIN_THREAD_ID).length := by
    rw [erase_eq_filter_ne _ _ hI.keys_nodup, ← Table.keys_erase, List.length_map]
  obtain ⟨t, ht⟩ := hI.main_live
  have hm : MAIN_THREAD_ID ∈ s._threads.map Prod.fst := by
    rw [Table.mem_keys_iff, ht]; simp
  rw [h1, List.length_erase_of_mem hm]
  have : 0 < (s._threads.map Prod.fst).length := List.length_pos_of_mem hm
  rw [List.length_map] at this ⊢
  omega

/-- C2: in every reachable state `addThread` returns; it returns `FAILURE` (-1) exactly
when the thread table holds `maxThreads` threads, which are then the main thread and
`maxThreads - 1` others, and in that case the whole scheduler state is unchanged. -/
theorem C2_addThread_full_table {maxThreads stackSize : Int} {s : Scheduler}
    (h : Reachable maxThreads stackSize s) (f : FunctionPointer) :
    ∃ r s1, addThread s f = Outcome.ret (r, s1) ∧
      (r = FAILURE ↔ (s._threads.length : Int) = maxThreads) ∧
      (r = FAILURE → s1 = s) ∧
      ((s._threads.length : Int) = maxThreads →
        (∃ t, s._threads.find MAIN_THREAD_ID = some t) ∧
        ((s._threads.erase MAIN_THREAD_ID).length : Int) = maxThreads - 1) := by
  obtain ⟨hI, _, hmax⟩ := h.inv
  have hmain : (s._threads.length : Int) = maxThreads →
      (∃ t, s._threads.find MAIN_THREAD_ID = some t) ∧
      ((s._threads.erase MAIN_THREAD_ID).length : Int) = maxThreads - 1 := by
    intro hlen
    refine ⟨hI.main_live, ?_⟩
    have := hI.length_erase_main
    omega
  by_cases hfull : (s._threads.length : Int) = s._maxThreads
  · exact ⟨FAILURE, s, addThread_full f hfull, ⟨fun _ => hmax ▸ hfull, fun _ => rfl⟩,
      fun _ => rfl, hmain⟩
  · obtain ⟨j, hj, hf, hmin, hadd⟩ := addThread_free hI f hfull
    have hjne : (j : Int) ≠ FAILURE := by
      have : (0 : Int) ≤ j := by positivity
      intro e; dsimp only [FAILURE] at e; omega
    refine ⟨j, _, hadd, ⟨fun e => absurd e hjne, fun e => absurd (hmax ▸ e) hfull⟩,
      fun e => absurd e hjne, hmain⟩

/-- C2 at a table for two threads that holds main and one spawned thread. -/
theorem C2_addThread_full_table_witness :
    Reachable 2 4096 run2Full ∧
    ∃ r s1, addThread run2Full (some 5) = Outcome.ret (r, s1) ∧
      (r = FAILURE ↔ (run2Full._threads.length : Int) = 2) ∧
      (r = FAILURE → s1 = run2Full) ∧
      ((run2Full._threads.length : Int) = 2 →
        (∃ t, run2Full._threads.find MAIN_THREAD_ID = some t) ∧
        ((run2Full._threads.erase MAIN_THREAD_ID).length : Int) = 2 - 1) :=
  ⟨run2Full_reachable, C2_addThread_full_table run2Full_reachable (some 5)⟩

/-- C3: in every reachable state whose thread table is not full, `addThread` with a
non-null entry function returns an id `r >= 1` that had no thread, stores under `r` a
freshly constructed thread (state `READY`, zero quantums), appends `r` at the tail of
the ready vector, and leaves the running id, the blocked and sleeping vectors, the
scenario, the total quantum counter, `_toDelete` and every other thread unchanged. -/
theorem C3_addThread_creates_ready_thread {maxThreads stackSize : Int} {s : Scheduler}
    (h : Reachable maxThreads stackSize s)
    (hroom : (s._threads.length : Int) ≠ maxThreads) (a : Nat) :
    ∃ r s1, addThread s (some a) = Outcome.ret (r, s1) ∧ 1 ≤ r ∧
      s._threads.find r = none ∧
      s1._threads.find r = some (Thread.ctor r s._stackSize (some a)) ∧
      (Thread.ctor r s._stackSize (some a))._state = state.READY ∧
      (Thread.ctor r s._stackSize (some a))._quantums = 0 ∧
      s1._readyThreads = s._readyThreads ++ [r] ∧
      s1._runningThread = s._runningThread ∧
      s1._blockThreads = s._blockThreads ∧
      s1._sleepThreads = s._sleepThreads ∧
      s1._currentScenario = s._currentScenario ∧
      s1._totalQuantumCounter = s._totalQuantumCounter ∧
      s1._toDelete = s._toDelete ∧
      ∀ k, k ≠ r → s1._threads.find k = s._threads.find k := by
  obtain ⟨hI, _, hmax⟩ := h.inv
  obtain ⟨j, hj, hf, hmin, hadd⟩ := addThread_free hI (some a) (hmax ▸ hroom)
  have hj1 : 1 ≤ (j : Int) := by
    have hne : j ≠ 0 := by
      intro e
      obtain ⟨t, ht⟩ := hI.main_live
      rw [e] at hf
      have : ((0 : Nat) : Int) = MAIN_THREAD_ID := rfl
      rw [this, ht] at hf
      cases hf
    omega
  refine ⟨j, _, hadd, hj1, hf, ?_, rfl, rfl, ?_, rfl, rfl, rfl, rfl, rfl, rfl, ?_⟩
  · dsimp only
    rw [Table.find_insert _ _ _ _ hf, if_pos rfl]
  · simp
  · intro k hk
    dsimp only
    rw [Table.find_insert _ _ _ _ hf, if_neg hk]

/-- C3 at a table for four threads holding main and one spawned thread. -/
theorem C3_addThread_creates_ready_thread_witness :
    Reachable 4 4096 run4One ∧ (run4One._threads.length : Int) ≠ 4 ∧
    ∃ r s1, addThread run4One (some 2) = Outcome.ret (r, s1) ∧ 1 ≤ r ∧
      run4One._threads.find r = none ∧
      s1._threads.find r = some (Thread.ctor r run4One._stackSize (some 2)) ∧
      (Thread.ctor r run4One._stackSize (some 2))._state = state.READY ∧
      (Thread.ctor r run4One._stackSize (some 2))._quantums = 0 ∧
      s1._readyThreads = run4One._readyThreads ++ [r] ∧
      s1._runningThread = run4One._runningThread ∧
      s1._blockThreads = run4One._blockThreads ∧
      s1._sleepThreads = run4One._sleepThreads ∧
      s1._currentScenario = run4One._currentScenario ∧
      s1._totalQuantumCounter = run4One._totalQuantumCounter ∧
      s1._toDelete = run4One._toDelete ∧
      ∀ k, k ≠ r → s1._threads.find k = run4One._threads.find k :=
  ⟨run4One_reachable, by decide,
    C3_addThread_creates_ready_thread run4One_reachable (by decide) 2⟩

/-- C4: in every reachable state, for every live thread `ID != 0` that is not the
running thread (so its state is `READY`, `BLOCKED` or `SLEEPING`), `removeThread(ID)`
returns `SUCCESS`; afterwards each of the three vectors is the old one with `ID`
filtered out (so `ID` is in none and the order of the others is kept), `ID` has no
thread, its cell of the id table is `EMPTY_CELL`, and the running id and the scenario
are unchanged. -/
theorem C4_removeThread_not_running {maxThreads stackSize : Int} {s : Scheduler}
    (h : Reachable maxThreads stackSize s) (ID : Int) (t : Thread)
    (hf : s._threads.find ID = some t) (hne : ID ≠ MAIN_THREAD_ID)
    (hnr : ID ≠ s._runningThread) :
    (t._state = state.READY ∨ t._state = state.BLOCKED ∨ t._state = state.SLEEPING) ∧
    ∃ s1, removeThread s ID = Outcome.ret (SUCCESS, s1) ∧
      s1._readyThreads = s._readyThreads.filter (fun k => k ≠ ID) ∧
      s1._blockThreads = s._blockThreads.filter (fun k => k ≠ ID) ∧
      s1._sleepThreads = s._sleepThreads.filter (fun k => k ≠ ID) ∧
      ID ∉ s1._readyThreads ∧ ID ∉ s1._blockThreads ∧ ID ∉ s1._sleepThreads ∧
      s1._threads.find ID = none ∧
      cellRead s1._idManagar ID = Outcome.ret EMPTY_CELL ∧
      s1._runningThread = s._runningThread ∧
      s1._currentScenario = s._currentScenario := by
  obtain ⟨hI, _, hmax⟩ := h.inv
  have hI1 := hI.remove_other hf hne hnr
  obtain ⟨h0, h1⟩ := hI.keys_range ID t hf
  refine ⟨?_, _, removeThread_other hI hf hne hnr, rfl, rfl, rfl, ?_, ?_, ?_, ?_, ?_, rfl, rfl⟩
  · rcases hI.others ID t hf hnr with h | h | h
    · exact Or.inl h.1
    · exact Or.inr (Or.inl h.1)
    · exact Or.inr (Or.inr h.1)
  · simp [mem_filter_ne]
  · simp [mem_filter_ne]
  · simp [mem_filter_ne]
  · dsimp only; rw [Table.find_erase, if_pos rfl]
  · exact hI1.cell_empty h0 h1 (by dsimp only; rw [Table.find_erase, if_pos rfl])

/-- C4 at a sleeping thread: thread 1 sleeps while thread 2 runs. -/
theorem C4_removeThread_not_running_witness :
    Reachable 4 4096 run4Asleep ∧
    run4Asleep._threads.find 1 = some
      { _ID := 1, _state := state.SLEEPING, _function := some 1, _quantums := 1,
        _quantumsToSleep := 2, _quantumsLeftToSleep := 2, _stack := some 4096,
        _env := Env.saved } ∧
    (1 : Int) ≠ MAIN_THREAD_ID ∧ (1 : Int) ≠ run4Asleep._runningThread ∧
    ∃ s1, removeThread run4Asleep 1 = Outcome.ret (SUCCESS, s1) ∧
      s1._readyThreads = run4Asleep._readyThreads.filter (fun k => k ≠ 1) ∧
      s1._blockThreads = run4Asleep._blockThreads.filter (fun k => k ≠ 1) ∧
      s1._sleepThreads = run4Asleep._sleepThreads.filter (fun k => k ≠ 1) ∧
      (1 : Int) ∉ s1._readyThreads ∧ (1 : Int) ∉ s1._blockThreads ∧
      (1 : Int) ∉ s1._sleepThreads ∧
      s1._threads.find 1 = none ∧
      cellRead s1._idManagar 1 = Outcome.ret EMPTY_CELL ∧
      s1._runningThread = run4Asleep._runningThread ∧
      s1._currentScenario = run4Asleep._currentScenario :=
  ⟨run4Asleep_reachable, by decide, by decide, by decide,
    (C4_removeThread_not_running run4Asleep_reachable 1
      { _ID := 1, _state := state.SLEEPING, _function := some 1, _quantums := 1,
        _quantumsToSleep := 2, _quantumsLeftToSleep := 2, _stack := some 4096,
        _env := Env.saved }
      (by decide) (by decide) (by decide)).2⟩

/-- C5: in every reachable state whose running thread `r` is not the main thread,
`removeThread(r)` returns `SUCCESS` with the scenario `TOSELFREMOVE`, the running id
`NO_ACTIVE_THREAD` (-1), the thread of `r` taken out of the table and held by
`_toDelete`, and the cell of `r` in the id table `EMPTY_CELL`; the `manageThreads`
call that follows returns, puts `r` into none of the three vectors, makes the head of
the ready vector the running thread (in state `RUNNING`) and resets the scenario to
`ROUTINE`. -/
theorem C5_removeThread_running {maxThreads stackSize : Int} {s : Scheduler}
    (h : Reachable maxThreads stackSize s) (hne : s._runningThread ≠ MAIN_THREAD_ID) :
    ∃ t s1 s2, s._threads.find s._runningThread = some t ∧
      removeThread s s._runningThread = Outcome.ret (SUCCESS, s1) ∧
      s1._currentScenario = scenario.TOSELFREMOVE ∧
      s1._runningThread = NO_ACTIVE_THREAD ∧
      s1._threads.find s._runningThread = none ∧
      s1._toDelete = some t ∧
      cellRead s1._idManagar s._runningThread = Outcome.ret EMPTY_CELL ∧
      s1._readyThreads = s._readyThreads ∧ s1._blockThreads = s._blockThreads ∧
      s1._sleepThreads = s._sleepThreads ∧
      manageThreads s1 = Outcome.ret s2 ∧
      s._runningThread ∉ s2._readyThreads ∧ s._runningThread ∉ s2._blockThreads ∧
      s._runningThread ∉ s2._sleepThreads ∧
      s2._threads.find s._runningThread = none ∧
      s1._readyThreads.head? = some s2._runningThread ∧
      (∃ woken, s1._readyThreads ++ woken = s2._runningThread :: s2._readyThreads) ∧
      (∃ u, s2._threads.find s2._runningThread = some u ∧ u._state = state.RUNNING) ∧
      s2._currentScenario = scenario.ROUTINE := by
  obtain ⟨hI, hR, hmax⟩ := h.inv
  obtain ⟨t, hf, _⟩ := hI.running_live hR
  have hI1 := hI.remove_self hf hne
  obtain ⟨h0, h1⟩ := hI.keys_range _ t hf
  obtain ⟨s1p, n, rest, tn, hsl, hI1p, hF, hq, htn, hm, hI2⟩ :=
    manageThreads_toselfremove hI1 rfl
  have hgone : s1p._threads.find s._runningThread = none :=
    (hF.live _).mpr (by dsimp only; rw [Table.find_erase, if_pos rfl])
  have hgone2 : ((s1p._threads.update n (fun t => t.setState state.RUNNING)).update n
      Thread.incrementQuantum).find s._runningThread = none := by
    rw [Table.find_update_eq_none, Table.find_update_eq_none]; exact hgone
  obtain ⟨w, hw⟩ := hF.readyThreads
  dsimp only at hw
  have hhead : s._readyThreads.head? = some n := by
    have hmain := hI.main_mem_ready hne
    cases hl : s._readyThreads with
    | nil => rw [hl] at hmain; simp at hmain
    | cons a l =>
      rw [hq, hl] at hw
      simp only [List.cons_append, List.cons.injEq] at hw
      simp [hw.1]
  refine ⟨t, _, _, hf, removeThread_self hI hR hf hne, rfl, rfl, ?_, rfl, ?_, rfl, rfl, rfl,
    hm, ?_, ?_, ?_, hgone2, hhead, ⟨w, by rw [← hw, hq]⟩, ?_, rfl⟩
  · dsimp only; rw [Table.find_erase, if_pos rfl]
  · exact hI1.cell_empty h0 h1 (by dsimp only; rw [Table.find_erase, if_pos rfl])
  · intro hmem
    exact hI2.mem_ready_live hmem hgone2
  · intro hmem
    exact hI2.mem_block_live hmem hgone2
  · intro hmem
    exact hI2.mem_sleep_live hmem hgone2
  · obtain ⟨u, hu, hus⟩ := hI2.running_live rfl
    refine ⟨u, hu, ?_⟩
    rcases hus with hus | hus
    · exact hus
    · exfalso
      have h3 := Table.find_update_self _ Thread.incrementQuantum
        (Table.find_update_self _ (fun t => t.setState state.RUNNING) htn)
      dsimp only at hu
      rw [h3] at hu
      cases hu
      cases hus.2

/-- C5 at the state in which thread 1 runs and ready is `[2, 0]`. -/
theorem C5_removeThread_running_witness :
    Reachable 4 4096 run4Ticked ∧ run4Ticked._runningThread ≠ MAIN_THREAD_ID ∧
    ∃ t s1 s2, run4Ticked._threads.find run4Ticked._runningThread = some t ∧
      removeThread run4Ticked run4Ticked._runningThread = Outcome.ret (SUCCESS, s1) ∧
      s1._currentScenario = scenario.TOSELFREMOVE ∧
      s1._runningThread = NO_ACTIVE_THREAD ∧
      s1._threads.find run4Ticked._runningThread = none ∧
      s1._toDelete = some t ∧
      cellRead s1._idManagar run4Ticked._runningThread = Outcome.ret EMPTY_CELL ∧
      s1._readyThreads = run4Ticked._readyThreads ∧
      s1._blockThreads = run4Ticked._blockThreads ∧
      s1._sleepThreads = run4Ticked._sleepThreads ∧
      manageThreads s1 = Outcome.ret s2 ∧
      run4Ticked._runningThread ∉ s2._readyThreads ∧
      run4Ticked._runningThread ∉ s2._blockThreads ∧
      run4Ticked._runningThread ∉ s2._sleepThreads ∧
      s2._threads.find run4Ticked._runningThread = none ∧
      s1._readyThreads.head? = some s2._runningThread ∧
      (∃ woken, s1._readyThreads ++ woken = s2._runningThread :: s2._readyThreads) ∧
      (∃ u, s2._threads.find s2._runningThread = some u ∧ u._state = state.RUNNING) ∧
      s2._currentScenario = scenario.ROUTINE :=
  ⟨run4Ticked_reachable, by decide,
    C5_removeThread_running run4Ticked_reachable (by decide)⟩

/-- C6: in every reachable state, for every id of `[1, maxThreads)` that has no thread
in the table, each of `removeThread`, `blockThread`, `resumeThread`, `getTimeToWakeUp`
and `getNumOfQuantums` returns `FAILURE` (-1) and leaves the whole scheduler state
unchanged. -/
theorem C6_unknown_id_fails {maxThreads stackSize : Int} {s : Scheduler}
    (h : Reachable maxThreads stackSize s) (ID : Int) (h1 : 1 ≤ ID) (h2 : ID < maxThreads)
    (hf : s._threads.find ID = none) :
    removeThread s ID = Outcome.ret (FAILURE, s) ∧
    blockThread s ID = Outcome.ret (FAILURE, s) ∧
    resumeThread s ID = Outcome.ret (FAILURE, s) ∧
    getTimeToWakeUp s ID = Outcome.ret (FAILURE, s) ∧
    getNumOfQuantums s ID = Outcome.ret (FAILURE, s) := by
  obtain ⟨hI, hR, hmax⟩ := h.inv
  have h2 : ID < s._maxThreads := by rw [hmax]; exact h2
  exact ⟨removeThread_absent hI hR h1 h2 hf, blockThread_absent hI hR h1 h2 hf,
    resumeThread_absent hI hR (by omega) h2 hf, getTimeToWakeUp_absent hI hR (by omega) h2 hf,
    getNumOfQuantums_absent hI hR h1 h2 hf⟩

/-- C6 at id 3 of a table for four threads that holds the ids 0, 1 and 2. -/
theorem C6_unknown_id_fails_witness :
    Reachable 4 4096 run4Two ∧ (1 : Int) ≤ 3 ∧ (3 : Int) < 4 ∧
    run4Two._threads.find 3 = none ∧
    removeThread run4Two 3 = Outcome.ret (FAILURE, run4Two) ∧
    blockThread run4Two 3 = Outcome.ret (FAILURE, run4Two) ∧
    resumeThread run4Two 3 = Outcome.ret (FAILURE, run4Two) ∧
    getTimeToWakeUp run4Two 3 = Outcome.ret (FAILURE, run4Two) ∧
    getNumOfQuantums run4Two 3 = Outcome.ret (FAILURE, run4Two) :=
  ⟨run4Two_reachable, by decide, by decide, by decide,
    C6_unknown_id_fails run4Two_reachable 3 (by decide) (by decide) (by decide)⟩

/-- C7: in every reachable state, for every live thread `ID != 0` that is not running
and whose state is `READY`, `blockThread(ID)` returns `SUCCESS`, sets the state of `ID`
to `BLOCKED` (changing nothing else of that thread and no other thread), filters `ID`
out of the ready vector (the order of the others is kept), appends it to the blocked
vector, and leaves the running id, the sleeping vector and the scenario unchanged. -/
theorem C7_blockThread_ready {maxThreads stackSize : Int} {s : Scheduler}
    (h : Reachable maxThreads stackSize s) (ID : Int) (t : Thread)
    (hf : s._threads.find ID = some t) (hst : t._state = state.READY)
    (hne : ID ≠ MAIN_THREAD_ID) (hnr : ID ≠ s._runningThread) :
    ∃ s1, blockThread s ID = Outcome.ret (SUCCESS, s1) ∧
      s1._threads.find ID = some (t.setState state.BLOCKED) ∧
      (t.setState state.BLOCKED)._state = state.BLOCKED ∧
      (∀ k, k ≠ ID → s1._threads.find k = s._threads.find k) ∧
      ID ∈ s._readyThreads ∧
      s1._readyThreads = s._readyThreads.filter (fun k => k ≠ ID) ∧
      ID ∉ s1._readyThreads ∧
      s1._blockThreads = s._blockThreads ++ [ID] ∧
      s1._runningThread = s._runningThread ∧
      s1._sleepThreads = s._sleepThreads ∧
      s1._currentScenario = s._currentScenario := by
  obtain ⟨hI, _, _⟩ := h.inv
  refine ⟨_, blockThread_ready hI hf hst hne hnr, ?_, rfl, ?_,
    (hI.mem_ready_iff hf hnr).mpr hst, rfl, ?_, rfl, rfl, rfl, rfl⟩
  · exact Table.find_update_self s._threads (fun t => t.setState state.BLOCKED) hf
  · intro k hk
    exact Table.find_update_ne s._threads (fun t => t.setState state.BLOCKED) hk
  · simp [mem_filter_ne]

/-- C7 at thread 1, first of the ready vector `[1, 2]` while main runs. -/
theorem C7_blockThread_ready_witness :
    Reachable 4 4096 run4Two ∧
    run4Two._threads.find 1 = some (Thread.ctor 1 4096 (some 1)) ∧
    (Thread.ctor 1 4096 (some 1))._state = state.READY ∧
    (1 : Int) ≠ MAIN_THREAD_ID ∧ (1 : Int) ≠ run4Two._runningThread ∧
    ∃ s1, blockThread run4Two 1 = Outcome.ret (SUCCESS, s1) ∧
      s1._threads.find 1 = some ((Thread.ctor 1 4096 (some 1)).setState state.BLOCKED) ∧
      ((Thread.ctor 1 4096 (some 1)).setState state.BLOCKED)._state = state.BLOCKED ∧
      (∀ k, k ≠ 1 → s1._threads.find k = run4Two._threads.find k) ∧
      (1 : Int) ∈ run4Two._readyThreads ∧
      s1._readyThreads = run4Two._readyThreads.filter (fun k => k ≠ 1) ∧
      (1 : Int) ∉ s1._readyThreads ∧
      s1._blockThreads = run4Two._blockThreads ++ [1] ∧
      s1._runningThread = run4Two._runningThread ∧
      s1._sleepThreads = run4Two._sleepThreads ∧
      s1._currentScenario = run4Two._currentScenario :=
  ⟨run4Two_reachable, by decide, by decide, by decide, by decide,
    C7_blockThread_ready run4Two_reachable 1 (Thread.ctor 1 4096 (some 1))
      (by decide) (by decide) (by decide) (by decide)⟩

/-- C8: in every reachable state whose running thread `r` is not the main thread,
`blockThread(r)` returns `SUCCESS` and changes only the state of `r`, to `BLOCKED`,
and the scenario, to `TOBLOCK` (no vector changes); the `manageThreads` call that
follows returns, after which `r` is in the blocked vector, in neither the ready nor
the sleeping vector, still `BLOCKED`, another thread is running (in state `RUNNING`)
and the scenario is `ROUTINE`. -/
theorem C8_blockThread_running {maxThreads stackSize : Int} {s : Scheduler}
    (h : Reachable maxThreads stackSize s) (hne : s._runningThread ≠ MAIN_THREAD_ID) :
    ∃ t s2, s._threads.find s._runningThread = some t ∧
      blockThread s s._runningThread = Outcome.ret (SUCCESS,
        { s with
          _threads := s._threads.update s._runningThread (fun t => t.setState state.BLOCKED)
          _currentScenario := scenario.TOBLOCK }) ∧
      (s._threads.update s._runningThread (fun t => t.setState state.BLOCKED)).find
        s._runningThread = some (t.setState state.BLOCKED) ∧
      (∀ k, k ≠ s._runningThread →
        (s._threads.update s._runningThread (fun t => t.setState state.BLOCKED)).find k =
          s._threads.find k) ∧
      manageThreads
        { s with
          _threads := s._threads.update s._runningThread (fun t => t.setState state.BLOCKED)
          _currentScenario := scenario.TOBLOCK } = Outcome.ret s2 ∧
      s._runningThread ∈ s2._blockThreads ∧
      s._runningThread ∉ s2._readyThreads ∧
      s._runningThread ∉ s2._sleepThreads ∧
      (∃ u, s2._threads.find s._runningThread = some u ∧ u._state = state.BLOCKED) ∧
      s2._runningThread ≠ s._runningThread ∧
      (∃ v, s2._threads.find s2._runningThread = some v ∧ v._state = state.RUNNING) ∧
      s2._currentScenario = scenario.ROUTINE := by
  obtain ⟨hI, hR, _⟩ := h.inv
  obtain ⟨t, hf, _⟩ := hI.running_live hR
  have hI1 := hI.mark_running hR hne (fun t => t.setState state.BLOCKED) scenario.TOBLOCK
    (Or.inl ⟨rfl, fun _ => rfl⟩)
  obtain ⟨s1p, n, rest, tn, hsl, hI1p, hF, hq, htn, hnr, hm, hI2⟩ :=
    manageThreads_toblock hI1 rfl
  dsimp only at hm hI2 hnr
  have hmem : s._runningThread ∈ s1p._blockThreads ++ [s._runningThread] :=
    List.mem_append_right _ (List.mem_singleton_self _)
  obtain ⟨_, _, u, hu, hus⟩ := hI2.block_state _ hmem
  refine ⟨t, _, hf, blockThread_self hf hne, Table.find_update_self _ _ hf,
    fun k hk => Table.find_update_ne _ _ hk, hm, hmem, ?_, ?_, ⟨u, hu, hus⟩, hnr, ?_, rfl⟩
  · intro hr
    obtain ⟨_, v, hv, hvs⟩ := hI2.ready_state _ hr
    rw [hu] at hv; cases hv; rw [hus] at hvs; cases hvs
  · intro hr
    obtain ⟨_, _, v, hv, hvs⟩ := hI2.sleep_state _ hr
    rw [hu] at hv; cases hv; rw [hus] at hvs; cases hvs
  · obtain ⟨v, hv, hvs⟩ := hI2.running_live rfl
    refine ⟨v, hv, ?_⟩
    rcases hvs with hvs | hvs
    · exact hvs
    · exfalso
      dsimp only at hv
      rw [Table.find_update_ne _ _ hnr, Table.find_update_self _ Thread.incrementQuantum
        (Table.find_update_self _ (fun t => t.setState state.RUNNING) htn)] at hv
      cases hv
      cases hvs.2

/-- C8 at the state in which thread 1 runs and ready is `[2, 0]`. -/
theorem C8_blockThread_running_witness :
    Reachable 4 4096 run4Ticked ∧ run4Ticked._runningThread ≠ MAIN_THREAD_ID ∧
    ∃ t s2, run4Ticked._threads.find run4Ticked._runningThread = some t ∧
      blockThread run4Ticked run4Ticked._runningThread = Outcome.ret (SUCCESS,
        { run4Ticked with
          _threads := run4Ticked._threads.update run4Ticked._runningThread
            (fun t => t.setState state.BLOCKED)
          _currentScenario := scenario.TOBLOCK }) ∧
      (run4Ticked._threads.update run4Ticked._runningThread
        (fun t => t.setState state.BLOCKED)).find
        run4Ticked._runningThread = some (t.setState state.BLOCKED) ∧
      (∀ k, k ≠ run4Ticked._runningThread →
        (run4Ticked._threads.update run4Ticked._runningThread
          (fun t => t.setState state.BLOCKED)).find k = run4Ticked._threads.find k) ∧
      manageThreads
        { run4Ticked with
          _threads := run4Ticked._threads.update run4Ticked._runningThread
            (fun t => t.setState state.BLOCKED)
          _currentScenario := scenario.TOBLOCK } = Outcome.ret s2 ∧
      run4Ticked._runningThread ∈ s2._blockThreads ∧
      run4Ticked._runningThread ∉ s2._readyThreads ∧
      run4Ticked._runningThread ∉ s2._sleepThreads ∧
      (∃ u, s2._threads.find run4Ticked._runningThread = some u ∧
        u._state = state.BLOCKED) ∧
      s2._runningThread ≠ run4Ticked._runningThread ∧
      (∃ v, s2._threads.find s2._runningThread = some v ∧ v._state = state.RUNNING) ∧
      s2._currentScenario = scenario.ROUTINE :=
  ⟨run4Ticked_reachable, by decide,
    C8_blockThread_running run4Ticked_reachable (by decide)⟩

/-- C9: `blockThread(0)` returns `FAILURE` (-1) and leaves the scheduler state as it
was, in every state whatsoever, so in particular in every reachable one, whether the
main thread is running or waiting in the ready vector. -/
theorem C9_blockThread_main_fails (s : Scheduler) :
    blockThread s MAIN_THREAD_ID = Outcome.ret (FAILURE, s) :=
  blockThread_main s

/-- C10: in every reachable state, for every live thread that is not running and whose
state is `BLOCKED` or `SLEEPING`, `blockThread` returns `SUCCESS` and the scheduler
state afterwards is the state before: the sleeping vector and the thread's
`_quantumsLeftToSleep` are untouched and the blocked vector gets no second copy. -/
theorem C10_blockThread_waiting_noop {maxThreads stackSize : Int} {s : Scheduler}
    (h : Reachable maxThreads stackSize s) (ID : Int) (t : Thread)
    (hf : s._threads.find ID = some t)
    (hst : t._state = state.BLOCKED ∨ t._state = state.SLEEPING)
    (hnr : ID ≠ s._runningThread) :
    blockThread s ID = Outcome.ret (SUCCESS, s) ∧ s._blockThreads.Nodup ∧
      (t._state = state.BLOCKED → ID ∈ s._blockThreads) ∧
      (t._state = state.SLEEPING → ID ∈ s._sleepThreads) := by
  obtain ⟨hI, _, _⟩ := h.inv
  have hne : ID ≠ MAIN_THREAD_ID := by
    rcases hst with hst | hst
    · exact (hI.block_state ID ((hI.mem_block_iff hf hnr).mpr hst)).2.1
    · exact (hI.sleep_state ID ((hI.mem_sleep_iff hf hnr).mpr hst)).2.1
  exact ⟨blockThread_waiting hI hf hst hne hnr, hI.block_nodup,
    (hI.mem_block_iff hf hnr).mpr, (hI.mem_sleep_iff hf hnr).mpr⟩

/-- C10 at a sleeping thread: thread 1 sleeps while thread 2 runs. -/
theorem C10_blockThread_waiting_noop_witness :
    Reachable 4 4096 run4Asleep ∧
    run4Asleep._threads.find 1 = some
      { _ID := 1, _state := state.SLEEPING, _function := some 1, _quantums := 1,
        _quantumsToSleep := 2, _quantumsLeftToSleep := 2, _stack := some 4096,
        _env := Env.saved } ∧
    (1 : Int) ≠ run4Asleep._runningThread ∧
    blockThread run4Asleep 1 = Outcome.ret (SUCCESS, run4Asleep) ∧
    run4Asleep._blockThreads.Nodup ∧ (1 : Int) ∈ run4Asleep._sleepThreads :=
  have hw := C10_blockThread_waiting_noop run4Asleep_reachable 1
    { _ID := 1, _state := state.SLEEPING, _function := some 1, _quantums := 1,
      _quantumsToSleep := 2, _quantumsLeftToSleep := 2, _stack := some 4096,
      _env := Env.saved }
    (by decide) (Or.inr rfl) (by decide)
  ⟨run4Asleep_reachable, by decide, by decide, hw.1, hw.2.1, hw.2.2.2 rfl⟩

/-- Every return of a member function from a state that satisfies the invariant and
has no scenario pending is one of the listed effects. -/
theorem Call.run_effect {s : Scheduler} (hI : Inv s)
    (hR : s._currentScenario = scenario.ROUTINE) {c : Call} {r : Int} {s1 : Scheduler}
    (h : c.run s = Outcome.ret (r, s1)) : Effect s c s1 := by
  cases c with
  | uthread_spawn f =>
    simp only [Call.run] at h
    by_cases hfull : (s._threads.length : Int) = s._maxThreads
    · rw [addThread_full f hfull] at h
      cases h; exact Effect.same _
    · obtain ⟨j, hj, hf, _, hadd⟩ := addThread_free hI f hfull
      rw [hadd] at h
      cases h
      exact Effect.spawned f j hf hj
  | uthread_terminate ID =>
    simp only [Call.run] at h
    by_cases hne : ID = MAIN_THREAD_ID
    · subst hne
      exact absurd h (removeThread_main_ne_ret s _)
    by_cases hrange : 0 ≤ ID ∧ ID < s._maxThreads
    · cases hf : s._threads.find ID with
      | none =>
        have h1 : 1 ≤ ID := by
          have : ID ≠ 0 := hne
          omega
        rw [removeThread_absent hI hR h1 hrange.2 hf] at h
        cases h
        exact Effect.same _
      | some t =>
        by_cases hnr : ID = s._runningThread
        · subst hnr
          rw [removeThread_self hI hR hf hne] at h
          cases h
          exact Effect.removedSelf t hf hne
        · rw [removeThread_other hI hf hne hnr] at h
          cases h
          exact Effect.removedOther ID t hf hne hnr
    · have hne0 : ¬ ID = 0 := hne
      simp [removeThread, hne0, getVectorOfThread_out hI hrange] at h
  | uthread_block ID =>
    simp only [Call.run] at h
    by_cases hne : ID = MAIN_THREAD_ID
    · subst hne
      rw [blockThread_main] at h; cases h; exact Effect.same _
    by_cases hnr : ID = s._runningThread
    · subst hnr
      obtain ⟨t, hf, _⟩ := hI.running_live hR
      rw [blockThread_self hf hne] at h
      cases h
      exact Effect.blockedSelf t hf hne
    by_cases hrange : 0 ≤ ID ∧ ID < s._maxThreads
    · cases hf : s._threads.find ID with
      | none =>
        have h1 : 1 ≤ ID := by
          have : ID ≠ 0 := hne
          omega
        rw [blockThread_absent hI hR h1 hrange.2 hf] at h
        cases h
        exact Effect.same _
      | some t =>
        rcases hI.others ID t hf hnr with ⟨hst, _⟩ | ⟨hst, _⟩ | ⟨hst, _⟩
        · rw [blockThread_ready hI hf hst hne hnr] at h
          cases h
          exact Effect.blockedReady ID t hf hst hne hnr
        · rw [blockThread_waiting hI hf (Or.inl hst) hne hnr] at h
          cases h
          exact Effect.same _
        · rw [blockThread_waiting hI hf (Or.inr hst) hne hnr] at h
          cases h
          exact Effect.same _
    · have hne0 : ¬ ID = 0 := hne
      simp [blockThread, hne0, hnr, getVectorOfThread_out hI hrange] at h
  | uthread_resume ID =>
    simp only [Call.run] at h
    by_cases hrange : 0 ≤ ID ∧ ID < s._maxThreads
    · cases hf : s._threads.find ID with
      | none =>
        rw [resumeThread_absent hI hR hrange.1 hrange.2 hf] at h
        cases h
        exact Effect.same _
      | some t =>
        by_cases hb : t._state = state.BLOCKED ∧ ID ≠ s._runningThread
        · rw [resumeThread_blocked hI hf hb.1 hb.2] at h
          cases h
          exact Effect.resumed ID t hf hb.1 hb.2
        · have hs1 : s1 = s := by
            simp only [resumeThread, Outcome.bind_eq_ret] at h
            obtain ⟨v, _, h⟩ := h
            split at h
            · simp only [Outcome.bind_eq_ret] at h
              obtain ⟨_, _, h⟩ := h
              cases h; rfl
            · simp only [Scheduler.threadAt, hf, Outcome.ret_bind, Thread.getState] at h
              split at h
              · cases h; rfl
              · rename_i hv hc
                exfalso
                have hstb : t._state = state.BLOCKED := by
                  cases hst : t._state <;> simp [hst] at hc ⊢
                have hnr : ID ≠ s._runningThread := by
                  intro e
                  obtain ⟨u, hu, hus⟩ := hI.running_live hR
                  rw [← e, hf] at hu; cases hu
                  rw [hstb] at hus
                  rcases hus with hus | hus
                  · cases hus
                  · cases hus.2
                exact hb ⟨hstb, hnr⟩
          subst hs1
          exact Effect.same _
    · simp [resumeThread, getVectorOfThread_out hI hrange] at h
  | uthread_sleep n =>
    simp only [Call.run] at h
    by_cases hrej : s._runningThread = MAIN_THREAD_ID ∨ n < 0
    · rw [sleepThread_rejected s n hrej] at h
      cases h; exact Effect.same _
    · push_neg at hrej
      obtain ⟨t, hf, _⟩ := hI.running_live hR
      rw [sleepThread_accepted hf hrej.1 (not_lt.mpr hrej.2)] at h
      cases h
      exact Effect.slept n t hf hrej.1 (not_lt.mpr hrej.2)
  | uthread_get_time_until_wakeup tid =>
    rw [getTimeToWakeUp_state h]; exact Effect.same _
  | uthread_get_tid =>
    simp only [Call.run, Outcome.pure_eq_ret, Outcome.ret.injEq, Prod.mk.injEq] at h
    rw [← h.2]; exact Effect.same _
  | uthread_get_total_quantums =>
    simp only [Call.run, Outcome.pure_eq_ret, Outcome.ret.injEq, Prod.mk.injEq] at h
    rw [← h.2]; exact Effect.same _
  | uthread_get_quantums tid =>
    rw [getNumOfQuantums_state h]; exact Effect.same _

theorem Table.find_update_map (m : Table) (ID k : Int) (g : Thread → Thread) :
    (m.update ID g).find k = (m.find k).map (fun t => if k = ID then g t else t) := by
  rw [Table.find_update]
  split
  · rfl
  · simp

/-- A relation that every loop body keeps, and that is reflexive and transitive, holds
between the states before and after the loop of `_manageSleepingThreads`. -/
theorem manageSleeping_loop_rel (R : Scheduler → Scheduler → Prop) (hrefl : ∀ s, R s s)
    (htrans : ∀ a b c, R a b → R b c → R a c)
    (hbody : ∀ s it, Inv s → it < s._sleepThreads.length →
      ∀ s1, _manageSleepingThreads.body it s = Outcome.ret s1 → R s s1) :
    ∀ (n it : Nat) (s : Scheduler), Inv s →
      ∀ s1, _manageSleepingThreads.loop n it s = Outcome.ret s1 → R s s1 := by
  intro n
  induction n with
  | zero =>
    intro it s _ s1 h
    cases h; exact hrefl s
  | succ n ih =>
    intro it s hI s1 h
    rw [_manageSleepingThreads.loop] at h
    by_cases hit : it < s._sleepThreads.length
    · obtain ⟨sb, hb, hIb, _, _⟩ := manageSleeping_body_inv hI hit
      simp only [hit, if_true, hb, Outcome.ret_bind] at h
      exact htrans _ _ _ (hbody s it hI hit sb hb) (ih (it + 1) sb hIb s1 h)
    · simp only [hit, if_false] at h
      cases h; exact hrefl s

/-- The loop of `_manageSleepingThreads` writes nothing of a thread but its state and
its `_quantumsLeftToSleep`. -/
theorem manageSleeping_records {s s1 : Scheduler} (hI : Inv s)
    (h : _manageSleepingThreads s = Outcome.ret s1) :
    ∀ k t1, s1._threads.find k = some t1 → ∃ t, s._threads.find k = some t ∧
      t1 = { t with _state := t1._state, _quantumsLeftToSleep := t1._quantumsLeftToSleep } := by
  refine manageSleeping_loop_rel
    (fun a b => ∀ k t1, b._threads.find k = some t1 → ∃ t, a._threads.find k = some t ∧
      t1 = { t with _state := t1._state, _quantumsLeftToSleep := t1._quantumsLeftToSleep })
    ?_ ?_ ?_ _ 0 s hI s1 h
  · intro a k t1 hk
    exact ⟨t1, hk, rfl⟩
  · intro a b c hab hbc k t1 hk
    obtain ⟨tb, htb, e1⟩ := hbc k t1 hk
    obtain ⟨ta, hta, e2⟩ := hab k tb htb
    refine ⟨ta, hta, ?_⟩
    rw [e1, e2]
  · intro a it hIa hit sb hb k t1 hk
    obtain ⟨t, hf, hspec⟩ := manageSleeping_body_spec hIa hit
    rw [hspec] at hb
    cases hb
    split at hk
    · dsimp only at hk
      simp only [Table.find_update_map, Option.map_map, Option.map_eq_some'] at hk
      obtain ⟨ta, hta, rfl⟩ := hk
      refine ⟨ta, hta, ?_⟩
      dsimp only [Function.comp]
      split <;> simp [Thread.setState, Thread.decrementQuantumsToSleep]
    · dsimp only at hk
      simp only [Table.find_update_map, Option.map_eq_some'] at hk
      obtain ⟨ta, hta, rfl⟩ := hk
      refine ⟨ta, hta, ?_⟩
      split <;> simp [Thread.decrementQuantumsToSleep]


/-- One call of `manageThreads`, whichever scenario is pending: the sleeping threads
are handled (`s1`), the outgoing thread is queued according to the scenario, and the
head of the ready vector becomes the running thread of `s2`. -/
theorem manageThreads_summary {s : Scheduler} (hI : Inv s) :
    ∃ s1 s2, _manageSleepingThreads s = Outcome.ret s1 ∧ Inv s1 ∧ SleepFrame s s1 ∧
      manageThreads s = Outcome.ret s2 ∧ Inv s2 ∧
      s2._currentScenario = scenario.ROUTINE ∧
      s2._maxThreads = s1._maxThreads ∧
      s2._totalQuantumCounter = s1._totalQuantumCounter + 1 ∧
      s1._readyThreads ++
          (if s._currentScenario = scenario.ROUTINE then [s._runningThread] else []) =
        s2._runningThread :: s2._readyThreads ∧
      s2._sleepThreads = s1._sleepThreads ++
          (if s._currentScenario = scenario.TOSLEEP then [s._runningThread] else []) ∧
      s2._blockThreads = s1._blockThreads ++
          (if s._currentScenario = scenario.TOBLOCK then [s._runningThread] else []) ∧
      (∀ k t2, s2._threads.find k = some t2 → ∃ t1, s1._threads.find k = some t1 ∧
        t2 = { t1 with
               _state := t2._state
               _env := t2._env
               _quantums := t1._quantums + (if k = s2._runningThread then 1 else 0) }) ∧
      (∀ k, k ≠ s2._runningThread → k ≠ s._runningThread →
        s2._threads.find k = s1._threads.find k) ∧
      s2._idManagar = s1._idManagar ∧
      (∀ k, s2._threads.find k = none ↔ s1._threads.find k = none) := by
  cases hsc : s._currentScenario with
  | ROUTINE =>
    obtain ⟨s1, n, r, tn, hs1, hI1, hF, hq, htn, hm, hI2⟩ := manageThreads_routine hI hsc
    refine ⟨s1, _, hs1, hI1, hF, hm, hI2, rfl, rfl, rfl, by simpa using hq, by simp,
      by simp, ?_, ?_, rfl, ?_⟩
    · intro k t2 hk
      dsimp only at hk ⊢
      simp only [Table.find_update_map, Option.map_map, Option.map_eq_some'] at hk
      obtain ⟨t1, ht1, rfl⟩ := hk
      refine ⟨t1, ht1, ?_⟩
      dsimp only [Function.comp]
      by_cases h2 : k = s._runningThread
      · subst h2
        by_cases h1 : s._runningThread = n <;>
          simp [h1, Thread.setState, Thread.incrementQuantum, Thread.saveEnv]
      · by_cases h1 : k = n
        · subst h1
          simp [h2, Thread.setState, Thread.incrementQuantum, Thread.saveEnv]
        · simp [h1, h2, Thread.setState, Thread.incrementQuantum, Thread.saveEnv]
    · intro k h1 h2
      dsimp only at h1 ⊢
      rw [Table.find_update_ne _ _ h2, Table.find_update_ne _ _ h1,
        Table.find_update_ne _ _ h1, Table.find_update_ne _ _ h2]
    · intro k
      dsimp only
      rw [Table.find_update_eq_none, Table.find_update_eq_none, Table.find_update_eq_none, Table.find_update_eq_none]
  | TOBLOCK =>
    obtain ⟨s1, n, r, tn, hs1, hI1, hF, hq, htn, hnr, hm, hI2⟩ := manageThreads_toblock hI hsc
    refine ⟨s1, _, hs1, hI1, hF, hm, hI2, rfl, rfl, rfl, by simpa using hq, by simp,
      by simp, ?_, ?_, rfl, ?_⟩
    · intro k t2 hk
      dsimp only at hk ⊢
      simp only [Table.find_update_map, Option.map_map, Option.map_eq_some'] at hk
      obtain ⟨t1, ht1, rfl⟩ := hk
      refine ⟨t1, ht1, ?_⟩
      dsimp only [Function.comp]
      by_cases h2 : k = s._runningThread
      · subst h2
        by_cases h1 : s._runningThread = n <;>
          simp [h1, Thread.setState, Thread.incrementQuantum, Thread.saveEnv]
      · by_cases h1 : k = n
        · subst h1
          simp [h2, Thread.setState, Thread.incrementQuantum, Thread.saveEnv]
        · simp [h1, h2, Thread.setState, Thread.incrementQuantum, Thread.saveEnv]
    · intro k h1 h2
      dsimp only at h1 ⊢
      rw [Table.find_update_ne _ _ h2, Table.find_update_ne _ _ h1,
        Table.find_update_ne _ _ h1]
    · intro k
      dsimp only
      rw [Table.find_update_eq_none, Table.find_update_eq_none, Table.find_update_eq_none]
  | TOSLEEP =>
    obtain ⟨s1, n, r, tn, hs1, hI1, hF, hq, htn, hnr, hm, hI2⟩ := manageThreads_tosleep hI hsc
    refine ⟨s1, _, hs1, hI1, hF, hm, hI2, rfl, rfl, rfl, by simpa using hq, by simp,
      by simp, ?_, ?_, rfl, ?_⟩
    · intro k t2 hk
      dsimp only at hk ⊢
      simp only [Table.find_update_map, Option.map_map, Option.map_eq_some'] at hk
      obtain ⟨t1, ht1, rfl⟩ := hk
      refine ⟨t1, ht1, ?_⟩
      dsimp only [Function.comp]
      by_cases h2 : k = s._runningThread
      · subst h2
        by_cases h1 : s._runningThread = n <;>
          simp [h1, Thread.setState, Thread.incrementQuantum, Thread.saveEnv]
      · by_cases h1 : k = n
        · subst h1
          simp [h2, Thread.setState, Thread.incrementQuantum, Thread.saveEnv]
        · simp [h1, h2, Thread.setState, Thread.incrementQuantum, Thread.saveEnv]
    · intro k h1 h2
      dsimp only at h1 ⊢
      rw [Table.find_update_ne _ _ h2, Table.find_update_ne _ _ h1,
        Table.find_update_ne _ _ h1]
    · intro k
      dsimp only
      rw [Table.find_update_eq_none, Table.find_update_eq_none, Table.find_update_eq_none]
  | TOSELFREMOVE =>
    obtain ⟨s1, n, r, tn, hs1, hI1, hF, hq, htn, hm, hI2⟩ := manageThreads_toselfremove hI hsc
    refine ⟨s1, _, hs1, hI1, hF, hm, hI2, rfl, rfl, rfl, by simpa using hq, by simp,
      by simp, ?_, ?_, rfl, ?_⟩
    · intro k t2 hk
      dsimp only at hk ⊢
      simp only [Table.find_update_map, Option.map_map, Option.map_eq_some'] at hk
      obtain ⟨t1, ht1, rfl⟩ := hk
      refine ⟨t1, ht1, ?_⟩
      dsimp only [Function.comp]
      by_cases h1 : k = n
      · subst h1
        simp [Thread.setState, Thread.incrementQuantum]
      · simp [h1, Thread.setState, Thread.incrementQuantum]
    · intro k h1 h2
      dsimp only at h1 ⊢
      rw [Table.find_update_ne _ _ h1, Table.find_update_ne _ _ h1]
    · intro k
      dsimp only
      rw [Table.find_update_eq_none, Table.find_update_eq_none]

/-! ### Frame properties of the member functions and of `manageThreads` -/

theorem Effect.total {s s1 : Scheduler} {c : Call} (h : Effect s c s1) :
    s1._totalQuantumCounter = s._totalQuantumCounter := by
  cases h <;> rfl

theorem Effect.maxThreads {s s1 : Scheduler} {c : Call} (h : Effect s c s1) :
    s1._maxThreads = s._maxThreads := by
  cases h <;> rfl

/-- No member function but `manageThreads` changes the quantum counter of a thread;
a thread that is new has counter 0. -/
theorem Effect.quantums {s s1 : Scheduler} {c : Call} (h : Effect s c s1) :
    ∀ k t1, s1._threads.find k = some t1 →
      (∃ t, s._threads.find k = some t ∧ t1._quantums = t._quantums) ∨
      (s._threads.find k = none ∧ t1._quantums = 0) := by
  intro k t1 hk
  cases h with
  | same => exact Or.inl ⟨t1, hk, rfl⟩
  | spawned f j hf hj =>
    dsimp only at hk
    rw [Table.find_insert _ _ _ _ hf] at hk
    split at hk
    · rename_i e
      cases hk
      exact Or.inr ⟨e ▸ hf, rfl⟩
    · exact Or.inl ⟨t1, hk, rfl⟩
  | removedOther ID t hf hne hnr =>
    dsimp only at hk
    rw [Table.find_erase] at hk
    split at hk
    · cases hk
    · exact Or.inl ⟨t1, hk, rfl⟩
  | removedSelf t hf hne =>
    dsimp only at hk
    rw [Table.find_erase] at hk
    split at hk
    · cases hk
    · exact Or.inl ⟨t1, hk, rfl⟩
  | blockedReady ID t hf hst hne hnr =>
    dsimp only at hk
    simp only [Table.find_update_map, Option.map_eq_some'] at hk
    obtain ⟨ta, hta, rfl⟩ := hk
    exact Or.inl ⟨ta, hta, by split <;> rfl⟩
  | blockedSelf t hf hne =>
    dsimp only at hk
    simp only [Table.find_update_map, Option.map_eq_some'] at hk
    obtain ⟨ta, hta, rfl⟩ := hk
    exact Or.inl ⟨ta, hta, by split <;> rfl⟩
  | resumed ID t hf hst hnr =>
    dsimp only at hk
    simp only [Table.find_update_map, Option.map_eq_some'] at hk
    obtain ⟨ta, hta, rfl⟩ := hk
    exact Or.inl ⟨ta, hta, by split <;> rfl⟩
  | slept n t hf hne hq =>
    dsimp only at hk
    simp only [Table.find_update_map, Option.map_map, Option.map_eq_some'] at hk
    obtain ⟨ta, hta, rfl⟩ := hk
    refine Or.inl ⟨ta, hta, ?_⟩
    dsimp only [Function.comp]
    split <;> rfl

/-- Each call of `manageThreads` returns, adds one to the total, adds one to the quantum
counter of the thread it dispatches and leaves the counter of every other thread. -/
theorem manageThreads_counters {s : Scheduler} (hI : Inv s) :
    ∃ s2, manageThreads s = Outcome.ret s2 ∧ Inv s2 ∧
      s2._currentScenario = scenario.ROUTINE ∧
      s2._totalQuantumCounter = s._totalQuantumCounter + 1 ∧
      (∃ t, s._threads.find s2._runningThread = some t) ∧
      (∀ k t, s._threads.find k = some t → ∃ t2, s2._threads.find k = some t2 ∧
        t2._quantums = t._quantums + (if k = s2._runningThread then 1 else 0)) ∧
      (∀ k, s2._threads.find k = none ↔ s._threads.find k = none) := by
  obtain ⟨s1, s2, hs1, hI1, hF, hm, hI2, hR2, _, htot, _, _, _, hrec, _, _, hlive2⟩ :=
    manageThreads_summary hI
  have hrec1 := manageSleeping_records hI hs1
  have hlive : ∀ k, s2._threads.find k = none ↔ s._threads.find k = none :=
    fun k => (hlive2 k).trans (hF.live k)
  refine ⟨s2, hm, hI2, hR2, by rw [htot, hF.totalQuantumCounter], ?_, ?_, hlive⟩
  · obtain ⟨u, hu, _⟩ := hI2.running_live hR2
    have : s._threads.find s2._runningThread ≠ none := by
      rw [Ne, ← hlive, hu]; simp
    exact Option.ne_none_iff_exists'.mp this
  · intro k t hk
    have h2 : s2._threads.find k ≠ none := by
      rw [Ne, hlive, hk]; simp
    obtain ⟨t2, ht2⟩ := Option.ne_none_iff_exists'.mp h2
    obtain ⟨t1, ht1, e2⟩ := hrec k t2 ht2
    obtain ⟨t0, ht0, e1⟩ := hrec1 k t1 ht1
    rw [hk] at ht0; cases ht0
    refine ⟨t2, ht2, ?_⟩
    rw [e2, e1]

theorem ctor_counters {maxThreads stackSize : Int} {s : Scheduler}
    (h : Scheduler.ctor maxThreads stackSize = Outcome.ret s) :
    s._totalQuantumCounter = 1 ∧
    ∃ t, s._threads.find MAIN_THREAD_ID = some t ∧ t._quantums = 1 := by
  rw [ctor_spec maxThreads stackSize (ctor_pos h)] at h
  cases h
  exact ⟨rfl, _, rfl, rfl⟩

/-! ### The queries on a live thread -/

theorem getNumOfQuantums_live {s : Scheduler} (hI : Inv s) {ID : Int} {t : Thread}
    (hf : s._threads.find ID = some t) :
    getNumOfQuantums s ID = Outcome.ret (t._quantums, s) := by
  by_cases hne : ID = MAIN_THREAD_ID
  · subst hne
    simp [getNumOfQuantums, getVectorOfThread_main hI, Scheduler.deref, hf, Thread.getQuantums]
  · by_cases hnr : ID = s._runningThread
    · subst hnr
      simp [getNumOfQuantums, getVectorOfThread_live hI hf hne, Scheduler.deref, hf,
        Thread.getQuantums]
    · rcases hI.others ID t hf hnr with ⟨hst, _⟩ | ⟨hst, _⟩ | ⟨hst, _⟩ <;>
      simp [getNumOfQuantums, getVectorOfThread_live hI hf hne, hst, Scheduler.deref, hf,
        Thread.getQuantums]

theorem getTimeToWakeUp_live {s : Scheduler} (hI : Inv s) {ID : Int} {t : Thread}
    (hf : s._threads.find ID = some t) (hne : ID ≠ MAIN_THREAD_ID)
    (hnr : ID ≠ s._runningThread) :
    getTimeToWakeUp s ID = Outcome.ret
      (if t._state = state.SLEEPING then t._quantumsLeftToSleep else 0, s) := by
  rcases hI.others ID t hf hnr with ⟨hst, _⟩ | ⟨hst, _⟩ | ⟨hst, _⟩ <;>
  simp [getTimeToWakeUp, getVectorOfThread_live hI hf hne, hst, Scheduler.deref, hf,
    Thread.getState, Thread.getQuantumsLeftToSleep]

theorem run4Blocked_reachable : Reachable 4 4096 run4Blocked :=
  after_reachable run4Two_reachable _ trivial (by decide)

/-- C11: in every reachable state, for every live thread whose state is `BLOCKED`,
`resumeThread` returns `SUCCESS`, sets the state of that thread to `READY` (changing
nothing else of it and no other thread), filters its id out of the blocked vector,
appends it at the tail of the ready vector behind all ids that were there, and leaves
the running id, the sleeping vector and the scenario unchanged. -/
theorem C11_resumeThread_blocked {maxThreads stackSize : Int} {s : Scheduler}
    (h : Reachable maxThreads stackSize s) (ID : Int) (t : Thread)
    (hf : s._threads.find ID = some t) (hst : t._state = state.BLOCKED) :
    ∃ s1, resumeThread s ID = Outcome.ret (SUCCESS, s1) ∧
      s1._threads.find ID = some (t.setState state.READY) ∧
      (t.setState state.READY)._state = state.READY ∧
      (∀ k, k ≠ ID → s1._threads.find k = s._threads.find k) ∧
      ID ∈ s._blockThreads ∧
      s1._blockThreads = s._blockThreads.filter (fun k => k ≠ ID) ∧
      ID ∉ s1._blockThreads ∧
      s1._readyThreads = s._readyThreads ++ [ID] ∧
      s1._runningThread = s._runningThread ∧
      s1._sleepThreads = s._sleepThreads ∧
      s1._currentScenario = s._currentScenario := by
  obtain ⟨hI, hR, _⟩ := h.inv
  have hnr : ID ≠ s._runningThread := by
    intro e
    obtain ⟨u, hu, hus⟩ := hI.running_live hR
    rw [← e, hf] at hu; cases hu
    rw [hst] at hus
    rcases hus with hus | hus
    · cases hus
    · cases hus.2
  refine ⟨_, resumeThread_blocked hI hf hst hnr, ?_, rfl, ?_,
    (hI.mem_block_iff hf hnr).mpr hst, rfl, ?_, rfl, rfl, rfl, rfl⟩
  · exact Table.find_update_self s._threads (fun t => t.setState state.READY) hf
  · intro k hk
    exact Table.find_update_ne s._threads (fun t => t.setState state.READY) hk
  · simp [mem_filter_ne]

/-- C11 at thread 1, blocked by main while ready is `[2]`. -/
theorem C11_resumeThread_blocked_witness :
    Reachable 4 4096 run4Blocked ∧
    run4Blocked._threads.find 1 =
      some ((Thread.ctor 1 4096 (some 1)).setState state.BLOCKED) ∧
    ((Thread.ctor 1 4096 (some 1)).setState state.BLOCKED)._state = state.BLOCKED ∧
    ∃ s1, resumeThread run4Blocked 1 = Outcome.ret (SUCCESS, s1) ∧
      s1._threads.find 1 = some
        (((Thread.ctor 1 4096 (some 1)).setState state.BLOCKED).setState state.READY) ∧
      (((Thread.ctor 1 4096 (some 1)).setState state.BLOCKED).setState
        state.READY)._state = state.READY ∧
      (∀ k, k ≠ 1 → s1._threads.find k = run4Blocked._threads.find k) ∧
      (1 : Int) ∈ run4Blocked._blockThreads ∧
      s1._blockThreads = run4Blocked._blockThreads.filter (fun k => k ≠ 1) ∧
      (1 : Int) ∉ s1._blockThreads ∧
      s1._readyThreads = run4Blocked._readyThreads ++ [1] ∧
      s1._runningThread = run4Blocked._runningThread ∧
      s1._sleepThreads = run4Blocked._sleepThreads ∧
      s1._currentScenario = run4Blocked._currentScenario :=
  ⟨run4Blocked_reachable, by decide, by decide,
    C11_resumeThread_blocked run4Blocked_reachable 1
      ((Thread.ctor 1 4096 (some 1)).setState state.BLOCKED) (by decide) (by decide)⟩

/-- C12 (what the code does): in every reachable state in which the main thread is not
the running thread, so that it waits in the ready vector with state `READY`,
`resumeThread(0)` returns `FAILURE` (-1), not `SUCCESS`; the state is unchanged. -/
theorem C12_resumeThread_main_waiting_fails {maxThreads stackSize : Int} {s : Scheduler}
    (h : Reachable maxThreads stackSize s) (hnr : s._runningThread ≠ MAIN_THREAD_ID) :
    (∃ t, s._threads.find MAIN_THREAD_ID = some t ∧ t._state = state.READY) ∧
    MAIN_THREAD_ID ∈ s._readyThreads ∧
    resumeThread s MAIN_THREAD_ID = Outcome.ret (FAILURE, s) := by
  obtain ⟨hI, hR, _⟩ := h.inv
  have hm := hI.main_mem_ready hnr
  obtain ⟨_, t, ht, hst⟩ := hI.ready_state _ hm
  refine ⟨⟨t, ht, hst⟩, hm, ?_⟩
  have hp := hI.max_pos
  simp [resumeThread, getVectorOfThread_main hI, Ne.symm hnr,
    badIDChecker_of_range hI (le_refl (0 : Int)) hp]

/-- C12 at the state in which thread 1 runs and ready is `[2, 0]`. -/
theorem C12_resumeThread_main_waiting_fails_witness :
    Reachable 4 4096 run4Ticked ∧ run4Ticked._runningThread ≠ MAIN_THREAD_ID ∧
    (∃ t, run4Ticked._threads.find MAIN_THREAD_ID = some t ∧ t._state = state.READY) ∧
    MAIN_THREAD_ID ∈ run4Ticked._readyThreads ∧
    resumeThread run4Ticked MAIN_THREAD_ID = Outcome.ret (FAILURE, run4Ticked) :=
  ⟨run4Ticked_reachable, by decide,
    C12_resumeThread_main_waiting_fails run4Ticked_reachable (by decide)⟩

/-- C13: in every reachable state `sleepThread(q)` returns. If the running thread is
the main thread or `q < 0` it returns `FAILURE` (-1) and the state is unchanged.
Otherwise it returns `SUCCESS` (so -1 is returned in exactly the first case), the
running thread gets state `SLEEPING` and `_quantumsToSleep = _quantumsLeftToSleep = q`
and keeps its other fields, the scenario becomes `TOSLEEP`, and the three vectors, the
running id, the counters and every other thread are untouched. -/
theorem C13_sleepThread {maxThreads stackSize : Int} {s : Scheduler}
    (h : Reachable maxThreads stackSize s) (q : Int) :
    ((s._runningThread = MAIN_THREAD_ID ∨ q < 0) →
      sleepThread s q = Outcome.ret (FAILURE, s)) ∧
    (¬ (s._runningThread = MAIN_THREAD_ID ∨ q < 0) →
      ∃ t s1, s._threads.find s._runningThread = some t ∧
        sleepThread s q = Outcome.ret (SUCCESS, s1) ∧
        s1._threads.find s._runningThread = some
          { t with _state := state.SLEEPING, _quantumsToSleep := q,
                   _quantumsLeftToSleep := q } ∧
        s1._currentScenario = scenario.TOSLEEP ∧
        s1._readyThreads = s._readyThreads ∧
        s1._blockThreads = s._blockThreads ∧
        s1._sleepThreads = s._sleepThreads ∧
        s1._runningThread = s._runningThread ∧
        s1._totalQuantumCounter = s._totalQuantumCounter ∧
        s1._idManagar = s._idManagar ∧
        s1._toDelete = s._toDelete ∧
        ∀ k, k ≠ s._runningThread → s1._threads.find k = s._threads.find k) := by
  obtain ⟨hI, hR, _⟩ := h.inv
  refine ⟨sleepThread_rejected s q, ?_⟩
  intro hrej
  push_neg at hrej
  obtain ⟨t, hf, _⟩ := hI.running_live hR
  refine ⟨t, _, hf, sleepThread_accepted hf hrej.1 (not_lt.mpr hrej.2), ?_, rfl, rfl, rfl, rfl,
    rfl, rfl, rfl, rfl, ?_⟩
  · dsimp only
    simp only [Table.find_update_map, Option.map_map, hf, Option.map_some', if_true,
      Function.comp]
    rfl
  · intro k hk
    dsimp only
    rw [Table.find_update_ne _ _ hk, Table.find_update_ne _ _ hk, Table.find_update_ne _ _ hk]

/-- C13 at the state in which thread 1 runs, with `q = 2` and with `q = -1`. -/
theorem C13_sleepThread_witness :
    Reachable 4 4096 run4Ticked ∧
    sleepThread run4Ticked (-1) = Outcome.ret (FAILURE, run4Ticked) ∧
    ∃ t s1, run4Ticked._threads.find run4Ticked._runningThread = some t ∧
      sleepThread run4Ticked 2 = Outcome.ret (SUCCESS, s1) ∧
      s1._threads.find run4Ticked._runningThread = some
        { t with _state := state.SLEEPING, _quantumsToSleep := 2,
                 _quantumsLeftToSleep := 2 } ∧
      s1._currentScenario = scenario.TOSLEEP ∧
      s1._readyThreads = run4Ticked._readyThreads ∧
      s1._blockThreads = run4Ticked._blockThreads ∧
      s1._sleepThreads = run4Ticked._sleepThreads ∧
      s1._runningThread = run4Ticked._runningThread ∧
      s1._totalQuantumCounter = run4Ticked._totalQuantumCounter ∧
      s1._idManagar = run4Ticked._idManagar ∧
      s1._toDelete = run4Ticked._toDelete ∧
      ∀ k, k ≠ run4Ticked._runningThread →
        s1._threads.find k = run4Ticked._threads.find k :=
  ⟨run4Ticked_reachable,
    (C13_sleepThread run4Ticked_reachable (-1)).1 (Or.inr (by decide)),
    (C13_sleepThread run4Ticked_reachable 2).2 (by decide)⟩

/-- C15: in every reachable state in which a thread other than main runs, for every
`n ≥ 0`, `sleepThread(n)` returns `SUCCESS` and leaves `TOSLEEP` pending, the call of
`manageThreads` this triggers returns, and in the state it leaves the caller is in the
sleeping vector, in neither the ready nor the blocked vector, has state `SLEEPING` and
`_quantumsLeftToSleep = n`, and `getTimeToWakeUp` of the caller returns `n`. -/
theorem C15_sleep_dispatch_keeps_n {maxThreads stackSize : Int} {s : Scheduler}
    (h : Reachable maxThreads stackSize s) (n : Int) (hn : 0 ≤ n)
    (hne : s._runningThread ≠ MAIN_THREAD_ID) :
    ∃ s1 s2 t2, sleepThread s n = Outcome.ret (SUCCESS, s1) ∧
      s1._currentScenario = scenario.TOSLEEP ∧
      manageThreads s1 = Outcome.ret s2 ∧
      invoke_member_function s (.uthread_sleep n) = Outcome.ret (SUCCESS, s2) ∧
      s._runningThread ∈ s2._sleepThreads ∧
      s._runningThread ∉ s2._readyThreads ∧
      s._runningThread ∉ s2._blockThreads ∧
      s2._threads.find s._runningThread = some t2 ∧
      t2._state = state.SLEEPING ∧
      t2._quantumsLeftToSleep = n ∧
      getTimeToWakeUp s2 s._runningThread = Outcome.ret (n, s2) := by
  obtain ⟨hI, hR, _⟩ := h.inv
  obtain ⟨t, hf, _⟩ := hI.running_live hR
  have hacc := sleepThread_accepted hf hne (not_lt.mpr hn)
  obtain ⟨hI1, _⟩ := sleepThread_inv hI hR hacc
  obtain ⟨s1', s2, hs1', hI1', hF, hm, hI2, hR2, _, _, _, hsl, _, hrec, _, _, _⟩ :=
    manageThreads_summary hI1
  dsimp only at hsl
  simp only [if_true] at hsl
  have hmem : s._runningThread ∈ s2._sleepThreads := by
    rw [hsl]; simp
  obtain ⟨hnr2, _, t2, ht2, hst2⟩ := hI2.sleep_state _ hmem
  have hnotsl : s._runningThread ∉ s._sleepThreads := fun hc =>
    (hI.sleep_state _ hc).1 rfl
  have hfind1 := hF.others s._runningThread hnotsl
  dsimp only at hfind1
  simp only [Table.find_update_map, Option.map_map, hf, Option.map_some', if_true,
    Function.comp] at hfind1
  obtain ⟨t1, ht1, e2⟩ := hrec _ t2 ht2
  rw [hfind1] at ht1
  cases ht1
  have hleft : t2._quantumsLeftToSleep = n := by
    rw [e2]; rfl
  refine ⟨_, s2, t2, hacc, rfl, hm, ?_, hmem, ?_, ?_, ht2, hst2, hleft, ?_⟩
  · simp [invoke_member_function, Call.run, hacc, getScenario, hm]
  · intro hc
    obtain ⟨_, u, hu, hus⟩ := hI2.ready_state _ hc
    rw [ht2] at hu; cases hu
    rw [hst2] at hus; cases hus
  · intro hc
    obtain ⟨_, _, u, hu, hus⟩ := hI2.block_state _ hc
    rw [ht2] at hu; cases hu
    rw [hst2] at hus; cases hus
  · rw [getTimeToWakeUp_live hI2 ht2 hne hnr2, if_pos hst2, hleft]

/-- C15 at the state in which thread 1 runs, with `n = 2`. -/
theorem C15_sleep_dispatch_keeps_n_witness :
    Reachable 4 4096 run4Ticked ∧ run4Ticked._runningThread ≠ MAIN_THREAD_ID ∧
    ∃ s1 s2 t2, sleepThread run4Ticked 2 = Outcome.ret (SUCCESS, s1) ∧
      s1._currentScenario = scenario.TOSLEEP ∧
      manageThreads s1 = Outcome.ret s2 ∧
      invoke_member_function run4Ticked (.uthread_sleep 2) = Outcome.ret (SUCCESS, s2) ∧
      run4Ticked._runningThread ∈ s2._sleepThreads ∧
      run4Ticked._runningThread ∉ s2._readyThreads ∧
      run4Ticked._runningThread ∉ s2._blockThreads ∧
      s2._threads.find run4Ticked._runningThread = some t2 ∧
      t2._state = state.SLEEPING ∧
      t2._quantumsLeftToSleep = 2 ∧
      getTimeToWakeUp s2 run4Ticked._runningThread = Outcome.ret (2, s2) :=
  ⟨run4Ticked_reachable, by decide,
    C15_sleep_dispatch_keeps_n run4Ticked_reachable 2 (by decide) (by decide)⟩

/-- C16: the constructor returns a scheduler whose `getTotalQuantumCounter()` is 1. In
every reachable state `manageThreads` returns and adds exactly 1 to the total; every
member function that returns (`addThread`, `removeThread`, `blockThread`,
`resumeThread`, `sleepThread` and the queries) leaves the total as it was, and the call
of `manageThreads` on the state it leaves returns and adds exactly 1. -/
theorem C16_total_quantum_counter {maxThreads stackSize : Int} {s : Scheduler}
    (h : Reachable maxThreads stackSize s) :
    (∃ s0, Scheduler.ctor maxThreads stackSize = Outcome.ret s0 ∧
      getTotalQuantumCounter s0 666 = 1) ∧
    (∃ s2, manageThreads s = Outcome.ret s2 ∧
      getTotalQuantumCounter s2 666 = getTotalQuantumCounter s 666 + 1) ∧
    (∀ c r s1, Call.wellFormed c → Call.run s c = Outcome.ret (r, s1) →
      getTotalQuantumCounter s1 666 = getTotalQuantumCounter s 666 ∧
      ∃ s2, manageThreads s1 = Outcome.ret s2 ∧
        getTotalQuantumCounter s2 666 = getTotalQuantumCounter s1 666 + 1) := by
  obtain ⟨hI, hR, hmax⟩ := h.inv
  have hpos : 0 < maxThreads := hmax ▸ hI.max_pos
  refine ⟨⟨_, ctor_spec maxThreads stackSize hpos, rfl⟩, ?_, ?_⟩
  · obtain ⟨s2, hm, _, _, htot, _⟩ := manageThreads_counters hI
    exact ⟨s2, hm, by simp [getTotalQuantumCounter, htot]⟩
  · intro c r s1 hc hrun
    obtain ⟨hI1, _⟩ := Call.run_inv hI hR hc hrun
    have he := (Call.run_effect hI hR hrun).total
    obtain ⟨s2, hm, _, _, htot, _⟩ := manageThreads_counters hI1
    exact ⟨by simp [getTotalQuantumCounter, he], s2, hm,
      by simp [getTotalQuantumCounter, htot]⟩

/-- C16 at the state in which main runs and two threads are ready. -/
theorem C16_total_quantum_counter_witness :
    (∃ s0, Scheduler.ctor 4 4096 = Outcome.ret s0 ∧ getTotalQuantumCounter s0 666 = 1) ∧
    (∃ s2, manageThreads run4Two = Outcome.ret s2 ∧
      getTotalQuantumCounter s2 666 = getTotalQuantumCounter run4Two 666 + 1) ∧
    (∀ c r s1, Call.wellFormed c → Call.run run4Two c = Outcome.ret (r, s1) →
      getTotalQuantumCounter s1 666 = getTotalQuantumCounter run4Two 666 ∧
      ∃ s2, manageThreads s1 = Outcome.ret s2 ∧
        getTotalQuantumCounter s2 666 = getTotalQuantumCounter s1 666 + 1) :=
  C16_total_quantum_counter run4Two_reachable

/-- C17: the constructor returns a scheduler in which the main thread has
`getQuantums() = 1`. In every reachable state, a member function that returns leaves
the quantum counter of every thread it keeps, and a thread that is new (spawned by it)
has counter 0; `manageThreads`, called on a reachable state or on the state a member
function left, returns, dispatches a thread that was live, adds exactly 1 to the counter
of that thread and leaves the counter of every other thread. -/
theorem C17_thread_quantum_counters {maxThreads stackSize : Int} {s : Scheduler}
    (h : Reachable maxThreads stackSize s) :
    (∃ s0 t0, Scheduler.ctor maxThreads stackSize = Outcome.ret s0 ∧
      s0._threads.find MAIN_THREAD_ID = some t0 ∧ t0.getQuantums = 1) ∧
    (∀ f ID s1, addThread s f = Outcome.ret (ID, s1) → ID ≠ FAILURE →
      s._threads.find ID = none ∧
      ∃ t, s1._threads.find ID = some t ∧ t.getQuantums = 0) ∧
    (∀ c r s1, Call.wellFormed c → Call.run s c = Outcome.ret (r, s1) →
      (∀ k t1, s1._threads.find k = some t1 →
        (∃ t, s._threads.find k = some t ∧ t1.getQuantums = t.getQuantums) ∨
        (s._threads.find k = none ∧ t1.getQuantums = 0)) ∧
      ∃ s2, manageThreads s1 = Outcome.ret s2 ∧
        (∃ t, s1._threads.find s2._runningThread = some t) ∧
        (∀ k t, s1._threads.find k = some t → ∃ t2, s2._threads.find k = some t2 ∧
          t2.getQuantums = t.getQuantums + (if k = s2._runningThread then 1 else 0)) ∧
        (∀ k, s2._threads.find k = none ↔ s1._threads.find k = none)) ∧
    (∃ s2, manageThreads s = Outcome.ret s2 ∧
      (∃ t, s._threads.find s2._runningThread = some t) ∧
      (∀ k t, s._threads.find k = some t → ∃ t2, s2._threads.find k = some t2 ∧
        t2.getQuantums = t.getQuantums + (if k = s2._runningThread then 1 else 0)) ∧
      (∀ k, s2._threads.find k = none ↔ s._threads.find k = none)) := by
  obtain ⟨hI, hR, hmax⟩ := h.inv
  have hpos : 0 < maxThreads := hmax ▸ hI.max_pos
  refine ⟨⟨_, _, ctor_spec maxThreads stackSize hpos, rfl, rfl⟩, ?_, ?_, ?_⟩
  · intro f ID s1 hadd hID
    by_cases hfull : (s._threads.length : Int) = s._maxThreads
    · rw [addThread_full f hfull] at hadd
      cases hadd
      exact absurd rfl hID
    · obtain ⟨j, _, hfree, _, hj⟩ := addThread_free hI f hfull
      rw [hj] at hadd
      cases hadd
      refine ⟨hfree, Thread.ctor j s._stackSize f, ?_, rfl⟩
      dsimp only
      rw [Table.find_insert _ _ _ _ hfree, if_pos rfl]
  · intro c r s1 hc hrun
    obtain ⟨hI1, _⟩ := Call.run_inv hI hR hc hrun
    obtain ⟨s2, hm, _, _, _, hd, hq, hl⟩ := manageThreads_counters hI1
    exact ⟨(Call.run_effect hI hR hrun).quantums, s2, hm, hd, hq, hl⟩
  · obtain ⟨s2, hm, _, _, _, hd, hq, hl⟩ := manageThreads_counters hI
    exact ⟨s2, hm, hd, hq, hl⟩

/-- C17 at the state in which main runs and two threads are ready. -/
theorem C17_thread_quantum_counters_witness :
    (∃ s0 t0, Scheduler.ctor 4 4096 = Outcome.ret s0 ∧
      s0._threads.find MAIN_THREAD_ID = some t0 ∧ t0.getQuantums = 1) ∧
    (∀ f ID s1, addThread run4Two f = Outcome.ret (ID, s1) → ID ≠ FAILURE →
      run4Two._threads.find ID = none ∧
      ∃ t, s1._threads.find ID = some t ∧ t.getQuantums = 0) ∧
    (∀ c r s1, Call.wellFormed c → Call.run run4Two c = Outcome.ret (r, s1) →
      (∀ k t1, s1._threads.find k = some t1 →
        (∃ t, run4Two._threads.find k = some t ∧ t1.getQuantums = t.getQuantums) ∨
        (run4Two._threads.find k = none ∧ t1.getQuantums = 0)) ∧
      ∃ s2, manageThreads s1 = Outcome.ret s2 ∧
        (∃ t, s1._threads.find s2._runningThread = some t) ∧
        (∀ k t, s1._threads.find k = some t → ∃ t2, s2._threads.find k = some t2 ∧
          t2.getQuantums = t.getQuantums + (if k = s2._runningThread then 1 else 0)) ∧
        (∀ k, s2._threads.find k = none ↔ s1._threads.find k = none)) ∧
    (∃ s2, manageThreads run4Two = Outcome.ret s2 ∧
      (∃ t, run4Two._threads.find s2._runningThread = some t) ∧
      (∀ k t, run4Two._threads.find k = some t → ∃ t2, s2._threads.find k = some t2 ∧
        t2.getQuantums = t.getQuantums + (if k = s2._runningThread then 1 else 0)) ∧
      (∀ k, s2._threads.find k = none ↔ run4Two._threads.find k = none)) :=
  C17_thread_quantum_counters run4Two_reachable

/-- C18 (what the code does): in every reachable state in which the main thread is not
the running thread, the main thread has a record whose state is `READY` (it is not
sleeping), and `getTimeToWakeUp(0)` returns `FAILURE` (-1), not 0; the state is
unchanged. -/
theorem C18_getTimeToWakeUp_main_waiting_fails {maxThreads stackSize : Int} {s : Scheduler}
    (h : Reachable maxThreads stackSize s) (hnr : s._runningThread ≠ MAIN_THREAD_ID) :
    (∃ t, s._threads.find MAIN_THREAD_ID = some t ∧ t._state = state.READY) ∧
    getTimeToWakeUp s MAIN_THREAD_ID = Outcome.ret (FAILURE, s) := by
  obtain ⟨hI, hR, _⟩ := h.inv
  have hm := hI.main_mem_ready hnr
  obtain ⟨_, t, ht, hst⟩ := hI.ready_state _ hm
  refine ⟨⟨t, ht, hst⟩, ?_⟩
  have hp := hI.max_pos
  simp [getTimeToWakeUp, getVectorOfThread_main hI, Ne.symm hnr,
    badIDChecker_of_range hI (le_refl (0 : Int)) hp]

/-- C18 at the state in which thread 1 runs and main waits in ready. -/
theorem C18_getTimeToWakeUp_main_waiting_fails_witness :
    Reachable 4 4096 run4Ticked ∧ run4Ticked._runningThread ≠ MAIN_THREAD_ID ∧
    (∃ t, run4Ticked._threads.find MAIN_THREAD_ID = some t ∧ t._state = state.READY) ∧
    getTimeToWakeUp run4Ticked MAIN_THREAD_ID = Outcome.ret (FAILURE, run4Ticked) :=
  ⟨run4Ticked_reachable, by decide,
    C18_getTimeToWakeUp_main_waiting_fails run4Ticked_reachable (by decide)⟩

/-- C19: in every reachable state, for every id with a record (the running thread, the
main thread whether it runs or not, a thread in the ready, blocked or sleeping vector)
`getNumOfQuantums` returns `getQuantums()` of that record; for an id in
`[0, maxThreads)` without a record it returns `FAILURE` (-1); in both cases the state
is unchanged. -/
theorem C19_getNumOfQuantums {maxThreads stackSize : Int} {s : Scheduler}
    (h : Reachable maxThreads stackSize s) (ID : Int) :
    (∀ t, s._threads.find ID = some t →
      getNumOfQuantums s ID = Outcome.ret (t.getQuantums, s)) ∧
    (0 ≤ ID → ID < maxThreads → s._threads.find ID = none →
      getNumOfQuantums s ID = Outcome.ret (FAILURE, s)) := by
  obtain ⟨hI, hR, hmax⟩ := h.inv
  refine ⟨fun t hf => getNumOfQuantums_live hI hf, ?_⟩
  intro h0 h1 hf
  have hne : ID ≠ 0 := by
    intro e
    obtain ⟨u, hu⟩ := hI.main_live
    rw [e] at hf
    rw [hf] at hu
    cases hu
  exact getNumOfQuantums_absent hI hR (by omega) (hmax ▸ h1) hf

/-- C19 at the state in which thread 1 runs: the waiting main thread has run one
quantum, and id 3 has no record. -/
theorem C19_getNumOfQuantums_witness :
    Reachable 4 4096 run4Ticked ∧
    getNumOfQuantums run4Ticked 0 = Outcome.ret (1, run4Ticked) ∧
    getNumOfQuantums run4Ticked 3 = Outcome.ret (FAILURE, run4Ticked) :=
  ⟨run4Ticked_reachable,
    (C19_getNumOfQuantums run4Ticked_reachable 0).1
      ((Thread.ctor 0 4096 none).incrementQuantum.saveEnv.setState state.READY) (by decide),
    (C19_getNumOfQuantums run4Ticked_reachable 3).2 (by decide) (by decide) (by decide)⟩

/-! ### The thread at the front of the sleeping vector -/

theorem head_eraseIdx_succ (l : List Int) (k : Nat) :
    (l.eraseIdx (k + 1)).head? = l.head? := by
  cases l <;> rfl

theorem head_filter_ne (l : List Int) (A ID : Int) (hh : l.head? = some A) (hne : A ≠ ID) :
    (l.filter (fun k => k ≠ ID)).head? = some A := by
  cases l with
  | nil => cases hh
  | cons a l =>
    simp only [List.head?_cons, Option.some.injEq] at hh
    subst hh
    simp [List.filter_cons, hne]

theorem mem_of_head (l : List Int) (A : Int) (hh : l.head? = some A) : A ∈ l := by
  cases l with
  | nil => cases hh
  | cons a l =>
    simp only [List.head?_cons, Option.some.injEq] at hh
    subst hh
    exact List.mem_cons_self _ _

theorem getD_succ_ne_head (l : List Int) (A : Int) (hh : l.head? = some A) (hn : l.Nodup)
    (k : Nat) (hk : k + 1 < l.length) : l.getD (k + 1) 0 ≠ A := by
  cases l with
  | nil => cases hh
  | cons a l =>
    simp only [List.head?_cons, Option.some.injEq] at hh
    subst hh
    have hk1 : k < l.length := by simpa using hk
    intro e
    have hmem : l.getD k 0 ∈ l := by
      rw [List.getD_eq_getElem _ _ hk1]; exact List.getElem_mem _
    have : (a :: l).getD (k + 1) 0 = l.getD k 0 := rfl
    rw [this] at e
    rw [e] at hmem
    exact (List.nodup_cons.mp hn).1 hmem

/-- An iteration of the loop of `_manageSleepingThreads` with the iterator behind the
front leaves the front of the sleeping vector and the record of that thread. -/
theorem manageSleeping_body_head {s : Scheduler} (hI : Inv s) (k : Nat)
    (hit : k + 1 < s._sleepThreads.length) {s1 : Scheduler}
    (hb : _manageSleepingThreads.body (k + 1) s = Outcome.ret s1) :
    s1._sleepThreads.head? = s._sleepThreads.head? ∧
    ∀ A, s._sleepThreads.head? = some A → s1._threads.find A = s._threads.find A := by
  obtain ⟨t, hf, hb1⟩ := manageSleeping_body_spec hI hit
  rw [hb1] at hb
  split at hb
  · cases hb
    refine ⟨head_eraseIdx_succ _ _, ?_⟩
    intro A hA
    have hne := (getD_succ_ne_head _ A hA hI.sleep_nodup k hit).symm
    dsimp only
    rw [Table.find_update_ne _ _ hne, Table.find_update_ne _ _ hne]
  · cases hb
    refine ⟨rfl, ?_⟩
    intro A hA
    have hne := (getD_succ_ne_head _ A hA hI.sleep_nodup k hit).symm
    dsimp only
    rw [Table.find_update_ne _ _ hne]

theorem manageSleeping_loop_head :
    ∀ (n k : Nat) (s : Scheduler), Inv s → ∀ s1,
      _manageSleepingThreads.loop n (k + 1) s = Outcome.ret s1 →
      s1._sleepThreads.head? = s._sleepThreads.head? ∧
      ∀ A, s._sleepThreads.head? = some A → s1._threads.find A = s._threads.find A := by
  intro n
  induction n with
  | zero =>
    intro k s _ s1 h
    cases h; exact ⟨rfl, fun _ _ => rfl⟩
  | succ n ih =>
    intro k s hI s1 h
    rw [_manageSleepingThreads.loop] at h
    by_cases hit : k + 1 < s._sleepThreads.length
    · obtain ⟨sb, hb, hIb, _, _⟩ := manageSleeping_body_inv hI hit
      simp only [hit, if_true, hb, Outcome.ret_bind] at h
      obtain ⟨e1, e2⟩ := ih (k + 1) sb hIb s1 h
      obtain ⟨b1, b2⟩ := manageSleeping_body_head hI k hit hb
      refine ⟨e1.trans b1, ?_⟩
      intro A hA
      rw [e2 A (b1.trans hA), b2 A hA]
    · simp only [hit, if_false] at h
      cases h; exact ⟨rfl, fun _ _ => rfl⟩

/-- What `_manageSleepingThreads` does to the thread at the front of the sleeping
vector: its counter is decremented, and it is moved to the ready vector exactly if the
counter reaches zero. -/
theorem manageSleeping_head {s : Scheduler} (hI : Inv s) {A : Int} {t : Thread}
    (hh : s._sleepThreads.head? = some A) (hf : s._threads.find A = some t) :
    ∃ s1, _manageSleepingThreads s = Outcome.ret s1 ∧
      (t._quantumsLeftToSleep - 1 ≠ 0 →
        s1._sleepThreads.head? = some A ∧
        s1._threads.find A = some t.decrementQuantumsToSleep) ∧
      (t._quantumsLeftToSleep - 1 = 0 → A ∉ s1._sleepThreads ∧ A ∈ s1._readyThreads) := by
  obtain ⟨s1, hs1, hI1, hF⟩ := manageSleeping_inv hI
  refine ⟨s1, hs1, ?_⟩
  cases hl : s._sleepThreads with
  | nil => rw [hl] at hh; cases hh
  | cons a l =>
    have ha : a = A := by
      rw [hl] at hh; simpa using hh
    subst ha
    have hit : 0 < s._sleepThreads.length := by rw [hl]; simp
    have hg : s._sleepThreads.getD 0 0 = a := by rw [hl]; rfl
    obtain ⟨t0, hf0, hb⟩ := manageSleeping_body_spec hI hit
    rw [hg] at hf0 hb
    rw [hf] at hf0; cases hf0
    obtain ⟨sb, hb2, hIb, hFb, _⟩ := manageSleeping_body_inv hI hit
    have hloop : _manageSleepingThreads.loop l.length 1 sb = Outcome.ret s1 := by
      have := hs1
      rw [_manageSleepingThreads, hl, List.length_cons, _manageSleepingThreads.loop] at this
      simp only [← hl, hit, if_true, hb2, Outcome.ret_bind] at this
      exact this
    obtain ⟨e1, e2⟩ := manageSleeping_loop_head l.length 0 sb hIb s1 hloop
    obtain ⟨hF1⟩ : Nonempty (SleepFrame sb s1) := by
      obtain ⟨s1', h1', _, hF'⟩ := manageSleeping_loop_inv l.length 1 sb hIb
      rw [hloop] at h1'; cases h1'
      exact ⟨hF'⟩
    rw [hb] at hb2
    constructor
    · intro hz
      rw [if_neg hz] at hb2
      cases hb2
      dsimp only at e1 e2
      refine ⟨e1.trans hh, ?_⟩
      rw [e2 a hh]
      exact Table.find_update_self _ _ hf
    · intro hz
      rw [if_pos hz] at hb2
      cases hb2
      have hnd := hI.sleep_nodup
      rw [hl] at hnd
      constructor
      · intro hm
        have := hF1.sleepThreads a hm
        dsimp only at this
        rw [hl] at this
        simp only [List.eraseIdx_cons_zero] at this
        exact (List.nodup_cons.mp hnd).1 this
      · obtain ⟨w, hw⟩ := hF1.readyThreads
        rw [hw]
        dsimp only
        simp

/-- A call of `manageThreads`, whatever scenario is pending, on a state in which `A` is
at the front of the sleeping vector: `A` stays there with one quantum less to sleep,
unless that brings its counter to zero, in which case it has left the sleeping vector
and is ready or running. -/
theorem manageThreads_head_sleeper {s : Scheduler} (hI : Inv s) {A : Int} {t : Thread}
    (hh : s._sleepThreads.head? = some A) (hf : s._threads.find A = some t) :
    ∃ s2, manageThreads s = Outcome.ret s2 ∧ Inv s2 ∧
      s2._currentScenario = scenario.ROUTINE ∧ s2._maxThreads = s._maxThreads ∧
      s2._totalQuantumCounter = s._totalQuantumCounter + 1 ∧
      (t._quantumsLeftToSleep - 1 ≠ 0 →
        s2._sleepThreads.head? = some A ∧
        ∃ t2, s2._threads.find A = some t2 ∧ t2._state = state.SLEEPING ∧
          t2._quantumsLeftToSleep = t._quantumsLeftToSleep - 1) ∧
      (t._quantumsLeftToSleep - 1 = 0 →
        A ∉ s2._sleepThreads ∧
        ∃ t2, s2._threads.find A = some t2 ∧
          ((t2._state = state.READY ∧ A ∈ s2._readyThreads) ∨
           (t2._state = state.RUNNING ∧ s2._runningThread = A))) := by
  obtain ⟨s1, s2, hs1, hI1, hF, hm, hI2, hR2, hmax, htot, hrd, hsl, _, hrec, _, _, _⟩ :=
    manageThreads_summary hI
  obtain ⟨s1', hs1', hkeep, hwake⟩ := manageSleeping_head hI hh hf
  rw [hs1] at hs1'; cases hs1'
  obtain ⟨hAr, hAm, _⟩ := hI.sleep_state A (mem_of_head _ _ hh)
  refine ⟨s2, hm, hI2, hR2, hmax.trans hF.maxThreads,
    by rw [htot, hF.totalQuantumCounter], ?_, ?_⟩
  · intro hz
    obtain ⟨h1, h2⟩ := hkeep hz
    have hhead : s2._sleepThreads.head? = some A := by
      rw [hsl]
      cases hl : s1._sleepThreads with
      | nil => rw [hl] at h1; cases h1
      | cons a l => rw [hl] at h1; simpa using h1
    obtain ⟨_, _, t2, ht2, hst2⟩ := hI2.sleep_state A (mem_of_head _ _ hhead)
    refine ⟨hhead, t2, ht2, hst2, ?_⟩
    obtain ⟨t1, ht1, e⟩ := hrec A t2 ht2
    rw [h2] at ht1; cases ht1
    rw [e]; rfl
  · intro hz
    obtain ⟨h1, h2⟩ := hwake hz
    have hnot : A ∉ s2._sleepThreads := by
      rw [hsl]
      intro hc
      rcases List.mem_append.mp hc with hc | hc
      · exact h1 hc
      · split at hc
        · simp only [List.mem_singleton] at hc
          exact hAr hc
        · cases hc
    refine ⟨hnot, ?_⟩
    have hmem : A ∈ s2._runningThread :: s2._readyThreads := by
      rw [← hrd]; exact List.mem_append_left _ h2
    rcases List.mem_cons.mp hmem with e | hmr
    · obtain ⟨u, hu, hus⟩ := hI2.running_live hR2
      rw [← e] at hu hus
      refine ⟨u, hu, Or.inr ⟨?_, e.symm⟩⟩
      rcases hus with hus | hus
      · exact hus
      · exact absurd hus.1 hAm
    · obtain ⟨_, u, hu, hus⟩ := hI2.ready_state A hmr
      exact ⟨u, hu, Or.inl ⟨hus, hmr⟩⟩

/-- No member function called by another thread, except the one that terminates `A`,
touches a thread `A` at the front of the sleeping vector. -/
theorem Effect.head_sleeper {s s1 : Scheduler} {c : Call} (h : Effect s c s1) (hI : Inv s)
    {A : Int} {t : Thread} (hh : s._sleepThreads.head? = some A)
    (hf : s._threads.find A = some t) (hc : c ≠ .uthread_terminate A) :
    s1._sleepThreads.head? = some A ∧ s1._threads.find A = some t := by
  obtain ⟨hAr, hAm, u, hu, hst⟩ := hI.sleep_state A (mem_of_head _ _ hh)
  rw [hf] at hu; cases hu
  cases h with
  | same => exact ⟨hh, hf⟩
  | spawned f j hfj hj =>
    refine ⟨hh, ?_⟩
    dsimp only
    rw [Table.find_insert _ _ _ _ hfj]
    have hne : A ≠ (j : Int) := by
      intro e; rw [e, hfj] at hf; cases hf
    rw [if_neg hne]; exact hf
  | removedOther ID t0 hf0 hne hnr =>
    have hne2 : A ≠ ID := by
      intro e; exact hc (by rw [e])
    refine ⟨head_filter_ne _ _ _ hh hne2, ?_⟩
    dsimp only
    rw [Table.find_erase, if_neg hne2]; exact hf
  | removedSelf t0 hf0 hne =>
    refine ⟨hh, ?_⟩
    dsimp only
    rw [Table.find_erase, if_neg hAr]; exact hf
  | blockedReady ID t0 hf0 hst0 hne hnr =>
    have hne2 : A ≠ ID := by
      intro e; rw [e, hf0] at hf; cases hf
      rw [hst0] at hst; cases hst
    exact ⟨hh, by dsimp only; rw [Table.find_update_ne _ _ hne2]; exact hf⟩
  | blockedSelf t0 hf0 hne =>
    exact ⟨hh, by dsimp only; rw [Table.find_update_ne _ _ hAr]; exact hf⟩
  | resumed ID t0 hf0 hst0 hnr =>
    have hne2 : A ≠ ID := by
      intro e; rw [e, hf0] at hf; cases hf
      rw [hst0] at hst; cases hst
    exact ⟨hh, by dsimp only; rw [Table.find_update_ne _ _ hne2]; exact hf⟩
  | slept n t0 hf0 hne hq =>
    refine ⟨hh, ?_⟩
    dsimp only
    rw [Table.find_update_ne _ _ hAr, Table.find_update_ne _ _ hAr,
      Table.find_update_ne _ _ hAr]
    exact hf


/-! ### Steps of an execution -/

/-- The three ways a step runs: a tick calls `manageThreads`; a call runs its member
function and, if that left a scenario pending, `manageThreads` on the state it left. -/
theorem Step.exec_cases {s : Scheduler} (hI : Inv s)
    (hR : s._currentScenario = scenario.ROUTINE) {st : Step} (hwf : st.wellFormed)
    {d : Option Int} {s' : Scheduler} (h : st.exec s = Outcome.ret (d, s')) :
    (st = .tick ∧ manageThreads s = Outcome.ret s' ∧ d = some s'._runningThread) ∨
    (∃ c r, st = .call c ∧ c.run s = Outcome.ret (r, s') ∧
      s'._currentScenario = scenario.ROUTINE ∧ d = none ∧ Effect s c s' ∧ Inv s') ∨
    (∃ c r s1, st = .call c ∧ c.run s = Outcome.ret (r, s1) ∧
      s1._currentScenario ≠ scenario.ROUTINE ∧ Effect s c s1 ∧ Inv s1 ∧
      manageThreads s1 = Outcome.ret s' ∧ d = some s'._runningThread) := by
  cases st with
  | tick =>
    simp only [Step.exec, Outcome.bind_eq_ret] at h
    obtain ⟨s2, hm, h⟩ := h
    cases h
    exact Or.inl ⟨rfl, hm, rfl⟩
  | call c =>
    simp only [Step.exec, Outcome.bind_eq_ret] at h
    obtain ⟨⟨r1, s1⟩, hrun, h⟩ := h
    obtain ⟨hI1, _⟩ := Call.run_inv hI hR hwf hrun
    have hE := Call.run_effect hI hR hrun
    dsimp only at h
    split at h
    · rename_i hsc
      simp only [Outcome.bind_eq_ret] at h
      obtain ⟨s2, hm, h⟩ := h
      cases h
      exact Or.inr (Or.inr ⟨c, r1, s1, rfl, hrun, by simpa [getScenario] using hsc, hE, hI1,
        hm, rfl⟩)
    · rename_i hsc
      cases h
      exact Or.inr (Or.inl ⟨c, r1, rfl, hrun, by simpa [getScenario] using hsc, rfl, hE, hI1⟩)

/-- A step from a state between two calls leads to such a state; the total of quantums
stays or grows by one, and the thread reported as dispatched is the running one. -/
theorem Step.exec_inv {s : Scheduler} (hI : Inv s)
    (hR : s._currentScenario = scenario.ROUTINE) {st : Step} (hwf : st.wellFormed)
    {d : Option Int} {s' : Scheduler} (h : st.exec s = Outcome.ret (d, s')) :
    Inv s' ∧ s'._currentScenario = scenario.ROUTINE ∧ s'._maxThreads = s._maxThreads ∧
    (s'._totalQuantumCounter = s._totalQuantumCounter ∨
      s'._totalQuantumCounter = s._totalQuantumCounter + 1) ∧
    (∀ k, d = some k → s'._runningThread = k) := by
  rcases Step.exec_cases hI hR hwf h with ⟨_, hm, hd⟩ | ⟨c, r, _, _, hR1, hd, hE, hI1⟩ |
    ⟨c, r, s1, _, _, _, hE, hI1, hm, hd⟩
  · obtain ⟨s2, hm2, hI2, hR2, hmax⟩ := manageThreads_inv hI
    obtain ⟨s3, hm3, _, _, htot, _⟩ := manageThreads_counters hI
    rw [hm] at hm2 hm3; cases hm2; cases hm3
    refine ⟨hI2, hR2, hmax, Or.inr htot, ?_⟩
    intro k hk
    rw [hd] at hk; cases hk; rfl
  · refine ⟨hI1, hR1, hE.maxThreads, Or.inl hE.total, ?_⟩
    intro k hk
    rw [hd] at hk; cases hk
  · obtain ⟨s2, hm2, hI2, hR2, hmax⟩ := manageThreads_inv hI1
    obtain ⟨s3, hm3, _, _, htot, _⟩ := manageThreads_counters hI1
    rw [hm] at hm2 hm3; cases hm2; cases hm3
    refine ⟨hI2, hR2, hmax.trans hE.maxThreads, Or.inr (by rw [htot, hE.total]), ?_⟩
    intro k hk
    rw [hd] at hk; cases hk; rfl

theorem execute_cons {s : Scheduler} {st : Step} {rest : List Step}
    {tr : List (Option Int × Scheduler)} (h : execute s (st :: rest) = Outcome.ret tr) :
    ∃ p tr1, st.exec s = Outcome.ret p ∧ execute p.2 rest = Outcome.ret tr1 ∧
      tr = p :: tr1 := by
  simp only [execute, Outcome.bind_eq_ret] at h
  obtain ⟨p, hp, tr1, ht, h⟩ := h
  cases h
  exact ⟨p, tr1, hp, ht, rfl⟩

/-- Every state of an execution that starts between two calls is such a state, and
every thread reported as dispatched runs in the state reported with it. -/
theorem execute_inv :
    ∀ (steps : List Step) (s : Scheduler) (tr : List (Option Int × Scheduler)),
      Inv s → s._currentScenario = scenario.ROUTINE →
      (∀ st ∈ steps, Step.wellFormed st) → execute s steps = Outcome.ret tr →
      ∀ x ∈ tr, Inv x.2 ∧ x.2._currentScenario = scenario.ROUTINE ∧
        ∀ k, x.1 = some k → x.2._runningThread = k := by
  intro steps
  induction steps with
  | nil =>
    intro s tr _ _ _ h x hx
    cases h
    cases hx
  | cons st rest ih =>
    intro s tr hI hR hwf h x hx
    obtain ⟨⟨d, s'⟩, tr1, hp, ht, rfl⟩ := execute_cons h
    obtain ⟨hI', hR', _, _, hd⟩ := Step.exec_inv hI hR (hwf st (List.mem_cons_self _ _)) hp
    rcases List.mem_cons.mp hx with e | hx1
    · subst e
      exact ⟨hI', hR', hd⟩
    · exact ih s' tr1 hI' hR' (fun st1 h1 => hwf st1 (List.mem_cons_of_mem _ h1)) ht x hx1

/-! ### A sleeping thread along an execution -/

/-- A call of `manageThreads` and a thread `A` that is to wake when the total reaches
`W`: as long as the total stays below `W` the thread is at the front of the sleeping
vector with `W - total` quantums left; the call that takes the total from `W - 1` to `W`
takes it out of the sleeping vector and makes it ready or running. -/
theorem manageThreads_sleeper_step (A W : Int) {s : Scheduler} (hI : Inv s)
    (hP : s._totalQuantumCounter < W → s._sleepThreads.head? = some A ∧
      ∃ t, s._threads.find A = some t ∧ t._state = state.SLEEPING ∧
        t._quantumsLeftToSleep = W - s._totalQuantumCounter) :
    ∃ s2, manageThreads s = Outcome.ret s2 ∧ Inv s2 ∧
      s2._currentScenario = scenario.ROUTINE ∧
      s2._totalQuantumCounter = s._totalQuantumCounter + 1 ∧
      (s2._totalQuantumCounter < W → s2._sleepThreads.head? = some A ∧
        ∃ t, s2._threads.find A = some t ∧ t._state = state.SLEEPING ∧
          t._quantumsLeftToSleep = W - s2._totalQuantumCounter) ∧
      (s._totalQuantumCounter = W - 1 →
        A ∉ s2._sleepThreads ∧
        ∃ t2, s2._threads.find A = some t2 ∧
          ((t2._state = state.READY ∧ A ∈ s2._readyThreads) ∨
           (t2._state = state.RUNNING ∧ s2._runningThread = A))) := by
  by_cases hlt : s._totalQuantumCounter < W
  · obtain ⟨hh, t, hf, hst, hleft⟩ := hP hlt
    obtain ⟨s2, hm, hI2, hR2, _, htot, hkeep, hwake⟩ := manageThreads_head_sleeper hI hh hf
    refine ⟨s2, hm, hI2, hR2, htot, ?_, ?_⟩
    · intro hlt2
      obtain ⟨h1, t2, ht2, hst2, hl2⟩ := hkeep (by omega)
      exact ⟨h1, t2, ht2, hst2, by omega⟩
    · intro he
      exact hwake (by omega)
  · obtain ⟨s2, hm, hI2, hR2, htot, _⟩ := manageThreads_counters hI
    refine ⟨s2, hm, hI2, hR2, htot, ?_, ?_⟩
    · intro hlt2; omega
    · intro he; omega

/-- One step of an execution and a thread `A` that is to wake when the total reaches
`W`; the step is not the call that terminates `A`. -/
theorem Step.exec_sleeper (A W : Int) {s : Scheduler} (hI : Inv s)
    (hR : s._currentScenario = scenario.ROUTINE)
    (hP : s._totalQuantumCounter < W → s._sleepThreads.head? = some A ∧
      ∃ t, s._threads.find A = some t ∧ t._state = state.SLEEPING ∧
        t._quantumsLeftToSleep = W - s._totalQuantumCounter)
    {st : Step} (hwf : st.wellFormed) (hnt : st ≠ .call (.uthread_terminate A))
    {d : Option Int} {s' : Scheduler} (h : st.exec s = Outcome.ret (d, s')) :
    (s'._totalQuantumCounter < W → s'._sleepThreads.head? = some A ∧
      ∃ t, s'._threads.find A = some t ∧ t._state = state.SLEEPING ∧
        t._quantumsLeftToSleep = W - s'._totalQuantumCounter) ∧
    (s._totalQuantumCounter = W - 1 → s'._totalQuantumCounter = W →
      A ∉ s'._sleepThreads ∧
      ∃ t2, s'._threads.find A = some t2 ∧
        ((t2._state = state.READY ∧ A ∈ s'._readyThreads) ∨
         (t2._state = state.RUNNING ∧ s'._runningThread = A))) := by
  have hcall : ∀ c s1, st = .call c → Effect s c s1 →
      (s1._totalQuantumCounter < W → s1._sleepThreads.head? = some A ∧
        ∃ t, s1._threads.find A = some t ∧ t._state = state.SLEEPING ∧
          t._quantumsLeftToSleep = W - s1._totalQuantumCounter) := by
    intro c s1 hst hE hlt
    rw [hE.total] at hlt ⊢
    obtain ⟨hh, t, hf, hs, hl⟩ := hP hlt
    have hc : c ≠ .uthread_terminate A := by
      intro e; exact hnt (by rw [hst, e])
    obtain ⟨h1, h2⟩ := hE.head_sleeper hI hh hf hc
    exact ⟨h1, t, h2, hs, hl⟩
  rcases Step.exec_cases hI hR hwf h with ⟨_, hm, _⟩ | ⟨c, r, hst, _, _, _, hE, _⟩ |
    ⟨c, r, s1, hst, _, _, hE, hI1, hm, _⟩
  · obtain ⟨s2, hm2, _, _, _, hkeep, hwake⟩ := manageThreads_sleeper_step A W hI hP
    rw [hm] at hm2; cases hm2
    exact ⟨hkeep, fun he _ => hwake he⟩
  · refine ⟨hcall c s' hst hE, ?_⟩
    intro h1 h2
    have := hE.total
    omega
  · obtain ⟨s2, hm2, _, _, _, hkeep, hwake⟩ :=
      manageThreads_sleeper_step A W hI1 (hcall c s1 hst hE)
    rw [hm] at hm2; cases hm2
    exact ⟨hkeep, fun he _ => hwake (by rw [hE.total]; exact he)⟩

/-- An execution and a thread `A` that is to wake when the total reaches `W`. -/
theorem execute_sleeper (A W : Int) :
    ∀ (steps : List Step) (s : Scheduler) (tr : List (Option Int × Scheduler)),
      Inv s → s._currentScenario = scenario.ROUTINE →
      (s._totalQuantumCounter < W → s._sleepThreads.head? = some A ∧
        ∃ t, s._threads.find A = some t ∧ t._state = state.SLEEPING ∧
          t._quantumsLeftToSleep = W - s._totalQuantumCounter) →
      (∀ st ∈ steps, Step.wellFormed st) →
      Step.call (.uthread_terminate A) ∉ steps →
      execute s steps = Outcome.ret tr →
      (∀ x ∈ tr, x.2._totalQuantumCounter < W → x.2._sleepThreads.head? = some A ∧
        ∃ t, x.2._threads.find A = some t ∧ t._state = state.SLEEPING ∧
          t._quantumsLeftToSleep = W - x.2._totalQuantumCounter) ∧
      List.Chain (fun a b : Scheduler =>
        a._totalQuantumCounter = W - 1 → b._totalQuantumCounter = W →
        A ∉ b._sleepThreads ∧
        ∃ t2, b._threads.find A = some t2 ∧
          ((t2._state = state.READY ∧ A ∈ b._readyThreads) ∨
           (t2._state = state.RUNNING ∧ b._runningThread = A))) s (tr.map Prod.snd) := by
  intro steps
  induction steps with
  | nil =>
    intro s tr _ _ _ _ _ h
    cases h
    exact ⟨fun x hx => (by cases hx), List.Chain.nil⟩
  | cons st rest ih =>
    intro s tr hI hR hP hwf hnt h
    obtain ⟨⟨d, s'⟩, tr1, hp, ht, rfl⟩ := execute_cons h
    have hwf0 := hwf st (List.mem_cons_self _ _)
    have hnt0 : st ≠ .call (.uthread_terminate A) := by
      intro e; exact hnt (by rw [e]; exact List.mem_cons_self _ _)
    obtain ⟨hI', hR', _, _, _⟩ := Step.exec_inv hI hR hwf0 hp
    obtain ⟨hP', hW⟩ := Step.exec_sleeper A W hI hR hP hwf0 hnt0 hp
    obtain ⟨ih1, ih2⟩ := ih s' tr1 hI' hR' hP'
      (fun st1 h1 => hwf st1 (List.mem_cons_of_mem _ h1))
      (fun hc => hnt (List.mem_cons_of_mem _ hc)) ht
    constructor
    · intro x hx
      rcases List.mem_cons.mp hx with e | hx1
      · subst e; exact hP'
      · exact ih1 x hx1
    · exact List.Chain.cons hW ih2

theorem run4AsleepTick_reachable : Reachable 4 4096 run4AsleepTick :=
  afterTick_reachable run4Asleep_reachable (by decide)

theorem run4Woken_reachable : Reachable 4 4096 run4Woken :=
  afterTick_reachable run4AsleepTick_reachable (by decide)

/-- A successful `sleepThread(n)` and the dispatch it triggers, as one step. -/
theorem sleep_step {s : Scheduler} (hI : Inv s)
    (hR : s._currentScenario = scenario.ROUTINE) (n : Int) (hn : 0 ≤ n)
    (hne : s._runningThread ≠ MAIN_THREAD_ID) :
    ∃ s2 t2, Step.exec s (.call (.uthread_sleep n)) =
        Outcome.ret (some s2._runningThread, s2) ∧
      Inv s2 ∧ s2._currentScenario = scenario.ROUTINE ∧
      s2._totalQuantumCounter = s._totalQuantumCounter + 1 ∧
      s._runningThread ∈ s2._sleepThreads ∧
      s2._threads.find s._runningThread = some t2 ∧
      t2._state = state.SLEEPING ∧
      t2._quantumsLeftToSleep = n := by
  obtain ⟨t, hf, _⟩ := hI.running_live hR
  have hacc := sleepThread_accepted hf hne (not_lt.mpr hn)
  obtain ⟨hI1, _⟩ := sleepThread_inv hI hR hacc
  obtain ⟨s1', s2, hs1', hI1', hF, hm, hI2, hR2, _, htot, _, hsl, _, hrec, _, _, _⟩ :=
    manageThreads_summary hI1
  dsimp only at hsl
  simp only [if_true] at hsl
  have hmem : s._runningThread ∈ s2._sleepThreads := by
    rw [hsl]; simp
  obtain ⟨hnr2, _, t2, ht2, hst2⟩ := hI2.sleep_state _ hmem
  have hnotsl : s._runningThread ∉ s._sleepThreads := fun hc =>
    (hI.sleep_state _ hc).1 rfl
  have hfind1 := hF.others s._runningThread hnotsl
  dsimp only at hfind1
  simp only [Table.find_update_map, Option.map_map, hf, Option.map_some', if_true,
    Function.comp] at hfind1
  obtain ⟨t1, ht1, e2⟩ := hrec _ t2 ht2
  rw [hfind1] at ht1
  cases ht1
  have hleft : t2._quantumsLeftToSleep = n := by
    rw [e2]; rfl
  refine ⟨s2, t2, ?_, hI2, hR2, ?_, hmem, ht2, hst2, hleft⟩
  · simp [Step.exec, Call.run, hacc, getScenario, hm]
  · rw [htot, hF.totalQuantumCounter]

set_option maxRecDepth 100000 in
/-- C14, counterexample: thread 1 calls `sleepThread(2)` while the total of quantums is
`Q = 2`. The dispatch that brings the total to `Q + 2 = 4` leaves thread 1 in the
sleeping vector with state `SLEEPING` and one quantum left; it is the dispatch that
brings the total to 5 that moves it to the ready vector. -/
theorem C14_counterexample :
    Reachable 4 4096 run4Ticked ∧ run4Ticked._runningThread = 1 ∧
    getTotalQuantumCounter run4Ticked 666 = 2 ∧
    invoke_member_function run4Ticked (.uthread_sleep 2) = Outcome.ret (SUCCESS, run4Asleep) ∧
    getTotalQuantumCounter run4Asleep 666 = 3 ∧
    manageThreads run4Asleep = Outcome.ret run4AsleepTick ∧
    getTotalQuantumCounter run4AsleepTick 666 = 4 ∧
    run4AsleepTick._sleepThreads = [1] ∧
    run4AsleepTick._readyThreads = [2] ∧
    (run4AsleepTick._threads.find 1).map Thread.getState = some state.SLEEPING ∧
    getTimeToWakeUp run4AsleepTick 1 = Outcome.ret (1, run4AsleepTick) ∧
    manageThreads run4AsleepTick = Outcome.ret run4Woken ∧
    getTotalQuantumCounter run4Woken 666 = 5 ∧
    run4Woken._sleepThreads = [] ∧
    run4Woken._readyThreads = [1, 0] ∧
    (run4Woken._threads.find 1).map Thread.getState = some state.READY :=
  ⟨run4Ticked_reachable, by decide, by decide, by decide, by decide, by decide, by decide,
    by decide, by decide, by decide, by decide, by decide, by decide, by decide, by decide,
    by decide⟩

/-- C14, amended: in every reachable state in which a thread `A` other than main runs
and the total of quantums is `Q`, for every `n > 0`, the call `sleepThread(n)` and the
dispatch it triggers return and bring the total to `Q + 1`. If `A` is then at the front
of the sleeping vector, then along every execution from there in which `A` is not
terminated: in every state whose total is at most `Q + n`, `A` is at the front of the
sleeping vector with state `SLEEPING` and `Q + n + 1 - total` quantums left; and the
step that takes the total from `Q + n` to `Q + n + 1` takes `A` out of the sleeping
vector and leaves it `READY` in the ready vector, or `RUNNING`. -/
theorem C14_sleep_wakes_at_Q_plus_n_plus_1 {maxThreads stackSize : Int} {s : Scheduler}
    (h : Reachable maxThreads stackSize s) (n : Int) (hn : 0 < n)
    (hne : s._runningThread ≠ MAIN_THREAD_ID) :
    ∃ d0 s0, Step.exec s (.call (.uthread_sleep n)) = Outcome.ret (d0, s0) ∧
      s0._totalQuantumCounter = s._totalQuantumCounter + 1 ∧
      ∀ (steps : List Step) (tr : List (Option Int × Scheduler)),
        s0._sleepThreads.head? = some s._runningThread →
        (∀ st ∈ steps, Step.wellFormed st) →
        Step.call (.uthread_terminate s._runningThread) ∉ steps →
        execute s0 steps = Outcome.ret tr →
        (∀ x ∈ (d0, s0) :: tr, x.2._totalQuantumCounter ≤ s._totalQuantumCounter + n →
          x.2._sleepThreads.head? = some s._runningThread ∧
          ∃ t, x.2._threads.find s._runningThread = some t ∧ t._state = state.SLEEPING ∧
            t._quantumsLeftToSleep =
              s._totalQuantumCounter + n + 1 - x.2._totalQuantumCounter) ∧
        List.Chain' (fun a b : Scheduler =>
          a._totalQuantumCounter = s._totalQuantumCounter + n →
          b._totalQuantumCounter = s._totalQuantumCounter + n + 1 →
          s._runningThread ∉ b._sleepThreads ∧
          ∃ t2, b._threads.find s._runningThread = some t2 ∧
            ((t2._state = state.READY ∧ s._runningThread ∈ b._readyThreads) ∨
             (t2._state = state.RUNNING ∧ b._runningThread = s._runningThread)))
          (s0 :: tr.map Prod.snd) := by
  obtain ⟨hI, hR, _⟩ := h.inv
  obtain ⟨s0, t0, hex, hI0, hR0, htot, hmem, hf0, hst0, hl0⟩ :=
    sleep_step hI hR n (le_of_lt hn) hne
  refine ⟨_, s0, hex, htot, ?_⟩
  intro steps tr hhead hwf hnt hrun
  have hP : s0._totalQuantumCounter < s._totalQuantumCounter + n + 1 →
      s0._sleepThreads.head? = some s._runningThread ∧
      ∃ t, s0._threads.find s._runningThread = some t ∧ t._state = state.SLEEPING ∧
        t._quantumsLeftToSleep =
          s._totalQuantumCounter + n + 1 - s0._totalQuantumCounter :=
    fun _ => ⟨hhead, t0, hf0, hst0, by omega⟩
  obtain ⟨h1, h2⟩ := execute_sleeper s._runningThread (s._totalQuantumCounter + n + 1)
    steps s0 tr hI0 hR0 hP hwf hnt hrun
  constructor
  · intro x hx hle
    rcases List.mem_cons.mp hx with e | hx1
    · subst e
      exact hP (by dsimp only at hle ⊢; omega)
    · exact h1 x hx1 (by omega)
  · show List.Chain _ s0 _
    refine List.Chain.imp ?_ h2
    intro a b hab ha hb
    exact hab (by omega) hb

set_option maxRecDepth 100000 in
/-- C14, amended, at the state in which thread 1 runs and the total is 2, with `n = 2`
and two ticks after the call: thread 1 sleeps while the total is 3 and 4 and is ready
when the total is 5. -/
theorem C14_sleep_wakes_at_Q_plus_n_plus_1_witness :
    Reachable 4 4096 run4Ticked ∧ (0 : Int) < 2 ∧
    run4Ticked._runningThread ≠ MAIN_THREAD_ID ∧
    Step.exec run4Ticked (.call (.uthread_sleep 2)) = Outcome.ret (some 2, run4Asleep) ∧
    run4Asleep._sleepThreads.head? = some run4Ticked._runningThread ∧
    execute run4Asleep [.tick, .tick] =
      Outcome.ret [(some 0, run4AsleepTick), (some 2, run4Woken)] ∧
    (∀ x ∈ [((some 2 : Option Int), run4Asleep), (some 0, run4AsleepTick),
        (some 2, run4Woken)],
      x.2._totalQuantumCounter ≤ run4Ticked._totalQuantumCounter + 2 →
      x.2._sleepThreads.head? = some run4Ticked._runningThread ∧
      ∃ t, x.2._threads.find run4Ticked._runningThread = some t ∧
        t._state = state.SLEEPING ∧
        t._quantumsLeftToSleep =
          run4Ticked._totalQuantumCounter + 2 + 1 - x.2._totalQuantumCounter) ∧
    List.Chain' (fun a b : Scheduler =>
      a._totalQuantumCounter = run4Ticked._totalQuantumCounter + 2 →
      b._totalQuantumCounter = run4Ticked._totalQuantumCounter + 2 + 1 →
      run4Ticked._runningThread ∉ b._sleepThreads ∧
      ∃ t2, b._threads.find run4Ticked._runningThread = some t2 ∧
        ((t2._state = state.READY ∧ run4Ticked._runningThread ∈ b._readyThreads) ∨
         (t2._state = state.RUNNING ∧ b._runningThread = run4Ticked._runningThread)))
      [run4Asleep, run4AsleepTick, run4Woken] := by
  obtain ⟨d0, s0, h1, _, h3⟩ :=
    C14_sleep_wakes_at_Q_plus_n_plus_1 run4Ticked_reachable 2 (by decide) (by decide)
  have e : Step.exec run4Ticked (.call (.uthread_sleep 2)) =
      Outcome.ret (some 2, run4Asleep) := by decide
  rw [e] at h1
  cases h1
  have hex : execute run4Asleep [.tick, .tick] =
      Outcome.ret [(some 0, run4AsleepTick), (some 2, run4Woken)] := by decide
  have hwf : ∀ st ∈ [Step.tick, Step.tick], Step.wellFormed st := by
    intro st hst
    simp only [List.mem_cons, List.mem_singleton, List.not_mem_nil, or_false, or_self] at hst
    subst hst
    exact trivial
  obtain ⟨h4, h5⟩ := h3 [.tick, .tick] _ (by decide) hwf (by decide) hex
  exact ⟨run4Ticked_reachable, by decide, by decide, e, by decide, hex, h4, h5⟩

/-! ### The ready vector in front of a waiting thread -/

theorem takeWhile_ne_append (T : Int) (l X : List Int) (h : T ∈ l) :
    (l ++ X).takeWhile (fun k => decide (k ≠ T)) =
      l.takeWhile (fun k => decide (k ≠ T)) := by
  induction l with
  | nil => cases h
  | cons a l ih =>
    by_cases e : a = T
    · simp [List.takeWhile_cons, e]
    · have hT : T ∈ l := by
        rcases List.mem_cons.mp h with h | h
        · exact absurd h.symm e
        · exact h
      simp only [List.cons_append, List.takeWhile_cons, ne_eq, e, not_false_eq_true,
        decide_True, if_true, ih hT]

theorem mem_takeWhile_filter (T : Int) (p : Int → Bool) (l : List Int)
    (h : T ∈ l.filter p) :
    ∀ x ∈ (l.filter p).takeWhile (fun k => decide (k ≠ T)),
      x ∈ l.takeWhile (fun k => decide (k ≠ T)) := by
  induction l with
  | nil => intro x hx; simp at hx
  | cons a l ih =>
    intro x hx
    by_cases e : a = T
    · subst e
      have hp : p a = true := (List.mem_filter.mp h).2
      simp [List.filter_cons, hp, List.takeWhile_cons] at hx
    · by_cases hp : p a = true
      · have hT : T ∈ l.filter p := by
          rw [List.filter_cons, if_pos hp] at h
          rcases List.mem_cons.mp h with h | h
          · exact absurd h.symm e
          · exact h
        rw [List.filter_cons, if_pos hp, List.takeWhile_cons] at hx
        simp only [ne_eq, e, not_false_eq_true, decide_True, if_true] at hx
        rw [List.takeWhile_cons]
        simp only [ne_eq, e, not_false_eq_true, decide_True, if_true]
        rcases List.mem_cons.mp hx with hx | hx
        · exact hx ▸ List.mem_cons_self _ _
        · exact List.mem_cons_of_mem _ (ih hT x hx)
      · have hT : T ∈ l.filter p := by
          rw [List.filter_cons, if_neg hp] at h
          exact h
        rw [List.filter_cons, if_neg hp] at hx
        rw [List.takeWhile_cons]
        simp only [ne_eq, e, not_false_eq_true, decide_True, if_true]
        exact List.mem_cons_of_mem _ (ih hT x hx)

/-- No member function puts a thread in front of a thread `T` that waits in the ready
vector. -/
theorem Effect.ready_front {s s1 : Scheduler} {c : Call} (h : Effect s c s1) (T : Int)
    (hT : T ∈ s._readyThreads) (hT1 : T ∈ s1._readyThreads) :
    ∀ x ∈ s1._readyThreads.takeWhile (fun k => decide (k ≠ T)),
      x ∈ s._readyThreads.takeWhile (fun k => decide (k ≠ T)) := by
  cases h with
  | same => exact fun x hx => hx
  | spawned f j hfj hj =>
    dsimp only at hT1 ⊢
    split
    · rw [takeWhile_ne_append T _ _ hT]; exact fun x hx => hx
    · exact fun x hx => hx
  | removedOther ID t0 hf0 hne hnr => exact mem_takeWhile_filter T _ _ hT1
  | removedSelf t0 hf0 hne => exact fun x hx => hx
  | blockedReady ID t0 hf0 hst0 hne hnr => exact mem_takeWhile_filter T _ _ hT1
  | blockedSelf t0 hf0 hne => exact fun x hx => hx
  | resumed ID t0 hf0 hst0 hnr =>
    dsimp only
    rw [takeWhile_ne_append T _ _ hT]; exact fun x hx => hx
  | slept n t0 hf0 hne hq => exact fun x hx => hx

/-- A member function that leaves no scenario pending leaves the running thread. -/
theorem Effect.running_of_routine {s s1 : Scheduler} {c : Call} (h : Effect s c s1)
    (hR : s1._currentScenario = scenario.ROUTINE) : s1._runningThread = s._runningThread := by
  cases h with
  | removedSelf t0 hf0 hne => cases hR
  | _ => rfl

/-- A member function that leaves a scenario pending was called on the running thread
itself, which the next dispatch puts in the blocked or the sleeping vector or finds
removed; the ready vector is as it was. -/
theorem Effect.pending {s s1 : Scheduler} {c : Call} (h : Effect s c s1)
    (hR : s._currentScenario = scenario.ROUTINE)
    (hP : s1._currentScenario ≠ scenario.ROUTINE) :
    s1._readyThreads = s._readyThreads ∧
    ((s1._currentScenario = scenario.TOBLOCK ∧ s1._runningThread = s._runningThread) ∨
     (s1._currentScenario = scenario.TOSLEEP ∧ s1._runningThread = s._runningThread) ∨
     (s1._currentScenario = scenario.TOSELFREMOVE ∧
       s1._threads.find s._runningThread = none)) := by
  cases h with
  | same => exact absurd hR hP
  | spawned f j hfj hj => exact absurd hR hP
  | removedOther ID t0 hf0 hne hnr => exact absurd hR hP
  | removedSelf t0 hf0 hne =>
    refine ⟨rfl, Or.inr (Or.inr ⟨rfl, ?_⟩)⟩
    dsimp only
    rw [Table.find_erase, if_pos rfl]
  | blockedReady ID t0 hf0 hst0 hne hnr => exact absurd hR hP
  | blockedSelf t0 hf0 hne => exact ⟨rfl, Or.inl ⟨rfl, rfl⟩⟩
  | resumed ID t0 hf0 hst0 hnr => exact absurd hR hP
  | slept n t0 hf0 hne hq => exact ⟨rfl, Or.inr (Or.inl ⟨rfl, rfl⟩)⟩

/-- The ready vector across a call of `manageThreads`: the woken threads and, if no
scenario is pending, the thread that ran are appended, and the front is dispatched. -/
theorem manageThreads_ready {s : Scheduler} (hI : Inv s) :
    ∃ s2 w, manageThreads s = Outcome.ret s2 ∧ Inv s2 ∧
      s2._currentScenario = scenario.ROUTINE ∧
      s._readyThreads ++ w = s2._runningThread :: s2._readyThreads ∧
      (s._currentScenario = scenario.TOBLOCK → s._runningThread ∈ s2._blockThreads) ∧
      (s._currentScenario = scenario.TOSLEEP → s._runningThread ∈ s2._sleepThreads) ∧
      (∀ k, s2._threads.find k = none ↔ s._threads.find k = none) := by
  obtain ⟨s1, s2, hs1, hI1, hF, hm, hI2, hR2, _, _, hrd, hsl, hbl, _, _, _, hlive⟩ :=
    manageThreads_summary hI
  obtain ⟨w, hw⟩ := hF.readyThreads
  refine ⟨s2, w ++ (if s._currentScenario = scenario.ROUTINE then [s._runningThread] else []),
    hm, hI2, hR2, ?_, ?_, ?_, fun k => (hlive k).trans (hF.live k)⟩
  · rw [← hrd, hw, List.append_assoc]
  · intro hsc; rw [hbl, if_pos hsc]; simp
  · intro hsc; rw [hsl, if_pos hsc]; simp

/-- A dispatch of a thread other than `T` while `T` waits in the ready vector and none
of the threads in `D` is in front of it: the dispatched thread is not in `D`, `T`
still waits, and none of the threads in `D` nor the dispatched one is in front of it. -/
theorem manageThreads_fair {s : Scheduler} (hI : Inv s) (T : Int) (D : List Int)
    (hT : T ∈ s._readyThreads) (hD : D.Nodup)
    (hpre : ∀ u ∈ D, u ∉ s._readyThreads.takeWhile (fun k => decide (k ≠ T)))
    {s2 : Scheduler} (hm : manageThreads s = Outcome.ret s2) (hne : s2._runningThread ≠ T) :
    T ∈ s2._readyThreads ∧ (D ++ [s2._runningThread]).Nodup ∧
    ∀ u ∈ D ++ [s2._runningThread],
      u ∉ s2._readyThreads.takeWhile (fun k => decide (k ≠ T)) := by
  obtain ⟨s2', w, hm', hI2, _, hrd, _, _, _⟩ := manageThreads_ready hI
  rw [hm] at hm'; cases hm'
  cases hl : s._readyThreads with
  | nil => rw [hl] at hT; cases hT
  | cons a rest =>
    rw [hl] at hrd hT hpre
    simp only [List.cons_append, List.cons.injEq] at hrd
    obtain ⟨ha, hrest⟩ := hrd
    subst ha
    have hTr : T ∈ rest := by
      rcases List.mem_cons.mp hT with h | h
      · exact absurd h.symm hne
      · exact h
    have hT2 : T ∈ s2._readyThreads := by
      rw [← hrest]; exact List.mem_append_left _ hTr
    have hhead : s2._runningThread ∈
        (s2._runningThread :: rest).takeWhile (fun k => decide (k ≠ T)) := by
      rw [List.takeWhile_cons]
      simp [hne]
    have hnd : s2._runningThread ∉ D := fun hc => hpre _ hc hhead
    have hnr : s2._runningThread ∉ s2._readyThreads := fun hc =>
      (hI2.ready_state _ hc).1 rfl
    refine ⟨hT2, ?_, ?_⟩
    · rw [List.nodup_append]
      refine ⟨hD, List.nodup_singleton _, ?_⟩
      intro x hx hx1
      simp only [List.mem_singleton] at hx1
      subst hx1
      exact hnd hx
    · intro u hu hc
      rcases List.mem_append.mp hu with hu | hu
      · apply hpre u hu
        rw [← hrest, takeWhile_ne_append T _ _ hTr] at hc
        rw [List.takeWhile_cons]
        simp only [ne_eq, hne, not_false_eq_true, decide_True, if_true]
        exact List.mem_cons_of_mem _ hc
      · simp only [List.mem_singleton] at hu
        subst hu
        exact hnr ((List.takeWhile_sublist _).subset hc)

/-- One step of an execution in which `T` is not dispatched and, after the step, runs
or waits in the ready vector. Either `T` still runs and nothing was dispatched, or `T`
waits and the dispatched threads `D` are distinct and none of them is in front of it. -/
theorem Step.exec_fair (T : Int) {s : Scheduler} (hI : Inv s)
    (hR : s._currentScenario = scenario.ROUTINE) (D : List Int)
    (hD : (s._runningThread = T ∧ D = []) ∨
      (T ∈ s._readyThreads ∧ D.Nodup ∧
        ∀ u ∈ D, u ∉ s._readyThreads.takeWhile (fun k => decide (k ≠ T))))
    {st : Step} (hwf : st.wellFormed) {d : Option Int} {s' : Scheduler}
    (h : st.exec s = Outcome.ret (d, s')) (hd : d ≠ some T)
    (hT' : s'._runningThread = T ∨ T ∈ s'._readyThreads) :
    (s'._runningThread = T ∧ D ++ d.toList = []) ∨
    (T ∈ s'._readyThreads ∧ (D ++ d.toList).Nodup ∧
      ∀ u ∈ D ++ d.toList, u ∉ s'._readyThreads.takeWhile (fun k => decide (k ≠ T))) := by
  obtain ⟨hI', hR', _, _, _⟩ := Step.exec_inv hI hR hwf h
  rcases Step.exec_cases hI hR hwf h with ⟨_, hm, hdd⟩ | ⟨c, r, _, _, hR1, hdd, hE, _⟩ |
    ⟨c, r, s1, _, _, hP, hE, hI1, hm, hdd⟩
  · subst hdd
    have hne : s'._runningThread ≠ T := fun e => hd (by rw [e])
    have hT1 : T ∈ s'._readyThreads := hT'.resolve_left hne
    right
    simp only [Option.toList_some]
    rcases hD with ⟨_, hD0⟩ | ⟨hT, hDn, hpre⟩
    · subst hD0
      refine ⟨hT1, by simp, ?_⟩
      intro u hu hc
      simp only [List.nil_append, List.mem_singleton] at hu
      subst hu
      exact (hI'.ready_state _ ((List.takeWhile_sublist _).subset hc)).1 rfl
    · exact manageThreads_fair hI T D hT hDn hpre hm hne
  · subst hdd
    have hrun := hE.running_of_routine hR1
    simp only [Option.toList_none, List.append_nil]
    rcases hD with ⟨hTr, hD0⟩ | ⟨hT, hDn, hpre⟩
    · exact Or.inl ⟨hrun.trans hTr, hD0⟩
    · have hne : s'._runningThread ≠ T := by
        rw [hrun]; exact ((hI.ready_state T hT).1).symm
      have hT1 : T ∈ s'._readyThreads := hT'.resolve_left hne
      exact Or.inr ⟨hT1, hDn, fun u hu hc => hpre u hu (hE.ready_front T hT hT1 u hc)⟩
  · subst hdd
    have hne : s'._runningThread ≠ T := fun e => hd (by rw [e])
    have hT1 : T ∈ s'._readyThreads := hT'.resolve_left hne
    obtain ⟨hrdy, hcase⟩ := hE.pending hR hP
    right
    simp only [Option.toList_some]
    rcases hD with ⟨hTr, _⟩ | ⟨hT, hDn, hpre⟩
    · exfalso
      obtain ⟨s2, w, hm2, hI2, _, _, hb, hsl, hlive⟩ := manageThreads_ready hI1
      rw [hm] at hm2; cases hm2
      obtain ⟨_, u, hu, hus⟩ := hI2.ready_state T hT1
      rcases hcase with ⟨hsc, hr1⟩ | ⟨hsc, hr1⟩ | ⟨hsc, hnone⟩
      · have hmem := hb hsc
        rw [hr1, hTr] at hmem
        obtain ⟨_, _, v, hv, hvs⟩ := hI2.block_state T hmem
        rw [hu] at hv; cases hv
        rw [hus] at hvs; cases hvs
      · have hmem := hsl hsc
        rw [hr1, hTr] at hmem
        obtain ⟨_, _, v, hv, hvs⟩ := hI2.sleep_state T hmem
        rw [hu] at hv; cases hv
        rw [hus] at hvs; cases hvs
      · rw [hTr] at hnone
        rw [(hlive T).mpr hnone] at hu
        cases hu
    · rw [← hrdy] at hT hpre
      exact manageThreads_fair hI1 T D hT hDn hpre hm hne

/-- An execution in which `T` is never dispatched and always runs or waits in the ready
vector dispatches no thread twice. -/
theorem execute_fair (T : Int) :
    ∀ (steps : List Step) (s : Scheduler) (D : List Int)
      (tr : List (Option Int × Scheduler)),
      Inv s → s._currentScenario = scenario.ROUTINE →
      ((s._runningThread = T ∧ D = []) ∨
        (T ∈ s._readyThreads ∧ D.Nodup ∧
          ∀ u ∈ D, u ∉ s._readyThreads.takeWhile (fun k => decide (k ≠ T)))) →
      (∀ st ∈ steps, Step.wellFormed st) → execute s steps = Outcome.ret tr →
      (∀ z ∈ tr, z.1 ≠ some T ∧ (z.2._runningThread = T ∨ T ∈ z.2._readyThreads)) →
      (D ++ tr.filterMap Prod.fst).Nodup := by
  intro steps
  induction steps with
  | nil =>
    intro s D tr _ _ hD _ h _
    cases h
    simp only [List.filterMap_nil, List.append_nil]
    rcases hD with ⟨_, hD0⟩ | ⟨_, hDn, _⟩
    · rw [hD0]; exact List.nodup_nil
    · exact hDn
  | cons st rest ih =>
    intro s D tr hI hR hD hwf h hmid
    obtain ⟨⟨d, s'⟩, tr1, hp, ht, rfl⟩ := execute_cons h
    have hwf0 := hwf st (List.mem_cons_self _ _)
    obtain ⟨hI', hR', _, _, _⟩ := Step.exec_inv hI hR hwf0 hp
    obtain ⟨hd, hT'⟩ := hmid (d, s') (List.mem_cons_self _ _)
    have hD' := Step.exec_fair T hI hR D hD hwf0 hp hd hT'
    have := ih s' (D ++ d.toList) tr1 hI' hR' hD'
      (fun st1 h1 => hwf st1 (List.mem_cons_of_mem _ h1)) ht
      (fun z hz => hmid z (List.mem_cons_of_mem _ hz))
    cases d with
    | none => simpa using this
    | some k => simpa using this

theorem execute_suffix :
    ∀ (steps : List Step) (s : Scheduler) (tr pre : List (Option Int × Scheduler))
      (x : Option Int × Scheduler) (rest : List (Option Int × Scheduler)),
      execute s steps = Outcome.ret tr → tr = pre ++ x :: rest →
      ∃ steps2, (∀ st ∈ steps2, st ∈ steps) ∧ execute x.2 steps2 = Outcome.ret rest := by
  intro steps
  induction steps with
  | nil =>
    intro s tr pre x rest h he
    cases h
    cases pre <;> cases he
  | cons st steps ih =>
    intro s tr pre x rest h he
    obtain ⟨p, tr1, hp, ht, rfl⟩ := execute_cons h
    cases pre with
    | nil =>
      simp only [List.nil_append, List.cons.injEq] at he
      obtain ⟨rfl, rfl⟩ := he
      exact ⟨steps, fun st1 h1 => List.mem_cons_of_mem _ h1, ht⟩
    | cons y pre =>
      simp only [List.cons_append, List.cons.injEq] at he
      obtain ⟨_, he1⟩ := he
      obtain ⟨steps2, hs2, hx⟩ := ih p.2 tr1 pre x rest ht he1
      exact ⟨steps2, fun st1 h1 => List.mem_cons_of_mem _ (hs2 st1 h1), hx⟩

theorem execute_initial :
    ∀ (steps : List Step) (s : Scheduler) (a b : List (Option Int × Scheduler)),
      execute s steps = Outcome.ret (a ++ b) →
      ∃ steps1, (∀ st ∈ steps1, st ∈ steps) ∧ execute s steps1 = Outcome.ret a := by
  intro steps
  induction steps with
  | nil =>
    intro s a b h
    cases a with
    | nil => exact ⟨[], fun _ h1 => h1, rfl⟩
    | cons y a => cases h
  | cons st steps ih =>
    intro s a b h
    cases a with
    | nil => exact ⟨[], fun _ h1 => (by cases h1), rfl⟩
    | cons y a =>
      obtain ⟨p, tr1, hp, ht, he⟩ := execute_cons h
      simp only [List.cons_append, List.cons.injEq] at he
      obtain ⟨rfl, rfl⟩ := he
      obtain ⟨steps1, hs1, hx⟩ := ih y.2 a b ht
      refine ⟨st :: steps1, ?_, ?_⟩
      · intro st1 h1
        rcases List.mem_cons.mp h1 with e | h1
        · exact e ▸ List.mem_cons_self _ _
        · exact List.mem_cons_of_mem _ (hs1 st1 h1)
      · simp [execute, hp, hx]

theorem unfairSteps_wellFormed : ∀ st ∈ unfairSteps, Step.wellFormed st := by
  intro st hst
  simp only [unfairSteps, List.mem_cons, List.mem_singleton, List.not_mem_nil, or_false]
    at hst
  rcases hst with e | e | e | e | e | e | e <;> subst e <;> exact trivial

set_option maxRecDepth 100000 in
/-- C20, counterexample: from the state with main running and ready `[1, 2]`, thread 1
is dispatched by the first step and next by the last one. In between, thread 1 having
blocked itself, thread 2 is dispatched twice (by the second and the fourth step) and
main twice (by the third and the sixth); both were `READY` in between. -/
theorem C20_counterexample :
    Reachable 4 4096 run4Two ∧ (∀ st ∈ unfairSteps, Step.wellFormed st) ∧
    execute run4Two unfairSteps = Outcome.ret unfairRun ∧
    unfairRun.map Prod.fst = [some 1, some 2, some 0, some 2, none, some 0, some 1] ∧
    unfairRun.map (fun x => x.2._readyThreads) =
      [[2, 0], [0], [2], [0], [0, 1], [1, 2], [2, 0]] ∧
    unfairRun.map (fun x => (x.2._threads.find 2).map Thread.getState) =
      [some state.READY, some state.RUNNING, some state.READY, some state.RUNNING,
       some state.RUNNING, some state.READY, some state.READY] ∧
    unfairRun.map (fun x => (x.2._threads.find 1).map Thread.getState) =
      [some state.RUNNING, some state.BLOCKED, some state.BLOCKED, some state.BLOCKED,
       some state.READY, some state.READY, some state.RUNNING] :=
  ⟨run4Two_reachable, unfairSteps_wellFormed, by decide, by decide, by decide, by decide,
    by decide⟩

/-- C20, amended: in every execution from a reachable state, take a stretch of
consecutive steps that follows a dispatch of a thread `T`, in which `T` is not
dispatched again, and after each step of which `T` runs or waits in the ready vector
(it is not blocked, asleep or terminated). Then no thread is dispatched twice in that
stretch. -/
theorem C20_round_robin_fairness {maxThreads stackSize : Int} {s : Scheduler}
    (h : Reachable maxThreads stackSize s) (steps : List Step)
    (tr : List (Option Int × Scheduler)) (hwf : ∀ st ∈ steps, Step.wellFormed st)
    (hex : execute s steps = Outcome.ret tr) (T : Int)
    (pre : List (Option Int × Scheduler)) (x : Option Int × Scheduler)
    (mid post : List (Option Int × Scheduler))
    (hsplit : tr = pre ++ x :: (mid ++ post)) (hx : x.1 = some T)
    (hmid : ∀ z ∈ mid, z.1 ≠ some T ∧ (z.2._runningThread = T ∨ T ∈ z.2._readyThreads)) :
    (mid.filterMap Prod.fst).Nodup := by
  obtain ⟨hI, hR, _⟩ := h.inv
  have hxm : x ∈ tr := by rw [hsplit]; simp
  obtain ⟨hIx, hRx, hdx⟩ := execute_inv steps s tr hI hR hwf hex x hxm
  obtain ⟨steps2, hs2, hex2⟩ := execute_suffix steps s tr pre x (mid ++ post) hex hsplit
  obtain ⟨steps3, hs3, hex3⟩ := execute_initial steps2 x.2 mid post hex2
  have := execute_fair T steps3 x.2 [] mid hIx hRx (Or.inl ⟨hdx T hx, rfl⟩)
    (fun st hst => hwf st (hs2 st (hs3 st hst))) hex3 hmid
  simpa using this

set_option maxRecDepth 100000 in
/-- C20, amended, at three ticks from the state with main running and ready `[1, 2]`:
after the dispatch of thread 1, threads 2 and main are dispatched once each while
thread 1 waits in the ready vector. -/
theorem C20_round_robin_fairness_witness :
    Reachable 4 4096 run4Two ∧
    (∀ st ∈ [Step.tick, Step.tick, Step.tick], Step.wellFormed st) ∧
    execute run4Two [.tick, .tick, .tick] =
      Outcome.ret [(some 1, run4Ticked), (some 2, run4Tick2), (some 0, run4Tick3)] ∧
    (∀ z ∈ [((some 2 : Option Int), run4Tick2), (some 0, run4Tick3)],
      z.1 ≠ some 1 ∧ (z.2._runningThread = 1 ∨ (1 : Int) ∈ z.2._readyThreads)) ∧
    ([((some 2 : Option Int), run4Tick2), (some 0, run4Tick3)].filterMap Prod.fst).Nodup := by
  have hwf : ∀ st ∈ [Step.tick, Step.tick, Step.tick], Step.wellFormed st := by
    intro st hst
    simp only [List.mem_cons, List.mem_singleton, List.not_mem_nil, or_false, or_self] at hst
    subst hst
    exact trivial
  have hex : execute run4Two [.tick, .tick, .tick] =
      Outcome.ret [(some 1, run4Ticked), (some 2, run4Tick2), (some 0, run4Tick3)] := by
    decide
  have hmid : ∀ z ∈ [((some 2 : Option Int), run4Tick2), (some 0, run4Tick3)],
      z.1 ≠ some 1 ∧ (z.2._runningThread = 1 ∨ (1 : Int) ∈ z.2._readyThreads) := by
    decide
  exact ⟨run4Two_reachable, hwf, hex, hmid,
    C20_round_robin_fairness run4Two_reachable [.tick, .tick, .tick] _ hwf hex 1 []
      (some 1, run4Ticked) [(some 2, run4Tick2), (some 0, run4Tick3)] [] rfl rfl hmid⟩

/-! ### The ids in the records and in `_toDelete` -/

/-- What `manageThreads` does to `_toDelete`: it leaves it, or the thread it resumes
frees it. -/
theorem manageThreads_toDelete {s : Scheduler} (hI : Inv s) :
    ∃ s2, manageThreads s = Outcome.ret s2 ∧
      (s2._toDelete = s._toDelete ∨ s2._toDelete = none) := by
  cases hsc : s._currentScenario with
  | ROUTINE =>
    obtain ⟨s1, n, r, tn, _, _, hF, _, _, hm, _⟩ := manageThreads_routine hI hsc
    refine ⟨_, hm, ?_⟩
    dsimp only
    split
    · exact Or.inr rfl
    · exact Or.inl hF.toDelete
  | TOBLOCK =>
    obtain ⟨s1, n, r, tn, _, _, hF, _, _, _, hm, _⟩ := manageThreads_toblock hI hsc
    refine ⟨_, hm, ?_⟩
    dsimp only
    split
    · exact Or.inr rfl
    · exact Or.inl hF.toDelete
  | TOSLEEP =>
    obtain ⟨s1, n, r, tn, _, _, hF, _, _, _, hm, _⟩ := manageThreads_tosleep hI hsc
    refine ⟨_, hm, ?_⟩
    dsimp only
    split
    · exact Or.inr rfl
    · exact Or.inl hF.toDelete
  | TOSELFREMOVE =>
    obtain ⟨s1, n, r, tn, _, _, hF, _, _, hm, _⟩ := manageThreads_toselfremove hI hsc
    refine ⟨_, hm, ?_⟩
    dsimp only
    split
    · exact Or.inr rfl
    · exact Or.inl hF.toDelete

/-- What a member function does to `_toDelete`: only a removal writes it, with the
record of the thread removed. -/
theorem Effect.toDelete {s s1 : Scheduler} {c : Call} (h : Effect s c s1) :
    s1._toDelete = s._toDelete ∨
    ∃ ID t, c = .uthread_terminate ID ∧ ID ≠ MAIN_THREAD_ID ∧
      s._threads.find ID = some t ∧ s1._toDelete = some t ∧ s1._threads.find ID = none := by
  cases h with
  | removedOther ID t hf hne hnr =>
    refine Or.inr ⟨ID, t, rfl, hne, hf, rfl, ?_⟩
    dsimp only
    rw [Table.find_erase, if_pos rfl]
  | removedSelf t hf hne =>
    refine Or.inr ⟨_, t, rfl, hne, hf, rfl, ?_⟩
    dsimp only
    rw [Table.find_erase, if_pos rfl]
  | _ => exact Or.inl rfl

theorem Effect.keeps_idInv {s s1 : Scheduler} {c : Call} (h : Effect s c s1) (hJ : IdInv s) :
    IdInv s1 := by
  constructor
  · intro k t1 hk
    cases h with
    | same => exact hJ.ids k t1 hk
    | spawned f j hf hj =>
      dsimp only at hk
      rw [Table.find_insert _ _ _ _ hf] at hk
      split at hk
      · rename_i e
        cases hk
        exact e.symm
      · exact hJ.ids k t1 hk
    | removedOther ID t hf hne hnr =>
      dsimp only at hk
      rw [Table.find_erase] at hk
      split at hk
      · cases hk
      · exact hJ.ids k t1 hk
    | removedSelf t hf hne =>
      dsimp only at hk
      rw [Table.find_erase] at hk
      split at hk
      · cases hk
      · exact hJ.ids k t1 hk
    | blockedReady ID t hf hst hne hnr =>
      dsimp only at hk
      simp only [Table.find_update_map, Option.map_eq_some'] at hk
      obtain ⟨ta, hta, rfl⟩ := hk
      rw [← hJ.ids k ta hta]
      split <;> rfl
    | blockedSelf t hf hne =>
      dsimp only at hk
      simp only [Table.find_update_map, Option.map_eq_some'] at hk
      obtain ⟨ta, hta, rfl⟩ := hk
      rw [← hJ.ids k ta hta]
      split <;> rfl
    | resumed ID t hf hst hnr =>
      dsimp only at hk
      simp only [Table.find_update_map, Option.map_eq_some'] at hk
      obtain ⟨ta, hta, rfl⟩ := hk
      rw [← hJ.ids k ta hta]
      split <;> rfl
    | slept n t hf hne hq =>
      dsimp only at hk
      simp only [Table.find_update_map, Option.map_map, Option.map_eq_some'] at hk
      obtain ⟨ta, hta, rfl⟩ := hk
      rw [← hJ.ids k ta hta]
      dsimp only [Function.comp]
      split <;> rfl
  · intro t ht
    rcases h.toDelete with e | ⟨ID, t0, _, hne, hf, e, _⟩
    · rw [e] at ht
      exact hJ.slot t ht
    · rw [e] at ht
      cases ht
      rw [hJ.ids ID t hf]
      exact hne

theorem manageThreads_idInv {s : Scheduler} (hI : Inv s) (hJ : IdInv s) :
    ∃ s2, manageThreads s = Outcome.ret s2 ∧ IdInv s2 := by
  obtain ⟨s1, s2, hs1, _, _, hm, _, _, _, _, _, _, _, hrec, _, _, _⟩ :=
    manageThreads_summary hI
  have hrec1 := manageSleeping_records hI hs1
  obtain ⟨s2', hm', hdel⟩ := manageThreads_toDelete hI
  rw [hm] at hm'; cases hm'
  refine ⟨s2, hm, ?_, ?_⟩
  · intro k t2 hk
    obtain ⟨t1, ht1, e2⟩ := hrec k t2 hk
    obtain ⟨t0, ht0, e1⟩ := hrec1 k t1 ht1
    rw [e2, e1]
    exact hJ.ids k t0 ht0
  · intro t ht
    rcases hdel with e | e
    · rw [e] at ht; exact hJ.slot t ht
    · rw [e] at ht; cases ht

/-- In every reachable state the records carry their ids and `_toDelete` does not hold
the main thread's record. -/
theorem Reachable.idInv {maxThreads stackSize : Int} {s : Scheduler}
    (h : Reachable maxThreads stackSize s) : IdInv s := by
  induction h with
  | init h =>
    rw [ctor_spec _ _ (ctor_pos h)] at h
    cases h
    constructor
    · intro k t hk
      dsimp only at hk
      rw [Table.find_cons] at hk
      split at hk
      · rename_i e
        cases hk
        exact e
      · cases hk
    · intro t ht
      cases ht
  | @call s s' c r hs hc hstep ih =>
    obtain ⟨hI, hR, _⟩ := hs.inv
    simp only [invoke_member_function, Outcome.bind_eq_ret] at hstep
    obtain ⟨⟨r1, s1⟩, hrun, hstep⟩ := hstep
    obtain ⟨hI1, _⟩ := Call.run_inv hI hR hc hrun
    have hJ1 := (Call.run_effect hI hR hrun).keeps_idInv ih
    dsimp only at hstep
    split at hstep
    · obtain ⟨s3, hm, hJ3⟩ := manageThreads_idInv hI1 hJ1
      rw [hm] at hstep
      cases hstep
      exact hJ3
    · cases hstep
      exact hJ1
  | @tick s s' hs hstep ih =>
    obtain ⟨hI, _, _⟩ := hs.inv
    obtain ⟨s3, hm, hJ3⟩ := manageThreads_idInv hI ih
    rw [hm] at hstep
    cases hstep
    exact hJ3

set_option maxRecDepth 100000 in
theorem run100TerminatedBoth_reachable : Reachable 100 4096 run100TerminatedBoth :=
  after_reachable run100Terminated_reachable _ trivial (by decide)

/-! ### The state of the running thread -/

/-- The thread that `manageThreads` dispatches has state `RUNNING` afterwards. -/
theorem manageThreads_running_state {s : Scheduler} (hI : Inv s) :
    ∃ s2, manageThreads s = Outcome.ret s2 ∧
      ∃ t2, s2._threads.find s2._runningThread = some t2 ∧ t2._state = state.RUNNING := by
  cases hsc : s._currentScenario with
  | ROUTINE =>
    obtain ⟨s1, n, r, tn, _, hI1, hF, hq, htn, hm, _⟩ := manageThreads_routine hI hsc
    refine ⟨_, hm, ?_⟩
    dsimp only
    simp only [Table.find_update_map, htn, Option.map_some']
    refine ⟨_, rfl, ?_⟩
    by_cases e : n = s._runningThread <;> simp [e, Thread.setState, Thread.incrementQuantum,
      Thread.saveEnv]
  | TOBLOCK =>
    obtain ⟨s1, n, r, tn, _, hI1, hF, hq, htn, hnr, hm, _⟩ := manageThreads_toblock hI hsc
    refine ⟨_, hm, ?_⟩
    dsimp only
    simp only [Table.find_update_map, htn, Option.map_some']
    refine ⟨_, rfl, ?_⟩
    simp [hnr, Thread.setState, Thread.incrementQuantum]
  | TOSLEEP =>
    obtain ⟨s1, n, r, tn, _, hI1, hF, hq, htn, hnr, hm, _⟩ := manageThreads_tosleep hI hsc
    refine ⟨_, hm, ?_⟩
    dsimp only
    simp only [Table.find_update_map, htn, Option.map_some']
    refine ⟨_, rfl, ?_⟩
    simp [hnr, Thread.setState, Thread.incrementQuantum]
  | TOSELFREMOVE =>
    obtain ⟨s1, n, r, tn, _, hI1, hF, hq, htn, hm, _⟩ := manageThreads_toselfremove hI hsc
    refine ⟨_, hm, ?_⟩
    dsimp only
    simp only [Table.find_update_map, htn, Option.map_some']
    refine ⟨_, rfl, ?_⟩
    simp [Thread.setState, Thread.incrementQuantum]

/-- A member function that leaves no scenario pending leaves the record of the running
thread. -/
theorem Effect.running_record {s s1 : Scheduler} {c : Call} (h : Effect s c s1)
    (hR : s1._currentScenario = scenario.ROUTINE)
    (hlive : s._threads.find s._runningThread ≠ none) :
    s1._threads.find s._runningThread = s._threads.find s._runningThread := by
  cases h with
  | same => rfl
  | spawned f j hf hj =>
    dsimp only
    rw [Table.find_insert _ _ _ _ hf]
    split
    · rename_i e
      rw [e] at hlive
      exact absurd hf hlive
    · rfl
  | removedOther ID t hf hne hnr =>
    dsimp only
    rw [Table.find_erase, if_neg (Ne.symm hnr)]
  | removedSelf t hf hne => cases hR
  | blockedReady ID t hf hst hne hnr =>
    dsimp only
    rw [Table.find_update_ne _ _ (Ne.symm hnr)]
  | blockedSelf t hf hne => cases hR
  | resumed ID t hf hst hnr =>
    dsimp only
    rw [Table.find_update_ne _ _ (Ne.symm hnr)]
  | slept n t hf hne hq => cases hR

/-- In a reachable state the running thread has state `RUNNING`, unless nothing has been
dispatched since construction: then the total of quantums is 1 and main runs with the
state `READY` its constructor gave it. -/
theorem Reachable.running_state {maxThreads stackSize : Int} {s : Scheduler}
    (h : Reachable maxThreads stackSize s) :
    (s._totalQuantumCounter = 1 ∧ s._runningThread = MAIN_THREAD_ID ∧
      ∃ t, s._threads.find MAIN_THREAD_ID = some t ∧ t._state = state.READY) ∨
    (∃ t, s._threads.find s._runningThread = some t ∧ t._state = state.RUNNING) := by
  induction h with
  | init h =>
    rw [ctor_spec _ _ (ctor_pos h)] at h
    cases h
    exact Or.inl ⟨rfl, rfl, _, rfl, rfl⟩
  | @call s s' c r hs hc hstep ih =>
    obtain ⟨hI, hR, _⟩ := hs.inv
    simp only [invoke_member_function, Outcome.bind_eq_ret] at hstep
    obtain ⟨⟨r1, s1⟩, hrun, hstep⟩ := hstep
    obtain ⟨hI1, _⟩ := Call.run_inv hI hR hc hrun
    have hE := Call.run_effect hI hR hrun
    dsimp only at hstep
    split at hstep
    · obtain ⟨s3, hm, hst⟩ := manageThreads_running_state hI1
      rw [hm] at hstep
      cases hstep
      exact Or.inr hst
    · rename_i hsc
      cases hstep
      have hR1 : s'._currentScenario = scenario.ROUTINE := by simpa [getScenario] using hsc
      have hrun1 := hE.running_of_routine hR1
      have hlive : s._threads.find s._runningThread ≠ none := by
        obtain ⟨u, hu, _⟩ := hI.running_live hR
        rw [hu]; simp
      have hrec := hE.running_record hR1 hlive
      rcases ih with ⟨h1, h2, t, ht, hst⟩ | ⟨t, ht, hst⟩
      · refine Or.inl ⟨by rw [hE.total]; exact h1, hrun1.trans h2, t, ?_, hst⟩
        rw [← h2, hrec, h2]; exact ht
      · refine Or.inr ⟨t, ?_, hst⟩
        rw [hrun1, hrec]; exact ht
  | @tick s s' hs hstep ih =>
    obtain ⟨hI, _, _⟩ := hs.inv
    obtain ⟨s3, hm, hst⟩ := manageThreads_running_state hI
    rw [hm] at hstep
    cases hstep
    exact Or.inr hst

/-- C21 (what the code does): the scheduler the constructor returns has main as the
running thread with state `READY`, and no record of its thread table has state
`RUNNING`. In every reachable state the records with state `RUNNING` are at most the
one of the running thread, and that record is `RUNNING` unless no dispatch has happened
since construction (the total of quantums is 1 and main runs): then no record is
`RUNNING`. -/
theorem C21_running_record {maxThreads stackSize : Int} {s : Scheduler}
    (h : Reachable maxThreads stackSize s) :
    (∃ s0 t0, Scheduler.ctor maxThreads stackSize = Outcome.ret s0 ∧
      s0._runningThread = MAIN_THREAD_ID ∧
      s0._threads.find MAIN_THREAD_ID = some t0 ∧ t0._state = state.READY ∧
      ∀ k t, s0._threads.find k = some t → t._state ≠ state.RUNNING) ∧
    (∀ k t, s._threads.find k = some t → t._state = state.RUNNING → k = s._runningThread) ∧
    ((∃ t, s._threads.find s._runningThread = some t ∧ t._state = state.RUNNING) ∨
     (s._totalQuantumCounter = 1 ∧ s._runningThread = MAIN_THREAD_ID ∧
      ∀ k t, s._threads.find k = some t → t._state ≠ state.RUNNING)) := by
  obtain ⟨hI, hR, hmax⟩ := h.inv
  have hpos : 0 < maxThreads := hmax ▸ hI.max_pos
  have hothers : ∀ k t, s._threads.find k = some t → t._state = state.RUNNING →
      k = s._runningThread := by
    intro k t hk hst
    by_contra hne
    rcases hI.others k t hk hne with h1 | h1 | h1 <;>
    · rw [hst] at h1
      cases h1.1
  refine ⟨⟨_, _, ctor_spec maxThreads stackSize hpos, rfl, rfl, rfl, ?_⟩, hothers, ?_⟩
  · intro k t hk
    dsimp only at hk
    rw [Table.find_cons] at hk
    split at hk
    · cases hk
      simp [Thread.incrementQuantum, Thread.ctor]
    · cases hk
  · rcases h.running_state with ⟨h1, h2, t, ht, hst⟩ | h1
    · refine Or.inr ⟨h1, h2, ?_⟩
      intro k u hk hus
      have hk0 := hothers k u hk hus
      rw [hk0, h2, ht] at hk
      cases hk
      rw [hst] at hus
      cases hus
    · exact Or.inl h1

set_option maxRecDepth 100000 in
/-- C21 at the scheduler constructed for 100 threads, and at the state two spawns
later: main runs and no record is `RUNNING`. -/
theorem C21_running_record_witness :
    (∃ s0 t0, Scheduler.ctor 100 4096 = Outcome.ret s0 ∧
      s0._runningThread = MAIN_THREAD_ID ∧
      s0._threads.find MAIN_THREAD_ID = some t0 ∧ t0._state = state.READY ∧
      ∀ k t, s0._threads.find k = some t → t._state ≠ state.RUNNING) ∧
    (∀ k t, run100Spawned._threads.find k = some t → t._state = state.RUNNING →
      k = run100Spawned._runningThread) ∧
    ((∃ t, run100Spawned._threads.find run100Spawned._runningThread = some t ∧
        t._state = state.RUNNING) ∨
     (run100Spawned._totalQuantumCounter = 1 ∧
      run100Spawned._runningThread = MAIN_THREAD_ID ∧
      ∀ k t, run100Spawned._threads.find k = some t → t._state ≠ state.RUNNING)) :=
  C21_running_record run100Spawned_reachable

/-- C22: in every reachable state id 0 has a record; it is the running id (and then not
in the ready vector) or it is in the ready vector; it is in neither the blocked nor the
sleeping vector; the record in `_toDelete`, if any, does not carry id 0 and is not the
record of id 0; and `addThread` never returns 0. -/
theorem C22_main_thread_reserved {maxThreads stackSize : Int} {s : Scheduler}
    (h : Reachable maxThreads stackSize s) :
    (∃ t, s._threads.find MAIN_THREAD_ID = some t) ∧
    ((s._runningThread = MAIN_THREAD_ID ∧ MAIN_THREAD_ID ∉ s._readyThreads) ∨
     (s._runningThread ≠ MAIN_THREAD_ID ∧ MAIN_THREAD_ID ∈ s._readyThreads)) ∧
    MAIN_THREAD_ID ∉ s._blockThreads ∧
    MAIN_THREAD_ID ∉ s._sleepThreads ∧
    (∀ t, s._toDelete = some t →
      t._ID ≠ MAIN_THREAD_ID ∧ s._threads.find MAIN_THREAD_ID ≠ some t) ∧
    (∀ f r s1, addThread s f = Outcome.ret (r, s1) → r ≠ MAIN_THREAD_ID) := by
  obtain ⟨hI, hR, hmax⟩ := h.inv
  have hJ := h.idInv
  refine ⟨hI.main_live, ?_, ?_, ?_, ?_, ?_⟩
  · by_cases e : s._runningThread = MAIN_THREAD_ID
    · exact Or.inl ⟨e, fun hc => (hI.ready_state _ hc).1 e.symm⟩
    · exact Or.inr ⟨e, hI.main_mem_ready e⟩
  · intro hc
    exact (hI.block_state _ hc).2.1 rfl
  · intro hc
    exact (hI.sleep_state _ hc).2.1 rfl
  · intro t ht
    refine ⟨hJ.slot t ht, ?_⟩
    intro hc
    exact hJ.slot t ht (hJ.ids _ t hc)
  · intro f r s1 hadd
    by_cases hfull : (s._threads.length : Int) = s._maxThreads
    · rw [addThread_full f hfull] at hadd
      cases hadd
      decide
    · obtain ⟨j, _, hfree, _, hj⟩ := addThread_free hI f hfull
      rw [hj] at hadd
      cases hadd
      intro e
      obtain ⟨t, ht⟩ := hI.main_live
      rw [e, ht] at hfree
      cases hfree

set_option maxRecDepth 100000 in
/-- C22 at the state in which main runs, thread 2 is ready and the record of the
terminated thread 1 is in `_toDelete`. -/
theorem C22_main_thread_reserved_witness :
    run100Terminated._toDelete = some (Thread.ctor 1 4096 (some 1)) ∧
    (∃ t, run100Terminated._threads.find MAIN_THREAD_ID = some t) ∧
    ((run100Terminated._runningThread = MAIN_THREAD_ID ∧
        MAIN_THREAD_ID ∉ run100Terminated._readyThreads) ∨
     (run100Terminated._runningThread ≠ MAIN_THREAD_ID ∧
        MAIN_THREAD_ID ∈ run100Terminated._readyThreads)) ∧
    MAIN_THREAD_ID ∉ run100Terminated._blockThreads ∧
    MAIN_THREAD_ID ∉ run100Terminated._sleepThreads ∧
    (∀ t, run100Terminated._toDelete = some t →
      t._ID ≠ MAIN_THREAD_ID ∧ run100Terminated._threads.find MAIN_THREAD_ID ≠ some t) ∧
    (∀ f r s1, addThread run100Terminated f = Outcome.ret (r, s1) → r ≠ MAIN_THREAD_ID) :=
  ⟨by decide, C22_main_thread_reserved run100Terminated_reachable⟩

/-- In every reachable state `removeThread` of any thread with a record other than main,
running or not, returns `SUCCESS`, takes the record out of the thread table and assigns
it to `_toDelete`. No other member function assigns to `_toDelete`, and `manageThreads`
(on a reachable state or on the state a member function left) leaves it as it is or
empties it. -/
theorem removeThread_assigns_toDelete {maxThreads stackSize : Int} {s : Scheduler}
    (h : Reachable maxThreads stackSize s) :
    (∀ ID t, s._threads.find ID = some t → ID ≠ MAIN_THREAD_ID →
      ∃ s1, removeThread s ID = Outcome.ret (SUCCESS, s1) ∧ s1._toDelete = some t ∧
        s1._threads.find ID = none) ∧
    (∀ c r s1, Call.wellFormed c → Call.run s c = Outcome.ret (r, s1) →
      (s1._toDelete = s._toDelete ∨
        ∃ ID t, c = .uthread_terminate ID ∧ ID ≠ MAIN_THREAD_ID ∧
          s._threads.find ID = some t ∧ s1._toDelete = some t ∧
          s1._threads.find ID = none) ∧
      ∃ s2, manageThreads s1 = Outcome.ret s2 ∧
        (s2._toDelete = s1._toDelete ∨ s2._toDelete = none)) ∧
    (∃ s2, manageThreads s = Outcome.ret s2 ∧
      (s2._toDelete = s._toDelete ∨ s2._toDelete = none)) := by
  obtain ⟨hI, hR, _⟩ := h.inv
  refine ⟨?_, ?_, manageThreads_toDelete hI⟩
  · intro ID t hf hne
    by_cases hnr : ID = s._runningThread
    · subst hnr
      refine ⟨_, removeThread_self hI hR hf hne, rfl, ?_⟩
      dsimp only
      rw [Table.find_erase, if_pos rfl]
    · refine ⟨_, removeThread_other hI hf hne hnr, rfl, ?_⟩
      dsimp only
      rw [Table.find_erase, if_pos rfl]
  · intro c r s1 hc hrun
    obtain ⟨hI1, _⟩ := Call.run_inv hI hR hc hrun
    exact ⟨(Call.run_effect hI hR hrun).toDelete, manageThreads_toDelete hI1⟩

set_option maxRecDepth 100000 in
/-- C23 (what the code does): main runs, threads 1 and 2 are `READY` and `_toDelete` is
empty. `removeThread(1)`, on a thread that is not running, returns 0 and does not leave
`_toDelete` as it was: the record of thread 1 is now in it. `removeThread(2)` right
after it puts the record of thread 2 in `_toDelete` in place of that of thread 1, which
is then neither in the thread table nor in `_toDelete`; the next call of
`manageThreads` empties `_toDelete`, which holds the record of thread 2. -/
theorem C23_toDelete_overwritten :
    Reachable 100 4096 run100Spawned ∧
    run100Spawned._runningThread = 0 ∧ run100Spawned._readyThreads = [1, 2] ∧
    run100Spawned._toDelete = none ∧
    removeThread run100Spawned 1 = Outcome.ret (SUCCESS, run100Terminated) ∧
    run100Terminated._runningThread = 0 ∧
    run100Terminated._toDelete = some (Thread.ctor 1 4096 (some 1)) ∧
    removeThread run100Terminated 2 = Outcome.ret (SUCCESS, run100TerminatedBoth) ∧
    run100TerminatedBoth._toDelete = some (Thread.ctor 2 4096 (some 2)) ∧
    run100TerminatedBoth._threads.find 1 = none ∧
    (∃ s2, manageThreads run100TerminatedBoth = Outcome.ret s2 ∧ s2._toDelete = none) :=
  ⟨run100Spawned_reachable, by decide, by decide, by decide, by decide, by decide,
    by decide, by decide, by decide, by decide, afterTick run100TerminatedBoth, by decide,
    by decide⟩

/-! ### The ready vector when the front is taken -/

/-- The three phases of `manageThreads`: after the sleeping threads are managed and the
pending scenario is dealt with, the ready vector is not empty, and the dispatch
returns. -/
theorem manageThreads_front {s : Scheduler} (hI : Inv s) :
    ∃ s1 s2 s3, _manageSleepingThreads s = Outcome.ret s1 ∧
      manageThreads.scenarioStep s1 s._runningThread = Outcome.ret s2 ∧
      s2._readyThreads ≠ [] ∧
      manageThreads.dispatch s2 s._runningThread = Outcome.ret s3 ∧
      manageThreads s = Outcome.ret s3 := by
  obtain ⟨s1, hs1, hI1, hF⟩ := manageSleeping_inv hI
  obtain ⟨s3, hm, _, _, _⟩ := manageThreads_inv hI
  have hrun1 : s1._runningThread = s._runningThread := hF.runningThread
  have hstep : ∃ s2, manageThreads.scenarioStep s1 s._runningThread = Outcome.ret s2 ∧
      s2._readyThreads ≠ [] := by
    have hr := hI1.running
    cases hsc : s1._currentScenario with
    | ROUTINE =>
      rw [hsc] at hr
      obtain ⟨t, ht, _⟩ := hr
      rw [hrun1] at ht
      refine ⟨{ s1 with
          _readyThreads := s1._readyThreads ++ [s._runningThread]
          _threads := s1._threads.update s._runningThread
            (fun t => t.setState state.READY) }, ?_, ?_⟩
      · simp only [manageThreads.scenarioStep, hsc, Scheduler.modify, ht]
      · simp
    | TOBLOCK =>
      rw [hsc] at hr
      have hm0 := hI1.main_mem_ready hr.1
      refine ⟨{ s1 with
          _blockThreads := s1._blockThreads ++ [s._runningThread]
          _currentScenario := scenario.ROUTINE }, ?_, ?_⟩
      · simp only [manageThreads.scenarioStep, hsc]
        rfl
      · intro hc
        dsimp only at hc
        rw [hc] at hm0
        cases hm0
    | TOSLEEP =>
      rw [hsc] at hr
      have hm0 := hI1.main_mem_ready hr.1
      refine ⟨{ s1 with
          _sleepThreads := s1._sleepThreads ++ [s._runningThread]
          _currentScenario := scenario.ROUTINE }, ?_, ?_⟩
      · simp only [manageThreads.scenarioStep, hsc]
        rfl
      · intro hc
        dsimp only at hc
        rw [hc] at hm0
        cases hm0
    | TOSELFREMOVE =>
      rw [hsc] at hr
      have hne : s1._runningThread ≠ MAIN_THREAD_ID := by
        rw [hr]; decide
      have hm0 := hI1.main_mem_ready hne
      refine ⟨{ s1 with _currentScenario := scenario.ROUTINE }, ?_, ?_⟩
      · simp only [manageThreads.scenarioStep, hsc]
        rfl
      · intro hc
        dsimp only at hc
        rw [hc] at hm0
        cases hm0
  obtain ⟨s2, hs2, hne⟩ := hstep
  refine ⟨s1, s2, s3, hs1, hs2, hne, ?_, hm⟩
  simpa [manageThreads, hs1, hs2] using hm

/-- C29: in every reachable state `manageThreads` gets through its three phases: the
sleeping threads are managed, the pending scenario is dealt with, and at that point
(where `_readyThreads.front()` is read and `begin()` erased) the ready vector is not
empty, so the dispatch returns. The same holds on the state any member function leaves,
whichever scenario it set (`ROUTINE`, `TOBLOCK`, `TOSLEEP` or `TOSELFREMOVE`). -/
theorem C29_ready_nonempty_at_dispatch {maxThreads stackSize : Int} {s : Scheduler}
    (h : Reachable maxThreads stackSize s) :
    (∃ s1 s2 s3, _manageSleepingThreads s = Outcome.ret s1 ∧
      manageThreads.scenarioStep s1 s._runningThread = Outcome.ret s2 ∧
      s2._readyThreads ≠ [] ∧
      manageThreads.dispatch s2 s._runningThread = Outcome.ret s3 ∧
      manageThreads s = Outcome.ret s3) ∧
    (∀ c r sp, Call.wellFormed c → Call.run s c = Outcome.ret (r, sp) →
      ∃ s1 s2 s3, _manageSleepingThreads sp = Outcome.ret s1 ∧
        manageThreads.scenarioStep s1 sp._runningThread = Outcome.ret s2 ∧
        s2._readyThreads ≠ [] ∧
        manageThreads.dispatch s2 sp._runningThread = Outcome.ret s3 ∧
        manageThreads sp = Outcome.ret s3) := by
  obtain ⟨hI, hR, _⟩ := h.inv
  refine ⟨manageThreads_front hI, ?_⟩
  intro c r sp hc hrun
  obtain ⟨hI1, _⟩ := Call.run_inv hI hR hc hrun
  exact manageThreads_front hI1

/-- C29 at the state in which thread 1 runs and ready is `[2, 0]`; the calls include
thread 1 blocking, sleeping and terminating itself. -/
theorem C29_ready_nonempty_at_dispatch_witness :
    (∃ s1 s2 s3, _manageSleepingThreads run4Ticked = Outcome.ret s1 ∧
      manageThreads.scenarioStep s1 run4Ticked._runningThread = Outcome.ret s2 ∧
      s2._readyThreads ≠ [] ∧
      manageThreads.dispatch s2 run4Ticked._runningThread = Outcome.ret s3 ∧
      manageThreads run4Ticked = Outcome.ret s3) ∧
    (∀ c r sp, Call.wellFormed c → Call.run run4Ticked c = Outcome.ret (r, sp) →
      ∃ s1 s2 s3, _manageSleepingThreads sp = Outcome.ret s1 ∧
        manageThreads.scenarioStep s1 sp._runningThread = Outcome.ret s2 ∧
        s2._readyThreads ≠ [] ∧
        manageThreads.dispatch s2 sp._runningThread = Outcome.ret s3 ∧
        manageThreads sp = Outcome.ret s3) :=
  C29_ready_nonempty_at_dispatch run4Ticked_reachable

/-- The thread table never holds more records than `_maxThreads`. -/
theorem Inv.length_le {s : Scheduler} (hI : Inv s) :
    (s._threads.length : Int) ≤ s._maxThreads := by
  have hpos := hI.max_pos
  have hsub2 : s._threads.map Prod.fst ⊆ (List.range s._maxThreads.toNat).map Int.ofNat := by
    intro k hk
    rw [Table.mem_keys_iff] at hk
    obtain ⟨t, ht⟩ := Option.ne_none_iff_exists'.mp hk
    obtain ⟨h0, h1⟩ := hI.keys_range k t ht
    refine List.mem_map.mpr ⟨k.toNat, List.mem_range.mpr (by omega), ?_⟩
    show (k.toNat : Int) = k
    omega
  have l2 := (hI.keys_nodup.subperm hsub2).length_le
  simp only [List.length_map, List.length_range] at l2
  omega

/-- C30: in every reachable state the thread table holds at most `maxThreads` records;
for every `i` in `[0, maxThreads)` cell `i` of the id table is occupied (not
`EMPTY_CELL`) exactly when id `i` has a record; an id that `addThread` returns had no
record; and when the table is not full (the capacity check of `addThread` passes),
`_getNewID` returns from inside its loop at an index `j` in `[1, maxThreads)` whose
cell was `EMPTY_CELL`, with every cell below `j` occupied, having written `j` there: it
does not fall through to its default 0. -/
theorem C30_id_table {maxThreads stackSize : Int} {s : Scheduler}
    (h : Reachable maxThreads stackSize s) :
    (s._threads.length : Int) ≤ maxThreads ∧
    (∀ i : Int, 0 ≤ i → i < maxThreads →
      (s._idManagar.getD i.toNat 0 ≠ EMPTY_CELL ↔ ∃ t, s._threads.find i = some t)) ∧
    (∀ f r s1, addThread s f = Outcome.ret (r, s1) → r ≠ FAILURE →
      s._threads.find r = none ∧ 0 ≤ r ∧ r < maxThreads) ∧
    ((s._threads.length : Int) ≠ maxThreads →
      ∃ j : Nat, 1 ≤ j ∧ (j : Int) < maxThreads ∧
        s._idManagar.getD j 0 = EMPTY_CELL ∧
        (∀ i : Nat, i < j → s._idManagar.getD i 0 ≠ EMPTY_CELL) ∧
        _getNewID s = Outcome.ret ((j : Int),
          { s with _idManagar := s._idManagar.set j (j : Int) })) := by
  obtain ⟨hI, hR, hmax⟩ := h.inv
  subst hmax
  refine ⟨hI.length_le, ?_, ?_, ?_⟩
  · intro i h0 h1
    rw [Ne, hI.ids_live i h0 h1, ← Ne, Option.ne_none_iff_exists']
  · intro f r s1 hadd hr
    by_cases hfull : (s._threads.length : Int) = s._maxThreads
    · rw [addThread_full f hfull] at hadd
      cases hadd
      exact absurd rfl hr
    · obtain ⟨j, hj, hfree, _, hadd2⟩ := addThread_free hI f hfull
      rw [hadd2] at hadd
      cases hadd
      exact ⟨hfree, by positivity, hj⟩
  · intro hroom
    obtain ⟨j, hj, hf, hmin⟩ := hI.exists_least_free hroom
    have hlen : j < s._idManagar.length := by
      have := hI.ids_len
      omega
    have hE : s._idManagar.getD j 0 = EMPTY_CELL := by
      have := (hI.ids_live j (by positivity) hj).mpr hf
      simpa using this
    have hne : ∀ i < j, s._idManagar.getD i 0 ≠ EMPTY_CELL := by
      intro i hi hc
      have hlt : (i : Int) < s._maxThreads := by omega
      have := (hI.ids_live i (by positivity) hlt).mp (by simpa using hc)
      exact hmin i hi this
    have hj1 : 1 ≤ j := by
      by_contra hc
      have hj0 : j = 0 := by omega
      obtain ⟨t, ht⟩ := hI.main_live
      rw [hj0] at hf
      have : ((0 : Nat) : Int) = MAIN_THREAD_ID := rfl
      rw [this, ht] at hf
      cases hf
    have hloop := getNewID_loop_spec s._idManagar j hlen hE hne s._maxThreads.toNat 0
      (Nat.zero_le _) (by omega)
    have h0 : ((0 : Nat) : Int) = 0 := rfl
    rw [h0] at hloop
    refine ⟨j, hj1, hj, hE, hne, ?_⟩
    simp [_getNewID, hloop]

set_option maxRecDepth 100000 in
/-- C30 at the state with 100 cells in which thread 1 was terminated and thread 2
lives: the free cell found is cell 1. -/
theorem C30_id_table_witness :
    (run100Terminated._threads.length : Int) ≠ 100 ∧
    (run100Terminated._threads.length : Int) ≤ 100 ∧
    (∀ i : Int, 0 ≤ i → i < 100 →
      (run100Terminated._idManagar.getD i.toNat 0 ≠ EMPTY_CELL ↔
        ∃ t, run100Terminated._threads.find i = some t)) ∧
    (∀ f r s1, addThread run100Terminated f = Outcome.ret (r, s1) → r ≠ FAILURE →
      run100Terminated._threads.find r = none ∧ 0 ≤ r ∧ r < 100) ∧
    ((run100Terminated._threads.length : Int) ≠ 100 →
      ∃ j : Nat, 1 ≤ j ∧ (j : Int) < 100 ∧
        run100Terminated._idManagar.getD j 0 = EMPTY_CELL ∧
        (∀ i : Nat, i < j → run100Terminated._idManagar.getD i 0 ≠ EMPTY_CELL) ∧
        _getNewID run100Terminated = Outcome.ret ((j : Int),
          { run100Terminated with
            _idManagar := run100Terminated._idManagar.set j (j : Int) })) :=
  ⟨by decide, C30_id_table run100Terminated_reachable⟩

theorem run4BothAsleep_reachable : Reachable 4 4096 run4BothAsleep :=
  after_reachable run4Asleep_reachable _ trivial (by decide)

/-- C24 (what the code does): for every non-positive `quantum_usecs`, `uthread_init`
does not return -1: it does not return at all, `sysCallError` ends the process with
`exit(1)`, whatever the system calls would give. For every positive `quantum_usecs`,
if `sigemptyset`, `sigaddset`, `sigaction` and `setitimer` succeed, it returns 0 with
`lib_quantum_usecs` set and the timer set to that period. -/
theorem C24_uthread_init (sys : SysCalls) (lib : Library) (quantum_usecs : Int) :
    (quantum_usecs ≤ 0 →
      uthread_init sys lib quantum_usecs = Outcome.exited EXIT_STATUS ∧
      ∀ lib1, uthread_init sys lib quantum_usecs ≠ Outcome.ret (FAILURE, lib1)) ∧
    (0 < quantum_usecs → sys.sigemptyset ≠ SIG_FAILED → sys.sigaddset ≠ SIG_FAILED →
      sys.sigaction ≠ SIG_FAILED → sys.setitimer = 0 →
      ∃ lib1, uthread_init sys lib quantum_usecs = Outcome.ret (SUCCESS, lib1) ∧
        lib1.lib_quantum_usecs = quantum_usecs ∧
        lib1.timer.it_value_sec * SECOND + lib1.timer.it_value_usec = quantum_usecs ∧
        lib1.timer.it_interval_sec * SECOND + lib1.timer.it_interval_usec =
          quantum_usecs) := by
  constructor
  · intro hq
    have h : uthread_init sys lib quantum_usecs = Outcome.exited EXIT_STATUS := by
      have hq0 : quantum_usecs ≤ BAD_USEC := hq
      simp only [uthread_init, hq0, if_true, ErrorHandler.sysCallError]
    refine ⟨h, ?_⟩
    intro lib1 hc
    rw [h] at hc
    cases hc
  · intro hq h1 h2 h3 h4
    have hq0 : ¬ quantum_usecs ≤ BAD_USEC := not_le.mpr hq
    have hex : uthread_init sys lib quantum_usecs = Outcome.ret (SUCCESS,
        { lib_quantum_usecs := quantum_usecs
          timer :=
            { it_value_sec := Int.tdiv quantum_usecs SECOND
              it_value_usec := Int.tmod quantum_usecs SECOND
              it_interval_sec := Int.tdiv quantum_usecs SECOND
              it_interval_usec := Int.tmod quantum_usecs SECOND }
          sa_handler := true }) := by
      simp only [uthread_init, hq0, if_false, h1, h2, h3, reset_timer, h4, ne_eq,
        not_true_eq_false, Outcome.pure_eq_ret, Outcome.ret_bind]
    refine ⟨_, hex, rfl, ?_, ?_⟩
    · dsimp only
      rw [mul_comm]
      exact Int.tdiv_add_tmod quantum_usecs SECOND
    · dsimp only
      rw [mul_comm]
      exact Int.tdiv_add_tmod quantum_usecs SECOND

/-- C24 at `uthread_init(0)` with system calls that succeed: the process ends with
status 1. -/
theorem C24_uthread_init_witness :
    uthread_init sysOk libStart 0 = Outcome.exited EXIT_STATUS ∧
    ∀ lib1, uthread_init sysOk libStart 0 ≠ Outcome.ret (FAILURE, lib1) :=
  (C24_uthread_init sysOk libStart 0).1 (by decide)

/-- C26 (what the code does): main runs and threads 1 and 2 are adjacent in the sleeping
vector, each with one quantum left. One call of `manageThreads` wakes thread 1 (its
counter reaches 0, it goes to the ready vector and is dispatched) and passes over
thread 2: it stays in the sleeping vector with state `SLEEPING` and its counter still
at 1, not decremented. -/
theorem C26_adjacent_sleeper_skipped :
    Reachable 4 4096 run4BothAsleep ∧
    run4BothAsleep._currentScenario = scenario.ROUTINE ∧
    run4BothAsleep._runningThread = 0 ∧
    run4BothAsleep._sleepThreads = [1, 2] ∧
    (run4BothAsleep._threads.find 1).map Thread.getQuantumsLeftToSleep = some 1 ∧
    (run4BothAsleep._threads.find 2).map Thread.getQuantumsLeftToSleep = some 1 ∧
    manageThreads run4BothAsleep = Outcome.ret run4Skipped ∧
    run4Skipped._runningThread = 1 ∧
    run4Skipped._readyThreads = [0] ∧
    run4Skipped._sleepThreads = [2] ∧
    (run4Skipped._threads.find 1).map Thread.getQuantumsLeftToSleep = some 0 ∧
    (run4Skipped._threads.find 2).map Thread.getQuantumsLeftToSleep = some 1 ∧
    (run4Skipped._threads.find 2).map Thread.getState = some state.SLEEPING :=
  ⟨run4BothAsleep_reachable, by decide, by decide, by decide, by decide, by decide,
    by decide, by decide, by decide, by decide, by decide, by decide, by decide⟩

/-! ### Which sleepers one pass of `_manageSleepingThreads` visits -/

theorem mem_take_succ (l : List Int) (it : Nat) (k : Int) (h : k ∈ l.take it) :
    k ∈ l.take (it + 1) := by
  induction l generalizing it with
  | nil => simp at h
  | cons a l ih =>
    cases it with
    | zero => simp at h
    | succ it =>
      rw [List.take_succ_cons] at h ⊢
      rcases List.mem_cons.mp h with e | h
      · exact e ▸ List.mem_cons_self _ _
      · exact List.mem_cons_of_mem _ (ih it h)

theorem mem_take_eraseIdx (l : List Int) (it : Nat) (k : Int) (h : k ∈ l.take it) :
    k ∈ (l.eraseIdx it).take it := by
  induction l generalizing it with
  | nil => simp at h
  | cons a l ih =>
    cases it with
    | zero => simp at h
    | succ it =>
      rw [List.eraseIdx_cons_succ, List.take_succ_cons] at *
      rcases List.mem_cons.mp h with e | h
      · exact e ▸ List.mem_cons_self _ _
      · exact List.mem_cons_of_mem _ (ih it h)

theorem getD_mem_take_succ (l : List Int) (it : Nat) (h : it < l.length) :
    l.getD it 0 ∈ l.take (it + 1) := by
  induction l generalizing it with
  | nil => simp at h
  | cons a l ih =>
    cases it with
    | zero => simp
    | succ it =>
      rw [List.take_succ_cons]
      have h1 : it < l.length := by simpa using h
      have : (a :: l).getD (it + 1) 0 = l.getD it 0 := rfl
      rw [this]
      exact List.mem_cons_of_mem _ (ih it h1)

theorem mem_take_ne_getD (l : List Int) (hn : l.Nodup) (it : Nat) (h : it < l.length)
    (k : Int) (hk : k ∈ l.take it) : k ≠ l.getD it 0 := by
  induction l generalizing it with
  | nil => simp at h
  | cons a l ih =>
    cases it with
    | zero => simp at hk
    | succ it =>
      have h1 : it < l.length := by simpa using h
      have hg : (a :: l).getD (it + 1) 0 = l.getD it 0 := rfl
      rw [hg]
      rw [List.take_succ_cons] at hk
      obtain ⟨ha, hl⟩ := List.nodup_cons.mp hn
      rcases List.mem_cons.mp hk with e | hk
      · intro hc
        apply ha
        rw [← e, hc, List.getD_eq_getElem _ _ h1]
        exact List.getElem_mem _
      · exact ih hl it h1 hk

/-- One pass of the loop of `_manageSleepingThreads` from index `it`: the sleepers in
front of `it` are left as they are; every sleeper is left as it is (passed over), or
its counter is decremented once and it stays, not having reached zero, or its counter
is decremented once to zero and it is moved to the ready vector with state `READY`. -/
theorem manageSleeping_loop_sleepers :
    ∀ (n it : Nat) (s : Scheduler), Inv s → ∀ s1,
      _manageSleepingThreads.loop n it s = Outcome.ret s1 →
      (∀ k ∈ s._sleepThreads.take it,
        s1._threads.find k = s._threads.find k ∧ k ∈ s1._sleepThreads) ∧
      (∀ k ∈ s._sleepThreads, ∀ t, s._threads.find k = some t →
        (s1._threads.find k = some t ∧ k ∈ s1._sleepThreads) ∨
        (t._quantumsLeftToSleep - 1 ≠ 0 ∧
          s1._threads.find k = some t.decrementQuantumsToSleep ∧ k ∈ s1._sleepThreads) ∨
        (t._quantumsLeftToSleep - 1 = 0 ∧
          s1._threads.find k = some (t.decrementQuantumsToSleep.setState state.READY) ∧
          k ∉ s1._sleepThreads ∧ k ∈ s1._readyThreads)) := by
  intro n
  induction n with
  | zero =>
    intro it s _ s1 h
    cases h
    exact ⟨fun k hk => ⟨rfl, (List.take_sublist _ _).subset hk⟩,
      fun k hk t ht => Or.inl ⟨ht, hk⟩⟩
  | succ n ih =>
    intro it s hI s1 h
    rw [_manageSleepingThreads.loop] at h
    by_cases hit : it < s._sleepThreads.length
    · obtain ⟨sb, hb, hIb, hFb, _⟩ := manageSleeping_body_inv hI hit
      simp only [hit, if_true, hb, Outcome.ret_bind] at h
      obtain ⟨iha, ihb⟩ := ih (it + 1) sb hIb s1 h
      obtain ⟨s1', hl', hI1, hF1⟩ := manageSleeping_loop_inv n (it + 1) sb hIb
      rw [h] at hl'; cases hl'
      obtain ⟨t0, hf0, hb1⟩ := manageSleeping_body_spec hI hit
      rw [hb] at hb1
      have hmem : s._sleepThreads.getD it 0 ∈ s._sleepThreads := by
        rw [List.getD_eq_getElem _ _ hit]; exact List.getElem_mem _
      by_cases hz : t0._quantumsLeftToSleep - 1 = 0
      · rw [if_pos hz] at hb1
        cases hb1
        dsimp only at iha ihb
        have hnot : s._sleepThreads.getD it 0 ∉ s._sleepThreads.eraseIdx it := by
          rw [eraseIdx_eq_filter _ _ hI.sleep_nodup hit, mem_filter_ne]
          exact fun hc => hc.2 rfl
        constructor
        · intro k hk
          have hne := mem_take_ne_getD _ hI.sleep_nodup it hit k hk
          obtain ⟨e1, e2⟩ := iha k (mem_take_succ _ _ _ (mem_take_eraseIdx _ _ _ hk))
          refine ⟨?_, e2⟩
          rw [e1, Table.find_update_ne _ _ hne, Table.find_update_ne _ _ hne]
        · intro k hk t ht
          by_cases hkid : k = s._sleepThreads.getD it 0
          · subst hkid
            rw [hf0] at ht; cases ht
            refine Or.inr (Or.inr ⟨hz, ?_, ?_, ?_⟩)
            · have := hF1.others _ hnot
              dsimp only at this
              rw [this]
              exact Table.find_update_self _ _ (Table.find_update_self _ _ hf0)
            · intro hc
              exact hnot (hF1.sleepThreads _ hc)
            · obtain ⟨w, hw⟩ := hF1.readyThreads
              rw [hw]
              dsimp only
              simp
          · have hk2 : k ∈ s._sleepThreads.eraseIdx it := by
              rw [eraseIdx_eq_filter _ _ hI.sleep_nodup hit, mem_filter_ne]
              exact ⟨hk, hkid⟩
            have hfk : ((s._threads.update (s._sleepThreads.getD it 0)
                Thread.decrementQuantumsToSleep).update (s._sleepThreads.getD it 0)
                (fun t => t.setState state.READY)).find k = some t := by
              rw [Table.find_update_ne _ _ hkid, Table.find_update_ne _ _ hkid]
              exact ht
            exact ihb k hk2 t hfk
      · rw [if_neg hz] at hb1
        cases hb1
        dsimp only at iha ihb
        constructor
        · intro k hk
          have hne := mem_take_ne_getD _ hI.sleep_nodup it hit k hk
          obtain ⟨e1, e2⟩ := iha k (mem_take_succ _ _ _ hk)
          refine ⟨?_, e2⟩
          rw [e1, Table.find_update_ne _ _ hne]
        · intro k hk t ht
          by_cases hkid : k = s._sleepThreads.getD it 0
          · subst hkid
            rw [hf0] at ht; cases ht
            obtain ⟨e1, e2⟩ := iha _ (getD_mem_take_succ _ it hit)
            refine Or.inr (Or.inl ⟨hz, ?_, e2⟩)
            rw [e1]
            exact Table.find_update_self _ _ hf0
          · have hfk : (s._threads.update (s._sleepThreads.getD it 0)
                Thread.decrementQuantumsToSleep).find k = some t := by
              rw [Table.find_update_ne _ _ hkid]
              exact ht
            exact ihb k hk t hfk
    · simp only [hit, if_false] at h
      cases h
      exact ⟨fun k hk => ⟨rfl, (List.take_sublist _ _).subset hk⟩,
        fun k hk t ht => Or.inl ⟨ht, hk⟩⟩

/-- In every reachable state (no scenario is pending), with `r` the running thread,
`manageThreads` returns; there is a list `moved` such that the new running id and the
new ready vector are the head and the tail of `ready ++ moved ++ [r]`; `moved` holds
exactly the threads of the sleeping vector whose counter this call took from a non-zero
value to zero, and none of them is in the sleeping vector afterwards; the dispatched
thread has state `RUNNING`; `r` has state `READY` unless it is the one dispatched; the
blocked vector is unchanged and the scenario is `ROUTINE`. Which sleepers the call
visits is not part of this statement. -/
theorem manageThreads_routine_moved {maxThreads stackSize : Int} {s : Scheduler}
    (h : Reachable maxThreads stackSize s) :
    ∃ moved s2, manageThreads s = Outcome.ret s2 ∧
      s._currentScenario = scenario.ROUTINE ∧
      s._readyThreads ++ moved ++ [s._runningThread] =
        s2._runningThread :: s2._readyThreads ∧
      (∀ k, k ∈ moved ↔ k ∈ s._sleepThreads ∧
        ∃ t t2, s._threads.find k = some t ∧ s2._threads.find k = some t2 ∧
          t._quantumsLeftToSleep ≠ 0 ∧ t2._quantumsLeftToSleep = 0) ∧
      (∀ k ∈ moved, k ∉ s2._sleepThreads) ∧
      (∃ t2, s2._threads.find s2._runningThread = some t2 ∧ t2._state = state.RUNNING) ∧
      (s2._runningThread ≠ s._runningThread →
        ∃ t, s2._threads.find s._runningThread = some t ∧ t._state = state.READY) ∧
      s2._blockThreads = s._blockThreads ∧
      s2._currentScenario = scenario.ROUTINE := by
  obtain ⟨hI, hR, _⟩ := h.inv
  obtain ⟨s1, s2, hs1, hI1, hF, hm, hI2, hR2, _, _, hrd, hsl, hbl, hrec, _, _, hlive⟩ :=
    manageThreads_summary hI
  rw [if_pos hR] at hrd
  have hsc1 : ¬ s._currentScenario = scenario.TOSLEEP := by rw [hR]; decide
  have hsc2 : ¬ s._currentScenario = scenario.TOBLOCK := by rw [hR]; decide
  rw [if_neg hsc1, List.append_nil] at hsl
  rw [if_neg hsc2, List.append_nil] at hbl
  obtain ⟨w, hw⟩ := hF.readyThreads
  obtain ⟨_, hcls⟩ := manageSleeping_loop_sleepers s._sleepThreads.length 0 s hI s1 hs1
  have hnd := hI1.ready_nodup
  rw [hw] at hnd
  have hdisj := (List.nodup_append.mp hnd).2.2
  have hwoken : ∀ k ∈ w, k ∈ s._sleepThreads ∧ k ∉ s1._sleepThreads ∧
      ∃ t t1, s._threads.find k = some t ∧ s1._threads.find k = some t1 ∧
        t._quantumsLeftToSleep ≠ 0 ∧ t1._quantumsLeftToSleep = 0 := by
    intro k hk
    have hk1 : k ∈ s1._readyThreads := by rw [hw]; exact List.mem_append_right _ hk
    obtain ⟨hnr1, u, hu, hus⟩ := hI1.ready_state k hk1
    have hks : k ∈ s._sleepThreads := by
      by_contra hc
      have e := hF.others k hc
      rw [hu] at e
      have hnr : k ≠ s._runningThread := by rw [← hF.runningThread]; exact hnr1
      have := (hI.mem_ready_iff e.symm hnr).mpr hus
      exact hdisj this hk
    obtain ⟨_, _, t, ht, _⟩ := hI.sleep_state k hks
    have hns : k ∉ s1._sleepThreads := by
      intro hc
      obtain ⟨_, _, v, hv, hvs⟩ := hI1.sleep_state k hc
      rw [hu] at hv; cases hv
      rw [hus] at hvs; cases hvs
    refine ⟨hks, hns, t, ?_⟩
    rcases hcls k hks t ht with ⟨_, hc⟩ | ⟨_, _, hc⟩ | ⟨hz, hf1, _, _⟩
    · exact absurd hc hns
    · exact absurd hc hns
    · refine ⟨_, ht, hf1, ?_, ?_⟩
      · intro e0
        rw [e0] at hz
        simp at hz
      · exact hz
  refine ⟨w, s2, hm, hR, ?_, ?_, ?_, ?_, ?_, ?_, hR2⟩
  · rw [← hrd, hw]
  · intro k
    constructor
    · intro hk
      obtain ⟨hks, _, t, t1, ht, ht1, h0, h1⟩ := hwoken k hk
      have h2 : s2._threads.find k ≠ none := by
        rw [Ne, hlive, ht1]; simp
      obtain ⟨t2, ht2⟩ := Option.ne_none_iff_exists'.mp h2
      obtain ⟨t1', ht1', e2⟩ := hrec k t2 ht2
      rw [ht1] at ht1'; cases ht1'
      refine ⟨hks, t, t2, ht, ht2, h0, ?_⟩
      rw [e2]; exact h1
    · rintro ⟨hks, t, t2, ht, ht2, h0, h2⟩
      obtain ⟨t1, ht1, e2⟩ := hrec k t2 ht2
      have hl1 : t1._quantumsLeftToSleep = 0 := by
        rw [e2] at h2; exact h2
      rcases hcls k hks t ht with ⟨hf1, _⟩ | ⟨hz, hf1, _⟩ | ⟨_, _, _, hrdy⟩
      · rw [ht1] at hf1; cases hf1
        exact absurd hl1 h0
      · rw [ht1] at hf1; cases hf1
        exact absurd hl1 hz
      · rw [hw] at hrdy
        rcases List.mem_append.mp hrdy with hc | hc
        · obtain ⟨_, u, hu, hus⟩ := hI.ready_state k hc
          obtain ⟨_, _, v, hv, hvs⟩ := hI.sleep_state k hks
          rw [hu] at hv; cases hv
          rw [hus] at hvs; cases hvs
        · exact hc
  · intro k hk
    rw [hsl]
    exact (hwoken k hk).2.1
  · obtain ⟨s2', hm', hst⟩ := manageThreads_running_state hI
    rw [hm] at hm'; cases hm'
    exact hst
  · intro hne
    have hmem : s._runningThread ∈ s2._runningThread :: s2._readyThreads := by
      rw [← hrd]; simp
    rcases List.mem_cons.mp hmem with e | hmr
    · exact absurd e.symm hne
    · exact (hI2.ready_state _ hmr).2
  · rw [hbl, hF.blockThreads]

theorem lastState_cons (s : Scheduler) (p : Option Int × Scheduler)
    (tr : List (Option Int × Scheduler)) : lastState s (p :: tr) = lastState p.2 tr := by
  cases tr with
  | nil => rfl
  | cons q tr =>
    have hl : (q :: tr).getLast? = some ((q :: tr).getLast (by simp)) :=
      List.getLast?_eq_getLast _ _
    simp [lastState, List.getLast?_cons_cons, hl]

/-- A call of `manageThreads` with nothing pending and no thread blocked or asleep: the
ready vector with the running thread behind it is rotated by one. -/
theorem manageThreads_rotate {s : Scheduler} (hI : Inv s)
    (hR : s._currentScenario = scenario.ROUTINE) (hs : s._sleepThreads = [])
    (hb : s._blockThreads = []) :
    ∃ s2, manageThreads s = Outcome.ret s2 ∧ Inv s2 ∧
      s2._currentScenario = scenario.ROUTINE ∧
      s2._sleepThreads = [] ∧ s2._blockThreads = [] ∧
      s._readyThreads ++ [s._runningThread] = s2._runningThread :: s2._readyThreads ∧
      s2._totalQuantumCounter = s._totalQuantumCounter + 1 ∧
      (∀ k t, s._threads.find k = some t → ∃ t2, s2._threads.find k = some t2 ∧
        t2._quantums = t._quantums + (if k = s2._runningThread then 1 else 0)) := by
  obtain ⟨s1, s2, hs1, _, _, hm, hI2, hR2, _, _, hrd, hsl, hbl, _, _, _, _⟩ :=
    manageThreads_summary hI
  have e1 : s1 = s := by
    simp only [_manageSleepingThreads, hs, List.length_nil, _manageSleepingThreads.loop,
      Outcome.pure_eq_ret, Outcome.ret.injEq] at hs1
    exact hs1.symm
  subst e1
  rw [if_pos hR] at hrd
  have hsc1 : ¬ s1._currentScenario = scenario.TOSLEEP := by rw [hR]; decide
  have hsc2 : ¬ s1._currentScenario = scenario.TOBLOCK := by rw [hR]; decide
  rw [if_neg hsc1, List.append_nil, hs] at hsl
  rw [if_neg hsc2, List.append_nil, hb] at hbl
  obtain ⟨s2', hm', _, _, htot, _, hq, _⟩ := manageThreads_counters hI
  rw [hm] at hm'; cases hm'
  exact ⟨s2, hm, hI2, hR2, hsl, hbl, hrd, htot, hq⟩

/-- As many ticks as the list `A` is long, when the ready vector with the running thread
behind it is `A ++ B`: the threads of `A` are dispatched in that order and the vector
becomes `B ++ A`. -/
theorem execute_rotate :
    ∀ (A B : List Int) (s : Scheduler), Inv s → s._currentScenario = scenario.ROUTINE →
      s._sleepThreads = [] → s._blockThreads = [] →
      s._readyThreads ++ [s._runningThread] = A ++ B →
      ∃ tr, execute s (List.replicate A.length Step.tick) = Outcome.ret tr ∧
        tr.map Prod.fst = A.map some ∧
        (lastState s tr)._readyThreads ++ [(lastState s tr)._runningThread] = B ++ A ∧
        (lastState s tr)._totalQuantumCounter = s._totalQuantumCounter + A.length ∧
        (∀ k t, s._threads.find k = some t → ∃ t2,
          (lastState s tr)._threads.find k = some t2 ∧
          t2._quantums = t._quantums + A.count k) := by
  intro A
  induction A with
  | nil =>
    intro B s _ _ _ _ hq
    refine ⟨[], rfl, rfl, ?_, ?_, ?_⟩
    · simpa [lastState] using hq
    · simp [lastState]
    · intro k t hk
      exact ⟨t, hk, by simp⟩
  | cons a A ih =>
    intro B s hI hR hs hb hq
    obtain ⟨s2, hm, hI2, hR2, hs2, hb2, hrd, htot, hquant⟩ := manageThreads_rotate hI hR hs hb
    rw [hq, List.cons_append, List.cons.injEq] at hrd
    obtain ⟨ha, hrest⟩ := hrd
    have hq2 : s2._readyThreads ++ [s2._runningThread] = A ++ (B ++ [a]) := by
      rw [← hrest, ← ha, List.append_assoc]
    obtain ⟨tr1, hex, hlog, hfin, htot1, hquant1⟩ := ih (B ++ [a]) s2 hI2 hR2 hs2 hb2 hq2
    refine ⟨(some s2._runningThread, s2) :: tr1, ?_, ?_, ?_, ?_, ?_⟩
    · simp [List.replicate_succ, execute, Step.exec, hm, hex]
    · simp [hlog, ha]
    · rw [lastState_cons, hfin]
      simp
    · rw [lastState_cons, htot1, htot]
      simp only [List.length_cons, Nat.cast_add, Nat.cast_one]
      omega
    · intro k t hk
      obtain ⟨t2, ht2, e2⟩ := hquant k t hk
      obtain ⟨t3, ht3, e3⟩ := hquant1 k t2 ht2
      refine ⟨t3, by rw [lastState_cons]; exact ht3, ?_⟩
      rw [e3, e2, List.count_cons, ← ha]
      by_cases e : k = a
      · subst e
        simp
        omega
      · have e' : ¬ a = k := fun hc => e hc.symm
        simp [e, e']

/-- With no thread blocked or asleep every thread with a record runs or is ready, and
the ready vector with the running thread behind it lists each of them once. -/
theorem Inv.queue_all {s : Scheduler} (hI : Inv s)
    (hR : s._currentScenario = scenario.ROUTINE) (hs : s._sleepThreads = [])
    (hb : s._blockThreads = []) :
    (s._readyThreads ++ [s._runningThread]).Nodup ∧
    (∀ k, k ∈ s._readyThreads ++ [s._runningThread] ↔ s._threads.find k ≠ none) ∧
    s._threads.length = s._readyThreads.length + 1 := by
  have hnd : (s._readyThreads ++ [s._runningThread]).Nodup := by
    rw [List.nodup_append]
    refine ⟨hI.ready_nodup, List.nodup_singleton _, ?_⟩
    intro x hx hx1
    simp only [List.mem_singleton] at hx1
    exact (hI.ready_state x hx).1 hx1
  have hmem : ∀ k, k ∈ s._readyThreads ++ [s._runningThread] ↔ s._threads.find k ≠ none := by
    intro k
    constructor
    · intro hk
      rcases List.mem_append.mp hk with hk | hk
      · obtain ⟨_, t, ht, _⟩ := hI.ready_state k hk
        rw [ht]; simp
      · simp only [List.mem_singleton] at hk
        obtain ⟨t, ht, _⟩ := hI.running_live hR
        rw [hk, ht]; simp
    · intro hk
      obtain ⟨t, ht⟩ := Option.ne_none_iff_exists'.mp hk
      by_cases hnr : k = s._runningThread
      · rw [hnr]; simp
      · rcases hI.others k t ht hnr with h1 | h1 | h1
        · exact List.mem_append_left _ h1.2
        · rw [hb] at h1; cases h1.2
        · rw [hs] at h1; cases h1.2
  refine ⟨hnd, hmem, ?_⟩
  have hperm : (s._threads.map Prod.fst).Perm (s._readyThreads ++ [s._runningThread]) := by
    rw [List.perm_ext_iff_of_nodup hI.keys_nodup hnd]
    intro k
    rw [Table.mem_keys_iff, hmem]
  have := hperm.length_eq
  simpa using this

/-- C28: in every reachable state (no scenario is pending) in which no thread is
blocked or asleep, the number `k` of threads with a record is the length of the ready
vector plus one, and `k` consecutive calls of `manageThreads` return and dispatch, in
this order, the threads of the ready vector from its front and then the thread that
ran; that list holds every thread with a record, each once; afterwards the running id and the ready vector are
as they were, the total of quantums has grown by `k` and the quantum counter of every
thread by 1. -/
theorem C28_round_robin_cycle {maxThreads stackSize : Int} {s : Scheduler}
    (h : Reachable maxThreads stackSize s) (hs : s._sleepThreads = [])
    (hb : s._blockThreads = []) :
    s._threads.length = s._readyThreads.length + 1 ∧
    ∃ tr, execute s (List.replicate s._threads.length Step.tick) = Outcome.ret tr ∧
      tr.map Prod.fst = (s._readyThreads ++ [s._runningThread]).map some ∧
      (s._readyThreads ++ [s._runningThread]).Nodup ∧
      (∀ k t, s._threads.find k = some t → k ∈ s._readyThreads ++ [s._runningThread]) ∧
      (lastState s tr)._runningThread = s._runningThread ∧
      (lastState s tr)._readyThreads = s._readyThreads ∧
      (lastState s tr)._totalQuantumCounter =
        s._totalQuantumCounter + s._threads.length ∧
      (∀ k t, s._threads.find k = some t → ∃ t2,
        (lastState s tr)._threads.find k = some t2 ∧
        t2.getQuantums = t.getQuantums + 1) := by
  obtain ⟨hI, hR, _⟩ := h.inv
  obtain ⟨hnd, hmem, hlen⟩ := hI.queue_all hR hs hb
  obtain ⟨tr, hex, hlog, hfin, htot, hquant⟩ :=
    execute_rotate (s._readyThreads ++ [s._runningThread]) [] s hI hR hs hb (by simp)
  have hlen2 : (s._readyThreads ++ [s._runningThread]).length = s._threads.length := by
    rw [hlen]; simp
  rw [hlen2] at hex htot
  have hcount : ∀ k t, s._threads.find k = some t →
      (s._readyThreads ++ [s._runningThread]).count k = 1 := by
    intro k t hk
    apply List.count_eq_one_of_mem hnd
    rw [hmem, hk]; simp
  rw [List.nil_append] at hfin
  obtain ⟨e1, e2⟩ := List.append_inj' hfin rfl
  refine ⟨hlen, tr, hex, hlog, hnd, ?_, ?_, e1, htot, ?_⟩
  · intro k t hk
    rw [hmem, hk]; simp
  · simpa using e2
  · intro k t hk
    obtain ⟨t2, ht2, e⟩ := hquant k t hk
    refine ⟨t2, ht2, ?_⟩
    rw [hcount k t hk] at e
    simpa [Thread.getQuantums] using e

/-- C28 at the state in which main runs and threads 1 and 2 are ready. -/
theorem C28_round_robin_cycle_witness :
    run4Two._sleepThreads = [] ∧ run4Two._blockThreads = [] ∧
    run4Two._threads.length = run4Two._readyThreads.length + 1 ∧
    ∃ tr, execute run4Two (List.replicate run4Two._threads.length Step.tick) =
        Outcome.ret tr ∧
      tr.map Prod.fst = (run4Two._readyThreads ++ [run4Two._runningThread]).map some ∧
      (run4Two._readyThreads ++ [run4Two._runningThread]).Nodup ∧
      (∀ k t, run4Two._threads.find k = some t →
        k ∈ run4Two._readyThreads ++ [run4Two._runningThread]) ∧
      (lastState run4Two tr)._runningThread = run4Two._runningThread ∧
      (lastState run4Two tr)._readyThreads = run4Two._readyThreads ∧
      (lastState run4Two tr)._totalQuantumCounter =
        run4Two._totalQuantumCounter + run4Two._threads.length ∧
      (∀ k t, run4Two._threads.find k = some t → ∃ t2,
        (lastState run4Two tr)._threads.find k = some t2 ∧
        t2.getQuantums = t.getQuantums + 1) :=
  ⟨by decide, by decide, C28_round_robin_cycle run4Two_reachable (by decide) (by decide)⟩

/-- C32: in every reachable state (all spawns made with a non-null entry) the ready,
blocked and sleeping vectors have no duplicates and are pairwise disjoint; none holds
the running id; every id in them has a record whose state is `READY`, `BLOCKED` or
`SLEEPING` respectively; and every thread with a record other than the running one is
in exactly one of the three. -/
theorem C32_queues_partition {maxThreads stackSize : Int} {s : Scheduler}
    (h : Reachable maxThreads stackSize s) :
    s._readyThreads.Nodup ∧ s._blockThreads.Nodup ∧ s._sleepThreads.Nodup ∧
    (∀ k, ¬ (k ∈ s._readyThreads ∧ k ∈ s._blockThreads) ∧
          ¬ (k ∈ s._readyThreads ∧ k ∈ s._sleepThreads) ∧
          ¬ (k ∈ s._blockThreads ∧ k ∈ s._sleepThreads)) ∧
    s._runningThread ∉ s._readyThreads ∧ s._runningThread ∉ s._blockThreads ∧
    s._runningThread ∉ s._sleepThreads ∧
    (∀ k ∈ s._readyThreads, ∃ t, s._threads.find k = some t ∧ t._state = state.READY) ∧
    (∀ k ∈ s._blockThreads, ∃ t, s._threads.find k = some t ∧ t._state = state.BLOCKED) ∧
    (∀ k ∈ s._sleepThreads, ∃ t, s._threads.find k = some t ∧ t._state = state.SLEEPING) ∧
    (∀ k t, s._threads.find k = some t → k ≠ s._runningThread →
      (k ∈ s._readyThreads ∧ k ∉ s._blockThreads ∧ k ∉ s._sleepThreads) ∨
      (k ∉ s._readyThreads ∧ k ∈ s._blockThreads ∧ k ∉ s._sleepThreads) ∨
      (k ∉ s._readyThreads ∧ k ∉ s._blockThreads ∧ k ∈ s._sleepThreads)) := by
  obtain ⟨hI, hR, _⟩ := h.inv
  have hrb : ∀ k, ¬ (k ∈ s._readyThreads ∧ k ∈ s._blockThreads) := by
    rintro k ⟨h1, h2⟩
    obtain ⟨_, t, ht, hst⟩ := hI.ready_state k h1
    obtain ⟨_, _, u, hu, hus⟩ := hI.block_state k h2
    rw [ht] at hu; cases hu
    rw [hst] at hus; cases hus
  have hrs : ∀ k, ¬ (k ∈ s._readyThreads ∧ k ∈ s._sleepThreads) := by
    rintro k ⟨h1, h2⟩
    obtain ⟨_, t, ht, hst⟩ := hI.ready_state k h1
    obtain ⟨_, _, u, hu, hus⟩ := hI.sleep_state k h2
    rw [ht] at hu; cases hu
    rw [hst] at hus; cases hus
  have hbs : ∀ k, ¬ (k ∈ s._blockThreads ∧ k ∈ s._sleepThreads) := by
    rintro k ⟨h1, h2⟩
    obtain ⟨_, _, t, ht, hst⟩ := hI.block_state k h1
    obtain ⟨_, _, u, hu, hus⟩ := hI.sleep_state k h2
    rw [ht] at hu; cases hu
    rw [hst] at hus; cases hus
  refine ⟨hI.ready_nodup, hI.block_nodup, hI.sleep_nodup, fun k => ⟨hrb k, hrs k, hbs k⟩,
    fun hc => (hI.ready_state _ hc).1 rfl, fun hc => (hI.block_state _ hc).1 rfl,
    fun hc => (hI.sleep_state _ hc).1 rfl, fun k hk => (hI.ready_state k hk).2,
    fun k hk => (hI.block_state k hk).2.2, fun k hk => (hI.sleep_state k hk).2.2, ?_⟩
  intro k t hk hnr
  rcases hI.others k t hk hnr with ⟨_, hm⟩ | ⟨_, hm⟩ | ⟨_, hm⟩
  · exact Or.inl ⟨hm, fun hc => hrb k ⟨hm, hc⟩, fun hc => hrs k ⟨hm, hc⟩⟩
  · exact Or.inr (Or.inl ⟨fun hc => hrb k ⟨hc, hm⟩, hm, fun hc => hbs k ⟨hm, hc⟩⟩)
  · exact Or.inr (Or.inr ⟨fun hc => hrs k ⟨hc, hm⟩, fun hc => hbs k ⟨hc, hm⟩, hm⟩)

/-- C32 at the state in which main runs, thread 1 is ready and thread 2 sleeps. -/
theorem C32_queues_partition_witness :
    run4Skipped._readyThreads = [0] ∧ run4Skipped._sleepThreads = [2] ∧
    run4Skipped._readyThreads.Nodup ∧ run4Skipped._blockThreads.Nodup ∧
    run4Skipped._sleepThreads.Nodup ∧
    (∀ k, ¬ (k ∈ run4Skipped._readyThreads ∧ k ∈ run4Skipped._blockThreads) ∧
          ¬ (k ∈ run4Skipped._readyThreads ∧ k ∈ run4Skipped._sleepThreads) ∧
          ¬ (k ∈ run4Skipped._blockThreads ∧ k ∈ run4Skipped._sleepThreads)) ∧
    run4Skipped._runningThread ∉ run4Skipped._readyThreads ∧
    run4Skipped._runningThread ∉ run4Skipped._blockThreads ∧
    run4Skipped._runningThread ∉ run4Skipped._sleepThreads ∧
    (∀ k ∈ run4Skipped._readyThreads,
      ∃ t, run4Skipped._threads.find k = some t ∧ t._state = state.READY) ∧
    (∀ k ∈ run4Skipped._blockThreads,
      ∃ t, run4Skipped._threads.find k = some t ∧ t._state = state.BLOCKED) ∧
    (∀ k ∈ run4Skipped._sleepThreads,
      ∃ t, run4Skipped._threads.find k = some t ∧ t._state = state.SLEEPING) ∧
    (∀ k t, run4Skipped._threads.find k = some t → k ≠ run4Skipped._runningThread →
      (k ∈ run4Skipped._readyThreads ∧ k ∉ run4Skipped._blockThreads ∧
        k ∉ run4Skipped._sleepThreads) ∨
      (k ∉ run4Skipped._readyThreads ∧ k ∈ run4Skipped._blockThreads ∧
        k ∉ run4Skipped._sleepThreads) ∨
      (k ∉ run4Skipped._readyThreads ∧ k ∉ run4Skipped._blockThreads ∧
        k ∈ run4Skipped._sleepThreads)) :=
  ⟨by decide, by decide,
    C32_queues_partition (afterTick_reachable run4BothAsleep_reachable (by decide))⟩

/-- C33 (what the code does): in every reachable state, for every id below 0 or at
least `maxThreads`, the first thing `_getVectorOfThread` does is read `_idManagar[ID]`,
outside the `maxThreads` cells of the id table, before it tests the range; so
`removeThread`, `blockThread`, `resumeThread`, `getTimeToWakeUp` and
`getNumOfQuantums`, which all begin with that call, have undefined behaviour and do not
return -1. -/
theorem C33_out_of_range_id_read {maxThreads stackSize : Int} {s : Scheduler}
    (h : Reachable maxThreads stackSize s) (ID : Int) (hout : ID < 0 ∨ maxThreads ≤ ID) :
    (s._idManagar.length : Int) = maxThreads ∧
    cellRead s._idManagar ID = Outcome.undefined ∧
    _getVectorOfThread s ID = Outcome.undefined ∧
    removeThread s ID = Outcome.undefined ∧
    blockThread s ID = Outcome.undefined ∧
    resumeThread s ID = Outcome.undefined ∧
    getTimeToWakeUp s ID = Outcome.undefined ∧
    getNumOfQuantums s ID = Outcome.undefined := by
  obtain ⟨hI, hR, hmax⟩ := h.inv
  subst hmax
  have hr : ¬ (0 ≤ ID ∧ ID < s._maxThreads) := by omega
  have hv := getVectorOfThread_out hI hr
  have hne0 : ¬ ID = MAIN_THREAD_ID := by
    have := hI.max_pos
    dsimp only [MAIN_THREAD_ID]
    omega
  have hnr : ID ≠ s._runningThread := by
    intro e
    obtain ⟨t, ht, _⟩ := hI.running_live hR
    rw [← e] at ht
    exact hr (hI.keys_range ID t ht)
  refine ⟨hI.ids_len, cellRead_undefined _ _ (by rw [hI.ids_len]; exact hr), hv, ?_, ?_, ?_,
    ?_, ?_⟩
  · simp only [removeThread, hne0, if_false, hv]
    rfl
  · simp only [blockThread, hne0, if_false, hnr, ne_eq, not_false_eq_true, if_true, hv]
    rfl
  · simp only [resumeThread, hv]
    rfl
  · simp only [getTimeToWakeUp, hv]
    rfl
  · simp only [getNumOfQuantums, hv]
    rfl

/-- C33 at a table of four cells, with id -1 and with id 4. -/
theorem C33_out_of_range_id_read_witness :
    ((run4Two._idManagar.length : Int) = 4 ∧
      cellRead run4Two._idManagar (-1) = Outcome.undefined ∧
      _getVectorOfThread run4Two (-1) = Outcome.undefined ∧
      removeThread run4Two (-1) = Outcome.undefined ∧
      blockThread run4Two (-1) = Outcome.undefined ∧
      resumeThread run4Two (-1) = Outcome.undefined ∧
      getTimeToWakeUp run4Two (-1) = Outcome.undefined ∧
      getNumOfQuantums run4Two (-1) = Outcome.undefined) ∧
    ((run4Two._idManagar.length : Int) = 4 ∧
      cellRead run4Two._idManagar 4 = Outcome.undefined ∧
      _getVectorOfThread run4Two 4 = Outcome.undefined ∧
      removeThread run4Two 4 = Outcome.undefined ∧
      blockThread run4Two 4 = Outcome.undefined ∧
      resumeThread run4Two 4 = Outcome.undefined ∧
      getTimeToWakeUp run4Two 4 = Outcome.undefined ∧
      getNumOfQuantums run4Two 4 = Outcome.undefined) :=
  ⟨C33_out_of_range_id_read run4Two_reachable (-1) (by decide),
    C33_out_of_range_id_read run4Two_reachable 4 (by decide)⟩

/-! ### The sum of the quantum counters -/

theorem quantumsAt_some {m : Table} {i : Nat} {t : Thread} (h : m.find i = some t) :
    quantumsAt m i = t._quantums := by
  simp [quantumsAt, h, Thread.getQuantums]

theorem quantumsAt_none {m : Table} {i : Nat} (h : m.find i = none) :
    quantumsAt m i = 0 := by
  simp [quantumsAt, h]

theorem sum_ite_cast (n : Nat) (k c : Int) (h0 : 0 ≤ k) (h1 : k < n) :
    Finset.sum (Finset.range n) (fun i => if (i : Int) = k then c else 0) = c := by
  have hcond : ∀ i : Nat, ((i : Int) = k) ↔ (i = k.toNat) := by
    intro i; omega
  simp only [hcond]
  rw [Finset.sum_ite_eq' (Finset.range n) k.toNat (fun _ => c)]
  have : k.toNat ∈ Finset.range n := by
    rw [Finset.mem_range]; omega
  simp [this]

/-- The sum over the records of a table whose keys are distinct and lie in `[0, n)` is
the sum over the ids of `[0, n)`. -/
theorem Table.sum_eq_range (n : Nat) :
    ∀ (m : Table), (m.map Prod.fst).Nodup →
      (∀ k t, m.find k = some t → 0 ≤ k ∧ k < n) →
      (m.map (fun p => p.2.getQuantums)).sum =
        Finset.sum (Finset.range n) (fun i => quantumsAt m i) := by
  intro m
  induction m with
  | nil =>
    intro _ _
    simp [quantumsAt, Table.find]
  | cons p rest ih =>
    obtain ⟨k, t⟩ := p
    intro hnd hr
    simp only [List.map_cons, List.nodup_cons] at hnd
    obtain ⟨hk, hnd'⟩ := hnd
    have hknone : Table.find rest k = none := by
      by_contra hc
      exact hk ((Table.mem_keys_iff rest k).mpr hc)
    have hrange := hr k t (by rw [Table.find_cons, if_pos rfl])
    have hr' : ∀ k' t', Table.find rest k' = some t' → 0 ≤ k' ∧ k' < n := by
      intro k' t' h'
      have hne : ¬ k = k' := by
        intro e
        rw [← e, hknone] at h'
        cases h'
      exact hr k' t' (by rw [Table.find_cons, if_neg hne]; exact h')
    have hpt : ∀ i : Nat, quantumsAt ((k, t) :: rest) i =
        (if (i : Int) = k then t._quantums else 0) + quantumsAt rest i := by
      intro i
      by_cases e : (i : Int) = k
      · have h1 : Table.find ((k, t) :: rest) i = some t := by
          rw [Table.find_cons, if_pos e.symm]
        have h2 : Table.find rest i = none := by rw [e]; exact hknone
        rw [quantumsAt_some h1, quantumsAt_none h2, if_pos e, add_zero]
      · have h1 : Table.find ((k, t) :: rest) i = Table.find rest i := by
          rw [Table.find_cons, if_neg (fun hc => e hc.symm)]
        rw [if_neg e, zero_add]
        simp only [quantumsAt, h1]
    simp only [List.map_cons, List.sum_cons, hpt, Finset.sum_add_distrib]
    rw [sum_ite_cast n k _ hrange.1 hrange.2, ih hnd' hr']
    rfl

theorem Inv.sumOfQuantums_eq {s : Scheduler} (hI : Inv s) :
    sumOfQuantums s =
      Finset.sum (Finset.range s._maxThreads.toNat) (fun i => quantumsAt s._threads i) := by
  apply Table.sum_eq_range _ _ hI.keys_nodup
  intro k t hk
  obtain ⟨h0, h1⟩ := hI.keys_range k t hk
  have := hI.max_pos
  exact ⟨h0, by omega⟩

/-- A call of `manageThreads` adds exactly 1 to the sum of the quantum counters. -/
theorem manageThreads_sum {s : Scheduler} (hI : Inv s) :
    ∃ s2, manageThreads s = Outcome.ret s2 ∧ Inv s2 ∧
      s2._currentScenario = scenario.ROUTINE ∧
      s2._totalQuantumCounter = s._totalQuantumCounter + 1 ∧
      sumOfQuantums s2 = sumOfQuantums s + 1 ∧
      ((∀ k t, s._threads.find k = some t → 0 ≤ t._quantums) →
        ∀ k t, s2._threads.find k = some t → 0 ≤ t._quantums) := by
  obtain ⟨s2, hm, hI2, hR2, htot, ⟨tr, htr⟩, hq, hlive⟩ := manageThreads_counters hI
  obtain ⟨s2', hm', _, _, hmax⟩ := manageThreads_inv hI
  rw [hm] at hm'; cases hm'
  obtain ⟨hr0, hr1⟩ := hI.keys_range _ tr htr
  refine ⟨s2, hm, hI2, hR2, htot, ?_, ?_⟩
  · rw [hI2.sumOfQuantums_eq, hI.sumOfQuantums_eq, hmax]
    have hpt : ∀ i : Nat, quantumsAt s2._threads i =
        (if (i : Int) = s2._runningThread then 1 else 0) + quantumsAt s._threads i := by
      intro i
      cases hf : s._threads.find i with
      | none =>
        have h2 := (hlive i).mpr hf
        have hne : ¬ (i : Int) = s2._runningThread := by
          intro e
          rw [e, htr] at hf
          cases hf
        rw [quantumsAt_none hf, quantumsAt_none h2, if_neg hne]
        rfl
      | some t =>
        obtain ⟨t2, ht2, e⟩ := hq i t hf
        rw [quantumsAt_some hf, quantumsAt_some ht2, e]
        omega
    simp only [hpt, Finset.sum_add_distrib]
    rw [sum_ite_cast _ _ _ hr0 (by have := hI.max_pos; omega)]
    omega
  · intro hnn k t2 hk
    have hk0 : s._threads.find k ≠ none := by
      rw [Ne, ← hlive, hk]; simp
    obtain ⟨t, ht⟩ := Option.ne_none_iff_exists'.mp hk0
    obtain ⟨t2', ht2', e⟩ := hq k t ht
    rw [hk] at ht2'; cases ht2'
    have := hnn k t ht
    rw [e]
    split <;> omega

/-- A member function other than a removal keeps every record. -/
theorem Effect.keeps_records {s s1 : Scheduler} {c : Call} (h : Effect s c s1)
    (hc : ∀ ID, c ≠ .uthread_terminate ID) :
    ∀ k, s1._threads.find k = none → s._threads.find k = none := by
  intro k hk
  cases h with
  | same => exact hk
  | spawned f j hf hj =>
    dsimp only at hk
    rw [Table.find_insert _ _ _ _ hf] at hk
    split at hk
    · cases hk
    · exact hk
  | removedOther ID t hf hne hnr => exact absurd rfl (hc ID)
  | removedSelf t hf hne => exact absurd rfl (hc _)
  | blockedReady ID t hf hst hne hnr =>
    dsimp only at hk
    rwa [Table.find_update_eq_none] at hk
  | blockedSelf t hf hne =>
    dsimp only at hk
    rwa [Table.find_update_eq_none] at hk
  | resumed ID t hf hst hnr =>
    dsimp only at hk
    rwa [Table.find_update_eq_none] at hk
  | slept n t hf hne hq =>
    dsimp only at hk
    rwa [Table.find_update_eq_none, Table.find_update_eq_none, Table.find_update_eq_none]
      at hk

/-- No member function makes the sum of the quantum counters grow; it stays as it is
unless a thread is removed. -/
theorem Effect.sum {s s1 : Scheduler} {c : Call} (h : Effect s c s1) (hI : Inv s)
    (hI1 : Inv s1) (hnn : ∀ k t, s._threads.find k = some t → 0 ≤ t._quantums) :
    sumOfQuantums s1 ≤ sumOfQuantums s ∧
    ((∀ ID, c ≠ .uthread_terminate ID) → sumOfQuantums s1 = sumOfQuantums s) ∧
    (∀ k t, s1._threads.find k = some t → 0 ≤ t._quantums) := by
  have hq := h.quantums
  have hle : ∀ i : Nat, quantumsAt s1._threads i ≤ quantumsAt s._threads i := by
    intro i
    cases hf1 : s1._threads.find i with
    | none =>
      rw [quantumsAt_none hf1]
      cases hf : s._threads.find i with
      | none => rw [quantumsAt_none hf]
      | some t => rw [quantumsAt_some hf]; exact hnn i t hf
    | some t1 =>
      rw [quantumsAt_some hf1]
      rcases hq i t1 hf1 with ⟨t, ht, e⟩ | ⟨ht, e⟩
      · rw [quantumsAt_some ht, e]
      · rw [quantumsAt_none ht, e]
  refine ⟨?_, ?_, ?_⟩
  · rw [hI1.sumOfQuantums_eq, hI.sumOfQuantums_eq, h.maxThreads]
    exact Finset.sum_le_sum (fun i _ => hle i)
  · intro hc
    rw [hI1.sumOfQuantums_eq, hI.sumOfQuantums_eq, h.maxThreads]
    apply Finset.sum_congr rfl
    intro i _
    cases hf1 : s1._threads.find i with
    | none =>
      rw [quantumsAt_none hf1, quantumsAt_none (h.keeps_records hc i hf1)]
    | some t1 =>
      rw [quantumsAt_some hf1]
      rcases hq i t1 hf1 with ⟨t, ht, e⟩ | ⟨ht, e⟩
      · rw [quantumsAt_some ht, e]
      · rw [quantumsAt_none ht, e]
  · intro k t1 hk
    rcases hq k t1 hk with ⟨t, ht, e⟩ | ⟨_, e⟩
    · rw [e]; exact hnn k t ht
    · rw [e]

/-- In every reachable state no quantum counter is negative and their sum is at most
the total. -/
theorem Reachable.sum_le {maxThreads stackSize : Int} {s : Scheduler}
    (h : Reachable maxThreads stackSize s) :
    (∀ k t, s._threads.find k = some t → 0 ≤ t._quantums) ∧
    sumOfQuantums s ≤ s._totalQuantumCounter := by
  induction h with
  | init h =>
    rw [ctor_spec _ _ (ctor_pos h)] at h
    cases h
    constructor
    · intro k t hk
      dsimp only at hk
      rw [Table.find_cons] at hk
      split at hk
      · cases hk
        simp [Thread.incrementQuantum, Thread.ctor]
      · cases hk
    · simp [sumOfQuantums, Thread.getQuantums, Thread.incrementQuantum, Thread.ctor]
  | @call s s' c r hs hc hstep ih =>
    obtain ⟨hI, hR, _⟩ := hs.inv
    obtain ⟨hnn, hle⟩ := ih
    simp only [invoke_member_function, Outcome.bind_eq_ret] at hstep
    obtain ⟨⟨r1, s1⟩, hrun, hstep⟩ := hstep
    obtain ⟨hI1, _⟩ := Call.run_inv hI hR hc hrun
    have hE := Call.run_effect hI hR hrun
    obtain ⟨hle1, _, hnn1⟩ := hE.sum hI hI1 hnn
    have htot1 := hE.total
    dsimp only at hstep
    split at hstep
    · obtain ⟨s3, hm, _, _, htot, hsum, hnn3⟩ := manageThreads_sum hI1
      rw [hm] at hstep
      cases hstep
      exact ⟨hnn3 hnn1, by omega⟩
    · cases hstep
      exact ⟨hnn1, by omega⟩
  | @tick s s' hs hstep ih =>
    obtain ⟨hI, _, _⟩ := hs.inv
    obtain ⟨hnn, hle⟩ := ih
    obtain ⟨s3, hm, _, _, htot, hsum, hnn3⟩ := manageThreads_sum hI
    rw [hm] at hstep
    cases hstep
    exact ⟨hnn3 hnn, by omega⟩

/-- A step that is not a removal keeps the sum of the quantum counters equal to the
total. -/
theorem Step.exec_sum {s : Scheduler} (hI : Inv s)
    (hR : s._currentScenario = scenario.ROUTINE)
    (hnn : ∀ k t, s._threads.find k = some t → 0 ≤ t._quantums)
    (heq : sumOfQuantums s = s._totalQuantumCounter)
    {st : Step} (hwf : st.wellFormed) (hnt : ∀ ID, st ≠ .call (.uthread_terminate ID))
    {d : Option Int} {s' : Scheduler} (h : st.exec s = Outcome.ret (d, s')) :
    (∀ k t, s'._threads.find k = some t → 0 ≤ t._quantums) ∧
    sumOfQuantums s' = s'._totalQuantumCounter := by
  rcases Step.exec_cases hI hR hwf h with ⟨_, hm, _⟩ | ⟨c, r, hst, _, _, _, hE, hI1⟩ |
    ⟨c, r, s1, hst, _, _, hE, hI1, hm, _⟩
  · obtain ⟨s3, hm3, _, _, htot, hsum, hnn3⟩ := manageThreads_sum hI
    rw [hm] at hm3; cases hm3
    exact ⟨hnn3 hnn, by omega⟩
  · have hc : ∀ ID, c ≠ .uthread_terminate ID := by
      intro ID e; exact hnt ID (by rw [hst, e])
    obtain ⟨_, hs1, hnn1⟩ := hE.sum hI hI1 hnn
    exact ⟨hnn1, by rw [hs1 hc, hE.total]; exact heq⟩
  · have hc : ∀ ID, c ≠ .uthread_terminate ID := by
      intro ID e; exact hnt ID (by rw [hst, e])
    obtain ⟨_, hs1, hnn1⟩ := hE.sum hI hI1 hnn
    obtain ⟨s3, hm3, _, _, htot, hsum, hnn3⟩ := manageThreads_sum hI1
    rw [hm] at hm3; cases hm3
    have h1 := hs1 hc
    have h2 := hE.total
    exact ⟨hnn3 hnn1, by omega⟩

theorem execute_sum :
    ∀ (steps : List Step) (s : Scheduler) (tr : List (Option Int × Scheduler)),
      Inv s → s._currentScenario = scenario.ROUTINE →
      (∀ k t, s._threads.find k = some t → 0 ≤ t._quantums) →
      sumOfQuantums s = s._totalQuantumCounter →
      (∀ st ∈ steps, Step.wellFormed st) →
      (∀ st ∈ steps, ∀ ID, st ≠ .call (.uthread_terminate ID)) →
      execute s steps = Outcome.ret tr →
      ∀ x ∈ tr, sumOfQuantums x.2 = x.2._totalQuantumCounter := by
  intro steps
  induction steps with
  | nil =>
    intro s tr _ _ _ _ _ _ h x hx
    cases h
    cases hx
  | cons st rest ih =>
    intro s tr hI hR hnn heq hwf hnt h x hx
    obtain ⟨⟨d, s'⟩, tr1, hp, ht, rfl⟩ := execute_cons h
    have hwf0 := hwf st (List.mem_cons_self _ _)
    obtain ⟨hI', hR', _, _, _⟩ := Step.exec_inv hI hR hwf0 hp
    obtain ⟨hnn', heq'⟩ := Step.exec_sum hI hR hnn heq hwf0
      (hnt st (List.mem_cons_self _ _)) hp
    rcases List.mem_cons.mp hx with e | hx1
    · subst e; exact heq'
    · exact ih s' tr1 hI' hR' hnn' heq'
        (fun st1 h1 => hwf st1 (List.mem_cons_of_mem _ h1))
        (fun st1 h1 => hnt st1 (List.mem_cons_of_mem _ h1)) ht x hx1

set_option maxRecDepth 100000 in
theorem run100Dropped_reachable : Reachable 100 4096 run100Dropped :=
  after_reachable (afterTick_reachable run100Spawned_reachable (by decide)) _ trivial
    (by decide)

/-- C34: in every reachable state the sum of `getQuantums()` over the records of the
thread table is at most `getTotalQuantumCounter()`. The two are equal in the scheduler
the constructor returns and in every state of every execution from it in which no step
is a call of `uthread_terminate`. -/
theorem C34_quantum_sum {maxThreads stackSize : Int} {s : Scheduler}
    (h : Reachable maxThreads stackSize s) :
    sumOfQuantums s ≤ getTotalQuantumCounter s 666 ∧
    ∃ s0, Scheduler.ctor maxThreads stackSize = Outcome.ret s0 ∧
      sumOfQuantums s0 = getTotalQuantumCounter s0 666 ∧
      ∀ (steps : List Step) (tr : List (Option Int × Scheduler)),
        (∀ st ∈ steps, Step.wellFormed st) →
        (∀ st ∈ steps, ∀ ID, st ≠ .call (.uthread_terminate ID)) →
        execute s0 steps = Outcome.ret tr →
        ∀ x ∈ tr, sumOfQuantums x.2 = getTotalQuantumCounter x.2 666 := by
  obtain ⟨hI, hR, hmax⟩ := h.inv
  have hpos : 0 < maxThreads := hmax ▸ hI.max_pos
  have hc := ctor_spec maxThreads stackSize hpos
  have h0 : Reachable maxThreads stackSize _ := Reachable.init hc
  obtain ⟨hI0, hR0, _⟩ := h0.inv
  obtain ⟨hnn0, _⟩ := h0.sum_le
  have heq0 : sumOfQuantums
      ({ _maxThreads := maxThreads
         _stackSize := stackSize
         _idManagar := (List.replicate maxThreads.toNat EMPTY_CELL).set 0 0
         _currentScenario := scenario.ROUTINE
         _threads := [(0, (Thread.ctor 0 stackSize none).incrementQuantum)]
         _readyThreads := []
         _sleepThreads := []
         _blockThreads := []
         _runningThread := 0
         _totalQuantumCounter := 1
         _toDelete := none } : Scheduler) = 1 := by
    simp [sumOfQuantums, Thread.getQuantums, Thread.incrementQuantum, Thread.ctor]
  refine ⟨by simpa [getTotalQuantumCounter] using h.sum_le.2, _, hc,
    by simpa [getTotalQuantumCounter] using heq0, ?_⟩
  intro steps tr hwf hnt hex x hx
  have := execute_sum steps _ tr hI0 hR0 hnn0 heq0 hwf hnt hex x hx
  simpa [getTotalQuantumCounter] using this

set_option maxRecDepth 100000 in
/-- C34 at the state in which thread 2 was dispatched and thread 1, which had run one
quantum, was terminated: the sum is 2 and the total 3. -/
theorem C34_quantum_sum_witness :
    sumOfQuantums run100Dropped = 2 ∧ getTotalQuantumCounter run100Dropped 666 = 3 ∧
    sumOfQuantums run100Dropped ≤ getTotalQuantumCounter run100Dropped 666 ∧
    ∃ s0, Scheduler.ctor 100 4096 = Outcome.ret s0 ∧
      sumOfQuantums s0 = getTotalQuantumCounter s0 666 ∧
      ∀ (steps : List Step) (tr : List (Option Int × Scheduler)),
        (∀ st ∈ steps, Step.wellFormed st) →
        (∀ st ∈ steps, ∀ ID, st ≠ .call (.uthread_terminate ID)) →
        execute s0 steps = Outcome.ret tr →
        ∀ x ∈ tr, sumOfQuantums x.2 = getTotalQuantumCounter x.2 666 :=
  ⟨by decide, by decide, C34_quantum_sum run100Dropped_reachable⟩

/-! ### A sleeper whose counter is not positive -/

/-- No member function called by another thread, except the one that terminates `A`,
touches a sleeping thread `A`. -/
theorem Effect.sleeper {s s1 : Scheduler} {c : Call} (h : Effect s c s1) (hI : Inv s)
    {A : Int} {t : Thread} (hm : A ∈ s._sleepThreads)
    (hf : s._threads.find A = some t) (hc : c ≠ .uthread_terminate A) :
    A ∈ s1._sleepThreads ∧ s1._threads.find A = some t := by
  obtain ⟨hAr, hAm, u, hu, hst⟩ := hI.sleep_state A hm
  rw [hf] at hu; cases hu
  cases h with
  | same => exact ⟨hm, hf⟩
  | spawned f j hfj hj =>
    refine ⟨hm, ?_⟩
    dsimp only
    rw [Table.find_insert _ _ _ _ hfj]
    have hne : A ≠ (j : Int) := by
      intro e; rw [e, hfj] at hf; cases hf
    rw [if_neg hne]; exact hf
  | removedOther ID t0 hf0 hne hnr =>
    have hne2 : A ≠ ID := by
      intro e; exact hc (by rw [e])
    refine ⟨(mem_filter_ne _ _ _).mpr ⟨hm, hne2⟩, ?_⟩
    dsimp only
    rw [Table.find_erase, if_neg hne2]; exact hf
  | removedSelf t0 hf0 hne =>
    refine ⟨hm, ?_⟩
    dsimp only
    rw [Table.find_erase, if_neg hAr]; exact hf
  | blockedReady ID t0 hf0 hst0 hne hnr =>
    have hne2 : A ≠ ID := by
      intro e; rw [e, hf0] at hf; cases hf
      rw [hst0] at hst; cases hst
    exact ⟨hm, by dsimp only; rw [Table.find_update_ne _ _ hne2]; exact hf⟩
  | blockedSelf t0 hf0 hne =>
    exact ⟨hm, by dsimp only; rw [Table.find_update_ne _ _ hAr]; exact hf⟩
  | resumed ID t0 hf0 hst0 hnr =>
    have hne2 : A ≠ ID := by
      intro e; rw [e, hf0] at hf; cases hf
      rw [hst0] at hst; cases hst
    exact ⟨hm, by dsimp only; rw [Table.find_update_ne _ _ hne2]; exact hf⟩
  | slept n t0 hf0 hne hq =>
    refine ⟨hm, ?_⟩
    dsimp only
    rw [Table.find_update_ne _ _ hAr, Table.find_update_ne _ _ hAr,
      Table.find_update_ne _ _ hAr]
    exact hf

/-- A call of `manageThreads` and a sleeper whose counter is not positive: it stays in
the sleeping vector, and its counter is decremented once or, if it is passed over, left
as it is; at the front of the vector it is decremented. -/
theorem manageThreads_sleeper_nonpos {s : Scheduler} (hI : Inv s) {A : Int} {t : Thread}
    (hm : A ∈ s._sleepThreads) (hf : s._threads.find A = some t)
    (hle : t._quantumsLeftToSleep ≤ 0) :
    ∃ s2, manageThreads s = Outcome.ret s2 ∧ Inv s2 ∧
      s2._currentScenario = scenario.ROUTINE ∧
      s2._totalQuantumCounter = s._totalQuantumCounter + 1 ∧
      A ∈ s2._sleepThreads ∧
      ∃ t2, s2._threads.find A = some t2 ∧ t2._state = state.SLEEPING ∧
        (t2._quantumsLeftToSleep = t._quantumsLeftToSleep ∨
         t2._quantumsLeftToSleep = t._quantumsLeftToSleep - 1) ∧
        (s._sleepThreads.head? = some A →
          s2._sleepThreads.head? = some A ∧
          t2._quantumsLeftToSleep = t._quantumsLeftToSleep - 1) := by
  obtain ⟨s1, s2, hs1, hI1, hF, hm2, hI2, hR2, _, htot, _, hsl, _, hrec, _, _, _⟩ :=
    manageThreads_summary hI
  obtain ⟨_, hcls⟩ := manageSleeping_loop_sleepers s._sleepThreads.length 0 s hI s1 hs1
  have hmem1 : A ∈ s1._sleepThreads ∧ ∃ t1, s1._threads.find A = some t1 ∧
      (t1._quantumsLeftToSleep = t._quantumsLeftToSleep ∨
       t1._quantumsLeftToSleep = t._quantumsLeftToSleep - 1) := by
    rcases hcls A hm t hf with ⟨h1, h2⟩ | ⟨_, h1, h2⟩ | ⟨hz, _⟩
    · exact ⟨h2, t, h1, Or.inl rfl⟩
    · exact ⟨h2, _, h1, Or.inr rfl⟩
    · omega
  obtain ⟨hA1, t1, ht1, hl1⟩ := hmem1
  have hA2 : A ∈ s2._sleepThreads := by
    rw [hsl]; exact List.mem_append_left _ hA1
  obtain ⟨_, _, t2, ht2, hst2⟩ := hI2.sleep_state A hA2
  obtain ⟨t1', ht1', e2⟩ := hrec A t2 ht2
  rw [ht1] at ht1'; cases ht1'
  have hl2 : t2._quantumsLeftToSleep = t1._quantumsLeftToSleep := by
    rw [e2]
  refine ⟨s2, hm2, hI2, hR2, by rw [htot, hF.totalQuantumCounter], hA2, t2, ht2, hst2,
    by rw [hl2]; exact hl1, ?_⟩
  intro hh
  obtain ⟨s2', hm', _, _, _, _, hkeep, _⟩ := manageThreads_head_sleeper hI hh hf
  rw [hm2] at hm'; cases hm'
  obtain ⟨h1, t3, ht3, _, hl3⟩ := hkeep (by omega)
  rw [ht2] at ht3; cases ht3
  exact ⟨h1, hl3⟩

/-- One step of an execution and a sleeper `A` whose counter is not positive; the step
is not the call that terminates `A`. `T` is the total of quantums when `A` had 0 left. -/
theorem Step.exec_sleeper_nonpos (A T : Int) {s : Scheduler} (hI : Inv s)
    (hR : s._currentScenario = scenario.ROUTINE) {t : Thread}
    (hm : A ∈ s._sleepThreads) (hf : s._threads.find A = some t)
    (hle : t._quantumsLeftToSleep ≤ 0)
    (hlow : T - s._totalQuantumCounter ≤ t._quantumsLeftToSleep)
    {st : Step} (hwf : st.wellFormed) (hnt : st ≠ .call (.uthread_terminate A))
    {d : Option Int} {s' : Scheduler} (h : st.exec s = Outcome.ret (d, s')) :
    A ∈ s'._sleepThreads ∧
    ∃ t', s'._threads.find A = some t' ∧ t'._state = state.SLEEPING ∧
      t'._quantumsLeftToSleep ≤ 0 ∧
      T - s'._totalQuantumCounter ≤ t'._quantumsLeftToSleep ∧
      (s._sleepThreads.head? = some A →
        t._quantumsLeftToSleep = T - s._totalQuantumCounter →
        s'._sleepThreads.head? = some A ∧
        t'._quantumsLeftToSleep = T - s'._totalQuantumCounter) := by
  obtain ⟨_, _, u, hu, hst⟩ := hI.sleep_state A hm
  rw [hf] at hu; cases hu
  rcases Step.exec_cases hI hR hwf h with ⟨_, hmt, _⟩ | ⟨c, r, hsc, _, _, _, hE, _⟩ |
    ⟨c, r, s1, hsc, _, _, hE, hI1, hmt, _⟩
  · obtain ⟨s2, hm2, _, _, htot, hA2, t2, ht2, hst2, hl2, hhead⟩ :=
      manageThreads_sleeper_nonpos hI hm hf hle
    rw [hmt] at hm2; cases hm2
    refine ⟨hA2, t2, ht2, hst2, by omega, by omega, ?_⟩
    intro hh he
    obtain ⟨h1, h2⟩ := hhead hh
    exact ⟨h1, by omega⟩
  · have hc : c ≠ .uthread_terminate A := by
      intro e; exact hnt (by rw [hsc, e])
    obtain ⟨h1, h2⟩ := hE.sleeper hI hm hf hc
    have htot := hE.total
    refine ⟨h1, t, h2, hst, hle, by omega, ?_⟩
    intro hh he
    exact ⟨(hE.head_sleeper hI hh hf hc).1, by omega⟩
  · have hc : c ≠ .uthread_terminate A := by
      intro e; exact hnt (by rw [hsc, e])
    obtain ⟨h1, h2⟩ := hE.sleeper hI hm hf hc
    have htot1 := hE.total
    obtain ⟨s2, hm2, _, _, htot, hA2, t2, ht2, hst2, hl2, hhead⟩ :=
      manageThreads_sleeper_nonpos hI1 h1 h2 hle
    rw [hmt] at hm2; cases hm2
    refine ⟨hA2, t2, ht2, hst2, by omega, by omega, ?_⟩
    intro hh he
    obtain ⟨h3, h4⟩ := hhead (hE.head_sleeper hI hh hf hc).1
    exact ⟨h3, by omega⟩

/-- An execution and a sleeper `A` whose counter is not positive: it is never woken. -/
theorem execute_sleeper_nonpos (A T : Int) :
    ∀ (steps : List Step) (s : Scheduler) (tr : List (Option Int × Scheduler))
      (t : Thread),
      Inv s → s._currentScenario = scenario.ROUTINE →
      A ∈ s._sleepThreads → s._threads.find A = some t →
      t._quantumsLeftToSleep ≤ 0 →
      T - s._totalQuantumCounter ≤ t._quantumsLeftToSleep →
      (∀ st ∈ steps, Step.wellFormed st) →
      Step.call (.uthread_terminate A) ∉ steps →
      execute s steps = Outcome.ret tr →
      ∀ x ∈ tr, A ∈ x.2._sleepThreads ∧
        ∃ t', x.2._threads.find A = some t' ∧ t'._state = state.SLEEPING ∧
          t'._quantumsLeftToSleep ≤ 0 ∧
          T - x.2._totalQuantumCounter ≤ t'._quantumsLeftToSleep ∧
          (s._sleepThreads.head? = some A →
            t._quantumsLeftToSleep = T - s._totalQuantumCounter →
            t'._quantumsLeftToSleep = T - x.2._totalQuantumCounter) := by
  intro steps
  induction steps with
  | nil =>
    intro s tr t _ _ _ _ _ _ _ _ h x hx
    cases h
    cases hx
  | cons st rest ih =>
    intro s tr t hI hR hm hf hle hlow hwf hnt h x hx
    obtain ⟨⟨d, s'⟩, tr1, hp, ht, rfl⟩ := execute_cons h
    have hwf0 := hwf st (List.mem_cons_self _ _)
    have hnt0 : st ≠ .call (.uthread_terminate A) := by
      intro e; exact hnt (by rw [e]; exact List.mem_cons_self _ _)
    obtain ⟨hI', hR', _, _, _⟩ := Step.exec_inv hI hR hwf0 hp
    obtain ⟨hm', t', hf', hst', hle', hlow', hhead'⟩ :=
      Step.exec_sleeper_nonpos A T hI hR hm hf hle hlow hwf0 hnt0 hp
    rcases List.mem_cons.mp hx with e | hx1
    · subst e
      exact ⟨hm', t', hf', hst', hle', hlow', fun hh he => (hhead' hh he).2⟩
    · obtain ⟨h1, t'', h2, h3, h4, h5, h6⟩ := ih s' tr1 t' hI' hR' hm' hf' hle' hlow'
        (fun st1 h1 => hwf st1 (List.mem_cons_of_mem _ h1))
        (fun hc => hnt (List.mem_cons_of_mem _ hc)) ht x hx1
      refine ⟨h1, t'', h2, h3, h4, h5, ?_⟩
      intro hh he
      obtain ⟨hh', he'⟩ := hhead' hh he
      exact h6 hh' he'

theorem run4ZeroAsleep_reachable : Reachable 4 4096 run4ZeroAsleep :=
  after_reachable run4Asleep_reachable _ trivial (by decide)

/-- C31 (what the code does): in every reachable state in which a thread `A` other than
main runs, `sleepThread(0)` returns `SUCCESS`, and the call with the dispatch it
triggers returns. Along every execution from there in which `A` is not terminated, in
every state `A` is in the sleeping vector with state `SLEEPING` and a counter that is at
most 0: it is never woken. After `k` further calls of `manageThreads` (the total of
quantums has grown by `k`) the counter is at least `-k`; it is exactly `-k` if `A` was
at the front of the sleeping vector after the call, but need not be otherwise. -/
theorem C31_sleep_zero {maxThreads stackSize : Int} {s : Scheduler}
    (h : Reachable maxThreads stackSize s) (hne : s._runningThread ≠ MAIN_THREAD_ID) :
    (∃ s1, sleepThread s 0 = Outcome.ret (SUCCESS, s1)) ∧
    ∃ d0 s0, Step.exec s (.call (.uthread_sleep 0)) = Outcome.ret (d0, s0) ∧
      ∀ (steps : List Step) (tr : List (Option Int × Scheduler)),
        (∀ st ∈ steps, Step.wellFormed st) →
        Step.call (.uthread_terminate s._runningThread) ∉ steps →
        execute s0 steps = Outcome.ret tr →
        ∀ x ∈ (d0, s0) :: tr,
          s._runningThread ∈ x.2._sleepThreads ∧
          ∃ t, x.2._threads.find s._runningThread = some t ∧
            t._state = state.SLEEPING ∧
            t._quantumsLeftToSleep ≤ 0 ∧
            s0._totalQuantumCounter - x.2._totalQuantumCounter ≤ t._quantumsLeftToSleep ∧
            (s0._sleepThreads.head? = some s._runningThread →
              t._quantumsLeftToSleep =
                s0._totalQuantumCounter - x.2._totalQuantumCounter) := by
  obtain ⟨hI, hR, _⟩ := h.inv
  obtain ⟨t, hf, _⟩ := hI.running_live hR
  refine ⟨⟨_, sleepThread_accepted hf hne (by decide)⟩, ?_⟩
  obtain ⟨s0, t0, hex, hI0, hR0, _, hmem, hf0, hst0, hl0⟩ :=
    sleep_step hI hR 0 (le_refl _) hne
  refine ⟨_, s0, hex, ?_⟩
  intro steps tr hwf hnt hrun x hx
  rcases List.mem_cons.mp hx with e | hx1
  · subst e
    exact ⟨hmem, t0, hf0, hst0, by omega, by dsimp only; omega,
      fun _ => by dsimp only; omega⟩
  · obtain ⟨h1, t', h2, h3, h4, h5, h6⟩ :=
      execute_sleeper_nonpos s._runningThread s0._totalQuantumCounter steps s0 tr t0 hI0 hR0
        hmem hf0 (by omega) (by omega) hwf hnt hrun x hx1
    exact ⟨h1, t', h2, h3, h4, h5, fun hh => h6 hh (by omega)⟩

set_option maxRecDepth 100000 in
/-- C31 at the state in which thread 2 runs and thread 1 sleeps with two quantums left.
Thread 2 calls `sleepThread(0)` and goes behind thread 1 in the sleeping vector; the
next call of `manageThreads` wakes thread 1 and passes over thread 2, whose counter is
still 0 and not -1 after this one further call. -/
theorem C31_sleep_zero_witness :
    Reachable 4 4096 run4Asleep ∧ run4Asleep._runningThread = 2 ∧
    Step.exec run4Asleep (.call (.uthread_sleep 0)) =
      Outcome.ret (some 0, run4ZeroAsleep) ∧
    run4ZeroAsleep._sleepThreads = [1, 2] ∧
    (run4ZeroAsleep._threads.find 2).map Thread.getQuantumsLeftToSleep = some 0 ∧
    manageThreads run4ZeroAsleep = Outcome.ret run4ZeroSkipped ∧
    run4ZeroSkipped._totalQuantumCounter = run4ZeroAsleep._totalQuantumCounter + 1 ∧
    (run4ZeroSkipped._threads.find 2).map Thread.getQuantumsLeftToSleep = some 0 ∧
    (run4Asleep._runningThread ∈ run4ZeroSkipped._sleepThreads ∧
      ∃ t, run4ZeroSkipped._threads.find run4Asleep._runningThread = some t ∧
        t._state = state.SLEEPING ∧
        t._quantumsLeftToSleep ≤ 0 ∧
        run4ZeroAsleep._totalQuantumCounter - run4ZeroSkipped._totalQuantumCounter ≤
          t._quantumsLeftToSleep ∧
        (run4ZeroAsleep._sleepThreads.head? = some run4Asleep._runningThread →
          t._quantumsLeftToSleep =
            run4ZeroAsleep._totalQuantumCounter -
              run4ZeroSkipped._totalQuantumCounter)) := by
  obtain ⟨_, d0, s0, h1, h2⟩ := C31_sleep_zero run4Asleep_reachable (by decide)
  have e : Step.exec run4Asleep (.call (.uthread_sleep 0)) =
      Outcome.ret (some 0, run4ZeroAsleep) := by decide
  rw [e] at h1
  cases h1
  have hex : execute run4ZeroAsleep [.tick] =
      Outcome.ret [(some 1, run4ZeroSkipped)] := by decide
  have hwf : ∀ st ∈ [Step.tick], Step.wellFormed st := by
    intro st hst
    simp only [List.mem_singleton] at hst
    subst hst
    exact trivial
  have h3 := h2 [.tick] _ hwf (by decide) hex (some 1, run4ZeroSkipped) (by simp)
  exact ⟨run4Asleep_reachable, by decide, e, by decide, by decide, by decide, by decide,
    by decide, h3⟩

end UThreads
